import Mathlib

/-!
# The Date value engine of `qv4dateobject.cpp`

A shallow embedding of the time arithmetic, the clipping, the strict ISO parser
and the ISO formatter of `src/qml/jsruntime/qv4dateobject.cpp`, followed by the
properties proved about them.

## Number model

* `Dbl` stands for the C++ `double`: NaN, the two infinities, and the finite
  values, which are carried as exact rationals.  Overflow to infinity and the
  sign of zero are not modelled; every operation of the source is exact on the
  whole numbers below `2 ^ 53` that the date code works with.
* Where a quotient or an operand with a fraction makes the source round, the
  functions of the namespace `Rounded` give the same source lines with every
  arithmetic result rounded to the nearest binary64 value (`Dbl.round64`).
* `int` values are `Int`; arithmetic that can leave the 32-bit range is wrapped
  with `wrapInt32`, and the conversion `double -> int` is `Dbl.toInt`.
* A `QString` is the list of its UTF-16 code units (`QChar`), each a `Nat`.
-/

namespace QV4Date

/-! ## The `double` model -/

/-- The C++ `double`: NaN, plus or minus infinity, or a finite value. -/
inductive Dbl where
  | nan : Dbl
  | inf (neg : Bool) : Dbl
  | fin (q : ℚ) : Dbl
  deriving DecidableEq, Repr

namespace Dbl

/-- Sum of two doubles (`a + b`). -/
def add : Dbl → Dbl → Dbl
  | fin a, fin b => fin (a + b)
  | fin _, inf s => inf s
  | inf s, fin _ => inf s
  | inf s, inf r => if s = r then inf s else nan
  | _, _ => nan

/-- Negation of a double (`-a`). -/
def neg : Dbl → Dbl
  | fin a => fin (-a)
  | inf s => inf (!s)
  | nan => nan

/-- Difference of two doubles (`a - b`). -/
def sub (a b : Dbl) : Dbl := add a (neg b)

/-- Product of two doubles (`a * b`). -/
def mul : Dbl → Dbl → Dbl
  | fin a, fin b => fin (a * b)
  | fin a, inf s => if a = 0 then nan else inf (xor s (decide (a < 0)))
  | inf s, fin b => if b = 0 then nan else inf (xor s (decide (b < 0)))
  | inf s, inf r => inf (xor s r)
  | _, _ => nan

/-- Quotient of two doubles (`a / b`). -/
def div : Dbl → Dbl → Dbl
  | fin a, fin b =>
      if b = 0 then (if a = 0 then nan else inf (decide (a < 0))) else fin (a / b)
  | fin _, inf _ => fin 0
  | inf s, fin b => inf (xor s (decide (b < 0)))
  | _, _ => nan

instance : Add Dbl := ⟨add⟩
instance : Sub Dbl := ⟨sub⟩
instance : Mul Dbl := ⟨mul⟩
instance : Div Dbl := ⟨div⟩
instance : Neg Dbl := ⟨neg⟩

/-- Whole numbers as doubles (the conversion `int -> double`). -/
def ofInt (n : Int) : Dbl := fin n

/-- The comparison `a < b` of C++; false when either side is NaN. -/
def lt : Dbl → Dbl → Bool
  | fin a, fin b => decide (a < b)
  | fin _, inf s => !s
  | inf s, fin _ => s
  | inf s, inf r => s && !r
  | _, _ => false

/-- The comparison `a <= b` of C++; false when either side is NaN. -/
def le : Dbl → Dbl → Bool
  | fin a, fin b => decide (a ≤ b)
  | fin _, inf s => !s
  | inf s, fin _ => s
  | inf s, inf r => s || !r
  | _, _ => false

/-- The comparison `a == b` of C++; false when either side is NaN. -/
def eq : Dbl → Dbl → Bool
  | fin a, fin b => decide (a = b)
  | inf s, inf r => s == r
  | _, _ => false

/-- Conversion `double -> bool`, as in `if (x)`: true unless `x` is zero. -/
def toBool : Dbl → Bool
  | fin a => decide (a ≠ 0)
  | _ => true

/-- Conversion `bool -> double`. -/
def ofBool (b : Bool) : Dbl := if b then fin 1 else fin 0

/-- The `floor` of `<math.h>`. -/
def floor : Dbl → Dbl
  | fin a => fin ⌊a⌋
  | x => x

/-- The `fabs` of `<math.h>`. -/
def fabs : Dbl → Dbl
  | fin a => fin |a|
  | inf _ => inf false
  | nan => nan

/-- Rounding of a rational toward zero. -/
def truncQ (q : ℚ) : Int := if 0 ≤ q then ⌊q⌋ else ⌈q⌉

/-- The `fmod` of `<math.h>`: the remainder of `x / y` with the sign of `x`. -/
def fmod : Dbl → Dbl → Dbl
  | fin x, fin y => if y = 0 then nan else fin (x - y * truncQ (x / y))
  | fin x, inf _ => fin x
  | _, _ => nan

/-- The test `qt_is_finite` / `std::isfinite`. -/
def isFinite : Dbl → Bool
  | fin _ => true
  | _ => false

/-- The test `std::isnan`. -/
def isNaN : Dbl → Bool
  | nan => true
  | _ => false

/-- The conversion `double -> int`: truncation toward zero; a value that does
not fit in 32 bits, and NaN, give `INT_MIN` (the result of `cvttsd2si`). -/
def toInt : Dbl → Int
  | fin a => if -2147483648 ≤ truncQ a ∧ truncQ a ≤ 2147483647 then truncQ a else -2147483648
  | _ => -2147483648

end Dbl

open Dbl

/-- Two's-complement wrap of an `int` result into the 32-bit range. -/
def wrapInt32 (x : Int) : Int := (x + 2147483648) % 4294967296 - 2147483648

/-- Modelled from the spec: `Primitive::toInteger` (declared in `qv4value_p.h`,
which is not among the sources here).  It drops the fractional part toward zero
for finite values, keeps the infinities and maps NaN to zero. -/
def toInteger : Dbl → Dbl
  | nan => fin 0
  | inf s => inf s
  | fin a => fin (truncQ a)

/-! ## Constants -/

def HoursPerDay : Dbl := fin 24
def MinutesPerHour : Dbl := fin 60
def SecondsPerMinute : Dbl := fin 60
def msPerSecond : Dbl := fin 1000
def msPerMinute : Dbl := fin 60000
def msPerHour : Dbl := fin 3600000
def msPerDay : Dbl := fin 86400000

/-! ## Time decomposition -/

def TimeWithinDay (t : Dbl) : Dbl :=
  let r := fmod t msPerDay
  if Dbl.le (fin 0) r then r else r + msPerDay

def HourFromTime (t : Dbl) : Int :=
  let r := toInt (fmod (floor (t / msPerHour)) HoursPerDay)
  if 0 ≤ r then r else r + toInt HoursPerDay

def MinFromTime (t : Dbl) : Int :=
  let r := toInt (fmod (floor (t / msPerMinute)) MinutesPerHour)
  if 0 ≤ r then r else r + toInt MinutesPerHour

def SecFromTime (t : Dbl) : Int :=
  let r := toInt (fmod (floor (t / msPerSecond)) SecondsPerMinute)
  if 0 ≤ r then r else r + toInt SecondsPerMinute

def msFromTime (t : Dbl) : Int :=
  let r := toInt (fmod t msPerSecond)
  if 0 ≤ r then r else r + toInt msPerSecond

def Day (t : Dbl) : Dbl := floor (t / msPerDay)

def DaysInYear (y : Dbl) : Dbl :=
  if Dbl.toBool (fmod y (fin 4)) then fin 365
  else if Dbl.toBool (fmod y (fin 100)) then fin 366
  else if Dbl.toBool (fmod y (fin 400)) then fin 365
  else fin 366

def DayFromYear (y : Dbl) : Dbl :=
  fin 365 * (y - fin 1970)
    + floor ((y - fin 1969) / fin 4)
    - floor ((y - fin 1901) / fin 100)
    + floor ((y - fin 1601) / fin 400)

def TimeFromYear (y : Dbl) : Dbl := msPerDay * DayFromYear y

/-- The year of a time value: an estimate from the mean year length, moved by
one year when the time lies outside the estimated year.  The product
`msPerDay * 365.2425` is 31556952000, which is also its value in double
arithmetic; `y` is an `int` in the source. -/
def YearFromTime (t : Dbl) : Dbl :=
  let y : Int := wrapInt32 (1970 + toInt (floor (t / (msPerDay * fin (3652425 / 10000)))))
  let t2 := TimeFromYear (ofInt y)
  if Dbl.lt t t2 then ofInt (wrapInt32 (y - 1))
  else if Dbl.le (t2 + msPerDay * DaysInYear (ofInt y)) t then ofInt (wrapInt32 (y + 1))
  else ofInt y

def InLeapYear (t : Dbl) : Bool :=
  let x := DaysInYear (YearFromTime t)
  if Dbl.eq x (fin 365) then false else true

def DayWithinYear (t : Dbl) : Dbl := Day t - DayFromYear (YearFromTime t)

def MonthFromTime (t : Dbl) : Dbl :=
  let d := DayWithinYear t
  let l := ofBool (InLeapYear t)
  if Dbl.lt d (fin 31) then fin 0
  else if Dbl.lt d (fin 59 + l) then fin 1
  else if Dbl.lt d (fin 90 + l) then fin 2
  else if Dbl.lt d (fin 120 + l) then fin 3
  else if Dbl.lt d (fin 151 + l) then fin 4
  else if Dbl.lt d (fin 181 + l) then fin 5
  else if Dbl.lt d (fin 212 + l) then fin 6
  else if Dbl.lt d (fin 243 + l) then fin 7
  else if Dbl.lt d (fin 273 + l) then fin 8
  else if Dbl.lt d (fin 304 + l) then fin 9
  else if Dbl.lt d (fin 334 + l) then fin 10
  else if Dbl.lt d (fin 365 + l) then fin 11
  else nan

def DateFromTime (t : Dbl) : Dbl :=
  let m := toInt (toInteger (MonthFromTime t))
  let d := DayWithinYear t
  let l := ofBool (InLeapYear t)
  if m = 0 then d + fin 1
  else if m = 1 then d - fin 30
  else if m = 2 then d - fin 58 - l
  else if m = 3 then d - fin 89 - l
  else if m = 4 then d - fin 119 - l
  else if m = 5 then d - fin 150 - l
  else if m = 6 then d - fin 180 - l
  else if m = 7 then d - fin 211 - l
  else if m = 8 then d - fin 242 - l
  else if m = 9 then d - fin 272 - l
  else if m = 10 then d - fin 303 - l
  else if m = 11 then d - fin 333 - l
  else nan

def WeekDay (t : Dbl) : Dbl :=
  let r := fmod (Day t + fin 4) (fin 7)
  if Dbl.le (fin 0) r then r else r + fin 7

/-! ## Construction and clipping -/

def MakeTime (hour min sec ms : Dbl) : Dbl :=
  ((hour * MinutesPerHour + min) * SecondsPerMinute + sec) * msPerSecond + ms

def DayFromMonth (month leap : Dbl) : Dbl :=
  let m := toInt month
  if m = 0 then fin 0
  else if m = 1 then fin 31
  else if m = 2 then fin 59 + leap
  else if m = 3 then fin 90 + leap
  else if m = 4 then fin 120 + leap
  else if m = 5 then fin 151 + leap
  else if m = 6 then fin 181 + leap
  else if m = 7 then fin 212 + leap
  else if m = 8 then fin 243 + leap
  else if m = 9 then fin 273 + leap
  else if m = 10 then fin 304 + leap
  else if m = 11 then fin 334 + leap
  else nan

/-- The day number of a date; months outside `0..11` carry into the year. -/
def MakeDay (year month day : Dbl) : Dbl :=
  let year := year + floor (month / fin 12)
  let month := fmod month (fin 12)
  let month := if Dbl.lt month (fin 0) then month + fin 12 else month
  let d := DayFromYear year
  let leap := InLeapYear (d * msPerDay)
  let d := d + DayFromMonth month (ofBool leap)
  let d := d + (day - fin 1)
  d

def MakeDate (day time : Dbl) : Dbl := day * msPerDay + time

/-- The clipping of a time value: NaN outside the valid range, otherwise the
value with its fraction dropped by `toInteger`. -/
def TimeClip (t : Dbl) : Dbl :=
  if !isFinite t || Dbl.lt (fin 8640000000000000) (fabs t) then nan
  else toInteger t

/-! ## Strings -/

/-- A UTF-16 code unit, the `QChar` of the source. -/
abbrev QChar := Nat

/-- A `QString`: the list of its code units, without the terminating zero. -/
abbrev QString := List QChar

/-- A string literal of ASCII characters as a `QString`. -/
def QStringLiteral (s : String) : QString := s.toList.map Char.toNat

/-- The constructor `QChar(int)`, which keeps the low 16 bits. -/
def QChar.ofInt (x : Int) : QChar := (x % 65536).toNat

/-! ## Strict ISO parsing (`ParseString`) -/

/-- The local variables of `ParseString` that the scanning loop updates.
`format` is the `enum Format` value: Year = 0, Month = 1, Day = 2, Hour = 3,
Minute = 4, Second = 5, MilliSecond = 6, TimezoneHour = 7, TimezoneMinute = 8,
Done = 9. -/
structure ParseState where
  format : Nat
  current : Int
  currentSize : Int
  year : Int
  month : Int
  day : Int
  hour : Int
  minute : Int
  second : Int
  msec : Int
  offsetSign : Int
  offset : Int
  error : Bool
  deriving DecidableEq, Repr

namespace ParseString

/-- The values of the locals when the loop is entered. -/
def init : ParseState :=
  { format := 0, current := 0, currentSize := 0, year := 0, month := 0, day := 1,
    hour := 0, minute := 0, second := 0, msec := 0, offsetSign := 1, offset := 0,
    error := false }

/-- The `switch (format)` run on a non-digit character: the digits collected
so far are stored into the field that `format` names and checked. -/
def field (extendedYear : Bool) (st : ParseState) : ParseState :=
  if st.format = 0 then
    { st with year := st.current,
              error := if extendedYear then decide (st.currentSize ≠ 6)
                       else decide (st.currentSize ≠ 4) }
  else if st.format = 1 then
    let month := wrapInt32 (st.current - 1)
    { st with month := month, error := decide (st.currentSize ≠ 2) || decide (month > 11) }
  else if st.format = 2 then
    { st with day := st.current,
              error := decide (st.currentSize ≠ 2) || decide (st.current > 31) }
  else if st.format = 3 then
    { st with hour := st.current,
              error := decide (st.currentSize ≠ 2) || decide (st.current > 24) }
  else if st.format = 4 then
    { st with minute := st.current,
              error := decide (st.currentSize ≠ 2) || decide (st.current > 60) }
  else if st.format = 5 then
    { st with second := st.current,
              error := decide (st.currentSize ≠ 2) || decide (st.current > 60) }
  else if st.format = 6 then
    { st with msec := st.current, error := decide (st.currentSize ≠ 3) }
  else if st.format = 7 then
    let offset := wrapInt32 (st.current * 60)
    { st with offset := offset,
              error := decide (st.currentSize ≠ 2) || decide (offset > 23 * 60) }
  else if st.format = 8 then
    { st with offset := wrapInt32 (st.offset + st.current),
              error := decide (st.currentSize ≠ 2) || decide (st.current ≥ 60) }
  else st

/-- The chain of tests on the delimiter character itself, which moves `format`
on.  The characters are `T` = 84, `-` = 45, `:` = 58, `.` = 46, `+` = 43,
`Z` = 90 and the terminating zero. -/
def delim (c : QChar) (st : ParseState) : ParseState :=
  if c = 84 then
    { st with error := if st.format ≥ 3 then true else st.error, format := 3 }
  else if c = 45 then
    if st.format < 2 then { st with format := st.format + 1 }
    else if st.format < 4 then { st with error := true }
    else if st.format ≥ 7 then { st with error := true }
    else { st with offsetSign := -1, format := 7 }
  else if c = 58 then
    { st with error := if st.format ≠ 3 ∧ st.format ≠ 4 ∧ st.format ≠ 7 then true else st.error,
              format := st.format + 1 }
  else if c = 46 then
    { st with error := if st.format ≠ 5 then true else st.error, format := st.format + 1 }
  else if c = 43 then
    { st with error := if st.format < 4 ∨ st.format ≥ 7 then true else st.error, format := 7 }
  else if c = 90 ∨ c = 0 then { st with format := 9 }
  else st

/-- One pass through the body of the `while` loop, up to the test that leaves it. -/
def step (extendedYear : Bool) (c : QChar) (st : ParseState) : ParseState :=
  if 48 ≤ c ∧ c ≤ 57 then
    { st with current := wrapInt32 (wrapInt32 (st.current * 10) + ((c : Int) - 48)),
              currentSize := st.currentSize + 1 }
  else
    let st := delim c (field extendedYear st)
    { st with current := 0, currentSize := 0 }

/-- The `while (ch <= end)` loop over the characters still to be read (the
terminating zero included), left as soon as `error` or `Done` is reached. -/
def loop (extendedYear : Bool) : List QChar → ParseState → ParseState
  | [], st => st
  | c :: rest, st =>
      let st := step extendedYear c st
      if st.error || decide (st.format = 9) then st else loop extendedYear rest st

/-- The state in which the loop is left: the optional sign is consumed first,
then the loop runs over the rest of the string and its terminating zero. -/
def scan (s : QString) : Bool × Int × ParseState :=
  match s with
  | 43 :: rest => (true, 1, loop true (rest ++ [0]) init)
  | 45 :: rest => (true, -1, loop true (rest ++ [0]) init)
  | _ => (false, 1, loop false (s ++ [0]) init)

/-- The strict path of `ParseString`: the value returned under `if (!error)`,
or `none` when the function goes on to the `QDateTime` parsers. -/
def strict (s : QString) : Option Dbl :=
  let (_, yearSign, st) := scan s
  if !st.error then
    let t := MakeDate (MakeDay (ofInt (st.year * yearSign)) (ofInt st.month) (ofInt st.day))
      (MakeTime (ofInt st.hour) (ofInt st.minute) (ofInt st.second) (ofInt st.msec))
    some (t - ofInt (st.offset * st.offsetSign * 60 * 1000))
  else none

end ParseString

/-- The parsers of `QDateTime` that `ParseString` falls back to, taken as black
boxes: each gives the milliseconds since the epoch of a valid result, or `none`
for an invalid `QDateTime`. -/
structure QDateTimeParsers where
  fromStringTextDate : QString → Option Int
  fromStringISODate : QString → Option Int
  fromStringRFC2822Date : QString → Option Int
  fromStringFormat : QString → QString → Option Int

/-- The layout patterns tried last, in the order of the source. -/
def ParseString.formats : List QString :=
  [ "M/d/yyyy", "M/d/yyyy hh:mm", "M/d/yyyy hh:mm A",
    "M/d/yyyy, hh:mm", "M/d/yyyy, hh:mm A",
    "MMM d yyyy", "MMM d yyyy hh:mm", "MMM d yyyy hh:mm:ss",
    "MMM d yyyy, hh:mm", "MMM d yyyy, hh:mm:ss",
    "MMMM d yyyy", "MMMM d yyyy hh:mm", "MMMM d yyyy hh:mm:ss",
    "MMMM d yyyy, hh:mm", "MMMM d yyyy, hh:mm:ss",
    "MMM d, yyyy", "MMM d, yyyy hh:mm", "MMM d, yyyy hh:mm:ss",
    "MMMM d, yyyy", "MMMM d, yyyy hh:mm", "MMMM d, yyyy hh:mm:ss",
    "d MMM yyyy", "d MMM yyyy hh:mm", "d MMM yyyy hh:mm:ss",
    "d MMM yyyy, hh:mm", "d MMM yyyy, hh:mm:ss",
    "d MMMM yyyy", "d MMMM yyyy hh:mm", "d MMMM yyyy hh:mm:ss",
    "d MMMM yyyy, hh:mm", "d MMMM yyyy, hh:mm:ss",
    "d MMM, yyyy", "d MMM, yyyy hh:mm", "d MMM, yyyy hh:mm:ss",
    "d MMMM, yyyy", "d MMMM, yyyy hh:mm", "d MMMM, yyyy hh:mm:ss" ].map QStringLiteral

/-- The function `ParseString`: the strict path first, then the `QDateTime`
parsers in turn, and NaN when none of them gives a valid result. -/
def ParseString (q : QDateTimeParsers) (s : QString) : Dbl :=
  match ParseString.strict s with
  | some t => t
  | none =>
    let dt := q.fromStringTextDate s
    let dt := if dt.isSome then dt else q.fromStringISODate s
    let dt := if dt.isSome then dt else q.fromStringRFC2822Date s
    let dt := if dt.isSome then dt
              else (ParseString.formats.map (q.fromStringFormat s)).foldl
                     (fun acc r => if acc.isSome then acc else r) none
    match dt with
    | some ms => ofInt ms
    | none => nan

/-! ## ISO formatting (`method_toISOString`) -/

/-- The digits that `addZeroPrefixedInt` writes: the `nDigits` low decimal
digits of `num`, most significant first. -/
def zeroPrefixedDigits : Nat → Int → List QChar
  | 0, _ => []
  | n + 1, num => zeroPrefixedDigits n (Int.tdiv num 10) ++ [QChar.ofInt (Int.tmod num 10 + 48)]

def addZeroPrefixedInt (str : QString) (num : Int) (nDigits : Nat) : QString :=
  str ++ zeroPrefixedDigits nDigits num

/-- What a method of the Date prototype hands back: a string, or a thrown
TypeError or RangeError. -/
inductive MethodResult where
  | typeError : MethodResult
  | rangeError : MethodResult
  | string (s : QString) : MethodResult
  deriving DecidableEq, Repr

/-- The method `toISOString`; `thisObject` is the date value of the receiver,
or `none` when the receiver is not a Date object. -/
def method_toISOString (thisObject : Option Dbl) : MethodResult :=
  match thisObject with
  | none => MethodResult.typeError
  | some t =>
    if !isFinite t then MethodResult.rangeError
    else
      let year := toInt (YearFromTime t)
      let head : Option QString :=
        if year < 0 ∨ year > 9999 then
          if wrapInt32 |year| ≥ 1000000 then none
          else
            some (addZeroPrefixedInt [if year < 0 then 45 else 43] (wrapInt32 |year|) 6)
        else some (addZeroPrefixedInt [] year 4)
      match head with
      | none => MethodResult.string (QStringLiteral "Invalid Date")
      | some result =>
        let result := result ++ [45]
        let result := addZeroPrefixedInt result (toInt (MonthFromTime t) + 1) 2
        let result := result ++ [45]
        let result := addZeroPrefixedInt result (toInt (DateFromTime t)) 2
        let result := result ++ [84]
        let result := addZeroPrefixedInt result (HourFromTime t) 2
        let result := result ++ [58]
        let result := addZeroPrefixedInt result (MinFromTime t) 2
        let result := result ++ [58]
        let result := addZeroPrefixedInt result (SecFromTime t) 2
        let result := result ++ [46]
        let result := addZeroPrefixedInt result (msFromTime t) 3
        let result := result ++ [90]
        MethodResult.string result

/-! ## The strict grammar

The strings of the grammar
`[sign]YYYY(-MM(-DD))?(THH:mm(:ss(.sss)?)?)?(Z|+HH:mm|-HH:mm)?`, described by
their fields, with the string each description stands for and the time value
the grammar gives it.  This is the grammar of the specification, written
independently of `ParseString`. -/

/-- The zone designator: none, `Z`, or a signed `HH:mm` offset. -/
inductive IsoZone where
  | absent : IsoZone
  | utc : IsoZone
  | offset (negative : Bool) (hh mm : ℕ) : IsoZone
  deriving DecidableEq, Repr

/-- A string of the strict grammar by its fields.  `sign` is `none` for a
four-digit year and `some negative` for a signed six-digit year; `date` holds
the month and the optional day; `time` holds hour, minute, and the optional
second with its optional milliseconds. -/
structure IsoString where
  sign : Option Bool
  year : ℕ
  date : Option (ℕ × Option ℕ)
  time : Option (ℕ × ℕ × Option (ℕ × Option ℕ))
  zone : IsoZone
  deriving DecidableEq, Repr

namespace IsoString

def renderYear (sign : Option Bool) (year : ℕ) : QString :=
  match sign with
  | none => zeroPrefixedDigits 4 year
  | some negative => (if negative then 45 else 43) :: zeroPrefixedDigits 6 year

def renderDate : Option (ℕ × Option ℕ) → QString
  | none => []
  | some (mo, none) => 45 :: zeroPrefixedDigits 2 mo
  | some (mo, some d) => 45 :: zeroPrefixedDigits 2 mo ++ 45 :: zeroPrefixedDigits 2 d

def renderTime : Option (ℕ × ℕ × Option (ℕ × Option ℕ)) → QString
  | none => []
  | some (h, mi, none) => 84 :: zeroPrefixedDigits 2 h ++ 58 :: zeroPrefixedDigits 2 mi
  | some (h, mi, some (s, none)) =>
      84 :: zeroPrefixedDigits 2 h ++ 58 :: zeroPrefixedDigits 2 mi
        ++ 58 :: zeroPrefixedDigits 2 s
  | some (h, mi, some (s, some ms)) =>
      84 :: zeroPrefixedDigits 2 h ++ 58 :: zeroPrefixedDigits 2 mi
        ++ 58 :: zeroPrefixedDigits 2 s ++ 46 :: zeroPrefixedDigits 3 ms

def renderZone : IsoZone → QString
  | IsoZone.absent => []
  | IsoZone.utc => [90]
  | IsoZone.offset negative hh mm =>
      (if negative then 45 else 43) :: zeroPrefixedDigits 2 hh ++ 58 :: zeroPrefixedDigits 2 mm

/-- The string that the description stands for. -/
def render (g : IsoString) : QString :=
  renderYear g.sign g.year ++ renderDate g.date ++ renderTime g.time ++ renderZone g.zone

/-- The year with its sign. -/
def signedYear (g : IsoString) : ℤ :=
  match g.sign with
  | some true => -(g.year : ℤ)
  | _ => g.year

/-- The month field `MM`, 1 when omitted. -/
def monthField (g : IsoString) : ℕ :=
  match g.date with
  | none => 1
  | some (mo, _) => mo

/-- The day field `DD`, 1 when omitted. -/
def dayField (g : IsoString) : ℕ :=
  match g.date with
  | some (_, some d) => d
  | _ => 1

def hourField (g : IsoString) : ℕ :=
  match g.time with
  | none => 0
  | some (h, _, _) => h

def minuteField (g : IsoString) : ℕ :=
  match g.time with
  | none => 0
  | some (_, mi, _) => mi

def secondField (g : IsoString) : ℕ :=
  match g.time with
  | some (_, _, some (s, _)) => s
  | _ => 0

def msecField (g : IsoString) : ℕ :=
  match g.time with
  | some (_, _, some (_, some ms)) => ms
  | _ => 0

/-- The hour and minute digits of the zone offset, zero when there is none. -/
def zoneFields (g : IsoString) : ℕ × ℕ :=
  match g.zone with
  | IsoZone.offset _ hh mm => (hh, mm)
  | _ => (0, 0)

/-- The sign of the zone offset: -1 for `-HH:mm`, otherwise 1. -/
def zoneSign (g : IsoString) : ℤ :=
  match g.zone with
  | IsoZone.offset true _ _ => -1
  | _ => 1

/-- The zone offset in minutes east of UTC, zero for `Z` and for no zone. -/
def zoneMinutes (g : IsoString) : ℤ :=
  g.zoneSign * ((g.zoneFields.1 : ℤ) * 60 + g.zoneFields.2)

/-- Every field fits its width and passes the bound that the strict path puts
on it: month at most 12, day at most 31, hour at most 24, minute and second at
most 60, zone hour at most 23, zone minute at most 59. -/
def inRange (g : IsoString) : Prop :=
  g.year < (if g.sign.isSome then 1000000 else 10000) ∧ g.monthField ≤ 12 ∧ g.dayField ≤ 31 ∧
  g.hourField ≤ 24 ∧ g.minuteField ≤ 60 ∧ g.secondField ≤ 60 ∧ g.msecField ≤ 999 ∧
  g.zoneFields.1 ≤ 23 ∧ g.zoneFields.2 ≤ 59

instance (g : IsoString) : Decidable g.inRange := by unfold inRange; infer_instance

/-- The zone designator is a numeric offset. -/
def hasOffset (g : IsoString) : Bool :=
  match g.zone with
  | IsoZone.offset _ _ _ => true
  | _ => false

/-- The time value of the string: `MakeDate (MakeDay year (MM - 1) DD)
(MakeTime HH mm ss sss)` less the zone offset. -/
def value (g : IsoString) : Dbl :=
  MakeDate (MakeDay (ofInt g.signedYear) (ofInt ((g.monthField : ℤ) - 1)) (ofInt g.dayField))
      (MakeTime (ofInt g.hourField) (ofInt g.minuteField) (ofInt g.secondField)
        (ofInt g.msecField))
    - ofInt (g.zoneMinutes * 60000)

end IsoString

/-- The date-only string with a zone offset `2023-06-15+05:00`. -/
def IsoString.dateOnlyWithOffset : IsoString :=
  { sign := none, year := 2023, date := some (6, some 15), time := none,
    zone := IsoZone.offset false 5 0 }

/-- The date-time string `-000001-06-15T10:30:00.000-05:30`. -/
def IsoString.fullWithOffset : IsoString :=
  { sign := some true, year := 1, date := some (6, some 15),
    time := some (10, 30, some (0, some 0)), zone := IsoZone.offset true 5 30 }

/-- The locals of `ParseString` between two fields: no digit collected yet, no
error so far. -/
def ParseString.between (f : ℕ) (y mo d h mi s ms os o : ℤ) : ParseState :=
  { format := f, current := 0, currentSize := 0, year := y, month := mo, day := d, hour := h,
    minute := mi, second := s, msec := ms, offsetSign := os, offset := o, error := false }

/-! ## Integer forms

The calendar functions restricted to whole numbers, in integer arithmetic.
The results below state what the functions of the source compute in terms of
these; each is proved equal to the source function it stands for. -/

/-- The leap-year rule of the Gregorian calendar. -/
def isLeapZ (y : ℤ) : Bool := decide ((4 : ℤ) ∣ y ∧ (¬ (100 : ℤ) ∣ y ∨ (400 : ℤ) ∣ y))

/-- Number of days of the year `y`. -/
def daysInYearZ (y : ℤ) : ℤ := if isLeapZ y then 366 else 365

/-- The value of `DayFromYear` on a whole year. -/
def dayFromYearZ (y : ℤ) : ℤ :=
  365 * (y - 1970) + (y - 1969) / 4 - (y - 1901) / 100 + (y - 1601) / 400

/-- The value of `YearFromTime` on a whole number of milliseconds. -/
def yearFromTimeZ (T : ℤ) : ℤ :=
  let y := 1970 + T / 31556952000
  if T < 86400000 * dayFromYearZ y then y - 1
  else if 86400000 * dayFromYearZ y + 86400000 * daysInYearZ y ≤ T then y + 1
  else y

/-- Number of days of month `m` (0 = January), by the usual calendar. -/
def monthLength (leap : Bool) (m : ℤ) : ℤ :=
  if m = 1 then (if leap then 29 else 28)
  else if m = 3 ∨ m = 5 ∨ m = 8 ∨ m = 10 then 30
  else 31

/-- Day within the year on which month `m` starts: the table of `DayFromMonth`. -/
def monthStartZ (leap : Bool) (m : ℤ) : ℤ :=
  let l : ℤ := if leap then 1 else 0
  if m = 0 then 0 else if m = 1 then 31 else if m = 2 then 59 + l
  else if m = 3 then 90 + l else if m = 4 then 120 + l else if m = 5 then 151 + l
  else if m = 6 then 181 + l else if m = 7 then 212 + l else if m = 8 then 243 + l
  else if m = 9 then 273 + l else if m = 10 then 304 + l else 334 + l

/-- The value of `MonthFromTime` for day `d` within a year (0 = 1 January). -/
def monthFromDayZ (leap : Bool) (d : ℤ) : ℤ :=
  let l : ℤ := if leap then 1 else 0
  if d < 31 then 0 else if d < 59 + l then 1 else if d < 90 + l then 2
  else if d < 120 + l then 3 else if d < 151 + l then 4 else if d < 181 + l then 5
  else if d < 212 + l then 6 else if d < 243 + l then 7 else if d < 273 + l then 8
  else if d < 304 + l then 9 else if d < 334 + l then 10 else 11

/-! ## Local time -/

/-- The time-zone state that the date code reads: the global `LocalTZA` (the
standard offset in milliseconds, set at start-up and by `timezoneUpdated`) and
the function `DaylightSavingTA`, which asks the host's zone data and is taken
as a black box. -/
structure TimeZone where
  LocalTZA : Dbl
  DaylightSavingTA : Dbl → Dbl

def LocalTime (tz : TimeZone) (t : Dbl) : Dbl :=
  t + tz.LocalTZA + tz.DaylightSavingTA t

def UTC (tz : TimeZone) (t : Dbl) : Dbl :=
  t - tz.LocalTZA - tz.DaylightSavingTA (t - tz.LocalTZA)

/-- The time zone with no offset from UTC and no daylight saving. -/
def TimeZone.utc : TimeZone :=
  { LocalTZA := fin 0, DaylightSavingTA := fun _ => fin 0 }

/-! ## Construction from arguments -/

/-- The single argument of the constructor after `toPrimitive`: a Date object
(by its date value), a string, or anything else by its `toNumber` value. -/
inductive CtorArg where
  | date (t : Dbl) : CtorArg
  | string (s : QString) : CtorArg
  | number (n : Dbl) : CtorArg

/-- The argument list of the constructor: empty, a single argument, or two and
more arguments, given by their `toNumber` values (`year`, `month`, then the
optional ones). -/
inductive CtorArgs where
  | none : CtorArgs
  | one (a : CtorArg) : CtorArgs
  | many (year month : Dbl) (rest : List Dbl) : CtorArgs

/-- The date value that `DateCtor::construct` gives the new Date object;
`now` is the value of `currentTime()`. -/
def DateCtor.construct (tz : TimeZone) (q : QDateTimeParsers) (now : Dbl) (args : CtorArgs) :
    Dbl :=
  match args with
  | CtorArgs.none => now
  | CtorArgs.one (CtorArg.date t) => t
  | CtorArgs.one (CtorArg.string s) => ParseString q s
  | CtorArgs.one (CtorArg.number n) => TimeClip n
  | CtorArgs.many year month rest =>
    let day := rest.getD 0 (fin 1)
    let hours := rest.getD 1 (fin 0)
    let mins := rest.getD 2 (fin 0)
    let secs := rest.getD 3 (fin 0)
    let ms := rest.getD 4 (fin 0)
    let year := if Dbl.le (fin 0) year && Dbl.le year (fin 99) then year + fin 1900 else year
    let t := MakeDate (MakeDay year month day) (MakeTime hours mins secs ms)
    TimeClip (UTC tz t)

/-- The method `Date.parse`; `arg` is the first argument as a string, `none`
when the call has no argument. -/
def method_parse (q : QDateTimeParsers) (arg : Option QString) : Dbl :=
  match arg with
  | none => nan
  | some s => ParseString q s

/-- The method `Date.UTC` on the `toNumber` values of its arguments; `none`
stands for the result `undefined`. -/
def method_UTC (args : List Dbl) : Option Dbl :=
  match args with
  | year :: month :: rest =>
    let day := rest.getD 0 (fin 1)
    let hours := rest.getD 1 (fin 0)
    let mins := rest.getD 2 (fin 0)
    let secs := rest.getD 3 (fin 0)
    let ms := rest.getD 4 (fin 0)
    let year := if Dbl.le (fin 0) year && Dbl.le year (fin 99) then year + fin 1900 else year
    let t := MakeDate (MakeDay year month day) (MakeTime hours mins secs ms)
    some (TimeClip t)
  | _ => none

/-! ## Setters

Each setter takes the date value of the receiver (`none` when the receiver is
not a Date object) and the `toNumber` values of the arguments, and gives the
value that it stores in the receiver and returns. -/

/-- What a setter does: it throws a TypeError, or it stores a date value in the
receiver and returns that value. -/
inductive SetResult where
  | typeError : SetResult
  | stored (date : Dbl) : SetResult
  deriving DecidableEq

def method_setTime (thisObject : Option Dbl) (args : List Dbl) : SetResult :=
  match thisObject with
  | none => SetResult.typeError
  | some _ =>
    let t := args.getD 0 nan
    SetResult.stored (TimeClip t)

def method_setMilliseconds (tz : TimeZone) (thisObject : Option Dbl) (args : List Dbl) :
    SetResult :=
  match thisObject with
  | none => SetResult.typeError
  | some date =>
    let t := LocalTime tz date
    let ms := args.getD 0 nan
    SetResult.stored (TimeClip (UTC tz (MakeDate (Day t)
      (MakeTime (ofInt (HourFromTime t)) (ofInt (MinFromTime t)) (ofInt (SecFromTime t)) ms))))

def method_setUTCMilliseconds (thisObject : Option Dbl) (args : List Dbl) : SetResult :=
  match thisObject with
  | none => SetResult.typeError
  | some date =>
    let t := date
    let ms := args.getD 0 nan
    SetResult.stored (TimeClip (MakeDate (Day t)
      (MakeTime (ofInt (HourFromTime t)) (ofInt (MinFromTime t)) (ofInt (SecFromTime t)) ms)))

def method_setSeconds (tz : TimeZone) (thisObject : Option Dbl) (args : List Dbl) : SetResult :=
  match thisObject with
  | none => SetResult.typeError
  | some date =>
    let t := LocalTime tz date
    let sec := args.getD 0 nan
    let ms := args.getD 1 (ofInt (msFromTime t))
    SetResult.stored (TimeClip (UTC tz (MakeDate (Day t)
      (MakeTime (ofInt (HourFromTime t)) (ofInt (MinFromTime t)) sec ms))))

def method_setUTCSeconds (thisObject : Option Dbl) (args : List Dbl) : SetResult :=
  match thisObject with
  | none => SetResult.typeError
  | some date =>
    let t := date
    let sec := args.getD 0 nan
    let ms := args.getD 1 (ofInt (msFromTime t))
    SetResult.stored (TimeClip (MakeDate (Day t)
      (MakeTime (ofInt (HourFromTime t)) (ofInt (MinFromTime t)) sec ms)))

def method_setMinutes (tz : TimeZone) (thisObject : Option Dbl) (args : List Dbl) : SetResult :=
  match thisObject with
  | none => SetResult.typeError
  | some date =>
    let t := LocalTime tz date
    let min := args.getD 0 nan
    let sec := args.getD 1 (ofInt (SecFromTime t))
    let ms := args.getD 2 (ofInt (msFromTime t))
    SetResult.stored (TimeClip (UTC tz (MakeDate (Day t)
      (MakeTime (ofInt (HourFromTime t)) min sec ms))))

def method_setUTCMinutes (thisObject : Option Dbl) (args : List Dbl) : SetResult :=
  match thisObject with
  | none => SetResult.typeError
  | some date =>
    let t := date
    let min := args.getD 0 nan
    let sec := args.getD 1 (ofInt (SecFromTime t))
    let ms := args.getD 2 (ofInt (msFromTime t))
    SetResult.stored (TimeClip (MakeDate (Day t)
      (MakeTime (ofInt (HourFromTime t)) min sec ms)))

def method_setHours (tz : TimeZone) (thisObject : Option Dbl) (args : List Dbl) : SetResult :=
  match thisObject with
  | none => SetResult.typeError
  | some date =>
    let t := LocalTime tz date
    let hour := args.getD 0 nan
    let min := args.getD 1 (ofInt (MinFromTime t))
    let sec := args.getD 2 (ofInt (SecFromTime t))
    let ms := args.getD 3 (ofInt (msFromTime t))
    SetResult.stored (TimeClip (UTC tz (MakeDate (Day t) (MakeTime hour min sec ms))))

def method_setUTCHours (thisObject : Option Dbl) (args : List Dbl) : SetResult :=
  match thisObject with
  | none => SetResult.typeError
  | some date =>
    let t := date
    let hour := args.getD 0 nan
    let min := args.getD 1 (ofInt (MinFromTime t))
    let sec := args.getD 2 (ofInt (SecFromTime t))
    let ms := args.getD 3 (ofInt (msFromTime t))
    SetResult.stored (TimeClip (MakeDate (Day t) (MakeTime hour min sec ms)))

def method_setDate (tz : TimeZone) (thisObject : Option Dbl) (args : List Dbl) : SetResult :=
  match thisObject with
  | none => SetResult.typeError
  | some d =>
    let t := LocalTime tz d
    let date := args.getD 0 nan
    SetResult.stored (TimeClip (UTC tz (MakeDate
      (MakeDay (YearFromTime t) (MonthFromTime t) date) (TimeWithinDay t))))

def method_setUTCDate (thisObject : Option Dbl) (args : List Dbl) : SetResult :=
  match thisObject with
  | none => SetResult.typeError
  | some d =>
    let t := d
    let date := args.getD 0 nan
    SetResult.stored (TimeClip (MakeDate
      (MakeDay (YearFromTime t) (MonthFromTime t) date) (TimeWithinDay t)))

def method_setMonth (tz : TimeZone) (thisObject : Option Dbl) (args : List Dbl) : SetResult :=
  match thisObject with
  | none => SetResult.typeError
  | some d =>
    let t := LocalTime tz d
    let month := args.getD 0 nan
    let date := args.getD 1 (DateFromTime t)
    SetResult.stored (TimeClip (UTC tz (MakeDate
      (MakeDay (YearFromTime t) month date) (TimeWithinDay t))))

def method_setUTCMonth (thisObject : Option Dbl) (args : List Dbl) : SetResult :=
  match thisObject with
  | none => SetResult.typeError
  | some d =>
    let t := d
    let month := args.getD 0 nan
    let date := args.getD 1 (DateFromTime t)
    SetResult.stored (TimeClip (MakeDate
      (MakeDay (YearFromTime t) month date) (TimeWithinDay t)))

def method_setYear (tz : TimeZone) (thisObject : Option Dbl) (args : List Dbl) : SetResult :=
  match thisObject with
  | none => SetResult.typeError
  | some d =>
    let t := if isNaN d then fin 0 else LocalTime tz d
    let year := args.getD 0 nan
    if isNaN year then SetResult.stored nan
    else
      let year :=
        if Dbl.le (fin 0) (toInteger year) && Dbl.le (toInteger year) (fin 99) then
          year + fin 1900
        else year
      let r := MakeDay year (MonthFromTime t) (DateFromTime t)
      let r := UTC tz (MakeDate r (TimeWithinDay t))
      SetResult.stored (TimeClip r)

def method_setUTCFullYear (thisObject : Option Dbl) (args : List Dbl) : SetResult :=
  match thisObject with
  | none => SetResult.typeError
  | some d =>
    let t := d
    let year := args.getD 0 nan
    let month := args.getD 1 (MonthFromTime t)
    let date := args.getD 2 (DateFromTime t)
    SetResult.stored (TimeClip (MakeDate (MakeDay year month date) (TimeWithinDay t)))

def method_setFullYear (tz : TimeZone) (thisObject : Option Dbl) (args : List Dbl) : SetResult :=
  match thisObject with
  | none => SetResult.typeError
  | some d =>
    let t := LocalTime tz d
    let t := if isNaN t then fin 0 else t
    let year := args.getD 0 nan
    let month := args.getD 1 (MonthFromTime t)
    let date := args.getD 2 (DateFromTime t)
    SetResult.stored (TimeClip (UTC tz (MakeDate (MakeDay year month date) (TimeWithinDay t))))

/-! ## The range invariant of time values -/

/-- The range invariant of a stored time value: the NaN sentinel, or a whole
number of milliseconds of magnitude at most 8.64e15. -/
def validTimeValue (v : Dbl) : Prop :=
  v = nan ∨ ∃ n : ℤ, v = fin (n : ℚ) ∧ |n| ≤ 8640000000000000

/-! ## Digit fields of the scanned string -/

/-- The number that a run of digit characters denotes. -/
def decimalValue (ds : List QChar) : ℤ :=
  ds.foldl (fun (a : ℤ) (d : QChar) => a * 10 + ((d : ℤ) - 48)) 0

/-- The value of `current` after the loop has read the digit characters `ds`,
starting from `current`. -/
def ParseString.collect (current : ℤ) (ds : List QChar) : ℤ :=
  ds.foldl (fun (a : ℤ) (d : QChar) => wrapInt32 (wrapInt32 (a * 10) + ((d : ℤ) - 48))) current

/-- The loop has been left, or is about to be: `error` is set or `format` is
`Done`. -/
def ParseString.stopped (st : ParseState) : Bool :=
  st.error || decide (st.format = 9)

/-- A digit field `ds` read while `format` names its field has the wrong width
or a value out of range: the year (format 0) not of 4 digits, or not of 6 after
a sign; month (1), day (2), hour (3), minute (4), second (5), zone hour (7) or
zone minute (8) not of 2 digits; millisecond (6) not of 3 digits; month above
12, day above 31, hour above 24, minute or second above 60, zone hour above 23,
zone minute above 59. -/
def ParseString.fieldBad (extendedYear : Bool) (format : ℕ) (ds : List QChar) : Prop :=
  (format = 0 ∧ ds.length ≠ (if extendedYear then 6 else 4)) ∨
  (format = 1 ∧ (ds.length ≠ 2 ∨ decimalValue ds > 12)) ∨
  (format = 2 ∧ (ds.length ≠ 2 ∨ decimalValue ds > 31)) ∨
  (format = 3 ∧ (ds.length ≠ 2 ∨ decimalValue ds > 24)) ∨
  (format = 4 ∧ (ds.length ≠ 2 ∨ decimalValue ds > 60)) ∨
  (format = 5 ∧ (ds.length ≠ 2 ∨ decimalValue ds > 60)) ∨
  (format = 6 ∧ ds.length ≠ 3) ∨
  (format = 7 ∧ (ds.length ≠ 2 ∨ decimalValue ds > 23)) ∨
  (format = 8 ∧ (ds.length ≠ 2 ∨ decimalValue ds > 59))

/-- The date-time body `2023-06-15T10:30`, without zone suffix. -/
def IsoString.dateTimeBody : IsoString :=
  { sign := none, year := 2023, date := some (6, some 15), time := some (10, 30, none),
    zone := IsoZone.absent }

/-! ## The grammar with optional minutes

The strings `[sign]YYYY(-MM(-DD)?)?(THH(:mm(:ss(.sss)?)?((+|-)HH(:mm)?)?)?)?`:
the strict grammar without `Z`, with the minute of the time part and the minute
of the zone offset made optional and the zone offset tied to a time part that
has a minute.  Each predicate below describes what may follow one field. -/

/-- A field of exactly `k` digit characters. -/
def Digits (k : ℕ) (ds : QString) : Prop :=
  ds.length = k ∧ ∀ x ∈ ds, 48 ≤ x ∧ x ≤ 57

namespace Lenient

/-- Nothing, or a zone offset `+HH`, `-HH`, `+HH:mm` or `-HH:mm`. -/
def ZoneTail (r : QString) : Prop :=
  r = [] ∨ ∃ sg hh, (sg = 43 ∨ sg = 45) ∧ Digits 2 hh ∧
    (r = sg :: hh ∨ ∃ mm, Digits 2 mm ∧ r = sg :: hh ++ 58 :: mm)

/-- What may follow the second: `.sss` or not, then the zone offset or not. -/
def MsTail (r : QString) : Prop :=
  ZoneTail r ∨ ∃ ms rest, Digits 3 ms ∧ r = 46 :: ms ++ rest ∧ ZoneTail rest

/-- What may follow the minute: `:ss` with its tail, or the zone offset, or nothing. -/
def SecTail (r : QString) : Prop :=
  ZoneTail r ∨ ∃ ss rest, Digits 2 ss ∧ r = 58 :: ss ++ rest ∧ MsTail rest

/-- What may follow the hour: nothing, or `:mm` with its tail. -/
def MinTail (r : QString) : Prop :=
  r = [] ∨ ∃ mm rest, Digits 2 mm ∧ r = 58 :: mm ++ rest ∧ SecTail rest

/-- What may follow the date: nothing, or `THH` with its tail. -/
def TimeTail (r : QString) : Prop :=
  r = [] ∨ ∃ hh rest, Digits 2 hh ∧ r = 84 :: hh ++ rest ∧ MinTail rest

/-- What may follow the month: `-DD` or not, then the time part or not. -/
def DayTail (r : QString) : Prop :=
  TimeTail r ∨ ∃ dd rest, Digits 2 dd ∧ r = 45 :: dd ++ rest ∧ TimeTail rest

/-- What may follow the year: `-MM` with its tail, or the time part, or nothing. -/
def MonthTail (r : QString) : Prop :=
  TimeTail r ∨ ∃ mo rest, Digits 2 mo ∧ r = 45 :: mo ++ rest ∧ DayTail rest

/-- A year of `k` digits and what follows it. -/
def Body (k : ℕ) (b : QString) : Prop :=
  ∃ y rest, Digits k y ∧ b = y ++ rest ∧ MonthTail rest

end Lenient

/-- The string matches the grammar with optional minutes: a four-digit year, or
a sign and a six-digit year, and what follows the year. -/
def LenientIso (s : QString) : Prop :=
  Lenient.Body 4 s ∨ ∃ b, (s = 43 :: b ∨ s = 45 :: b) ∧ Lenient.Body 6 b

/-- The character is a digit or one of the separators `-`, `:`, `.`, `+`, `T`. -/
def ParseString.plain (x : QChar) : Prop :=
  (48 ≤ x ∧ x ≤ 57) ∨ x = 45 ∨ x = 58 ∨ x = 46 ∨ x = 43 ∨ x = 84

instance (x : QChar) : Decidable (ParseString.plain x) := by
  unfold ParseString.plain; infer_instance

/-- The width that the switch on `format` demands of the field. -/
def ParseString.width (extendedYear : Bool) (format : ℕ) : ℕ :=
  if format = 0 then (if extendedYear then 6 else 4) else if format = 6 then 3 else 2

/-- The loop is about to read the field that `f` names: no digit collected
yet, no error so far. -/
def ParseString.atField (f : ℕ) (st : ParseState) : Prop :=
  st.format = f ∧ st.current = 0 ∧ st.currentSize = 0 ∧ st.error = false

/-! ## Getters

Each getter takes the date value of the receiver, `none` when the receiver is
not a Date object, in which case `getThisDate` throws a TypeError. -/

/-- What a getter does: it throws a TypeError, or it returns a number. -/
inductive GetResult where
  | typeError : GetResult
  | number (t : Dbl) : GetResult
  deriving DecidableEq

def method_getTime (thisObject : Option Dbl) : GetResult :=
  match thisObject with
  | none => GetResult.typeError
  | some t => GetResult.number t

def method_getYear (tz : TimeZone) (thisObject : Option Dbl) : GetResult :=
  match thisObject with
  | none => GetResult.typeError
  | some t =>
    GetResult.number (if !isNaN t then YearFromTime (LocalTime tz t) - fin 1900 else t)

def method_getFullYear (tz : TimeZone) (thisObject : Option Dbl) : GetResult :=
  match thisObject with
  | none => GetResult.typeError
  | some t => GetResult.number (if !isNaN t then YearFromTime (LocalTime tz t) else t)

def method_getUTCFullYear (thisObject : Option Dbl) : GetResult :=
  match thisObject with
  | none => GetResult.typeError
  | some t => GetResult.number (if !isNaN t then YearFromTime t else t)

def method_getMonth (tz : TimeZone) (thisObject : Option Dbl) : GetResult :=
  match thisObject with
  | none => GetResult.typeError
  | some t => GetResult.number (if !isNaN t then MonthFromTime (LocalTime tz t) else t)

def method_getUTCMonth (thisObject : Option Dbl) : GetResult :=
  match thisObject with
  | none => GetResult.typeError
  | some t => GetResult.number (if !isNaN t then MonthFromTime t else t)

def method_getDate (tz : TimeZone) (thisObject : Option Dbl) : GetResult :=
  match thisObject with
  | none => GetResult.typeError
  | some t => GetResult.number (if !isNaN t then DateFromTime (LocalTime tz t) else t)

def method_getUTCDate (thisObject : Option Dbl) : GetResult :=
  match thisObject with
  | none => GetResult.typeError
  | some t => GetResult.number (if !isNaN t then DateFromTime t else t)

def method_getDay (tz : TimeZone) (thisObject : Option Dbl) : GetResult :=
  match thisObject with
  | none => GetResult.typeError
  | some t => GetResult.number (if !isNaN t then WeekDay (LocalTime tz t) else t)

def method_getUTCDay (thisObject : Option Dbl) : GetResult :=
  match thisObject with
  | none => GetResult.typeError
  | some t => GetResult.number (if !isNaN t then WeekDay t else t)

def method_getHours (tz : TimeZone) (thisObject : Option Dbl) : GetResult :=
  match thisObject with
  | none => GetResult.typeError
  | some t => GetResult.number (if !isNaN t then ofInt (HourFromTime (LocalTime tz t)) else t)

def method_getUTCHours (thisObject : Option Dbl) : GetResult :=
  match thisObject with
  | none => GetResult.typeError
  | some t => GetResult.number (if !isNaN t then ofInt (HourFromTime t) else t)

def method_getMinutes (tz : TimeZone) (thisObject : Option Dbl) : GetResult :=
  match thisObject with
  | none => GetResult.typeError
  | some t => GetResult.number (if !isNaN t then ofInt (MinFromTime (LocalTime tz t)) else t)

def method_getUTCMinutes (thisObject : Option Dbl) : GetResult :=
  match thisObject with
  | none => GetResult.typeError
  | some t => GetResult.number (if !isNaN t then ofInt (MinFromTime t) else t)

def method_getSeconds (tz : TimeZone) (thisObject : Option Dbl) : GetResult :=
  match thisObject with
  | none => GetResult.typeError
  | some t => GetResult.number (if !isNaN t then ofInt (SecFromTime (LocalTime tz t)) else t)

def method_getUTCSeconds (thisObject : Option Dbl) : GetResult :=
  match thisObject with
  | none => GetResult.typeError
  | some t => GetResult.number (if !isNaN t then ofInt (SecFromTime t) else t)

def method_getMilliseconds (tz : TimeZone) (thisObject : Option Dbl) : GetResult :=
  match thisObject with
  | none => GetResult.typeError
  | some t => GetResult.number (if !isNaN t then ofInt (msFromTime (LocalTime tz t)) else t)

def method_getUTCMilliseconds (thisObject : Option Dbl) : GetResult :=
  match thisObject with
  | none => GetResult.typeError
  | some t => GetResult.number (if !isNaN t then ofInt (msFromTime t) else t)

def method_getTimezoneOffset (tz : TimeZone) (thisObject : Option Dbl) : GetResult :=
  match thisObject with
  | none => GetResult.typeError
  | some t => GetResult.number (if !isNaN t then (t - LocalTime tz t) / msPerMinute else t)

/-! ## Text forms (`ToString` and its variants) -/

/-- The values of `Qt::TimeSpec` that the date code passes on. -/
inductive TimeSpec where
  | LocalTime : TimeSpec
  | UTC : TimeSpec
  deriving DecidableEq

/-- The text functions of `QDateTime`, `QDate` and `QTime`, taken as black
boxes.  Their argument is what `ToDateTime` hands them: `none` for the invalid
`QDateTime()`, otherwise the milliseconds since the epoch and the time spec. -/
structure QDateTimeText where
  toString : Option (Dbl × TimeSpec) → QString
  dateToString : Option (Dbl × TimeSpec) → QString
  timeToString : Option (Dbl × TimeSpec) → QString
  toStringLocaleDate : Option (Dbl × TimeSpec) → QString
  dateToStringLocaleDate : Option (Dbl × TimeSpec) → QString
  timeToStringLocaleDate : Option (Dbl × TimeSpec) → QString

/-- Modelled from the spec: `QString::number(int)` (in qtbase, which is not
among the sources here): the decimal digits of the number without padding, after
a `-` when it is negative.  The zero padding that the spec describes is the `0`
that `ToString` itself puts before a single digit. -/
def QString.number (n : Int) : QString :=
  if n < 0 then 45 :: (Nat.toDigits 10 (-n).toNat).map Char.toNat
  else (Nat.toDigits 10 n.toNat).map Char.toNat

def ToDateTime (t : Dbl) (spec : TimeSpec) : Option (Dbl × TimeSpec) :=
  if isNaN t then none else some (t, spec)

def ToString (fmt : QDateTimeText) (tz : TimeZone) (t : Dbl) : QString :=
  if isNaN t then QStringLiteral "Invalid Date"
  else
    let str := fmt.toString (ToDateTime t TimeSpec.LocalTime) ++ QStringLiteral " GMT"
    let tzoffset := tz.LocalTZA + tz.DaylightSavingTA t
    if Dbl.toBool tzoffset then
      let hours := toInt (fabs tzoffset / fin 1000 / fin 60 / fin 60)
      let mins := Int.tmod (toInt (fabs tzoffset / fin 1000 / fin 60)) 60
      let str := str ++ [if Dbl.lt (fin 0) tzoffset then 43 else 45]
      let str := if hours < 10 then str ++ [48] else str
      let str := str ++ QString.number hours
      let str := if mins < 10 then str ++ [48] else str
      let str := str ++ QString.number mins
      str
    else str

def ToUTCString (fmt : QDateTimeText) (t : Dbl) : QString :=
  if isNaN t then QStringLiteral "Invalid Date"
  else fmt.toString (ToDateTime t TimeSpec.UTC)

def ToDateString (fmt : QDateTimeText) (t : Dbl) : QString :=
  fmt.dateToString (ToDateTime t TimeSpec.LocalTime)

def ToTimeString (fmt : QDateTimeText) (t : Dbl) : QString :=
  fmt.timeToString (ToDateTime t TimeSpec.LocalTime)

def ToLocaleString (fmt : QDateTimeText) (t : Dbl) : QString :=
  fmt.toStringLocaleDate (ToDateTime t TimeSpec.LocalTime)

def ToLocaleDateString (fmt : QDateTimeText) (t : Dbl) : QString :=
  fmt.dateToStringLocaleDate (ToDateTime t TimeSpec.LocalTime)

def ToLocaleTimeString (fmt : QDateTimeText) (t : Dbl) : QString :=
  fmt.timeToStringLocaleDate (ToDateTime t TimeSpec.LocalTime)

/-- A time zone with a transition: no standard offset, and daylight saving of
one hour in force before the epoch and not from the epoch on. -/
def TimeZone.withTransition : TimeZone :=
  { LocalTZA := fin 0,
    DaylightSavingTA := fun t => if Dbl.lt t (fin 0) then fin 3600000 else fin 0 }

/-- Text functions that give the empty string for the invalid `QDateTime()`
and for every other argument. -/
def QDateTimeText.empty : QDateTimeText :=
  { toString := fun _ => [], dateToString := fun _ => [], timeToString := fun _ => [],
    toStringLocaleDate := fun _ => [], dateToStringLocaleDate := fun _ => [],
    timeToStringLocaleDate := fun _ => [] }

/-- A time zone five and a half hours east of UTC, without daylight saving. -/
def TimeZone.plus0530 : TimeZone :=
  { LocalTZA := fin 19800000, DaylightSavingTA := fun _ => fin 0 }

/-! ## The system-zone variant and the time-only initialiser -/

/-- The time-zone state of the `USE_QTZ_SYSTEM_ZONE` variant: `DaylightSavingTA t`
is the offset from UTC of the system zone at `t`, which Qt gives in seconds,
times 1e3, less `LocalTZA`.  `offsetFromUtc` stands for
`QTimeZone::systemTimeZone().offsetFromUtc` on the `QDateTime` made of `t`, a
black box. -/
def TimeZone.system (offsetFromUtc : Dbl → Int) (LocalTZA : Dbl) : TimeZone :=
  { LocalTZA := LocalTZA,
    DaylightSavingTA := fun t => ofInt (offsetFromUtc t) * fin 1000 - LocalTZA }

/-- The initialiser `Heap::DateObject::init(const QTime &)`: the date value
stored for a time of day.  `none` stands for an invalid `QTime`, otherwise the
argument holds `hour()`, `minute()`, `second()` and `msec()`. -/
def DateObject.init (tz : TimeZone) (time : Option (Int × Int × Int × Int)) : Dbl :=
  match time with
  | none => nan
  | some (hour, minute, second, msec) =>
    let d := MakeDay (fin 1925) (fin 5) (fin 8)
    let t := MakeTime (ofInt hour) (ofInt minute) (ofInt second) (ofInt msec)
    TimeClip (UTC tz (MakeDate d t))

/-! ## Binary64 rounding

The functions above compute on exact rationals, which is the arithmetic of the
source as long as every intermediate result is a whole number below `2 ^ 53`.
The namespace `Rounded` holds the functions whose source lines divide, or add a
value with a fraction, once more with every sum, difference, product and
quotient rounded to the nearest binary64 value, a tie going to the even
significand.  `floor`, `fmod` and the conversion to `int` are exact in binary64
and stay as they are.  The exponent is not limited, so overflow and subnormal
values are outside this model. -/

/-- Rounding of a rational to the nearest whole number, a tie going to the even one. -/
def Dbl.roundHalfEven (x : ℚ) : ℤ :=
  if x - ⌊x⌋ < 1 / 2 then ⌊x⌋
  else if 1 / 2 < x - ⌊x⌋ then ⌊x⌋ + 1
  else if ⌊x⌋ % 2 = 0 then ⌊x⌋ else ⌊x⌋ + 1

/-- The binary64 value nearest to `q`: a significand of 53 bits, a tie going to
the even significand.  `Int.log 2 |q|` is the exponent `e` with
`2 ^ e <= |q| < 2 ^ (e + 1)`. -/
def Dbl.round64 (q : ℚ) : ℚ :=
  if q = 0 then 0
  else (Dbl.roundHalfEven (q / 2 ^ (Int.log 2 |q| - 52)) : ℚ) * 2 ^ (Int.log 2 |q| - 52)

/-- The result of an arithmetic operation as binary64 stores it. -/
def Dbl.rnd : Dbl → Dbl
  | fin q => fin (Dbl.round64 q)
  | x => x

namespace Rounded

def TimeWithinDay (t : Dbl) : Dbl :=
  let r := fmod t msPerDay
  if Dbl.le (fin 0) r then r else rnd (r + msPerDay)

def HourFromTime (t : Dbl) : Int :=
  let r := toInt (fmod (floor (rnd (t / msPerHour))) HoursPerDay)
  if 0 ≤ r then r else r + toInt HoursPerDay

def MinFromTime (t : Dbl) : Int :=
  let r := toInt (fmod (floor (rnd (t / msPerMinute))) MinutesPerHour)
  if 0 ≤ r then r else r + toInt MinutesPerHour

def SecFromTime (t : Dbl) : Int :=
  let r := toInt (fmod (floor (rnd (t / msPerSecond))) SecondsPerMinute)
  if 0 ≤ r then r else r + toInt SecondsPerMinute

def Day (t : Dbl) : Dbl := floor (rnd (t / msPerDay))

def WeekDay (t : Dbl) : Dbl :=
  let r := fmod (rnd (Day t + fin 4)) (fin 7)
  if Dbl.le (fin 0) r then r else rnd (r + fin 7)

def MakeDate (day time : Dbl) : Dbl := rnd (rnd (day * msPerDay) + time)

def LocalTime (tz : TimeZone) (t : Dbl) : Dbl :=
  rnd (rnd (t + tz.LocalTZA) + tz.DaylightSavingTA t)

def UTC (tz : TimeZone) (t : Dbl) : Dbl :=
  rnd (rnd (t - tz.LocalTZA) - tz.DaylightSavingTA (rnd (t - tz.LocalTZA)))

/-- The time-zone state of the `USE_QTZ_SYSTEM_ZONE` variant with its product
and its difference rounded. -/
def system (offsetFromUtc : Dbl → Int) (LocalTZA : Dbl) : TimeZone :=
  { LocalTZA := LocalTZA,
    DaylightSavingTA := fun t => rnd (rnd (ofInt (offsetFromUtc t) * fin 1000) - LocalTZA) }

end Rounded

/-! ## Arithmetic of the `double` model on finite values -/

@[simp] theorem Dbl.fin_add (a b : ℚ) : fin a + fin b = fin (a + b) := rfl

@[simp] theorem Dbl.fin_sub (a b : ℚ) : fin a - fin b = fin (a - b) := by
  show Dbl.sub (fin a) (fin b) = _
  simp [Dbl.sub, Dbl.add, Dbl.neg, sub_eq_add_neg]

@[simp] theorem Dbl.fin_mul (a b : ℚ) : fin a * fin b = fin (a * b) := rfl

theorem Dbl.fin_div (a b : ℚ) (hb : b ≠ 0) : fin a / fin b = fin (a / b) := by
  show Dbl.div (fin a) (fin b) = _
  simp [Dbl.div, hb]

@[simp] theorem Dbl.floor_fin (a : ℚ) : floor (fin a) = fin ⌊a⌋ := rfl

@[simp] theorem Dbl.ofInt_eq (n : Int) : ofInt n = fin n := rfl

/-- Floor of a quotient by a positive whole number, through the floor of the dividend. -/
theorem floor_div_pos (t : ℚ) (d : ℤ) (hd : 0 < d) : ⌊t / (d : ℚ)⌋ = ⌊t⌋ / d := by
  have hdq : (0 : ℚ) < d := by exact_mod_cast hd
  rw [Int.floor_eq_iff]
  constructor
  · rw [le_div_iff₀ hdq]
    calc ((⌊t⌋ / d : ℤ) : ℚ) * d = ((⌊t⌋ / d * d : ℤ) : ℚ) := by push_cast; ring
      _ ≤ (⌊t⌋ : ℚ) := by exact_mod_cast Int.ediv_mul_le _ (ne_of_gt hd)
      _ ≤ t := Int.floor_le t
  · rw [div_lt_iff₀ hdq]
    have h1 : ⌊t⌋ < (⌊t⌋ / d + 1) * d := by
      have := Int.lt_ediv_add_one_mul_self ⌊t⌋ hd
      linarith
    have h2 : ⌊t⌋ + 1 ≤ (⌊t⌋ / d + 1) * d := h1
    calc t < (⌊t⌋ : ℚ) + 1 := Int.lt_floor_add_one t
      _ ≤ (((⌊t⌋ / d + 1) * d : ℤ) : ℚ) := by exact_mod_cast h2
      _ = ((⌊t⌋ / d : ℤ) + 1 : ℚ) * d := by push_cast; ring

/-- The remainder that `fmod` leaves, made non-negative as the source does it,
is the remainder of the floored division. -/
theorem fmod_normalise (t m : ℚ) (hm : 0 < m) :
    (if 0 ≤ t - m * truncQ (t / m) then t - m * truncQ (t / m)
     else t - m * truncQ (t / m) + m) = t - m * ⌊t / m⌋ := by
  unfold truncQ
  by_cases h0 : 0 ≤ t / m
  · rw [if_pos h0]
    have : (⌊t / m⌋ : ℚ) ≤ t / m := Int.floor_le _
    have h1 : m * ⌊t / m⌋ ≤ t := by
      have := mul_le_mul_of_nonneg_left this hm.le
      rwa [mul_div_cancel₀ _ (ne_of_gt hm)] at this
    rw [if_pos (by linarith)]
  · rw [if_neg h0]
    have hc : t / m ≤ (⌈t / m⌉ : ℚ) := Int.le_ceil _
    have h1 : t ≤ m * ⌈t / m⌉ := by
      have := mul_le_mul_of_nonneg_left hc hm.le
      rwa [mul_div_cancel₀ _ (ne_of_gt hm)] at this
    by_cases hz : t - m * ⌈t / m⌉ = 0
    · -- the quotient is a whole number
      have hq : t / m = (⌈t / m⌉ : ℚ) := by
        field_simp
        linarith
      have hf : ⌊t / m⌋ = ⌈t / m⌉ := by
        rw [hq]; simp
      rw [if_pos (by linarith), hf]
    · have hlt : t - m * ⌈t / m⌉ < 0 := lt_of_le_of_ne (by linarith) hz
      rw [if_neg (by linarith)]
      have hne : (⌊t / m⌋ : ℚ) ≠ t / m := by
        intro he
        have : ⌈t / m⌉ = ⌊t / m⌋ := by rw [← he]; simp
        apply hz
        rw [this, he]
        field_simp
      have hfl : ⌊t / m⌋ < ⌈t / m⌉ := by
        have h1 : (⌊t / m⌋ : ℚ) < t / m := lt_of_le_of_ne (Int.floor_le _) hne
        have : ((⌊t / m⌋ : ℤ) : ℚ) < ((⌈t / m⌉ : ℤ) : ℚ) := lt_of_lt_of_le h1 hc
        exact_mod_cast this
      have hcl : ⌈t / m⌉ ≤ ⌊t / m⌋ + 1 := Int.ceil_le_floor_add_one _
      have : ⌈t / m⌉ = ⌊t / m⌋ + 1 := le_antisymm hcl hfl
      rw [this]; push_cast; ring

theorem Dbl.fmod_fin (x y : ℚ) (hy : y ≠ 0) :
    fmod (fin x) (fin y) = fin (x - y * truncQ (x / y)) := by
  simp [fmod, hy]

theorem Dbl.truncQ_intCast (n : ℤ) : truncQ (n : ℚ) = n := by
  unfold truncQ; split <;> simp

theorem Dbl.truncQ_abs_le (q : ℚ) : |(truncQ q : ℚ)| ≤ |q| := by
  unfold truncQ
  split
  · rename_i h
    have h1 : (⌊q⌋ : ℚ) ≤ q := Int.floor_le q
    have h2 : (0 : ℚ) ≤ ⌊q⌋ := by exact_mod_cast Int.floor_nonneg.mpr h
    rw [abs_of_nonneg h2, abs_of_nonneg h]; exact h1
  · rename_i h
    push_neg at h
    have h1 : q ≤ (⌈q⌉ : ℚ) := Int.le_ceil q
    have h2 : (⌈q⌉ : ℚ) ≤ 0 := by exact_mod_cast Int.ceil_le.mpr (by simpa using h.le)
    rw [abs_of_nonpos h2, abs_of_neg h]; linarith

theorem Dbl.truncQ_sub_lt (q : ℚ) : |q - (truncQ q : ℚ)| < 1 := by
  unfold truncQ
  split
  · have h1 : (⌊q⌋ : ℚ) ≤ q := Int.floor_le q
    have h2 : q < (⌊q⌋ : ℚ) + 1 := Int.lt_floor_add_one q
    rw [abs_lt]; constructor <;> linarith
  · have h1 : q ≤ (⌈q⌉ : ℚ) := Int.le_ceil q
    have h2 : (⌈q⌉ : ℚ) < q + 1 := Int.ceil_lt_add_one q
    rw [abs_lt]; constructor <;> linarith

theorem TimeWithinDay_fin (t : ℚ) :
    TimeWithinDay (fin t) = fin (t - 86400000 * ⌊t / 86400000⌋) := by
  have h := fmod_normalise t 86400000 (by norm_num)
  simp only [TimeWithinDay, msPerDay]
  rw [Dbl.fmod_fin _ _ (by norm_num)]
  simp only [Dbl.le, Dbl.fin_add]
  by_cases h0 : 0 ≤ t - 86400000 * (truncQ (t / 86400000) : ℚ)
  · rw [if_pos h0] at h
    rw [if_pos (by simpa using h0), h]
  · rw [if_neg h0] at h
    rw [if_neg (by simpa using h0), h]

theorem Day_fin (t : ℚ) : Day (fin t) = fin ⌊t / 86400000⌋ := by
  simp [Day, msPerDay, Dbl.fin_div]

theorem WeekDay_fin (t : ℚ) :
    WeekDay (fin t) = fin (((⌊t / 86400000⌋ + 4) % 7 : ℤ)) := by
  have h := fmod_normalise ((⌊t / 86400000⌋ : ℚ) + 4) 7 (by norm_num)
  have hfl : ⌊((⌊t / 86400000⌋ : ℚ) + 4) / 7⌋ = (⌊t / 86400000⌋ + 4) / 7 := by
    have := floor_div_pos ((⌊t / 86400000⌋ : ℚ) + 4) 7 (by norm_num)
    rw [show ((7 : ℤ) : ℚ) = 7 by norm_num] at this
    rw [this]
    have : ⌊(⌊t / 86400000⌋ : ℚ) + 4⌋ = ⌊t / 86400000⌋ + 4 := by
      rw [show ((⌊t / 86400000⌋ : ℚ) + 4) = ((⌊t / 86400000⌋ + 4 : ℤ) : ℚ) by push_cast; ring]
      exact Int.floor_intCast _
    rw [this]
  have hmod : ((⌊t / 86400000⌋ : ℚ) + 4) - 7 * ⌊((⌊t / 86400000⌋ : ℚ) + 4) / 7⌋
      = (((⌊t / 86400000⌋ + 4) % 7 : ℤ) : ℚ) := by
    rw [hfl, Int.emod_def]; push_cast; ring
  rw [hmod] at h
  simp only [WeekDay, Day_fin, Dbl.fin_add]
  rw [Dbl.fmod_fin _ _ (by norm_num)]
  simp only [Dbl.le, Dbl.fin_add]
  by_cases h0 : 0 ≤ (⌊t / 86400000⌋ : ℚ) + 4 - 7 * (truncQ (((⌊t / 86400000⌋ : ℚ) + 4) / 7) : ℚ)
  · rw [if_pos h0] at h
    rw [if_pos (by simpa using h0), h]
  · rw [if_neg h0] at h
    rw [if_neg (by simpa using h0), h]

theorem toBool_fmod_int (y m : ℤ) (hm : 0 < m) :
    Dbl.toBool (fmod (fin (y : ℚ)) (fin (m : ℚ))) = decide (¬ m ∣ y) := by
  have hmq : (m : ℚ) ≠ 0 := by exact_mod_cast ne_of_gt hm
  rw [Dbl.fmod_fin _ _ hmq]
  simp only [Dbl.toBool]
  congr 1
  apply propext
  constructor
  · intro h hd
    apply h
    obtain ⟨k, rfl⟩ := hd
    have : ((m * k : ℤ) : ℚ) / (m : ℚ) = (k : ℚ) := by
      push_cast; field_simp
    rw [this, Dbl.truncQ_intCast]; push_cast; ring
  · intro h he
    apply h
    refine ⟨truncQ ((y : ℚ) / m), ?_⟩
    have : (y : ℚ) = ((m * truncQ ((y : ℚ) / m) : ℤ) : ℚ) := by push_cast; linarith
    exact_mod_cast this

theorem DaysInYear_int (y : ℤ) :
    DaysInYear (fin (y : ℚ)) =
      if ¬ (4 : ℤ) ∣ y then fin 365 else if ¬ (100 : ℤ) ∣ y then fin 366
      else if ¬ (400 : ℤ) ∣ y then fin 365 else fin 366 := by
  have h4 := toBool_fmod_int y 4 (by norm_num)
  have h100 := toBool_fmod_int y 100 (by norm_num)
  have h400 := toBool_fmod_int y 400 (by norm_num)
  simp only [Int.cast_ofNat] at h4 h100 h400
  simp only [DaysInYear, h4, h100, h400, decide_eq_true_eq]

/-- C4: `TimeClip t` is the NaN sentinel exactly when `t` is NaN, infinite, or
of magnitude above 8.64e15; NaN, Infinity and 8.65e15 are clipped to NaN, and
the boundary values 8.64e15 and -8.64e15 are kept. -/
theorem C4_TimeClip_nan_iff :
    (∀ t : Dbl, TimeClip t = nan ↔
      (t = nan ∨ (∃ s, t = inf s) ∨ ∃ q : ℚ, t = fin q ∧ 8640000000000000 < |q|)) ∧
    TimeClip nan = nan ∧ TimeClip (inf false) = nan ∧ TimeClip (inf true) = nan ∧
    TimeClip (fin 8650000000000000) = nan ∧
    TimeClip (fin 8640000000000000) = fin 8640000000000000 ∧
    TimeClip (fin (-8640000000000000)) = fin (-8640000000000000) := by
  refine ⟨?_, by simp [TimeClip, isFinite], by simp [TimeClip, isFinite],
    by simp [TimeClip, isFinite], ?_, ?_, ?_⟩
  · intro t
    cases t with
    | nan => simp [TimeClip, isFinite]
    | inf s => simp [TimeClip, isFinite]
    | fin q =>
      simp only [TimeClip, isFinite, Dbl.fabs, Dbl.lt, toInteger]
      by_cases h : (8640000000000000 : ℚ) < |q|
      · simp [h]
      · simp [h]
  · simp [TimeClip, isFinite, Dbl.fabs, Dbl.lt]; norm_num
  · have : truncQ (8640000000000000 : ℚ) = 8640000000000000 := by
      exact_mod_cast Dbl.truncQ_intCast 8640000000000000
    simp [TimeClip, isFinite, Dbl.fabs, Dbl.lt, toInteger, this]
  · have : truncQ (-8640000000000000 : ℚ) = -8640000000000000 := by
      exact_mod_cast Dbl.truncQ_intCast (-8640000000000000)
    simp [TimeClip, isFinite, Dbl.fabs, Dbl.lt, toInteger, this]

/-- C5: for every finite `t` of magnitude at most 8.64e15, `TimeClip t` is a
whole number `n` got from `t` by dropping the fractional part toward zero:
`|n| <= |t|`, `|t - n| < 1`, `n` has the sign of `t`, and `n = t` when `t` is
itself whole; `TimeClip 123.9 = 123` and `TimeClip (-123.9) = -123`. -/
theorem C5_TimeClip_truncates (t : ℚ) (ht : |t| ≤ 8640000000000000) :
    (∃ n : ℤ, TimeClip (fin t) = fin n ∧ |(n : ℚ)| ≤ |t| ∧ |t - n| < 1 ∧
      (0 ≤ t → 0 ≤ n) ∧ (t ≤ 0 → n ≤ 0) ∧ (∀ k : ℤ, t = k → n = k)) ∧
    TimeClip (fin (1239 / 10)) = fin 123 ∧ TimeClip (fin (-1239 / 10)) = fin (-123) := by
  refine ⟨⟨truncQ t, ?_, Dbl.truncQ_abs_le t, Dbl.truncQ_sub_lt t, ?_, ?_, ?_⟩, ?_, ?_⟩
  · have : ¬ (8640000000000000 : ℚ) < |t| := not_lt.mpr ht
    simp [TimeClip, isFinite, Dbl.fabs, Dbl.lt, toInteger, this]
  · intro h
    unfold truncQ
    rw [if_pos h]
    exact Int.floor_nonneg.mpr h
  · intro h
    unfold truncQ
    split
    · rename_i h0
      have : t = 0 := le_antisymm h h0
      simp [this]
    · exact Int.ceil_le.mpr (by simpa using h)
  · intro k hk
    rw [hk]; exact Dbl.truncQ_intCast k
  · have h : truncQ (1239 / 10 : ℚ) = 123 := by
      unfold truncQ
      rw [if_pos (by norm_num)]
      rw [Int.floor_eq_iff]; norm_num
    simp only [TimeClip, isFinite, Dbl.fabs, Dbl.lt, toInteger, h]
    norm_num
    rw [abs_of_nonneg (by norm_num)]; norm_num
  · have h : truncQ (-1239 / 10 : ℚ) = -123 := by
      unfold truncQ
      rw [if_neg (by norm_num)]
      rw [Int.ceil_eq_iff]; norm_num
    simp only [TimeClip, isFinite, Dbl.fabs, Dbl.lt, toInteger, h]
    norm_num
    rw [abs_of_nonneg (by norm_num)]; norm_num

/-- Witness of C5 at `t = 123.9`. -/
theorem C5_TimeClip_truncates_witness :
    |(1239 / 10 : ℚ)| ≤ 8640000000000000 ∧
    ((∃ n : ℤ, TimeClip (fin (1239 / 10)) = fin n ∧ |(n : ℚ)| ≤ |(1239 / 10 : ℚ)| ∧
      |(1239 / 10 : ℚ) - n| < 1 ∧
      (0 ≤ (1239 / 10 : ℚ) → 0 ≤ n) ∧ ((1239 / 10 : ℚ) ≤ 0 → n ≤ 0) ∧
      (∀ k : ℤ, (1239 / 10 : ℚ) = k → n = k)) ∧
    TimeClip (fin (1239 / 10)) = fin 123 ∧ TimeClip (fin (-1239 / 10)) = fin (-123)) :=
  ⟨by rw [abs_of_nonneg (by norm_num)]; norm_num,
   C5_TimeClip_truncates (1239 / 10) (by rw [abs_of_nonneg (by norm_num)]; norm_num)⟩

/-- C6: for every integer year `y`, negative years included, `DaysInYear y` is
366 exactly when `y` is divisible by 4 and (not divisible by 100 or divisible
by 400), and 365 otherwise; 1900 and 2023 have 365 days, 2000 and 2024 have 366. -/
theorem C6_DaysInYear_leap_rule :
    (∀ y : ℤ,
      (DaysInYear (fin y) = fin 366 ↔ ((4 : ℤ) ∣ y ∧ (¬ (100 : ℤ) ∣ y ∨ (400 : ℤ) ∣ y))) ∧
      (¬ ((4 : ℤ) ∣ y ∧ (¬ (100 : ℤ) ∣ y ∨ (400 : ℤ) ∣ y)) → DaysInYear (fin y) = fin 365)) ∧
    DaysInYear (fin 1900) = fin 365 ∧ DaysInYear (fin 2023) = fin 365 ∧
    DaysInYear (fin 2000) = fin 366 ∧ DaysInYear (fin 2024) = fin 366 := by
  have key : ∀ y : ℤ,
      (DaysInYear (fin y) = fin 366 ↔ ((4 : ℤ) ∣ y ∧ (¬ (100 : ℤ) ∣ y ∨ (400 : ℤ) ∣ y))) ∧
      (¬ ((4 : ℤ) ∣ y ∧ (¬ (100 : ℤ) ∣ y ∨ (400 : ℤ) ∣ y)) → DaysInYear (fin y) = fin 365) := by
    intro y
    rw [DaysInYear_int]
    by_cases h4 : (4 : ℤ) ∣ y <;> by_cases h100 : (100 : ℤ) ∣ y <;>
      by_cases h400 : (400 : ℤ) ∣ y <;> simp [h4, h100, h400]
  refine ⟨key, ?_, ?_, ?_, ?_⟩
  · have := (key 1900).2 (by omega); simpa using this
  · have := (key 2023).2 (by omega); simpa using this
  · have := (key 2000).1.2 (by omega); simpa using this
  · have := (key 2024).1.2 (by omega); simpa using this

/-- In exact arithmetic `WeekDay` has period 7 days, and one day later the
weekday is `(WeekDay t + 1) mod 7`. -/
theorem WeekDay_shift (t : ℚ) (k : ℤ) :
    WeekDay (fin (t + 7 * k * 86400000)) = WeekDay (fin t) ∧
    ∃ w : ℤ, WeekDay (fin t) = fin w ∧ WeekDay (fin (t + 86400000)) = fin (((w + 1) % 7 : ℤ)) := by
  have shift : ∀ n : ℤ, ⌊(t + n * 86400000) / 86400000⌋ = ⌊t / 86400000⌋ + n := by
    intro n
    rw [show (t + n * 86400000) / 86400000 = t / 86400000 + (n : ℚ) by field_simp]
    exact Int.floor_add_int _ _
  constructor
  · rw [WeekDay_fin, WeekDay_fin]
    have := shift (7 * k)
    push_cast at this
    rw [this]
    congr 2
    omega
  · refine ⟨_, WeekDay_fin t, ?_⟩
    rw [WeekDay_fin]
    have := shift 1
    simp only [Int.cast_one, one_mul] at this
    rw [this]
    congr 2
    omega

theorem floor_intCast_div_pos (a d : ℤ) (hd : 0 < d) : ⌊(a : ℚ) / (d : ℚ)⌋ = a / d := by
  rw [floor_div_pos _ _ hd, Int.floor_intCast]

theorem DayFromYear_int (y : ℤ) : DayFromYear (fin (y : ℚ)) = fin (dayFromYearZ y) := by
  have h4 := floor_intCast_div_pos (y - 1969) 4 (by norm_num)
  have h100 := floor_intCast_div_pos (y - 1901) 100 (by norm_num)
  have h400 := floor_intCast_div_pos (y - 1601) 400 (by norm_num)
  push_cast at h4 h100 h400
  simp only [DayFromYear, Dbl.fin_sub, Dbl.fin_mul, Dbl.fin_add, Dbl.floor_fin]
  rw [Dbl.fin_div _ _ (by norm_num), Dbl.fin_div _ _ (by norm_num), Dbl.fin_div _ _ (by norm_num)]
  simp only [Dbl.fin_sub, Dbl.fin_mul, Dbl.fin_add, Dbl.floor_fin, h4, h100, h400]
  congr 1
  unfold dayFromYearZ
  push_cast
  ring

theorem DaysInYear_intZ (y : ℤ) : DaysInYear (fin (y : ℚ)) = fin (daysInYearZ y) := by
  rw [DaysInYear_int]
  unfold daysInYearZ isLeapZ
  by_cases h4 : (4 : ℤ) ∣ y <;> by_cases h100 : (100 : ℤ) ∣ y <;>
    by_cases h400 : (400 : ℤ) ∣ y <;> simp [h4, h100, h400]

theorem dayFromYearZ_succ (y : ℤ) : dayFromYearZ (y + 1) = dayFromYearZ y + daysInYearZ y := by
  unfold dayFromYearZ daysInYearZ isLeapZ
  by_cases h4 : (4 : ℤ) ∣ y <;> by_cases h100 : (100 : ℤ) ∣ y <;>
    by_cases h400 : (400 : ℤ) ∣ y <;> simp [h4, h100, h400] <;> omega

theorem yearFromTimeZ_bounds (T : ℤ) :
    86400000 * dayFromYearZ (yearFromTimeZ T) ≤ T ∧
    T < 86400000 * dayFromYearZ (yearFromTimeZ T + 1) := by
  have hs := dayFromYearZ_succ (1970 + T / 31556952000)
  have hs1 := dayFromYearZ_succ (1970 + T / 31556952000 - 1)
  have hs2 := dayFromYearZ_succ (1970 + T / 31556952000 + 1)
  have hd0 : 365 ≤ daysInYearZ (1970 + T / 31556952000 - 1) ∧ daysInYearZ (1970 + T / 31556952000 - 1) ≤ 366 := by
    unfold daysInYearZ; split <;> omega
  have hd2 : 365 ≤ daysInYearZ (1970 + T / 31556952000 + 1) ∧ daysInYearZ (1970 + T / 31556952000 + 1) ≤ 366 := by
    unfold daysInYearZ; split <;> omega
  have hd1 : 365 ≤ daysInYearZ (1970 + T / 31556952000) ∧ daysInYearZ (1970 + T / 31556952000) ≤ 366 := by
    unfold daysInYearZ; split <;> omega
  have hD : dayFromYearZ (1970 + T / 31556952000) =
      365 * (1970 + T / 31556952000 - 1970) + (1970 + T / 31556952000 - 1969) / 4
        - (1970 + T / 31556952000 - 1901) / 100 + (1970 + T / 31556952000 - 1601) / 400 := rfl
  simp only [show (1970 + T / 31556952000 - 1 + 1) = 1970 + T / 31556952000 by ring] at hs1
  unfold yearFromTimeZ
  simp only []
  split
  · rw [show (1970 + T / 31556952000 - 1 + 1) = 1970 + T / 31556952000 by ring]
    constructor <;> omega
  · split
    · constructor <;> omega
    · constructor <;> omega

theorem dayFromYearZ_mono {a b : ℤ} (h : a ≤ b) : dayFromYearZ a ≤ dayFromYearZ b := by
  unfold dayFromYearZ; omega

theorem yearFromTimeZ_unique (T y : ℤ) (h1 : 86400000 * dayFromYearZ y ≤ T)
    (h2 : T < 86400000 * dayFromYearZ (y + 1)) : yearFromTimeZ T = y := by
  obtain ⟨b1, b2⟩ := yearFromTimeZ_bounds T
  rcases lt_trichotomy (yearFromTimeZ T) y with h | h | h
  · have := dayFromYearZ_mono (show yearFromTimeZ T + 1 ≤ y by omega)
    omega
  · exact h
  · have := dayFromYearZ_mono (show y + 1 ≤ yearFromTimeZ T by omega)
    omega

theorem wrapInt32_of_range (x : ℤ) (h1 : -2147483648 ≤ x) (h2 : x ≤ 2147483647) :
    wrapInt32 x = x := by
  unfold wrapInt32; omega

theorem Dbl.toInt_intCast (n : ℤ) (h1 : -2147483648 ≤ n) (h2 : n ≤ 2147483647) :
    toInt (fin (n : ℚ)) = n := by
  simp only [toInt, Dbl.truncQ_intCast]
  rw [if_pos ⟨h1, h2⟩]

theorem Dbl.lt_fin (a b : ℚ) : Dbl.lt (fin a) (fin b) = decide (a < b) := rfl

theorem Dbl.le_fin (a b : ℚ) : Dbl.le (fin a) (fin b) = decide (a ≤ b) := rfl

theorem TimeFromYear_int (y : ℤ) :
    TimeFromYear (fin (y : ℚ)) = fin ((86400000 * dayFromYearZ y : ℤ) : ℚ) := by
  simp only [TimeFromYear, msPerDay, DayFromYear_int, Dbl.fin_mul]
  congr 1; push_cast; ring

/-- On a finite value whose year estimate fits the `int` range, `YearFromTime`
is the integer function `yearFromTimeZ` of the floor of the value. -/
theorem YearFromTime_fin (t : ℚ) (hlo : -60000000000000000000 ≤ ⌊t⌋)
    (hhi : ⌊t⌋ ≤ 60000000000000000000) :
    YearFromTime (fin t) = fin ((yearFromTimeZ ⌊t⌋ : ℤ) : ℚ) := by
  have hfl : ⌊t / 31556952000⌋ = ⌊t⌋ / 31556952000 := by
    have := floor_div_pos t 31556952000 (by norm_num)
    simpa using this
  have hx1 : -2147483648 + 2000 ≤ ⌊t⌋ / 31556952000 := by omega
  have hx2 : ⌊t⌋ / 31556952000 ≤ 2147483647 - 2000 := by omega
  have hc : (86400000 : ℚ) * (3652425 / 10000) = 31556952000 := by norm_num
  have hy : wrapInt32 (1970 + toInt (floor (fin t / (msPerDay * fin (3652425 / 10000)))))
      = 1970 + ⌊t⌋ / 31556952000 := by
    simp only [msPerDay, Dbl.fin_mul, hc]
    rw [Dbl.fin_div _ _ (by norm_num), Dbl.floor_fin, hfl,
      Dbl.toInt_intCast _ (by omega) (by omega), wrapInt32_of_range _ (by omega) (by omega)]
  unfold YearFromTime
  simp only []
  rw [hy]
  simp only [Dbl.ofInt_eq, TimeFromYear_int, DaysInYear_intZ, msPerDay, Dbl.fin_mul,
    Dbl.fin_add, Dbl.lt_fin, Dbl.le_fin, decide_eq_true_eq]
  rw [wrapInt32_of_range _ (by omega) (by omega), wrapInt32_of_range _ (by omega) (by omega)]
  have e1 : (t < ((86400000 * dayFromYearZ (1970 + ⌊t⌋ / 31556952000) : ℤ) : ℚ)) ↔
      ⌊t⌋ < 86400000 * dayFromYearZ (1970 + ⌊t⌋ / 31556952000) := Int.floor_lt.symm
  have e2 : (((86400000 * dayFromYearZ (1970 + ⌊t⌋ / 31556952000) : ℤ) : ℚ)
        + 86400000 * ((daysInYearZ (1970 + ⌊t⌋ / 31556952000) : ℤ) : ℚ) ≤ t) ↔
      86400000 * dayFromYearZ (1970 + ⌊t⌋ / 31556952000)
        + 86400000 * daysInYearZ (1970 + ⌊t⌋ / 31556952000) ≤ ⌊t⌋ := by
    rw [Int.le_floor]; push_cast; rfl
  unfold yearFromTimeZ
  simp only [e1, e2]
  split
  · rfl
  · split <;> rfl

theorem Day_fin_int (t : ℚ) : Day (fin t) = fin ((⌊t⌋ / 86400000 : ℤ) : ℚ) := by
  rw [Day_fin]
  have := floor_div_pos t 86400000 (by norm_num)
  simp only [Int.cast_ofNat] at this
  rw [this]

theorem InLeapYear_fin (t : ℚ) (hlo : -60000000000000000000 ≤ ⌊t⌋)
    (hhi : ⌊t⌋ ≤ 60000000000000000000) :
    InLeapYear (fin t) = isLeapZ (yearFromTimeZ ⌊t⌋) := by
  unfold InLeapYear
  simp only [YearFromTime_fin t hlo hhi, DaysInYear_intZ, Dbl.eq]
  unfold daysInYearZ
  cases isLeapZ (yearFromTimeZ ⌊t⌋) <;> simp

theorem DayWithinYear_fin (t : ℚ) (hlo : -60000000000000000000 ≤ ⌊t⌋)
    (hhi : ⌊t⌋ ≤ 60000000000000000000) :
    DayWithinYear (fin t)
      = fin ((⌊t⌋ / 86400000 - dayFromYearZ (yearFromTimeZ ⌊t⌋) : ℤ) : ℚ) := by
  unfold DayWithinYear
  rw [Day_fin_int, YearFromTime_fin t hlo hhi, DayFromYear_int, Dbl.fin_sub]
  congr 1; push_cast; ring

theorem dayWithinYear_range (T : ℤ) :
    0 ≤ T / 86400000 - dayFromYearZ (yearFromTimeZ T) ∧
    T / 86400000 - dayFromYearZ (yearFromTimeZ T) < daysInYearZ (yearFromTimeZ T) := by
  obtain ⟨b1, b2⟩ := yearFromTimeZ_bounds T
  rw [dayFromYearZ_succ] at b2
  constructor <;> omega

theorem Dbl.lt_fin_int (a b : ℤ) : Dbl.lt (fin (a : ℚ)) (fin (b : ℚ)) = decide (a < b) := by
  rw [Dbl.lt_fin]; congr 1; exact propext Int.cast_lt

theorem Dbl.ofBool_false : Dbl.ofBool false = fin 0 := rfl

theorem Dbl.ofBool_true : Dbl.ofBool true = fin 1 := rfl

theorem monthChain (leap : Bool) (d : ℤ)
    (h1 : d < if leap then 366 else 365) :
    (if Dbl.lt (fin d) (fin 31) then fin 0
     else if Dbl.lt (fin d) (fin 59 + ofBool leap) then fin 1
     else if Dbl.lt (fin d) (fin 90 + ofBool leap) then fin 2
     else if Dbl.lt (fin d) (fin 120 + ofBool leap) then fin 3
     else if Dbl.lt (fin d) (fin 151 + ofBool leap) then fin 4
     else if Dbl.lt (fin d) (fin 181 + ofBool leap) then fin 5
     else if Dbl.lt (fin d) (fin 212 + ofBool leap) then fin 6
     else if Dbl.lt (fin d) (fin 243 + ofBool leap) then fin 7
     else if Dbl.lt (fin d) (fin 273 + ofBool leap) then fin 8
     else if Dbl.lt (fin d) (fin 304 + ofBool leap) then fin 9
     else if Dbl.lt (fin d) (fin 334 + ofBool leap) then fin 10
     else if Dbl.lt (fin d) (fin 365 + ofBool leap) then fin 11
     else nan) = fin ((monthFromDayZ leap d : ℤ) : ℚ) := by
  have push : ∀ (c : Prop) [Decidable c] (a b : ℤ),
      fin (((if c then a else b : ℤ)) : ℚ) = if c then fin (a : ℚ) else fin (b : ℚ) := by
    intro c _ a b; split <;> rfl
  have c : ∀ (a : ℚ) (b : ℤ), a = (b : ℚ) → Dbl.lt (fin (d : ℚ)) (fin a) = decide (d < b) := by
    intro a b h; rw [h, Dbl.lt_fin_int]
  unfold monthFromDayZ
  cases leap
  · simp only [Bool.false_eq_true, if_false] at h1
    have e : (if d < 365 then fin 11 else nan) = fin 11 := if_pos h1
    simp only [Dbl.ofBool_false, Dbl.fin_add, add_zero]
    simp only [c 31 31 (by norm_num), c 59 59 (by norm_num), c 90 90 (by norm_num),
      c 120 120 (by norm_num), c 151 151 (by norm_num), c 181 181 (by norm_num),
      c 212 212 (by norm_num), c 243 243 (by norm_num), c 273 273 (by norm_num),
      c 304 304 (by norm_num), c 334 334 (by norm_num), c 365 365 (by norm_num),
      decide_eq_true_eq, Bool.false_eq_true, if_false, e, push, Int.cast_ofNat, Int.cast_zero,
      Int.cast_one, add_zero]
  · simp only [if_true] at h1
    have e : (if d < 366 then fin 11 else nan) = fin 11 := if_pos h1
    simp only [Dbl.ofBool_true, Dbl.fin_add]
    norm_num only [c 31 31 (by norm_num), c 60 60 (by norm_num), c 91 91 (by norm_num),
      c 121 121 (by norm_num), c 152 152 (by norm_num), c 182 182 (by norm_num),
      c 213 213 (by norm_num), c 244 244 (by norm_num), c 274 274 (by norm_num),
      c 305 305 (by norm_num), c 335 335 (by norm_num), c 366 366 (by norm_num),
      decide_eq_true_eq, if_true, e, push, Int.cast_ofNat, Int.cast_zero, Int.cast_one]

theorem MonthFromTime_fin (t : ℚ) (hlo : -60000000000000000000 ≤ ⌊t⌋)
    (hhi : ⌊t⌋ ≤ 60000000000000000000) :
    MonthFromTime (fin t) = fin ((monthFromDayZ (isLeapZ (yearFromTimeZ ⌊t⌋))
      (⌊t⌋ / 86400000 - dayFromYearZ (yearFromTimeZ ⌊t⌋)) : ℤ) : ℚ) := by
  obtain ⟨r0, r1⟩ := dayWithinYear_range ⌊t⌋
  unfold MonthFromTime
  simp only [DayWithinYear_fin t hlo hhi, InLeapYear_fin t hlo hhi]
  apply monthChain _ _
  unfold daysInYearZ at r1
  exact r1

theorem monthFromDayZ_range (leap : Bool) (d : ℤ) :
    0 ≤ monthFromDayZ leap d ∧ monthFromDayZ leap d ≤ 11 := by
  unfold monthFromDayZ
  cases leap <;> simp only [Bool.false_eq_true, if_false, if_true, add_zero] <;> omega

theorem dateChain (leap : Bool) (d m : ℤ) (h0 : 0 ≤ m) (h1 : m ≤ 11) :
    (if m = 0 then fin d + fin 1
     else if m = 1 then fin d - fin 30
     else if m = 2 then fin d - fin 58 - ofBool leap
     else if m = 3 then fin d - fin 89 - ofBool leap
     else if m = 4 then fin d - fin 119 - ofBool leap
     else if m = 5 then fin d - fin 150 - ofBool leap
     else if m = 6 then fin d - fin 180 - ofBool leap
     else if m = 7 then fin d - fin 211 - ofBool leap
     else if m = 8 then fin d - fin 242 - ofBool leap
     else if m = 9 then fin d - fin 272 - ofBool leap
     else if m = 10 then fin d - fin 303 - ofBool leap
     else if m = 11 then fin d - fin 333 - ofBool leap
     else nan) = fin ((d - monthStartZ leap m + 1 : ℤ) : ℚ) := by
  have hm : m = 0 ∨ m = 1 ∨ m = 2 ∨ m = 3 ∨ m = 4 ∨ m = 5 ∨ m = 6 ∨ m = 7 ∨ m = 8 ∨ m = 9
      ∨ m = 10 ∨ m = 11 := by omega
  rcases hm with h | h | h | h | h | h | h | h | h | h | h | h <;> subst h <;> cases leap <;>
    simp only [monthStartZ, Dbl.ofBool_false, Dbl.ofBool_true, Dbl.fin_sub, Dbl.fin_add] <;>
    norm_num <;> ring

theorem toInt_toInteger_int (k : ℤ) (h0 : 0 ≤ k) (h1 : k ≤ 11) :
    toInt (toInteger (fin (k : ℚ))) = k := by
  simp only [toInteger, Dbl.truncQ_intCast]
  exact Dbl.toInt_intCast k (by omega) (by omega)

theorem DateFromTime_fin (t : ℚ) (hlo : -60000000000000000000 ≤ ⌊t⌋)
    (hhi : ⌊t⌋ ≤ 60000000000000000000) :
    DateFromTime (fin t) = fin ((⌊t⌋ / 86400000 - dayFromYearZ (yearFromTimeZ ⌊t⌋)
      - monthStartZ (isLeapZ (yearFromTimeZ ⌊t⌋))
          (monthFromDayZ (isLeapZ (yearFromTimeZ ⌊t⌋))
            (⌊t⌋ / 86400000 - dayFromYearZ (yearFromTimeZ ⌊t⌋))) + 1 : ℤ) : ℚ) := by
  obtain ⟨m0, m1⟩ := monthFromDayZ_range (isLeapZ (yearFromTimeZ ⌊t⌋))
    (⌊t⌋ / 86400000 - dayFromYearZ (yearFromTimeZ ⌊t⌋))
  unfold DateFromTime
  simp only [MonthFromTime_fin t hlo hhi, DayWithinYear_fin t hlo hhi, InLeapYear_fin t hlo hhi,
    toInt_toInteger_int _ m0 m1]
  exact dateChain _ _ _ m0 m1

theorem DayFromMonth_int (leap : Bool) (m : ℤ) (h0 : 0 ≤ m) (h1 : m ≤ 11) :
    DayFromMonth (fin (m : ℚ)) (ofBool leap) = fin ((monthStartZ leap m : ℤ) : ℚ) := by
  unfold DayFromMonth
  simp only [Dbl.toInt_intCast m (by omega) (by omega)]
  have hm : m = 0 ∨ m = 1 ∨ m = 2 ∨ m = 3 ∨ m = 4 ∨ m = 5 ∨ m = 6 ∨ m = 7 ∨ m = 8 ∨ m = 9
      ∨ m = 10 ∨ m = 11 := by omega
  rcases hm with h | h | h | h | h | h | h | h | h | h | h | h <;> subst h <;> cases leap <;>
    simp only [monthStartZ, Dbl.ofBool_false, Dbl.ofBool_true, Dbl.fin_add] <;> norm_num

theorem dayFromYearZ_bound (y : ℤ) :
    365 * (y - 1970) - 2 ≤ dayFromYearZ y - (y - 1970) / 4 + (y - 1970) / 100 - (y - 1970) / 400 ∧
    dayFromYearZ y - (y - 1970) / 4 + (y - 1970) / 100 - (y - 1970) / 400 ≤ 365 * (y - 1970) + 2 := by
  unfold dayFromYearZ; constructor <;> omega

theorem InLeapYear_TimeFromYear (y : ℤ) (hlo : -1000000000 ≤ y) (hhi : y ≤ 1000000000) :
    InLeapYear (fin ((86400000 * dayFromYearZ y : ℤ) : ℚ)) = isLeapZ y := by
  have hb := dayFromYearZ_bound y
  have hT1 : -60000000000000000000 ≤ ⌊(((86400000 * dayFromYearZ y : ℤ)) : ℚ)⌋ := by
    rw [Int.floor_intCast]; omega
  have hT2 : ⌊(((86400000 * dayFromYearZ y : ℤ)) : ℚ)⌋ ≤ 60000000000000000000 := by
    rw [Int.floor_intCast]; omega
  rw [InLeapYear_fin _ hT1 hT2, Int.floor_intCast]
  have hs := dayFromYearZ_succ y
  have hd : 365 ≤ daysInYearZ y := by unfold daysInYearZ; split <;> omega
  rw [yearFromTimeZ_unique _ y (le_refl _) (by omega)]

theorem MakeDay_int_raw (y m : ℤ) (d : ℚ) :
    MakeDay (fin y) (fin m) (fin d)
      = fin ((dayFromYearZ (y + m / 12) : ℤ)
          + (monthStartZ (InLeapYear (fin ((86400000 * dayFromYearZ (y + m / 12) : ℤ) : ℚ)))
              (m % 12) : ℤ) + (d - 1)) := by
  have hfl := floor_intCast_div_pos m 12 (by norm_num)
  have hnorm := fmod_normalise (m : ℚ) 12 (by norm_num)
  have hmod : (m : ℚ) - 12 * ((⌊(m : ℚ) / 12⌋ : ℤ) : ℚ) = ((m % 12 : ℤ) : ℚ) := by
    push_cast at hfl
    rw [hfl, Int.emod_def]; push_cast; ring
  rw [hmod] at hnorm
  have hmonth : (if Dbl.lt (fmod (fin (m : ℚ)) (fin 12)) (fin 0) then fmod (fin (m : ℚ)) (fin 12) + fin 12
      else fmod (fin (m : ℚ)) (fin 12)) = fin ((m % 12 : ℤ) : ℚ) := by
    rw [Dbl.fmod_fin _ _ (by norm_num), Dbl.lt_fin, Dbl.fin_add]
    by_cases h0 : 0 ≤ (m : ℚ) - 12 * (truncQ ((m : ℚ) / 12) : ℚ)
    · rw [if_pos h0] at hnorm
      rw [if_neg (by simpa using h0), hnorm]
    · rw [if_neg h0] at hnorm
      rw [if_pos (by simpa using h0), hnorm]
  have hyear : fin (y : ℚ) + floor (fin (m : ℚ) / fin 12) = fin ((y + m / 12 : ℤ) : ℚ) := by
    rw [Dbl.fin_div _ _ (by norm_num), Dbl.floor_fin, Dbl.fin_add]
    push_cast at hfl
    rw [hfl]; push_cast; rfl
  have hr0 : 0 ≤ m % 12 := Int.emod_nonneg _ (by norm_num)
  have hr1 : m % 12 ≤ 11 := by omega
  unfold MakeDay
  simp only [hmonth, hyear, DayFromYear_int, msPerDay, Dbl.fin_mul, Dbl.fin_sub, Dbl.fin_add]
  have hcast : ((dayFromYearZ (y + m / 12) : ℤ) : ℚ) * 86400000
      = ((86400000 * dayFromYearZ (y + m / 12) : ℤ) : ℚ) := by push_cast; ring
  rw [hcast, DayFromMonth_int _ _ hr0 hr1, Dbl.fin_add, Dbl.fin_add]

theorem monthStartZ_range (leap : Bool) (m : ℤ) :
    0 ≤ monthStartZ leap m ∧ monthStartZ leap m ≤ 335 := by
  unfold monthStartZ
  cases leap <;> simp only [Bool.false_eq_true, if_false, if_true, add_zero] <;> omega

theorem monthLength_le (leap : Bool) (m : ℤ) : monthLength leap m ≤ 31 := by
  unfold monthLength
  cases leap <;> simp only [Bool.false_eq_true, if_false, if_true] <;> omega

theorem monthFromDayZ_start (leap : Bool) (m d : ℤ) (hm0 : 0 ≤ m) (hm1 : m ≤ 11)
    (hd0 : 1 ≤ d) (hd1 : d ≤ monthLength leap m) :
    monthFromDayZ leap (monthStartZ leap m + d - 1) = m ∧
    monthStartZ leap m + d - 1 < (if leap then 366 else 365) := by
  unfold monthLength at hd1
  unfold monthFromDayZ monthStartZ
  cases leap <;> simp only [Bool.false_eq_true, if_false, if_true, add_zero] at hd1 ⊢ <;> omega

/-- C2: for every integer year `y`, month `m` in `0..11` and day `d` between 1
and the length of month `m` in year `y`, the time `t = MakeDay y m d * 86400000`
lying within 8.64e15 of zero, the decomposition of `t` gives the same date back:
`YearFromTime t = y`, `MonthFromTime t = m` and `DateFromTime t = d`. -/
theorem C2_MakeDay_decomposes (y m d : ℤ) (hm0 : 0 ≤ m) (hm1 : m ≤ 11) (hd0 : 1 ≤ d)
    (hd1 : d ≤ monthLength (isLeapZ y) m)
    (hr : Dbl.le (fabs (MakeDay (fin y) (fin m) (fin d) * msPerDay)) (fin 8640000000000000)
      = true) :
    YearFromTime (MakeDay (fin y) (fin m) (fin d) * msPerDay) = fin y ∧
    MonthFromTime (MakeDay (fin y) (fin m) (fin d) * msPerDay) = fin m ∧
    DateFromTime (MakeDay (fin y) (fin m) (fin d) * msPerDay) = fin d := by
  have hq : m / 12 = 0 := by omega
  have hmod : m % 12 = m := by omega
  have hraw := MakeDay_int_raw y m d
  rw [hq, hmod, add_zero] at hraw
  obtain ⟨s0, s1⟩ := monthStartZ_range
    (InLeapYear (fin ((86400000 * dayFromYearZ y : ℤ) : ℚ))) m
  have hdl : d ≤ 31 := le_trans hd1 (monthLength_le _ _)
  -- the range of the result bounds the year
  have hyb : -1000000000 ≤ y ∧ y ≤ 1000000000 := by
    rw [hraw] at hr
    simp only [msPerDay, Dbl.fin_mul, Dbl.fabs, Dbl.le_fin, decide_eq_true_eq] at hr
    rw [abs_le] at hr
    obtain ⟨r1, r2⟩ := hr
    have r1z : (-8640000000000000 : ℤ) ≤ (dayFromYearZ y
        + monthStartZ (InLeapYear (fin ((86400000 * dayFromYearZ y : ℤ) : ℚ))) m
        + (d - 1)) * 86400000 := by exact_mod_cast r1
    have r2z : (dayFromYearZ y
        + monthStartZ (InLeapYear (fin ((86400000 * dayFromYearZ y : ℤ) : ℚ))) m
        + (d - 1)) * 86400000 ≤ (8640000000000000 : ℤ) := by exact_mod_cast r2
    have hb := dayFromYearZ_bound y
    constructor <;> omega
  rw [InLeapYear_TimeFromYear y hyb.1 hyb.2] at hraw
  obtain ⟨k1, k2⟩ := monthFromDayZ_start (isLeapZ y) m d hm0 hm1 hd0 hd1
  have hb := dayFromYearZ_bound y
  obtain ⟨t0, t1⟩ := monthStartZ_range (isLeapZ y) m
  have hval : MakeDay (fin y) (fin m) (fin d) * msPerDay
      = fin (((86400000 * (dayFromYearZ y + monthStartZ (isLeapZ y) m + d - 1) : ℤ)) : ℚ) := by
    rw [hraw]; simp only [msPerDay, Dbl.fin_mul]; congr 1; push_cast; ring
  have hfloor : ⌊(((86400000 * (dayFromYearZ y + monthStartZ (isLeapZ y) m + d - 1) : ℤ)) : ℚ)⌋
      = 86400000 * (dayFromYearZ y + monthStartZ (isLeapZ y) m + d - 1) := Int.floor_intCast _
  have hs := dayFromYearZ_succ y
  have hdiy : daysInYearZ y = if isLeapZ y then 366 else 365 := rfl
  have hyear : yearFromTimeZ (86400000 * (dayFromYearZ y + monthStartZ (isLeapZ y) m + d - 1))
      = y := by
    apply yearFromTimeZ_unique
    · omega
    · rw [hs, hdiy]; omega
  have hdiv : 86400000 * (dayFromYearZ y + monthStartZ (isLeapZ y) m + d - 1) / 86400000
      = dayFromYearZ y + monthStartZ (isLeapZ y) m + d - 1 := by omega
  have hlo : -60000000000000000000
      ≤ ⌊(((86400000 * (dayFromYearZ y + monthStartZ (isLeapZ y) m + d - 1) : ℤ)) : ℚ)⌋ := by
    rw [hfloor]; omega
  have hhi : ⌊(((86400000 * (dayFromYearZ y + monthStartZ (isLeapZ y) m + d - 1) : ℤ)) : ℚ)⌋
      ≤ 60000000000000000000 := by
    rw [hfloor]; omega
  have hdwy : dayFromYearZ y + monthStartZ (isLeapZ y) m + d - 1 - dayFromYearZ y
      = monthStartZ (isLeapZ y) m + d - 1 := by ring
  rw [hval]
  refine ⟨?_, ?_, ?_⟩
  · rw [YearFromTime_fin _ hlo hhi, hfloor, hyear]
  · rw [MonthFromTime_fin _ hlo hhi, hfloor, hyear, hdiv, hdwy, k1]
  · rw [DateFromTime_fin _ hlo hhi, hfloor, hyear, hdiv, hdwy, k1]
    congr 1; push_cast; ring

theorem MakeDay_int (y m : ℤ) (d : ℚ) (hlo : -1000000000 ≤ y + m / 12)
    (hhi : y + m / 12 ≤ 1000000000) :
    MakeDay (fin y) (fin m) (fin d)
      = fin ((dayFromYearZ (y + m / 12) : ℤ)
          + (monthStartZ (isLeapZ (y + m / 12)) (m % 12) : ℤ) + (d - 1)) := by
  rw [MakeDay_int_raw, InLeapYear_TimeFromYear _ hlo hhi]

/-- Witness of C2 on 29 February 2024. -/
theorem C2_MakeDay_decomposes_witness :
    ((0 : ℤ) ≤ 1 ∧ (1 : ℤ) ≤ 11 ∧ (1 : ℤ) ≤ 29 ∧ (29 : ℤ) ≤ monthLength (isLeapZ 2024) 1) ∧
    YearFromTime (MakeDay (fin ((2024 : ℤ) : ℚ)) (fin ((1 : ℤ) : ℚ)) (fin ((29 : ℤ) : ℚ))
      * msPerDay) = fin ((2024 : ℤ) : ℚ) ∧
    MonthFromTime (MakeDay (fin ((2024 : ℤ) : ℚ)) (fin ((1 : ℤ) : ℚ)) (fin ((29 : ℤ) : ℚ))
      * msPerDay) = fin ((1 : ℤ) : ℚ) ∧
    DateFromTime (MakeDay (fin ((2024 : ℤ) : ℚ)) (fin ((1 : ℤ) : ℚ)) (fin ((29 : ℤ) : ℚ))
      * msPerDay) = fin ((29 : ℤ) : ℚ) :=
  ⟨by decide,
   C2_MakeDay_decomposes 2024 1 29 (by decide) (by decide) (by decide) (by decide) (by
    have h1 : dayFromYearZ (2024 + 1 / 12) = 19723 := by decide
    have h2 : monthStartZ (isLeapZ (2024 + 1 / 12)) (1 % 12) = 31 := by decide
    rw [MakeDay_int _ _ _ (by decide) (by decide), h1, h2]
    simp only [msPerDay, Dbl.fin_mul, Dbl.fabs, Dbl.le_fin, decide_eq_true_eq]
    rw [abs_le]; norm_num)⟩

theorem MakeTime_int (h mi s ms : ℤ) :
    MakeTime (ofInt h) (ofInt mi) (ofInt s) (ofInt ms)
      = fin ((((h * 60 + mi) * 60 + s) * 1000 + ms : ℤ) : ℚ) := by
  simp only [MakeTime, MinutesPerHour, SecondsPerMinute, msPerSecond, Dbl.ofInt_eq, Dbl.fin_mul,
    Dbl.fin_add]
  congr 1; push_cast; ring

/-- C9: the strict path of `ParseString` accepts `2023-06-15T10:30:00.000Z` and
returns exactly 1686825000000, the millisecond count of 2023-06-15 10:30:00 UTC;
`ParseString` returns that value whatever the fallback parsers are. -/
theorem C9_ParseString_example :
    ParseString.strict (QStringLiteral "2023-06-15T10:30:00.000Z") = some (fin 1686825000000) ∧
    ∀ q : QDateTimeParsers,
      ParseString q (QStringLiteral "2023-06-15T10:30:00.000Z") = fin 1686825000000 := by
  have hscan : ParseString.scan (QStringLiteral "2023-06-15T10:30:00.000Z")
      = (false, 1,
          { format := 9, current := 0, currentSize := 0, year := 2023, month := 5,
            day := 15, hour := 10, minute := 30, second := 0, msec := 0, offsetSign := 1,
            offset := 0, error := false }) := by decide
  have h1 : dayFromYearZ (2023 * 1 + 5 / 12) = 19358 := by decide
  have h2 : monthStartZ (isLeapZ (2023 * 1 + 5 / 12)) (5 % 12) = 151 := by decide
  have hstrict : ParseString.strict (QStringLiteral "2023-06-15T10:30:00.000Z")
      = some (fin 1686825000000) := by
    unfold ParseString.strict
    rw [hscan]
    simp only [Bool.not_false, if_true, MakeTime_int]
    simp only [Dbl.ofInt_eq]
    rw [MakeDay_int _ _ _ (by decide) (by decide), h1, h2]
    simp only [MakeDate, msPerDay, Dbl.fin_mul, Dbl.fin_add, Dbl.fin_sub]
    norm_num
  refine ⟨hstrict, fun q => ?_⟩
  unfold ParseString
  rw [hstrict]

theorem QChar.ofInt_digit (n : ℤ) (h0 : 0 ≤ n) :
    (48 : ℕ) ≤ (QChar.ofInt (Int.tmod n 10 + 48) : ℕ) ∧
    (QChar.ofInt (Int.tmod n 10 + 48) : ℕ) ≤ (57 : ℕ) ∧
    ((QChar.ofInt (Int.tmod n 10 + 48) : ℕ) : ℤ) - 48 = n % 10 := by
  have h : Int.tmod n 10 = n % 10 := Int.tmod_eq_emod h0 (show (0 : ℤ) ≤ 10 by norm_num)
  unfold QChar.ofInt
  rw [h]
  have h1 : 0 ≤ n % 10 := Int.emod_nonneg _ (by norm_num)
  have h2 : n % 10 < 10 := Int.emod_lt_of_pos _ (by norm_num)
  have h3 : (n % 10 + 48) % 65536 = n % 10 + 48 := by omega
  rw [h3]
  show (48 : ℕ) ≤ Int.toNat (n % 10 + 48) ∧ Int.toNat (n % 10 + 48) ≤ (57 : ℕ) ∧
    ((Int.toNat (n % 10 + 48) : ℕ) : ℤ) - 48 = n % 10
  refine ⟨?_, ?_, ?_⟩ <;> omega

/-- The loop reads a run of digits written by `addZeroPrefixedInt` into `current`. -/
theorem ParseString.loop_digits (ext : Bool) (k : ℕ) :
    ∀ (n : ℤ) (rest : List QChar) (st : ParseState), 0 ≤ n → n < 10 ^ k → k ≤ 6 →
      st.error = false → st.format ≠ 9 → st.current = 0 → st.currentSize = 0 →
      ParseString.loop ext (zeroPrefixedDigits k n ++ rest) st
        = ParseString.loop ext rest { st with current := n, currentSize := k } := by
  induction k with
  | zero =>
    intro n rest st h0 h1 _ _ _ hc hs
    have : n = 0 := by
      have : n < 1 := by simpa using h1
      omega
    subst this
    have e : ({ st with current := 0, currentSize := ((0 : ℕ) : ℤ) } : ParseState) = st := by
      cases st; simp_all
    rw [e]; rfl
  | succ k ih =>
    intro n rest st h0 h1 hk he hf hc hs
    have hq : Int.tdiv n 10 = n / 10 := Int.tdiv_eq_ediv h0 (show (0 : ℤ) ≤ 10 by norm_num)
    have hd := QChar.ofInt_digit n h0
    have hlt : n / 10 < 10 ^ k := by
      have : n < 10 ^ k * 10 := by rw [pow_succ] at h1; exact h1
      omega
    have hpow : (10 : ℤ) ^ k ≤ 100000 := by
      have : (10 : ℤ) ^ k ≤ 10 ^ 5 := pow_le_pow_right₀ (by norm_num) (by omega)
      simpa using this
    show ParseString.loop ext ((zeroPrefixedDigits k (Int.tdiv n 10)
      ++ [QChar.ofInt (Int.tmod n 10 + 48)]) ++ rest) st = _
    rw [List.append_assoc, hq, ih (n / 10) _ st (by omega) hlt (by omega) he hf hc hs]
    simp only [List.singleton_append, ParseString.loop, ParseString.step]
    rw [if_pos (And.intro hd.1 hd.2.1)]
    simp only [he, hd.2.2]
    have hw1 : wrapInt32 (n / 10 * 10) = n / 10 * 10 :=
      wrapInt32_of_range _ (by omega) (by omega)
    have hw2 : wrapInt32 (n / 10 * 10 + n % 10) = n := by
      rw [wrapInt32_of_range _ (by omega) (by omega)]; omega
    rw [hw1, hw2]
    have hf9 : decide (st.format = 9) = false := by simpa using hf
    simp only [hf9, Bool.or_self, Bool.false_eq_true, if_false]
    congr 1

/-- A digit field followed by a delimiter: the digits are collected, then the
delimiter is processed with `current` holding their value. -/
theorem ParseString.loop_field (ext : Bool) (k : ℕ) (n : ℕ) (c : QChar) (rest : List QChar)
    (st : ParseState) (hn : n < 10 ^ k) (hk : k ≤ 6) (he : st.error = false)
    (hf : st.format ≠ 9) (hc : st.current = 0) (hs : st.currentSize = 0) :
    ParseString.loop ext (zeroPrefixedDigits k n ++ c :: rest) st
      = if (ParseString.step ext c { st with current := n, currentSize := k }).error
            || decide ((ParseString.step ext c { st with current := n, currentSize := k }).format
                = 9)
        then ParseString.step ext c { st with current := n, currentSize := k }
        else ParseString.loop ext rest
          (ParseString.step ext c { st with current := n, currentSize := k }) := by
  rw [ParseString.loop_digits ext k (n : ℤ) (c :: rest) st (by positivity)
    (by exact_mod_cast hn) hk he hf hc hs]
  rfl

open ParseString in
theorem ParseString.edge_year_dash (ext : Bool) (y : ℕ) (rest : List QChar)
    (hy : y < 10 ^ (if ext then 6 else 4)) :
    loop ext (zeroPrefixedDigits (if ext then 6 else 4) y ++ 45 :: rest) init
      = loop ext rest (between 1 y 0 1 0 0 0 0 1 0) := by
  rw [loop_field ext _ y 45 rest _ hy (by split <;> omega) rfl (by decide) rfl rfl]
  cases ext <;> simp [step, field, delim, init, between]

open ParseString in
theorem ParseString.edge_year_end (ext : Bool) (y : ℕ) (c : QChar) (rest : List QChar)
    (hy : y < 10 ^ (if ext then 6 else 4)) (hc : c = 84 ∨ c = 90 ∨ c = 0) :
    loop ext (zeroPrefixedDigits (if ext then 6 else 4) y ++ c :: rest) init
      = if c = 84 then loop ext rest (between 3 y 0 1 0 0 0 0 1 0)
        else between 9 y 0 1 0 0 0 0 1 0 := by
  rw [loop_field ext _ y c rest _ hy (by split <;> omega) rfl (by decide) rfl rfl]
  rcases hc with h | h | h <;> subst h <;> cases ext <;>
    simp [step, field, delim, init, between]

open ParseString in
theorem ParseString.edge_month_dash (ext : Bool) (y : ℤ) (mo : ℕ) (rest : List QChar)
    (hmo : mo ≤ 12) :
    loop ext (zeroPrefixedDigits 2 mo ++ 45 :: rest) (between 1 y 0 1 0 0 0 0 1 0)
      = loop ext rest (between 2 y ((mo : ℤ) - 1) 1 0 0 0 0 1 0) := by
  have hw : wrapInt32 ((mo : ℤ) - 1) = (mo : ℤ) - 1 := wrapInt32_of_range _ (by omega) (by omega)
  have hb : ¬ ((11 : ℤ) < (mo : ℤ) - 1) := by omega
  rw [loop_field ext 2 mo 45 rest _ (by omega) (by omega) rfl (by simp [between]) rfl rfl]
  simp [step, field, delim, between, hw, hb]

open ParseString in
theorem ParseString.edge_month_end (ext : Bool) (y : ℤ) (mo : ℕ) (c : QChar)
    (rest : List QChar) (hmo : mo ≤ 12) (hc : c = 84 ∨ c = 90 ∨ c = 0) :
    loop ext (zeroPrefixedDigits 2 mo ++ c :: rest) (between 1 y 0 1 0 0 0 0 1 0)
      = if c = 84 then loop ext rest (between 3 y ((mo : ℤ) - 1) 1 0 0 0 0 1 0)
        else between 9 y ((mo : ℤ) - 1) 1 0 0 0 0 1 0 := by
  have hw : wrapInt32 ((mo : ℤ) - 1) = (mo : ℤ) - 1 := wrapInt32_of_range _ (by omega) (by omega)
  have hb : ¬ ((11 : ℤ) < (mo : ℤ) - 1) := by omega
  rw [loop_field ext 2 mo c rest _ (by omega) (by omega) rfl (by simp [between]) rfl rfl]
  rcases hc with h | h | h <;> subst h <;> simp [step, field, delim, between, hw, hb]

open ParseString in
theorem ParseString.edge_day_end (ext : Bool) (y mo : ℤ) (d : ℕ) (c : QChar)
    (rest : List QChar) (hd : d ≤ 31) (hc : c = 84 ∨ c = 90 ∨ c = 0) :
    loop ext (zeroPrefixedDigits 2 d ++ c :: rest) (between 2 y mo 1 0 0 0 0 1 0)
      = if c = 84 then loop ext rest (between 3 y mo d 0 0 0 0 1 0)
        else between 9 y mo d 0 0 0 0 1 0 := by
  have hb : ¬ ((31 : ℤ) < (d : ℤ)) := by omega
  rw [loop_field ext 2 d c rest _ (by omega) (by omega) rfl (by simp [between]) rfl rfl]
  rcases hc with h | h | h <;> subst h <;> simp [step, field, delim, between, hb]

open ParseString in
theorem ParseString.edge_hour (ext : Bool) (y mo d : ℤ) (h : ℕ) (rest : List QChar)
    (hh : h ≤ 24) :
    loop ext (zeroPrefixedDigits 2 h ++ 58 :: rest) (between 3 y mo d 0 0 0 0 1 0)
      = loop ext rest (between 4 y mo d h 0 0 0 1 0) := by
  have hb : ¬ ((24 : ℤ) < (h : ℤ)) := by omega
  rw [loop_field ext 2 h 58 rest _ (by omega) (by omega) rfl (by simp [between]) rfl rfl]
  simp [step, field, delim, between, hb]

open ParseString in
theorem ParseString.edge_minute_colon (ext : Bool) (y mo d h : ℤ) (mi : ℕ) (rest : List QChar)
    (hmi : mi ≤ 60) :
    loop ext (zeroPrefixedDigits 2 mi ++ 58 :: rest) (between 4 y mo d h 0 0 0 1 0)
      = loop ext rest (between 5 y mo d h mi 0 0 1 0) := by
  have hb : ¬ ((60 : ℤ) < (mi : ℤ)) := by omega
  rw [loop_field ext 2 mi 58 rest _ (by omega) (by omega) rfl (by simp [between]) rfl rfl]
  simp [step, field, delim, between, hb]

open ParseString in
theorem ParseString.edge_minute_end (ext : Bool) (y mo d h : ℤ) (mi : ℕ) (c : QChar)
    (rest : List QChar) (hmi : mi ≤ 60) (hc : c = 90 ∨ c = 0 ∨ c = 43 ∨ c = 45) :
    loop ext (zeroPrefixedDigits 2 mi ++ c :: rest) (between 4 y mo d h 0 0 0 1 0)
      = if c = 43 ∨ c = 45 then
          loop ext rest (between 7 y mo d h mi 0 0 (if c = 45 then -1 else 1) 0)
        else between 9 y mo d h mi 0 0 1 0 := by
  have hb : ¬ ((60 : ℤ) < (mi : ℤ)) := by omega
  rw [loop_field ext 2 mi c rest _ (by omega) (by omega) rfl (by simp [between]) rfl rfl]
  rcases hc with h | h | h | h <;> subst h <;> simp [step, field, delim, between, hb]

open ParseString in
theorem ParseString.edge_second_dot (ext : Bool) (y mo d h mi : ℤ) (s : ℕ) (rest : List QChar)
    (hs : s ≤ 60) :
    loop ext (zeroPrefixedDigits 2 s ++ 46 :: rest) (between 5 y mo d h mi 0 0 1 0)
      = loop ext rest (between 6 y mo d h mi s 0 1 0) := by
  have hb : ¬ ((60 : ℤ) < (s : ℤ)) := by omega
  rw [loop_field ext 2 s 46 rest _ (by omega) (by omega) rfl (by simp [between]) rfl rfl]
  simp [step, field, delim, between, hb]

open ParseString in
theorem ParseString.edge_second_end (ext : Bool) (y mo d h mi : ℤ) (s : ℕ) (c : QChar)
    (rest : List QChar) (hs : s ≤ 60) (hc : c = 90 ∨ c = 0 ∨ c = 43 ∨ c = 45) :
    loop ext (zeroPrefixedDigits 2 s ++ c :: rest) (between 5 y mo d h mi 0 0 1 0)
      = if c = 43 ∨ c = 45 then
          loop ext rest (between 7 y mo d h mi s 0 (if c = 45 then -1 else 1) 0)
        else between 9 y mo d h mi s 0 1 0 := by
  have hb : ¬ ((60 : ℤ) < (s : ℤ)) := by omega
  rw [loop_field ext 2 s c rest _ (by omega) (by omega) rfl (by simp [between]) rfl rfl]
  rcases hc with h | h | h | h <;> subst h <;> simp [step, field, delim, between, hb]

open ParseString in
theorem ParseString.edge_msec_end (ext : Bool) (y mo d h mi s : ℤ) (ms : ℕ) (c : QChar)
    (rest : List QChar) (hms : ms ≤ 999) (hc : c = 90 ∨ c = 0 ∨ c = 43 ∨ c = 45) :
    loop ext (zeroPrefixedDigits 3 ms ++ c :: rest) (between 6 y mo d h mi s 0 1 0)
      = if c = 43 ∨ c = 45 then
          loop ext rest (between 7 y mo d h mi s ms (if c = 45 then -1 else 1) 0)
        else between 9 y mo d h mi s ms 1 0 := by
  rw [loop_field ext 3 ms c rest _ (by omega) (by omega) rfl (by simp [between]) rfl rfl]
  rcases hc with h | h | h | h <;> subst h <;> simp [step, field, delim, between]

open ParseString in
theorem ParseString.edge_zone_hour (ext : Bool) (y mo d h mi s ms os : ℤ) (zh : ℕ)
    (rest : List QChar) (hzh : zh ≤ 23) :
    loop ext (zeroPrefixedDigits 2 zh ++ 58 :: rest) (between 7 y mo d h mi s ms os 0)
      = loop ext rest (between 8 y mo d h mi s ms os ((zh : ℤ) * 60)) := by
  have hw : wrapInt32 ((zh : ℤ) * 60) = (zh : ℤ) * 60 := wrapInt32_of_range _ (by omega) (by omega)
  have hb : ¬ ((1380 : ℤ) < (zh : ℤ) * 60) := by omega
  rw [loop_field ext 2 zh 58 rest _ (by omega) (by omega) rfl (by simp [between]) rfl rfl]
  simp [step, field, delim, between, hw, hb]

open ParseString in
theorem ParseString.edge_zone_minute (ext : Bool) (y mo d h mi s ms os : ℤ) (zh zm : ℕ)
    (rest : List QChar) (hzh : zh ≤ 23) (hzm : zm ≤ 59) :
    loop ext (zeroPrefixedDigits 2 zm ++ 0 :: rest) (between 8 y mo d h mi s ms os ((zh : ℤ) * 60))
      = between 9 y mo d h mi s ms os ((zh : ℤ) * 60 + zm) := by
  have hw : wrapInt32 ((zh : ℤ) * 60 + zm) = (zh : ℤ) * 60 + zm :=
    wrapInt32_of_range _ (by omega) (by omega)
  have hb : ¬ ((60 : ℤ) ≤ (zm : ℤ)) := by omega
  rw [loop_field ext 2 zm 0 rest _ (by omega) (by omega) rfl (by simp [between]) rfl rfl]
  simp [step, field, delim, between, hw, hb]

open ParseString IsoString in
/-- The date part of a strict string, up to the character that ends it. -/
theorem ParseString.loop_date (ext : Bool) (g : IsoString) (c : QChar) (rest : List QChar)
    (hy : g.year < 10 ^ (if ext then 6 else 4)) (hmo : g.monthField ≤ 12)
    (hd : g.dayField ≤ 31) (hc : c = 84 ∨ c = 90 ∨ c = 0) :
    loop ext (zeroPrefixedDigits (if ext then 6 else 4) g.year
        ++ (renderDate g.date ++ c :: rest)) init
      = if c = 84 then
          loop ext rest (between 3 g.year ((g.monthField : ℤ) - 1) g.dayField 0 0 0 0 1 0)
        else between 9 g.year ((g.monthField : ℤ) - 1) g.dayField 0 0 0 0 1 0 := by
  unfold monthField dayField at *
  rcases hdate : g.date with _ | ⟨mo, _ | d⟩
  · simp only [hdate, renderDate, List.nil_append]
    rw [edge_year_end ext g.year c rest hy hc]
    simp
  · simp only [hdate] at hmo
    simp only [hdate, renderDate, List.cons_append]
    rw [edge_year_dash ext g.year _ hy, edge_month_end ext _ mo c rest hmo hc]
    simp
  · simp only [hdate] at hmo hd
    simp only [hdate, renderDate, List.cons_append, List.append_assoc]
    rw [edge_year_dash ext g.year _ hy, edge_month_dash ext _ mo _ hmo,
      edge_day_end ext _ _ d c rest hd hc]

open ParseString IsoString in
/-- The time part of a strict string after its `T`, up to the character that
ends it. -/
theorem ParseString.loop_time (ext : Bool) (y mo d : ℤ) (g : IsoString) (body : List QChar)
    (c : QChar) (rest : List QChar) (hbody : renderTime g.time = 84 :: body)
    (hh : g.hourField ≤ 24) (hmi : g.minuteField ≤ 60) (hs : g.secondField ≤ 60)
    (hms : g.msecField ≤ 999) (hc : c = 90 ∨ c = 0 ∨ c = 43 ∨ c = 45) :
    loop ext (body ++ c :: rest) (between 3 y mo d 0 0 0 0 1 0)
      = if c = 43 ∨ c = 45 then
          loop ext rest (between 7 y mo d g.hourField g.minuteField g.secondField g.msecField
            (if c = 45 then -1 else 1) 0)
        else between 9 y mo d g.hourField g.minuteField g.secondField g.msecField 1 0 := by
  unfold hourField minuteField secondField msecField at *
  rcases htime : g.time with _ | ⟨h, mi, _ | ⟨s, _ | ms⟩⟩
  · rw [htime] at hbody; simp [renderTime] at hbody
  · simp only [htime] at hh hmi
    rw [htime] at hbody
    simp only [renderTime, List.cons_append, List.cons.injEq, true_and] at hbody
    subst hbody
    simp only [List.append_assoc, List.cons_append]
    rw [edge_hour ext _ _ _ h _ hh, edge_minute_end ext _ _ _ _ mi c rest hmi hc]
    simp
  · simp only [htime] at hh hmi hs
    rw [htime] at hbody
    simp only [renderTime, List.cons_append, List.cons.injEq, true_and, List.append_assoc]
      at hbody
    subst hbody
    simp only [List.append_assoc, List.cons_append]
    rw [edge_hour ext _ _ _ h _ hh, edge_minute_colon ext _ _ _ _ mi _ hmi,
      edge_second_end ext _ _ _ _ _ s c rest hs hc]
    simp
  · simp only [htime] at hh hmi hs hms
    rw [htime] at hbody
    simp only [renderTime, List.cons_append, List.cons.injEq, true_and, List.append_assoc]
      at hbody
    subst hbody
    simp only [List.append_assoc, List.cons_append]
    rw [edge_hour ext _ _ _ h _ hh, edge_minute_colon ext _ _ _ _ mi _ hmi,
      edge_second_dot ext _ _ _ _ _ s _ hs, edge_msec_end ext _ _ _ _ _ _ ms c rest hms hc]

open ParseString in
/-- The `HH:mm` of a zone offset, up to the end of the string. -/
theorem ParseString.loop_zone (ext : Bool) (y mo d h mi s ms os : ℤ) (zh zm : ℕ)
    (hzh : zh ≤ 23) (hzm : zm ≤ 59) :
    loop ext (zeroPrefixedDigits 2 zh ++ 58 :: (zeroPrefixedDigits 2 zm ++ [0]))
        (between 7 y mo d h mi s ms os 0)
      = between 9 y mo d h mi s ms os ((zh : ℤ) * 60 + zm) := by
  rw [edge_zone_hour ext _ _ _ _ _ _ _ _ zh _ hzh,
    edge_zone_minute ext _ _ _ _ _ _ _ _ zh zm [] hzh hzm]

theorem zeroPrefixedDigits_head (k : ℕ) :
    ∀ n : ℤ, 0 ≤ n → ∃ (c : ℕ) (r : List QChar),
      zeroPrefixedDigits (k + 1) n = c :: r ∧ 48 ≤ c ∧ c ≤ 57 := by
  induction k with
  | zero =>
    intro n h0
    obtain ⟨d1, d2, _⟩ := QChar.ofInt_digit n h0
    exact ⟨_, [], rfl, d1, d2⟩
  | succ k ih =>
    intro n h0
    have hq : 0 ≤ Int.tdiv n 10 := by
      rw [Int.tdiv_eq_ediv h0 (show (0 : ℤ) ≤ 10 by norm_num)]; omega
    obtain ⟨c, r, hcr, h1, h2⟩ := ih (Int.tdiv n 10) hq
    refine ⟨c, r ++ [QChar.ofInt (Int.tmod n 10 + 48)], ?_, h1, h2⟩
    show zeroPrefixedDigits (k + 1) (Int.tdiv n 10) ++ [QChar.ofInt (Int.tmod n 10 + 48)] = _
    rw [hcr]; rfl

theorem ParseString.scan_unsigned (c : ℕ) (r : List QChar) (h1 : c ≠ 43) (h2 : c ≠ 45) :
    ParseString.scan (c :: r) = (false, 1, ParseString.loop false (c :: r ++ [0]) ParseString.init) := by
  unfold ParseString.scan
  split
  · rename_i h; injection h with h _; exact absurd h h1
  · rename_i h; injection h with h _; exact absurd h h2
  · rfl

theorem ParseString.strict_of_scan (s : QString) (ext : Bool) (sign : ℤ)
    (y mo d h mi sec ms os o : ℤ)
    (hscan : ParseString.scan s = (ext, sign, ParseString.between 9 y mo d h mi sec ms os o)) :
    ParseString.strict s
      = some (MakeDate (MakeDay (ofInt (y * sign)) (ofInt mo) (ofInt d))
          (MakeTime (ofInt h) (ofInt mi) (ofInt sec) (ofInt ms)) - ofInt (o * os * 60 * 1000)) := by
  unfold ParseString.strict
  rw [hscan]
  simp [ParseString.between]

open ParseString IsoString in
/-- The loop over a whole strict string (sign already consumed) ends without
error, with every field stored. -/
theorem ParseString.loop_render (ext : Bool) (g : IsoString)
    (hy : g.year < 10 ^ (if ext then 6 else 4)) (hmo : g.monthField ≤ 12)
    (hd : g.dayField ≤ 31) (hh : g.hourField ≤ 24) (hmi : g.minuteField ≤ 60)
    (hs : g.secondField ≤ 60) (hms : g.msecField ≤ 999) (hzh : g.zoneFields.1 ≤ 23)
    (hzm : g.zoneFields.2 ≤ 59) (hz : g.hasOffset = true → g.time.isSome = true) :
    loop ext (zeroPrefixedDigits (if ext then 6 else 4) g.year
        ++ (renderDate g.date ++ (renderTime g.time ++ (renderZone g.zone ++ [0])))) init
      = between 9 g.year ((g.monthField : ℤ) - 1) g.dayField g.hourField g.minuteField
          g.secondField g.msecField g.zoneSign ((g.zoneFields.1 : ℤ) * 60 + g.zoneFields.2) := by
  rcases htime : g.time with _ | t
  · -- no time part: the zone is absent or `Z`
    have h0 : g.hourField = 0 ∧ g.minuteField = 0 ∧ g.secondField = 0 ∧ g.msecField = 0 := by
      simp [hourField, minuteField, secondField, msecField, htime]
    rcases hzone : g.zone with _ | _ | ⟨neg, zh, zm⟩
    · simp only [renderTime, renderZone, List.nil_append]
      rw [loop_date ext g 0 [] hy hmo hd (by simp)]
      simp [h0, zoneSign, zoneFields, hzone]
    · simp only [renderTime, renderZone, List.nil_append, List.singleton_append]
      rw [loop_date ext g 90 [0] hy hmo hd (by simp)]
      simp [h0, zoneSign, zoneFields, hzone]
    · simp [hasOffset, hzone, htime] at hz
  · have hbody : ∃ body, renderTime g.time = 84 :: body := by
      rw [htime]
      rcases t with ⟨h, mi, _ | ⟨s, _ | ms⟩⟩ <;> exact ⟨_, rfl⟩
    obtain ⟨body, hbody⟩ := hbody
    rw [← htime, hbody]
    simp only [List.cons_append]
    rw [loop_date ext g 84 _ hy hmo hd (by simp), if_pos rfl]
    rcases hzone : g.zone with _ | _ | ⟨neg, zh, zm⟩
    · simp only [renderZone, List.nil_append]
      rw [loop_time ext _ _ _ g body 0 [] hbody hh hmi hs hms (by simp)]
      simp [zoneSign, zoneFields, hzone]
    · simp only [renderZone, List.singleton_append]
      rw [loop_time ext _ _ _ g body 90 [0] hbody hh hmi hs hms (by simp)]
      simp [zoneSign, zoneFields, hzone]
    · simp only [zoneFields, hzone] at hzh hzm
      cases neg
      · simp only [renderZone, Bool.false_eq_true, if_false, List.cons_append, List.append_assoc]
        rw [loop_time ext _ _ _ g body 43 _ hbody hh hmi hs hms (by simp)]
        simp only [true_or, if_true]
        rw [if_neg (by decide), loop_zone ext _ _ _ _ _ _ _ _ zh zm hzh hzm]
        simp [zoneSign, zoneFields, hzone]
      · simp only [renderZone, if_true, List.cons_append, List.append_assoc]
        rw [loop_time ext _ _ _ g body 45 _ hbody hh hmi hs hms (by simp)]
        simp only [or_true, if_true]
        rw [loop_zone ext _ _ _ _ _ _ _ _ zh zm hzh hzm]
        simp [zoneSign, zoneFields, hzone]

open ParseString IsoString in
/-- The state in which the scanning loop is left on a string of the strict
grammar whose numeric zone offset, if any, follows a time part. -/
theorem ParseString.scan_render (g : IsoString) (hr : g.inRange)
    (hz : g.hasOffset = true → g.time.isSome = true) :
    scan g.render
      = (g.sign.isSome, (if g.sign = some true then -1 else 1),
          between 9 g.year ((g.monthField : ℤ) - 1) g.dayField g.hourField g.minuteField
            g.secondField g.msecField g.zoneSign
            ((g.zoneFields.1 : ℤ) * 60 + g.zoneFields.2)) := by
  obtain ⟨hy, hmo, hd, hh, hmi, hs, hms, hzh, hzm⟩ := hr
  rcases hsign : g.sign with _ | neg
  · rw [hsign] at hy
    simp only [Option.isSome_none, Bool.false_eq_true, if_false] at hy
    obtain ⟨c, r, hcr, h1, h2⟩ := zeroPrefixedDigits_head 3 (g.year : ℤ) (by positivity)
    have hrender : g.render = c :: (r ++ (renderDate g.date ++ (renderTime g.time
        ++ renderZone g.zone))) := by
      simp only [render, renderYear, hsign, hcr, List.cons_append, List.append_assoc]
    rw [hrender, scan_unsigned c _ (by omega) (by omega)]
    have hl := loop_render false g (by simpa using hy) hmo hd hh hmi hs hms hzh hzm hz
    simp only [Bool.false_eq_true, if_false] at hl
    rw [hcr] at hl
    simp only [List.cons_append, List.append_assoc] at hl ⊢
    rw [hl]
    simp
  · rw [hsign] at hy
    simp only [Option.isSome_some, if_true] at hy
    have hl := loop_render true g (by simpa using hy) hmo hd hh hmi hs hms hzh hzm hz
    simp only [if_true] at hl
    cases neg
    · have hrender : g.render = 43 :: (zeroPrefixedDigits 6 g.year ++ (renderDate g.date
          ++ (renderTime g.time ++ renderZone g.zone))) := by
        simp [render, renderYear, hsign]
      rw [hrender]
      show (true, (1 : ℤ), loop true ((zeroPrefixedDigits 6 g.year ++ (renderDate g.date
          ++ (renderTime g.time ++ renderZone g.zone))) ++ [0]) init) = _
      simp only [List.append_assoc]
      rw [hl]
      simp
    · have hrender : g.render = 45 :: (zeroPrefixedDigits 6 g.year ++ (renderDate g.date
          ++ (renderTime g.time ++ renderZone g.zone))) := by
        simp [render, renderYear, hsign]
      rw [hrender]
      show (true, (-1 : ℤ), loop true ((zeroPrefixedDigits 6 g.year ++ (renderDate g.date
          ++ (renderTime g.time ++ renderZone g.zone))) ++ [0]) init) = _
      simp only [List.append_assoc]
      rw [hl]
      simp

/-- On a string of the strict grammar with in-range fields whose numeric zone
offset, if present, follows a time part, the strict path succeeds and returns
the value that the grammar gives the string. -/
theorem ParseString.strict_accepts (g : IsoString) (hr : g.inRange)
    (hz : g.hasOffset = true → g.time.isSome = true) :
    ParseString.strict g.render = some g.value := by
  rw [ParseString.strict_of_scan _ _ _ _ _ _ _ _ _ _ _ _ (ParseString.scan_render g hr hz)]
  have hyear : (g.year : ℤ) * (if g.sign = some true then -1 else 1) = g.signedYear := by
    unfold IsoString.signedYear
    rcases g.sign with _ | _ | _ <;> simp
  have hzone : ((g.zoneFields.1 : ℤ) * 60 + g.zoneFields.2) * g.zoneSign * 60 * 1000
      = g.zoneMinutes * 60000 := by
    unfold IsoString.zoneMinutes; ring
  rw [hyear, hzone]
  rfl

open ParseString in
theorem ParseString.error_plus (ext : Bool) (f : ℕ) (y mo d : ℤ) (n : ℕ) (rest : List QChar)
    (hn : n < 100) (hf : f = 1 ∨ f = 2) :
    (loop ext (zeroPrefixedDigits 2 n ++ 43 :: rest) (between f y mo d 0 0 0 0 1 0)).error
      = true := by
  rw [loop_field ext 2 n 43 rest _ (by omega) (by omega) rfl
    (by rcases hf with h | h <;> subst h <;> simp [between]) rfl rfl]
  rcases hf with h | h <;> subst h <;> simp [step, field, delim, between]

open ParseString in
theorem ParseString.error_colon (ext : Bool) (f : ℕ) (y mo d : ℤ) (n : ℕ) (rest : List QChar)
    (hn : n < 100) (hf : f = 1 ∨ f = 2) :
    (loop ext (zeroPrefixedDigits 2 n ++ 58 :: rest) (between f y mo d 0 0 0 0 1 0)).error
      = true := by
  rw [loop_field ext 2 n 58 rest _ (by omega) (by omega) rfl
    (by rcases hf with h | h <;> subst h <;> simp [between]) rfl rfl]
  rcases hf with h | h <;> subst h <;> simp [step, field, delim, between]

open ParseString in
theorem ParseString.error_day_dash (ext : Bool) (y mo d : ℤ) (n : ℕ) (rest : List QChar)
    (hn : n < 100) :
    (loop ext (zeroPrefixedDigits 2 n ++ 45 :: rest) (between 2 y mo d 0 0 0 0 1 0)).error
      = true := by
  rw [loop_field ext 2 n 45 rest _ (by omega) (by omega) rfl (by simp [between]) rfl rfl]
  simp [step, field, delim, between]

open ParseString in
theorem ParseString.error_year_plus (ext : Bool) (y : ℕ) (rest : List QChar)
    (hy : y < 10 ^ (if ext then 6 else 4)) :
    (loop ext (zeroPrefixedDigits (if ext then 6 else 4) y ++ 43 :: rest) init).error = true := by
  rw [loop_field ext _ y 43 rest _ hy (by split <;> omega) rfl (by decide) rfl rfl]
  cases ext <;> simp [step, field, delim, init]

open ParseString IsoString in
/-- A date-only string followed by a numeric zone offset stops the loop with
`error` set. -/
theorem ParseString.loop_reject (ext : Bool) (g : IsoString)
    (hy : g.year < 10 ^ (if ext then 6 else 4)) (hmo : g.monthField ≤ 12)
    (hd : g.dayField ≤ 31) (hzh : g.zoneFields.1 ≤ 23)
    (htime : g.time = none) (hz : g.hasOffset = true) :
    (loop ext (zeroPrefixedDigits (if ext then 6 else 4) g.year
        ++ (renderDate g.date ++ (renderTime g.time ++ (renderZone g.zone ++ [0])))) init).error
      = true := by
  rcases hzone : g.zone with _ | _ | ⟨neg, zh, zm⟩
  · simp [hasOffset, hzone] at hz
  · simp [hasOffset, hzone] at hz
  · simp only [zoneFields, hzone] at hzh
    unfold monthField dayField at *
    rw [htime]
    rcases hdate : g.date with _ | ⟨mo, _ | d⟩ <;> cases neg <;>
      simp only [hdate] at hmo hd <;>
      simp only [renderDate, renderTime, renderZone, List.nil_append, List.cons_append,
        List.append_assoc, Bool.false_eq_true, if_false, if_true]
    · exact error_year_plus ext g.year _ hy
    · rw [edge_year_dash ext g.year _ hy]
      exact error_colon ext 1 _ _ _ zh _ (by omega) (Or.inl rfl)
    · rw [edge_year_dash ext g.year _ hy]
      exact error_plus ext 1 _ _ _ mo _ (by omega) (Or.inl rfl)
    · rw [edge_year_dash ext g.year _ hy, edge_month_dash ext _ mo _ hmo]
      exact error_colon ext 2 _ _ _ zh _ (by omega) (Or.inr rfl)
    · rw [edge_year_dash ext g.year _ hy, edge_month_dash ext _ mo _ hmo]
      exact error_plus ext 2 _ _ _ d _ (by omega) (Or.inr rfl)
    · rw [edge_year_dash ext g.year _ hy, edge_month_dash ext _ mo _ hmo]
      exact error_day_dash ext _ _ _ d _ (by omega)

open ParseString IsoString in
theorem ParseString.strict_reject (g : IsoString) (hr : g.inRange) (htime : g.time = none)
    (hz : g.hasOffset = true) : ParseString.strict g.render = none := by
  obtain ⟨hy, hmo, hd, _, _, _, _, hzh, _⟩ := hr
  have key : (scan g.render).2.2.error = true := by
    rcases hsign : g.sign with _ | neg
    · rw [hsign] at hy
      simp only [Option.isSome_none, Bool.false_eq_true, if_false] at hy
      obtain ⟨c, r, hcr, h1, h2⟩ := zeroPrefixedDigits_head 3 (g.year : ℤ) (by positivity)
      have hrender : g.render = c :: (r ++ (renderDate g.date ++ (renderTime g.time
          ++ renderZone g.zone))) := by
        simp only [render, renderYear, hsign, hcr, List.cons_append, List.append_assoc]
      rw [hrender, scan_unsigned c _ (by omega) (by omega)]
      have hl := loop_reject false g (by simpa using hy) hmo hd hzh htime hz
      simp only [Bool.false_eq_true, if_false] at hl
      rw [hcr] at hl
      simp only [List.cons_append, List.append_assoc] at hl ⊢
      exact hl
    · rw [hsign] at hy
      simp only [Option.isSome_some, if_true] at hy
      have hl := loop_reject true g (by simpa using hy) hmo hd hzh htime hz
      simp only [if_true] at hl
      cases neg
      · have hrender : g.render = 43 :: (zeroPrefixedDigits 6 g.year ++ (renderDate g.date
            ++ (renderTime g.time ++ renderZone g.zone))) := by
          simp [render, renderYear, hsign]
        rw [hrender]
        show (loop true ((zeroPrefixedDigits 6 g.year ++ (renderDate g.date
            ++ (renderTime g.time ++ renderZone g.zone))) ++ [0]) init).error = true
        simp only [List.append_assoc]
        exact hl
      · have hrender : g.render = 45 :: (zeroPrefixedDigits 6 g.year ++ (renderDate g.date
            ++ (renderTime g.time ++ renderZone g.zone))) := by
          simp [render, renderYear, hsign]
        rw [hrender]
        show (loop true ((zeroPrefixedDigits 6 g.year ++ (renderDate g.date
            ++ (renderTime g.time ++ renderZone g.zone))) ++ [0]) init).error = true
        simp only [List.append_assoc]
        exact hl
  unfold ParseString.strict
  rcases hs : scan g.render with ⟨e, sg, st⟩
  rw [hs] at key
  simp only [] at key
  simp [key]

/-- C10 as stated fails: `2023-06-15+05:00` is a string of the strict grammar
with in-range fields, a date followed by a zone offset, and the strict path of
`ParseString` does not return its value but fails on it. -/
theorem C10_counterexample :
    IsoString.dateOnlyWithOffset.inRange ∧
    IsoString.dateOnlyWithOffset.render = QStringLiteral "2023-06-15+05:00" ∧
    ParseString.strict (QStringLiteral "2023-06-15+05:00") = none ∧
    ParseString.strict IsoString.dateOnlyWithOffset.render
      ≠ some IsoString.dateOnlyWithOffset.value := by
  have h : ParseString.strict (QStringLiteral "2023-06-15+05:00") = none := by decide
  have hrender : IsoString.dateOnlyWithOffset.render = QStringLiteral "2023-06-15+05:00" := by
    decide
  refine ⟨by decide, hrender, h, ?_⟩
  rw [hrender, h]
  exact fun hc => Option.noConfusion hc

/-- C10 (amended): for every string of the strict grammar with in-range
fields, (1) when its zone designator is absent, `Z`, or a numeric offset that
follows a time part, the strict path of `ParseString` succeeds and returns
`MakeDate (MakeDay year (MM - 1) DD) (MakeTime HH mm ss sss)` less the zone
offset, omitted fields counting as month 01, day 01 and time 00:00:00.000;
(2) when it is a date-only string followed by a numeric offset, the strict
path fails. -/
theorem C10_strict_on_grammar (g : IsoString) (hr : g.inRange) :
    ((g.hasOffset = true → g.time.isSome = true) →
      ParseString.strict g.render = some g.value) ∧
    (g.hasOffset = true → g.time = none → ParseString.strict g.render = none) :=
  ⟨fun hz => ParseString.strict_accepts g hr hz,
   fun hz htime => ParseString.strict_reject g hr htime hz⟩

/-- Witness of C10 (amended) on `-000001-06-15T10:30:00.000-05:30`. -/
theorem C10_strict_on_grammar_witness :
    IsoString.fullWithOffset.inRange ∧
    (IsoString.fullWithOffset.hasOffset = true → IsoString.fullWithOffset.time.isSome = true) ∧
    ParseString.strict IsoString.fullWithOffset.render = some IsoString.fullWithOffset.value :=
  ⟨by decide, by decide,
   (C10_strict_on_grammar IsoString.fullWithOffset (by decide)).1 (by decide)⟩

/-- A clock field: the C remainder of a whole number, converted to `int` and
made non-negative, is the remainder of the floored division. -/
theorem clockField (n m : ℤ) (hm0 : 0 < m) (hm1 : m ≤ 1000) :
    (if 0 ≤ toInt (fmod (fin (n : ℚ)) (fin (m : ℚ))) then toInt (fmod (fin (n : ℚ)) (fin (m : ℚ)))
     else toInt (fmod (fin (n : ℚ)) (fin (m : ℚ))) + m) = n % m := by
  have hmq : (0 : ℚ) < m := by exact_mod_cast hm0
  have hnorm := fmod_normalise (n : ℚ) (m : ℚ) hmq
  have hlt := Dbl.truncQ_sub_lt ((n : ℚ) / m)
  rw [floor_intCast_div_pos n m hm0] at hnorm
  set z : ℤ := truncQ ((n : ℚ) / m) with hz
  -- the remainder is a whole number below `m` in magnitude
  have hr : (n : ℚ) - m * (z : ℚ) = ((n - m * z : ℤ) : ℚ) := by push_cast; ring
  have hbound : |((n - m * z : ℤ) : ℚ)| < m := by
    rw [← hr]
    have : (n : ℚ) - m * z = m * ((n : ℚ) / m - z) := by field_simp
    rw [this, abs_mul, abs_of_pos hmq]
    calc (m : ℚ) * |(n : ℚ) / m - z| < m * 1 := by
          apply mul_lt_mul_of_pos_left hlt hmq
      _ = m := mul_one _
  have hbz : |n - m * z| < m := by exact_mod_cast hbound
  rw [abs_lt] at hbz
  rw [Dbl.fmod_fin _ _ (ne_of_gt hmq), hr, Dbl.toInt_intCast _ (by omega) (by omega)]
  rw [hr] at hnorm
  have hq : ((if 0 ≤ n - m * z then n - m * z else n - m * z + m : ℤ) : ℚ)
      = ((n % m : ℤ) : ℚ) := by
    by_cases h0 : 0 ≤ n - m * z
    · have h0q : (0 : ℚ) ≤ ((n - m * z : ℤ) : ℚ) := by exact_mod_cast h0
      rw [if_pos h0q] at hnorm
      rw [if_pos h0, hnorm, Int.emod_def]; push_cast; ring
    · have h0q : ¬ (0 : ℚ) ≤ ((n - m * z : ℤ) : ℚ) := by
        intro h; apply h0; exact_mod_cast h
      rw [if_neg h0q] at hnorm
      have hc : ((n - m * z + m : ℤ) : ℚ) = ((n - m * z : ℤ) : ℚ) + (m : ℚ) := by push_cast; ring
      rw [if_neg h0, hc, hnorm, Int.emod_def]; push_cast; ring
  exact_mod_cast hq

theorem HourFromTime_int (t : ℤ) : HourFromTime (fin (t : ℚ)) = t / 3600000 % 24 := by
  have hfl := floor_intCast_div_pos t 3600000 (by norm_num)
  have h := clockField (t / 3600000) 24 (by norm_num) (by norm_num)
  have ht : toInt (fin 24) = 24 := by
    have := Dbl.toInt_intCast 24 (by norm_num) (by norm_num)
    simpa using this
  push_cast at hfl h
  simp only [HourFromTime, msPerHour, HoursPerDay, ht]
  rw [Dbl.fin_div _ _ (by norm_num), Dbl.floor_fin, hfl]
  exact h

theorem MinFromTime_int (t : ℤ) : MinFromTime (fin (t : ℚ)) = t / 60000 % 60 := by
  have hfl := floor_intCast_div_pos t 60000 (by norm_num)
  have h := clockField (t / 60000) 60 (by norm_num) (by norm_num)
  have ht : toInt (fin 60) = 60 := by
    have := Dbl.toInt_intCast 60 (by norm_num) (by norm_num)
    simpa using this
  push_cast at hfl h
  simp only [MinFromTime, msPerMinute, MinutesPerHour, ht]
  rw [Dbl.fin_div _ _ (by norm_num), Dbl.floor_fin, hfl]
  exact h

theorem SecFromTime_int (t : ℤ) : SecFromTime (fin (t : ℚ)) = t / 1000 % 60 := by
  have hfl := floor_intCast_div_pos t 1000 (by norm_num)
  have h := clockField (t / 1000) 60 (by norm_num) (by norm_num)
  have ht : toInt (fin 60) = 60 := by
    have := Dbl.toInt_intCast 60 (by norm_num) (by norm_num)
    simpa using this
  push_cast at hfl h
  simp only [SecFromTime, msPerSecond, SecondsPerMinute, ht]
  rw [Dbl.fin_div _ _ (by norm_num), Dbl.floor_fin, hfl]
  exact h

theorem msFromTime_int (t : ℤ) : msFromTime (fin (t : ℚ)) = t % 1000 := by
  have h := clockField t 1000 (by norm_num) (by norm_num)
  have ht : toInt (fin 1000) = 1000 := by
    have := Dbl.toInt_intCast 1000 (by norm_num) (by norm_num)
    simpa using this
  push_cast at h
  simp only [msFromTime, msPerSecond, ht]
  exact h

theorem dateFromDay_range (leap : Bool) (d : ℤ) (h0 : 0 ≤ d)
    (h1 : d < if leap then 366 else 365) :
    1 ≤ d - monthStartZ leap (monthFromDayZ leap d) + 1 ∧
    d - monthStartZ leap (monthFromDayZ leap d) + 1
      ≤ monthLength leap (monthFromDayZ leap d) := by
  obtain ⟨m0, m1⟩ := monthFromDayZ_range leap d
  have hm : monthFromDayZ leap d = 0 ∨ monthFromDayZ leap d = 1 ∨ monthFromDayZ leap d = 2
      ∨ monthFromDayZ leap d = 3 ∨ monthFromDayZ leap d = 4 ∨ monthFromDayZ leap d = 5
      ∨ monthFromDayZ leap d = 6 ∨ monthFromDayZ leap d = 7 ∨ monthFromDayZ leap d = 8
      ∨ monthFromDayZ leap d = 9 ∨ monthFromDayZ leap d = 10 ∨ monthFromDayZ leap d = 11 := by
    omega
  rcases hm with h | h | h | h | h | h | h | h | h | h | h | h <;> rw [h] <;>
    unfold monthFromDayZ at h <;> cases leap <;>
    simp only [monthStartZ, monthLength, Bool.false_eq_true, if_false, if_true, add_zero] at h h1 ⊢ <;>
    norm_num <;> omega

theorem yearFromTimeZ_range (t : ℤ) (h1 : -8640000000000000 ≤ t) (h2 : t ≤ 8640000000000000) :
    -271821 ≤ yearFromTimeZ t ∧ yearFromTimeZ t ≤ 275760 := by
  obtain ⟨b1, b2⟩ := yearFromTimeZ_bounds t
  have hlo : dayFromYearZ (-271821) = -100000109 := by decide
  have hhi : dayFromYearZ 275761 = 100000110 := by decide
  constructor
  · by_contra hc
    have := dayFromYearZ_mono (show yearFromTimeZ t + 1 ≤ -271821 by omega)
    omega
  · by_contra hc
    have := dayFromYearZ_mono (show (275761 : ℤ) ≤ yearFromTimeZ t by omega)
    omega

theorem clock_sum (t D s d : ℤ) (hd : t / 86400000 - D - s + 1 = d) :
    (D + s + (d - 1)) * 86400000
      + ((t / 3600000 % 24 * 60 + t / 60000 % 60) * 60 + t / 1000 % 60) * 1000 + t % 1000 = t := by
  omega

open IsoString in
/-- The string that `toISOString` returns for a whole number of milliseconds in
the valid range is a string of the strict grammar, in range, ending in `Z`,
and the value that the grammar gives it is the time value itself. -/
theorem toISOString_render (t : ℤ) (ht : |t| ≤ 8640000000000000) :
    ∃ g : IsoString, g.inRange ∧ g.hasOffset = false ∧
      method_toISOString (some (fin (t : ℚ))) = MethodResult.string g.render ∧
      g.value = fin (t : ℚ) := by
  obtain ⟨ht1, ht2⟩ := abs_le.mp ht
  have hfl : ⌊(t : ℚ)⌋ = t := Int.floor_intCast t
  have hlo : -60000000000000000000 ≤ ⌊(t : ℚ)⌋ := by rw [hfl]; omega
  have hhi : ⌊(t : ℚ)⌋ ≤ 60000000000000000000 := by rw [hfl]; omega
  obtain ⟨y1, y2⟩ := yearFromTimeZ_range t ht1 ht2
  obtain ⟨r0, r1⟩ := dayWithinYear_range t
  have r1' : t / 86400000 - dayFromYearZ (yearFromTimeZ t)
      < if isLeapZ (yearFromTimeZ t) then 366 else 365 := r1
  obtain ⟨m0, m1⟩ := monthFromDayZ_range (isLeapZ (yearFromTimeZ t))
    (t / 86400000 - dayFromYearZ (yearFromTimeZ t))
  obtain ⟨d0, d1⟩ := dateFromDay_range (isLeapZ (yearFromTimeZ t))
    (t / 86400000 - dayFromYearZ (yearFromTimeZ t)) r0 r1'
  have d2 := le_trans d1 (monthLength_le _ _)
  have hY := YearFromTime_fin (t : ℚ) hlo hhi
  have hM := MonthFromTime_fin (t : ℚ) hlo hhi
  have hD := DateFromTime_fin (t : ℚ) hlo hhi
  rw [hfl] at hY hM hD
  generalize hy : yearFromTimeZ t = y at *
  generalize hm : monthFromDayZ (isLeapZ y) (t / 86400000 - dayFromYearZ y) = m at *
  generalize hd : t / 86400000 - dayFromYearZ y - monthStartZ (isLeapZ y) m + 1 = d at *
  have hyi : toInt (fin (y : ℚ)) = y := Dbl.toInt_intCast y (by omega) (by omega)
  have hmi : toInt (fin (m : ℚ)) = m := Dbl.toInt_intCast m (by omega) (by omega)
  have hdi : toInt (fin (d : ℚ)) = d := Dbl.toInt_intCast d (by omega) (by omega)
  have hw : wrapInt32 |y| = |y| := by
    have := abs_le.mpr (show -275760 ≤ y ∧ y ≤ 275760 by omega) |>.trans (by norm_num : (275760 : ℤ) ≤ 2147483647)
    exact wrapInt32_of_range _ (by have := abs_nonneg y; omega) this
  have habs : |y| = ((y.natAbs : ℕ) : ℤ) := (Int.natCast_natAbs y).symm
  have hy6 : y.natAbs < 1000000 := by omega
  refine ⟨⟨if y < 0 then some true else if y > 9999 then some false else none,
        y.natAbs, some ((m + 1).toNat, some d.toNat),
        some ((t / 3600000 % 24).toNat, (t / 60000 % 60).toNat,
          some ((t / 1000 % 60).toNat, some (t % 1000).toNat)), IsoZone.utc⟩, ?_, rfl, ?_, ?_⟩
  · -- every field is in range
    unfold inRange monthField dayField hourField minuteField secondField msecField zoneFields
    simp only []
    refine ⟨?_, by omega, by omega, by omega, by omega, by omega, by omega, by omega, by omega⟩
    by_cases hneg : y < 0
    · simp only [hneg, if_true, Option.isSome_some]; omega
    · by_cases hbig : y > 9999
      · simp only [hneg, hbig, if_false, if_true, Option.isSome_some]; omega
      · simp only [hneg, hbig, if_false, Option.isSome_none, Bool.false_eq_true]; omega
  · -- the string is the one that the formatter writes
    have c1 : (((m + 1).toNat : ℕ) : ℤ) = m + 1 := Int.toNat_of_nonneg (by omega)
    have c2 : ((d.toNat : ℕ) : ℤ) = d := Int.toNat_of_nonneg (by omega)
    have c3 : (((t / 3600000 % 24).toNat : ℕ) : ℤ) = t / 3600000 % 24 :=
      Int.toNat_of_nonneg (by omega)
    have c4 : (((t / 60000 % 60).toNat : ℕ) : ℤ) = t / 60000 % 60 :=
      Int.toNat_of_nonneg (by omega)
    have c5 : (((t / 1000 % 60).toNat : ℕ) : ℤ) = t / 1000 % 60 :=
      Int.toNat_of_nonneg (by omega)
    have c6 : (((t % 1000).toNat : ℕ) : ℤ) = t % 1000 := Int.toNat_of_nonneg (by omega)
    simp only [method_toISOString, isFinite, hY, hM, hD, hyi, hmi, hdi, hw, HourFromTime_int,
      MinFromTime_int, SecFromTime_int, msFromTime_int, Bool.not_true, Bool.false_eq_true,
      if_false, addZeroPrefixedInt]
    by_cases hneg : y < 0
    · have h6 : ¬ (((y.natAbs : ℕ) : ℤ) ≥ 1000000) := by omega
      simp only [hneg, true_or, if_true, h6, if_false, render, renderYear, renderDate,
        renderTime, renderZone, c1, c2, c3, c4, c5, c6, habs, List.append_assoc,
        List.cons_append, List.nil_append, List.singleton_append]
    · by_cases hbig : y > 9999
      · have h6 : ¬ (((y.natAbs : ℕ) : ℤ) ≥ 1000000) := by omega
        simp only [hneg, hbig, or_true, if_true, h6, if_false, render, renderYear, renderDate,
          renderTime, renderZone, c1, c2, c3, c4, c5, c6, habs, List.append_assoc,
          List.cons_append, List.nil_append, List.singleton_append, Bool.false_eq_true]
      · have hyy : ((y.natAbs : ℕ) : ℤ) = y := by omega
        simp only [hneg, hbig, or_self, if_false, render, renderYear, renderDate,
          renderTime, renderZone, c1, c2, c3, c4, c5, c6, hyy, List.append_assoc,
          List.cons_append, List.nil_append, List.singleton_append]
  · -- the grammar gives the string the value `t`
    have hq : m / 12 = 0 := by omega
    have hmod : m % 12 = m := by omega
    have e1 : ((if y < 0 then some true else if y > 9999 then some false else none
        : Option Bool) = some true) ↔ y < 0 := by
      by_cases hneg : y < 0
      · simp [hneg]
      · by_cases hbig : y > 9999 <;> simp [hneg, hbig]
    have hsy : signedYear ⟨if y < 0 then some true else if y > 9999 then some false else none,
        y.natAbs, some ((m + 1).toNat, some d.toNat),
        some ((t / 3600000 % 24).toNat, (t / 60000 % 60).toNat,
          some ((t / 1000 % 60).toNat, some (t % 1000).toNat)), IsoZone.utc⟩ = y := by
      unfold signedYear
      by_cases hneg : y < 0
      · simp only [hneg, if_true]; omega
      · by_cases hbig : y > 9999
        · simp only [hneg, hbig, if_false, if_true]; omega
        · simp only [hneg, hbig, if_false]; omega
    unfold value
    rw [hsy]
    simp only [monthField, dayField, hourField, minuteField, secondField, msecField, zoneMinutes,
      zoneSign, zoneFields, MakeTime_int]
    have c1 : (((m + 1).toNat : ℕ) : ℤ) - 1 = m := by omega
    have c2 : ((d.toNat : ℕ) : ℤ) = d := Int.toNat_of_nonneg (by omega)
    rw [c1]
    simp only [Dbl.ofInt_eq]
    rw [MakeDay_int y m _ (by omega) (by omega), hq, hmod, add_zero]
    simp only [MakeDate, msPerDay, Dbl.fin_mul, Dbl.fin_add, Dbl.fin_sub]
    congr 1
    have c3 : (((t / 3600000 % 24).toNat : ℕ) : ℤ) = t / 3600000 % 24 :=
      Int.toNat_of_nonneg (Int.emod_nonneg _ (by norm_num))
    have c4 : (((t / 60000 % 60).toNat : ℕ) : ℤ) = t / 60000 % 60 :=
      Int.toNat_of_nonneg (Int.emod_nonneg _ (by norm_num))
    have c5 : (((t / 1000 % 60).toNat : ℕ) : ℤ) = t / 1000 % 60 :=
      Int.toNat_of_nonneg (Int.emod_nonneg _ (by norm_num))
    have c6 : (((t % 1000).toNat : ℕ) : ℤ) = t % 1000 :=
      Int.toNat_of_nonneg (Int.emod_nonneg _ (by norm_num))
    have key : ((dayFromYearZ y + monthStartZ (isLeapZ y) m + (((d.toNat : ℕ) : ℤ) - 1)) * 86400000
        + (((((t / 3600000 % 24).toNat : ℕ) : ℤ) * 60 + (((t / 60000 % 60).toNat : ℕ) : ℤ)) * 60
            + (((t / 1000 % 60).toNat : ℕ) : ℤ)) * 1000 + (((t % 1000).toNat : ℕ) : ℤ))
        - 1 * (((0 : ℕ) : ℤ) * 60 + ((0 : ℕ) : ℤ)) * 60000 = t := by
      rw [c2, c3, c4, c5, c6]
      have := clock_sum t (dayFromYearZ y) (monthStartZ (isLeapZ y) m) d hd
      simp only [Nat.cast_zero, zero_mul, add_zero, mul_zero, sub_zero]
      exact this
    have := congrArg (fun z : ℤ => (z : ℚ)) key
    simp only [] at this
    rw [← this]
    push_cast
    ring

/-- C1: for every whole-millisecond time value `t` with `|t| <= 8.64e15`,
`method_toISOString` returns a string, and the strict path of `ParseString`
applied to that string returns exactly `t` (so `ParseString` does, whatever
the fallback parsers are); negative `t` and years outside `0..9999` included. -/
theorem C1_parse_toISOString_roundtrip (t : ℤ) (ht : |t| ≤ 8640000000000000) :
    ∃ s : QString, method_toISOString (some (fin (t : ℚ))) = MethodResult.string s ∧
      ParseString.strict s = some (fin (t : ℚ)) ∧
      ∀ q : QDateTimeParsers, ParseString q s = fin (t : ℚ) := by
  obtain ⟨g, hr, hoff, hstr, hval⟩ := toISOString_render t ht
  have hstrict : ParseString.strict g.render = some (fin (t : ℚ)) := by
    rw [ParseString.strict_accepts g hr (by simp [hoff]), hval]
  refine ⟨g.render, hstr, hstrict, fun q => ?_⟩
  unfold ParseString
  rw [hstrict]

/-- Witness of C1 at `t = -62198755200001`, the last millisecond of the year -2. -/
theorem C1_parse_toISOString_roundtrip_witness :
    |(-62198755200001 : ℤ)| ≤ 8640000000000000 ∧
    ∃ s : QString,
      method_toISOString (some (fin ((-62198755200001 : ℤ) : ℚ))) = MethodResult.string s ∧
      ParseString.strict s = some (fin ((-62198755200001 : ℤ) : ℚ)) ∧
      ∀ q : QDateTimeParsers, ParseString q s = fin ((-62198755200001 : ℤ) : ℚ) :=
  ⟨by norm_num, C1_parse_toISOString_roundtrip (-62198755200001) (by norm_num)⟩

theorem TimeClip_valid (x : Dbl) : validTimeValue (TimeClip x) := by
  cases x with
  | nan => left; simp [TimeClip, isFinite]
  | inf s => left; simp [TimeClip, isFinite]
  | fin q =>
    by_cases h : (8640000000000000 : ℚ) < |q|
    · left; simp [TimeClip, isFinite, Dbl.fabs, Dbl.lt, h]
    · right
      refine ⟨truncQ q, by simp [TimeClip, isFinite, Dbl.fabs, Dbl.lt, h, toInteger], ?_⟩
      have h1 := Dbl.truncQ_abs_le q
      have h2 : |((truncQ q : ℤ) : ℚ)| ≤ 8640000000000000 := le_trans h1 (not_lt.mp h)
      have h3 : ((|truncQ q| : ℤ) : ℚ) ≤ ((8640000000000000 : ℤ) : ℚ) := by
        push_cast; exact h2
      exact_mod_cast h3

/-- C16: every setter, for every previous date value of the receiver and every
list of numeric arguments, stores and returns a value that is the NaN sentinel
or a whole number of milliseconds of magnitude at most 8.64e15. -/
theorem C16_setters_store_valid (tz : TimeZone) (d : Dbl) (args : List Dbl) :
    (∃ v, method_setTime (some d) args = SetResult.stored v ∧ validTimeValue v) ∧
    (∃ v, method_setMilliseconds tz (some d) args = SetResult.stored v ∧ validTimeValue v) ∧
    (∃ v, method_setUTCMilliseconds (some d) args = SetResult.stored v ∧ validTimeValue v) ∧
    (∃ v, method_setSeconds tz (some d) args = SetResult.stored v ∧ validTimeValue v) ∧
    (∃ v, method_setUTCSeconds (some d) args = SetResult.stored v ∧ validTimeValue v) ∧
    (∃ v, method_setMinutes tz (some d) args = SetResult.stored v ∧ validTimeValue v) ∧
    (∃ v, method_setUTCMinutes (some d) args = SetResult.stored v ∧ validTimeValue v) ∧
    (∃ v, method_setHours tz (some d) args = SetResult.stored v ∧ validTimeValue v) ∧
    (∃ v, method_setUTCHours (some d) args = SetResult.stored v ∧ validTimeValue v) ∧
    (∃ v, method_setDate tz (some d) args = SetResult.stored v ∧ validTimeValue v) ∧
    (∃ v, method_setUTCDate (some d) args = SetResult.stored v ∧ validTimeValue v) ∧
    (∃ v, method_setMonth tz (some d) args = SetResult.stored v ∧ validTimeValue v) ∧
    (∃ v, method_setUTCMonth (some d) args = SetResult.stored v ∧ validTimeValue v) ∧
    (∃ v, method_setYear tz (some d) args = SetResult.stored v ∧ validTimeValue v) ∧
    (∃ v, method_setUTCFullYear (some d) args = SetResult.stored v ∧ validTimeValue v) ∧
    (∃ v, method_setFullYear tz (some d) args = SetResult.stored v ∧ validTimeValue v) := by
  refine ⟨⟨_, rfl, TimeClip_valid _⟩, ⟨_, rfl, TimeClip_valid _⟩, ⟨_, rfl, TimeClip_valid _⟩,
    ⟨_, rfl, TimeClip_valid _⟩, ⟨_, rfl, TimeClip_valid _⟩, ⟨_, rfl, TimeClip_valid _⟩,
    ⟨_, rfl, TimeClip_valid _⟩, ⟨_, rfl, TimeClip_valid _⟩, ⟨_, rfl, TimeClip_valid _⟩,
    ⟨_, rfl, TimeClip_valid _⟩, ⟨_, rfl, TimeClip_valid _⟩, ⟨_, rfl, TimeClip_valid _⟩,
    ⟨_, rfl, TimeClip_valid _⟩, ?_, ⟨_, rfl, TimeClip_valid _⟩, ⟨_, rfl, TimeClip_valid _⟩⟩
  unfold method_setYear
  simp only []
  split
  · exact ⟨_, rfl, Or.inl rfl⟩
  · exact ⟨_, rfl, TimeClip_valid _⟩

/-- C14: `ParseString` always returns a value; when the strict path fails and
the text-date, ISO-date and RFC 2822 parsers and every layout pattern report an
invalid result, it returns NaN; `not a date` fails the strict path and so gives
NaN under such parsers, also through `Date.parse`. -/
theorem C14_ParseString_total :
    (∀ (q : QDateTimeParsers) (s : QString), ∃ v : Dbl, ParseString q s = v) ∧
    (∀ (q : QDateTimeParsers) (s : QString), ParseString.strict s = none →
      q.fromStringTextDate s = none → q.fromStringISODate s = none →
      q.fromStringRFC2822Date s = none →
      (∀ f ∈ ParseString.formats, q.fromStringFormat s f = none) →
      ParseString q s = nan) ∧
    ParseString.strict (QStringLiteral "not a date") = none ∧
    (∀ q : QDateTimeParsers,
      q.fromStringTextDate (QStringLiteral "not a date") = none →
      q.fromStringISODate (QStringLiteral "not a date") = none →
      q.fromStringRFC2822Date (QStringLiteral "not a date") = none →
      (∀ f ∈ ParseString.formats, q.fromStringFormat (QStringLiteral "not a date") f = none) →
      method_parse q (some (QStringLiteral "not a date")) = nan) := by
  have fold_none : ∀ (l : List (Option ℤ)), (∀ r ∈ l, r = none) →
      l.foldl (fun acc r => if acc.isSome then acc else r) none = none := by
    intro l
    induction l with
    | nil => intro _; rfl
    | cons a l ih =>
      intro h
      have ha : a = none := h a (List.mem_cons_self _ _)
      subst ha
      simp only [List.foldl_cons, Option.isSome_none, Bool.false_eq_true, if_false]
      exact ih (fun r hr => h r (List.mem_cons_of_mem _ hr))
  have key : ∀ (q : QDateTimeParsers) (s : QString), ParseString.strict s = none →
      q.fromStringTextDate s = none → q.fromStringISODate s = none →
      q.fromStringRFC2822Date s = none →
      (∀ f ∈ ParseString.formats, q.fromStringFormat s f = none) →
      ParseString q s = nan := by
    intro q s hs h1 h2 h3 h4
    have hf : (ParseString.formats.map (q.fromStringFormat s)).foldl
        (fun acc r => if acc.isSome then acc else r) none = none := by
      apply fold_none
      intro r hr
      obtain ⟨f, hf, rfl⟩ := List.mem_map.mp hr
      exact h4 f hf
    unfold ParseString
    simp only [hs, h1, h2, h3, hf, Option.isSome_none, Bool.false_eq_true, if_false]
  have hnot : ParseString.strict (QStringLiteral "not a date") = none := by decide
  exact ⟨fun q s => ⟨_, rfl⟩, key, hnot, fun q h1 h2 h3 h4 => key q _ hnot h1 h2 h3 h4⟩

theorem TimeClip_int (n : ℤ) (h1 : -8640000000000000 ≤ n) (h2 : n ≤ 8640000000000000) :
    TimeClip (fin (n : ℚ)) = fin (n : ℚ) := by
  have h : ¬ (8640000000000000 : ℚ) < |(n : ℚ)| := by
    rw [not_lt, abs_le]
    constructor
    · exact_mod_cast h1
    · exact_mod_cast h2
  simp [TimeClip, isFinite, Dbl.fabs, Dbl.lt, h, toInteger, Dbl.truncQ_intCast]

theorem TimeWithinDay_int (t : ℤ) :
    TimeWithinDay (fin (t : ℚ)) = fin ((t % 86400000 : ℤ) : ℚ) := by
  rw [TimeWithinDay_fin]
  have h := floor_intCast_div_pos t 86400000 (by norm_num)
  push_cast at h
  rw [h, Int.emod_def]
  congr 1; push_cast; ring

/-- The decomposition of a time value composed from a date of year `y`, month
`m`, day `d` and a time of day of `r` milliseconds. -/
theorem decompose_composed (y m d r : ℤ) (hy1 : -1000000 ≤ y) (hy2 : y ≤ 1000000)
    (hm0 : 0 ≤ m) (hm1 : m ≤ 11) (hd0 : 1 ≤ d) (hd1 : d ≤ monthLength (isLeapZ y) m)
    (hr0 : 0 ≤ r) (hr1 : r < 86400000) :
    YearFromTime (fin (((dayFromYearZ y + monthStartZ (isLeapZ y) m + d - 1) * 86400000 + r : ℤ)
      : ℚ)) = fin (y : ℚ) ∧
    MonthFromTime (fin (((dayFromYearZ y + monthStartZ (isLeapZ y) m + d - 1) * 86400000 + r : ℤ)
      : ℚ)) = fin (m : ℚ) ∧
    DateFromTime (fin (((dayFromYearZ y + monthStartZ (isLeapZ y) m + d - 1) * 86400000 + r : ℤ)
      : ℚ)) = fin (d : ℚ) ∧
    TimeWithinDay (fin (((dayFromYearZ y + monthStartZ (isLeapZ y) m + d - 1) * 86400000 + r : ℤ)
      : ℚ)) = fin (r : ℚ) := by
  obtain ⟨k1, k2⟩ := monthFromDayZ_start (isLeapZ y) m d hm0 hm1 hd0 hd1
  have hb := dayFromYearZ_bound y
  obtain ⟨t0, t1⟩ := monthStartZ_range (isLeapZ y) m
  have hs := dayFromYearZ_succ y
  have hdiy : daysInYearZ y = if isLeapZ y then 366 else 365 := rfl
  generalize hD : dayFromYearZ y = D at *
  generalize hS : monthStartZ (isLeapZ y) m = S at *
  have hfloor : ⌊((((D + S + d - 1) * 86400000 + r : ℤ)) : ℚ)⌋ = (D + S + d - 1) * 86400000 + r :=
    Int.floor_intCast _
  have hyear : yearFromTimeZ ((D + S + d - 1) * 86400000 + r) = y := by
    apply yearFromTimeZ_unique
    · rw [hD]; omega
    · rw [hs, hdiy]; omega
  have hdiv : ((D + S + d - 1) * 86400000 + r) / 86400000 = D + S + d - 1 := by omega
  have hmod : ((D + S + d - 1) * 86400000 + r) % 86400000 = r := by omega
  have hlo : -60000000000000000000 ≤ ⌊((((D + S + d - 1) * 86400000 + r : ℤ)) : ℚ)⌋ := by
    rw [hfloor]; omega
  have hhi : ⌊((((D + S + d - 1) * 86400000 + r : ℤ)) : ℚ)⌋ ≤ 60000000000000000000 := by
    rw [hfloor]; omega
  have hdwy : D + S + d - 1 - D = S + d - 1 := by ring
  refine ⟨?_, ?_, ?_, ?_⟩
  · rw [YearFromTime_fin _ hlo hhi, hfloor, hyear]
  · rw [MonthFromTime_fin _ hlo hhi, hfloor, hyear, hdiv, hD, hdwy, k1]
  · rw [DateFromTime_fin _ hlo hhi, hfloor, hyear, hdiv, hD, hdwy, k1, hS]
    congr 1; push_cast; ring
  · rw [TimeWithinDay_int, hmod]

/-- The time value of 1 January of year `y`, 00:00:00.000, and its year. -/
theorem jan1_value (y : ℤ) (hy1 : -271820 ≤ y) (hy2 : y ≤ 275760) :
    MakeDate (MakeDay (fin (y : ℚ)) (fin 0) (fin 1)) (MakeTime (fin 0) (fin 0) (fin 0) (fin 0))
      = fin ((dayFromYearZ y * 86400000 : ℤ) : ℚ) ∧
    TimeClip (fin ((dayFromYearZ y * 86400000 : ℤ) : ℚ))
      = fin ((dayFromYearZ y * 86400000 : ℤ) : ℚ) ∧
    YearFromTime (fin ((dayFromYearZ y * 86400000 : ℤ) : ℚ)) = fin (y : ℚ) := by
  have hmd := MakeDay_int y 0 1 (by omega) (by omega)
  simp only [Int.cast_zero] at hmd
  have h0 : (0 : ℤ) / 12 = 0 := by decide
  have h1 : (0 : ℤ) % 12 = 0 := by decide
  have hS : monthStartZ (isLeapZ y) 0 = 0 := by
    unfold monthStartZ; simp
  rw [h0, h1, add_zero, hS] at hmd
  have hlen : (1 : ℤ) ≤ monthLength (isLeapZ y) 0 := by
    unfold monthLength; simp
  obtain ⟨dy, _, _, _⟩ := decompose_composed y 0 1 0 (by omega) (by omega) (by omega) (by omega)
    (by omega) hlen (by omega) (by omega)
  rw [hS] at dy
  have he : (dayFromYearZ y + 0 + 1 - 1) * 86400000 + 0 = dayFromYearZ y * 86400000 := by ring
  rw [he] at dy
  have hlo : dayFromYearZ (-271820) = -99999744 := by decide
  have hhi : dayFromYearZ 275760 = 99999744 := by decide
  have m1 := dayFromYearZ_mono hy1
  have m2 := dayFromYearZ_mono hy2
  refine ⟨?_, TimeClip_int _ (by omega) (by omega), dy⟩
  rw [hmd]
  simp only [MakeDate, MakeTime, MinutesPerHour, SecondsPerMinute, msPerSecond, msPerDay,
    Dbl.fin_mul, Dbl.fin_add]
  congr 1; push_cast; ring

/-- C17: in the constructor with two or more arguments and in `Date.UTC`, an
integer year `y` with `0 <= y <= 99` is replaced by `1900 + y` before the date
is composed, so the result is that for the year `1900 + y`; any other integer
year is used unchanged; year 5 gives a date in 1905 and year 1905 stays 1905. -/
theorem C17_two_digit_year (tz : TimeZone) (q : QDateTimeParsers) (now : Dbl) (y : ℤ)
    (month : Dbl) (rest : List Dbl) :
    (0 ≤ y → y ≤ 99 →
      DateCtor.construct tz q now (CtorArgs.many (fin (y : ℚ)) month rest)
        = DateCtor.construct tz q now (CtorArgs.many (fin ((1900 + y : ℤ) : ℚ)) month rest) ∧
      method_UTC (fin (y : ℚ) :: month :: rest)
        = method_UTC (fin ((1900 + y : ℤ) : ℚ) :: month :: rest)) ∧
    (y < 0 ∨ 99 < y →
      DateCtor.construct tz q now (CtorArgs.many (fin (y : ℚ)) month rest)
        = TimeClip (UTC tz (MakeDate (MakeDay (fin (y : ℚ)) month (rest.getD 0 (fin 1)))
            (MakeTime (rest.getD 1 (fin 0)) (rest.getD 2 (fin 0)) (rest.getD 3 (fin 0))
              (rest.getD 4 (fin 0))))) ∧
      method_UTC (fin (y : ℚ) :: month :: rest)
        = some (TimeClip (MakeDate (MakeDay (fin (y : ℚ)) month (rest.getD 0 (fin 1)))
            (MakeTime (rest.getD 1 (fin 0)) (rest.getD 2 (fin 0)) (rest.getD 3 (fin 0))
              (rest.getD 4 (fin 0)))))) ∧
    (∃ t, method_UTC [fin 5, fin 0] = some t ∧ YearFromTime t = fin 1905) ∧
    (∃ t, method_UTC [fin 1905, fin 0] = some t ∧ YearFromTime t = fin 1905) ∧
    (∃ t, DateCtor.construct TimeZone.utc q now (CtorArgs.many (fin 5) (fin 0) []) = t ∧
      YearFromTime (LocalTime TimeZone.utc t) = fin 1905) := by
  have small : ∀ z : ℤ, 0 ≤ z → z ≤ 99 →
      (if Dbl.le (fin 0) (fin (z : ℚ)) && Dbl.le (fin (z : ℚ)) (fin 99) then fin (z : ℚ) + fin 1900
       else fin (z : ℚ)) = fin ((1900 + z : ℤ) : ℚ) := by
    intro z h0 h1
    have a : (0 : ℚ) ≤ (z : ℚ) := by exact_mod_cast h0
    have b : (z : ℚ) ≤ 99 := by exact_mod_cast h1
    simp only [Dbl.le_fin, a, b, decide_True, Bool.and_self, if_true, Dbl.fin_add]
    congr 1; push_cast; ring
  have other : ∀ z : ℤ, z < 0 ∨ 99 < z →
      (if Dbl.le (fin 0) (fin (z : ℚ)) && Dbl.le (fin (z : ℚ)) (fin 99) then fin (z : ℚ) + fin 1900
       else fin (z : ℚ)) = fin (z : ℚ) := by
    intro z h
    have a : ¬ ((0 : ℚ) ≤ (z : ℚ) ∧ (z : ℚ) ≤ 99) := by
      rintro ⟨a, b⟩
      have a' : 0 ≤ z := by exact_mod_cast a
      have b' : z ≤ 99 := by exact_mod_cast b
      omega
    simp only [Dbl.le_fin, Bool.and_eq_true, decide_eq_true_eq, a, if_false]
  have h5 := jan1_value 1905 (by norm_num) (by norm_num)
  have e5 : (if Dbl.le (fin 0) (fin 5) && Dbl.le (fin 5) (fin 99) then fin 5 + fin 1900
      else fin 5) = fin 1905 := by
    have := small 5 (by norm_num) (by norm_num)
    simp only [Int.cast_ofNat] at this
    rw [this]; norm_num
  have e1905 := other 1905 (by norm_num)
  simp only [Int.cast_ofNat] at h5 e1905
  refine ⟨fun h0 h1 => ⟨?_, ?_⟩, fun h => ⟨?_, ?_⟩, ?_, ?_, ?_⟩
  · simp only [DateCtor.construct, small y h0 h1, other (1900 + y) (by omega)]
  · simp only [method_UTC, small y h0 h1, other (1900 + y) (by omega)]
  · simp only [DateCtor.construct, other y h]
  · simp only [method_UTC, other y h]
  · refine ⟨_, rfl, ?_⟩
    simp only [List.getD_nil, e5]
    rw [h5.1, h5.2.1, h5.2.2]
  · refine ⟨_, rfl, ?_⟩
    simp only [List.getD_nil, e1905]
    rw [h5.1, h5.2.1, h5.2.2]
  · refine ⟨_, rfl, ?_⟩
    simp only [DateCtor.construct, List.getD_nil, e5]
    rw [h5.1]
    simp only [UTC, LocalTime, TimeZone.utc, Dbl.fin_sub, Dbl.fin_add, sub_zero, add_zero]
    rw [h5.2.1]
    simp only [Dbl.fin_add, add_zero]
    exact h5.2.2

/-- C19: on a valid date value `t`, `setYear` with an integer year `y` in
`0..99` gives the result of `setYear (1900 + y)`, the clipped UTC conversion of
the local date with year `1900 + y` and the month, day and time of day of
`LocalTime t`; an integer year outside `0..99` is used unchanged. -/
theorem C19_setYear_two_digit (tz : TimeZone) (t : Dbl) (ht : isNaN t = false) (y : ℤ) :
    (0 ≤ y → y ≤ 99 →
      method_setYear tz (some t) [fin (y : ℚ)]
        = method_setYear tz (some t) [fin ((1900 + y : ℤ) : ℚ)] ∧
      method_setYear tz (some t) [fin (y : ℚ)]
        = SetResult.stored (TimeClip (UTC tz (MakeDate
            (MakeDay (fin ((1900 + y : ℤ) : ℚ)) (MonthFromTime (LocalTime tz t))
              (DateFromTime (LocalTime tz t)))
            (TimeWithinDay (LocalTime tz t)))))) ∧
    (y < 0 ∨ 99 < y →
      method_setYear tz (some t) [fin (y : ℚ)]
        = SetResult.stored (TimeClip (UTC tz (MakeDate
            (MakeDay (fin (y : ℚ)) (MonthFromTime (LocalTime tz t))
              (DateFromTime (LocalTime tz t)))
            (TimeWithinDay (LocalTime tz t)))))) := by
  have small : ∀ z : ℤ, 0 ≤ z → z ≤ 99 →
      (if Dbl.le (fin 0) (toInteger (fin (z : ℚ))) && Dbl.le (toInteger (fin (z : ℚ))) (fin 99)
       then fin (z : ℚ) + fin 1900 else fin (z : ℚ)) = fin ((1900 + z : ℤ) : ℚ) := by
    intro z h0 h1
    have a : (0 : ℚ) ≤ (z : ℚ) := by exact_mod_cast h0
    have b : (z : ℚ) ≤ 99 := by exact_mod_cast h1
    simp only [toInteger, Dbl.truncQ_intCast, Dbl.le_fin, a, b, decide_True, Bool.and_self,
      if_true, Dbl.fin_add]
    congr 1; push_cast; ring
  have other : ∀ z : ℤ, z < 0 ∨ 99 < z →
      (if Dbl.le (fin 0) (toInteger (fin (z : ℚ))) && Dbl.le (toInteger (fin (z : ℚ))) (fin 99)
       then fin (z : ℚ) + fin 1900 else fin (z : ℚ)) = fin (z : ℚ) := by
    intro z h
    have a : ¬ ((0 : ℚ) ≤ (z : ℚ) ∧ (z : ℚ) ≤ 99) := by
      rintro ⟨a, b⟩
      have a' : 0 ≤ z := by exact_mod_cast a
      have b' : z ≤ 99 := by exact_mod_cast b
      omega
    simp only [toInteger, Dbl.truncQ_intCast, Dbl.le_fin, Bool.and_eq_true, decide_eq_true_eq, a,
      if_false]
  have hn : ∀ q : ℚ, isNaN (fin q) = false := fun _ => rfl
  refine ⟨fun h0 h1 => ⟨?_, ?_⟩, fun h => ?_⟩
  · simp only [method_setYear, List.getD_cons_zero, hn, ht, Bool.false_eq_true, if_false,
      small y h0 h1, other (1900 + y) (by omega)]
  · simp only [method_setYear, List.getD_cons_zero, hn, ht, Bool.false_eq_true, if_false,
      small y h0 h1]
  · simp only [method_setYear, List.getD_cons_zero, hn, ht, Bool.false_eq_true, if_false,
      other y h]

/-- Witness of C19 at the epoch, in the zone without offset, with year 5. -/
theorem C19_setYear_two_digit_witness :
    isNaN (fin 0) = false ∧
    ((0 : ℤ) ≤ 5 → (5 : ℤ) ≤ 99 →
      method_setYear TimeZone.utc (some (fin 0)) [fin ((5 : ℤ) : ℚ)]
        = method_setYear TimeZone.utc (some (fin 0)) [fin ((1900 + 5 : ℤ) : ℚ)] ∧
      method_setYear TimeZone.utc (some (fin 0)) [fin ((5 : ℤ) : ℚ)]
        = SetResult.stored (TimeClip (UTC TimeZone.utc (MakeDate
            (MakeDay (fin ((1900 + 5 : ℤ) : ℚ)) (MonthFromTime (LocalTime TimeZone.utc (fin 0)))
              (DateFromTime (LocalTime TimeZone.utc (fin 0))))
            (TimeWithinDay (LocalTime TimeZone.utc (fin 0))))))) :=
  ⟨rfl, (C19_setYear_two_digit TimeZone.utc (fin 0) rfl 5).1⟩

theorem compose_cast (D S d r : ℤ) :
    ((D : ℚ) + (S : ℚ) + ((d : ℚ) - 1)) * 86400000 + (r : ℚ)
      = (((D + S + d - 1) * 86400000 + r : ℤ) : ℚ) := by
  push_cast; ring

theorem UTC_utc_fin (x : ℚ) : UTC TimeZone.utc (fin x) = fin x := by
  simp [UTC, TimeZone.utc]

theorem LocalTime_utc_fin (x : ℚ) : LocalTime TimeZone.utc (fin x) = fin x := by
  simp [LocalTime, TimeZone.utc]

/-- C20: `setUTCFullYear` and `setFullYear` use the year as given: on a valid
in-range date value `t`, with an integer year `y` in `0..99` in which the day of
the month of `t` exists, `setUTCFullYear y` stores an in-range value of year
`y` (not `1900 + y`) with the month, day and time of day of `t`; `setFullYear`
composes the local date with the year `y` itself, and in the zone without
offset it stores the same value as `setUTCFullYear`. -/
theorem C20_setFullYear_no_two_digit (t : ℤ) (ht : |t| ≤ 8640000000000000) (y : ℤ)
    (hy0 : 0 ≤ y) (hy1 : y ≤ 99)
    (hday : ∀ m d : ℤ, MonthFromTime (fin (t : ℚ)) = fin (m : ℚ) →
      DateFromTime (fin (t : ℚ)) = fin (d : ℚ) → d ≤ monthLength (isLeapZ y) m) :
    (∃ t' : ℤ, method_setUTCFullYear (some (fin (t : ℚ))) [fin (y : ℚ)]
        = SetResult.stored (fin (t' : ℚ)) ∧
      |t'| ≤ 8640000000000000 ∧
      YearFromTime (fin (t' : ℚ)) = fin (y : ℚ) ∧
      MonthFromTime (fin (t' : ℚ)) = MonthFromTime (fin (t : ℚ)) ∧
      DateFromTime (fin (t' : ℚ)) = DateFromTime (fin (t : ℚ)) ∧
      TimeWithinDay (fin (t' : ℚ)) = TimeWithinDay (fin (t : ℚ))) ∧
    (∀ tz : TimeZone, isNaN (LocalTime tz (fin (t : ℚ))) = false →
      method_setFullYear tz (some (fin (t : ℚ))) [fin (y : ℚ)]
        = SetResult.stored (TimeClip (UTC tz (MakeDate
            (MakeDay (fin (y : ℚ)) (MonthFromTime (LocalTime tz (fin (t : ℚ))))
              (DateFromTime (LocalTime tz (fin (t : ℚ)))))
            (TimeWithinDay (LocalTime tz (fin (t : ℚ)))))))) ∧
    method_setFullYear TimeZone.utc (some (fin (t : ℚ))) [fin (y : ℚ)]
      = method_setUTCFullYear (some (fin (t : ℚ))) [fin (y : ℚ)] := by
  obtain ⟨ht1, ht2⟩ := abs_le.mp ht
  have hfl : ⌊(t : ℚ)⌋ = t := Int.floor_intCast t
  have hlo : -60000000000000000000 ≤ ⌊(t : ℚ)⌋ := by rw [hfl]; omega
  have hhi : ⌊(t : ℚ)⌋ ≤ 60000000000000000000 := by rw [hfl]; omega
  obtain ⟨r0, r1⟩ := dayWithinYear_range t
  have r1' : t / 86400000 - dayFromYearZ (yearFromTimeZ t)
      < if isLeapZ (yearFromTimeZ t) then 366 else 365 := r1
  obtain ⟨m0, m1⟩ := monthFromDayZ_range (isLeapZ (yearFromTimeZ t))
    (t / 86400000 - dayFromYearZ (yearFromTimeZ t))
  obtain ⟨d0, _⟩ := dateFromDay_range (isLeapZ (yearFromTimeZ t))
    (t / 86400000 - dayFromYearZ (yearFromTimeZ t)) r0 r1'
  have hM := MonthFromTime_fin (t : ℚ) hlo hhi
  have hD := DateFromTime_fin (t : ℚ) hlo hhi
  rw [hfl] at hM hD
  generalize monthFromDayZ (isLeapZ (yearFromTimeZ t))
    (t / 86400000 - dayFromYearZ (yearFromTimeZ t)) = m at *
  generalize t / 86400000 - dayFromYearZ (yearFromTimeZ t)
    - monthStartZ (isLeapZ (yearFromTimeZ t)) m + 1 = d at *
  have hd1 := hday m d hM hD
  have hq : m / 12 = 0 := by omega
  have hmod : m % 12 = m := by omega
  have hr0 : 0 ≤ t % 86400000 := Int.emod_nonneg _ (by norm_num)
  have hr1 : t % 86400000 < 86400000 := Int.emod_lt_of_pos _ (by norm_num)
  have hb := dayFromYearZ_bound y
  obtain ⟨s0, s1⟩ := monthStartZ_range (isLeapZ y) m
  have hd31 := le_trans hd1 (monthLength_le _ _)
  -- the value that the setter composes
  have hval : MakeDate (MakeDay (fin (y : ℚ)) (MonthFromTime (fin (t : ℚ)))
        (DateFromTime (fin (t : ℚ)))) (TimeWithinDay (fin (t : ℚ)))
      = fin (((dayFromYearZ y + monthStartZ (isLeapZ y) m + d - 1) * 86400000
          + t % 86400000 : ℤ) : ℚ) := by
    rw [hM, hD, TimeWithinDay_int, MakeDay_int y m _ (by omega) (by omega), hq, hmod, add_zero]
    simp only [MakeDate, msPerDay, Dbl.fin_mul, Dbl.fin_add]
    rw [compose_cast]
  have hclip : TimeClip (fin (((dayFromYearZ y + monthStartZ (isLeapZ y) m + d - 1) * 86400000
          + t % 86400000 : ℤ) : ℚ))
      = fin (((dayFromYearZ y + monthStartZ (isLeapZ y) m + d - 1) * 86400000
          + t % 86400000 : ℤ) : ℚ) := TimeClip_int _ (by omega) (by omega)
  obtain ⟨e1, e2, e3, e4⟩ := decompose_composed y m d (t % 86400000) (by omega) (by omega)
    m0 m1 d0 hd1 hr0 hr1
  have hset : method_setUTCFullYear (some (fin (t : ℚ))) [fin (y : ℚ)]
      = SetResult.stored (fin (((dayFromYearZ y + monthStartZ (isLeapZ y) m + d - 1) * 86400000
          + t % 86400000 : ℤ) : ℚ)) := by
    simp only [method_setUTCFullYear, List.getD_cons_zero, List.getD_cons_succ, List.getD_nil]
    rw [hval, hclip]
  refine ⟨⟨_, hset, ?_, e1, ?_, ?_, ?_⟩, ?_, ?_⟩
  · rw [abs_le]; constructor <;> omega
  · rw [e2, hM]
  · rw [e3, hD]
  · rw [e4, TimeWithinDay_int]
  · intro tz hn
    simp only [method_setFullYear, List.getD_cons_zero, List.getD_cons_succ, List.getD_nil, hn,
      Bool.false_eq_true, if_false]
  · rw [hset]
    simp only [method_setFullYear, List.getD_cons_zero, List.getD_cons_succ, List.getD_nil,
      LocalTime_utc_fin, isNaN, Bool.false_eq_true, if_false]
    rw [hval, UTC_utc_fin, hclip]

theorem Dbl.fin_int_inj {a b : ℤ} (h : fin (a : ℚ) = fin (b : ℚ)) : a = b := by
  injection h with h
  exact_mod_cast h

/-- Witness of C20 at the epoch (1 January 1970) with year 5. -/
theorem C20_setFullYear_no_two_digit_witness :
    |(0 : ℤ)| ≤ 8640000000000000 ∧
    ∃ t' : ℤ, method_setUTCFullYear (some (fin ((0 : ℤ) : ℚ))) [fin ((5 : ℤ) : ℚ)]
        = SetResult.stored (fin (t' : ℚ)) ∧
      |t'| ≤ 8640000000000000 ∧
      YearFromTime (fin (t' : ℚ)) = fin ((5 : ℤ) : ℚ) ∧
      MonthFromTime (fin (t' : ℚ)) = MonthFromTime (fin ((0 : ℤ) : ℚ)) ∧
      DateFromTime (fin (t' : ℚ)) = DateFromTime (fin ((0 : ℤ) : ℚ)) ∧
      TimeWithinDay (fin (t' : ℚ)) = TimeWithinDay (fin ((0 : ℤ) : ℚ)) :=
  ⟨by norm_num,
   (C20_setFullYear_no_two_digit 0 (by norm_num) 5 (by norm_num) (by norm_num) (by
      intro m d hm hd
      have hfl : ⌊((0 : ℤ) : ℚ)⌋ = 0 := Int.floor_intCast 0
      have hM := MonthFromTime_fin ((0 : ℤ) : ℚ) (by rw [hfl]; norm_num) (by rw [hfl]; norm_num)
      have hD := DateFromTime_fin ((0 : ℤ) : ℚ) (by rw [hfl]; norm_num) (by rw [hfl]; norm_num)
      rw [hfl] at hM hD
      have em := Dbl.fin_int_inj (hm.symm.trans hM)
      have ed := Dbl.fin_int_inj (hd.symm.trans hD)
      rw [em, ed]
      decide)).1⟩

open IsoString in
/-- C18: the two-digit-year rule is not applied on the ISO-string path: for
every four-digit year field `YYYY` from 0000 to 9999, the strict path of
`ParseString` on `YYYY-01-01T00:00:00.000Z` returns a time value `t` with
`YearFromTime t = YYYY`, which for `YYYY` below 100 is not `1900 + YYYY`. -/
theorem C18_iso_year_unchanged (Y : ℕ) (hY : Y ≤ 9999) :
    ∃ t : Dbl,
      ParseString.strict (zeroPrefixedDigits 4 (Y : ℤ) ++ QStringLiteral "-01-01T00:00:00.000Z")
        = some t ∧
      YearFromTime t = fin ((Y : ℤ) : ℚ) ∧
      YearFromTime t ≠ fin ((1900 + (Y : ℤ) : ℤ) : ℚ) := by
  have hr : (IsoString.mk none Y (some (1, some 1)) (some (0, 0, some (0, some 0)))
      IsoZone.utc).inRange := by
    refine ⟨?_, ?_, ?_, ?_, ?_, ?_, ?_, ?_, ?_⟩ <;>
      simp only [monthField, dayField, hourField, minuteField, secondField, msecField,
        zoneFields, Option.isSome_none, Bool.false_eq_true, if_false] <;> omega
  have hrender : (IsoString.mk none Y (some (1, some 1)) (some (0, 0, some (0, some 0)))
      IsoZone.utc).render
      = zeroPrefixedDigits 4 (Y : ℤ) ++ QStringLiteral "-01-01T00:00:00.000Z" := by
    have tail : renderDate (some (1, some 1))
        ++ (renderTime (some (0, 0, some (0, some 0))) ++ renderZone IsoZone.utc)
        = QStringLiteral "-01-01T00:00:00.000Z" := by decide
    simp only [render, renderYear, List.append_assoc]
    rw [tail]
  have hs := ParseString.strict_accepts _ hr (by simp [hasOffset])
  rw [hrender] at hs
  obtain ⟨j1, _, j3⟩ := jan1_value (Y : ℤ) (by omega) (by omega)
  have hval : (IsoString.mk none Y (some (1, some 1)) (some (0, 0, some (0, some 0)))
      IsoZone.utc).value = fin ((dayFromYearZ (Y : ℤ) * 86400000 : ℤ) : ℚ) := by
    simp only [value, signedYear, monthField, dayField, hourField, minuteField, secondField,
      msecField, zoneMinutes, zoneSign, zoneFields, Dbl.ofInt_eq, Nat.cast_one, Nat.cast_zero,
      sub_self, Int.cast_zero, Int.cast_one, zero_mul, mul_zero, add_zero, Int.cast_natCast]
    have j1' := j1
    simp only [Int.cast_natCast] at j1'
    rw [j1', Dbl.fin_sub, sub_zero]
  refine ⟨_, hs, ?_, ?_⟩
  · rw [hval, j3]
  · rw [hval, j3]
    intro h
    have := Dbl.fin_int_inj h
    omega

/-- Witness of C18 for the year field `0005`. -/
theorem C18_iso_year_unchanged_witness :
    (5 : ℕ) ≤ 9999 ∧
    ∃ t : Dbl,
      ParseString.strict (zeroPrefixedDigits 4 ((5 : ℕ) : ℤ)
          ++ QStringLiteral "-01-01T00:00:00.000Z") = some t ∧
      YearFromTime t = fin (((5 : ℕ) : ℤ) : ℚ) ∧
      YearFromTime t ≠ fin ((1900 + ((5 : ℕ) : ℤ) : ℤ) : ℚ) :=
  ⟨by decide, C18_iso_year_unchanged 5 (by decide)⟩

/-- C15 (the code at the failing input): `Date.parse` and the constructor with
a single string argument return the value of the strict path unclipped: on
`+300000-01-01T00:00:00.000Z` both give 9404918380800000, which is above
8.64e15 and so is not a valid time value, whereas the constructor with that
number as argument, which goes through `TimeClip`, gives NaN. -/
theorem C15_string_value_not_clipped (tz : TimeZone) (q : QDateTimeParsers) (now : Dbl) :
    method_parse q (some (QStringLiteral "+300000-01-01T00:00:00.000Z"))
      = fin 9404918380800000 ∧
    DateCtor.construct tz q now
        (CtorArgs.one (CtorArg.string (QStringLiteral "+300000-01-01T00:00:00.000Z")))
      = fin 9404918380800000 ∧
    ¬ validTimeValue (fin 9404918380800000) ∧
    DateCtor.construct tz q now (CtorArgs.one (CtorArg.number (fin 9404918380800000))) = nan := by
  have hscan : ParseString.scan (QStringLiteral "+300000-01-01T00:00:00.000Z")
      = (true, 1,
          { format := 9, current := 0, currentSize := 0, year := 300000, month := 0,
            day := 1, hour := 0, minute := 0, second := 0, msec := 0, offsetSign := 1,
            offset := 0, error := false }) := by decide
  have h1 : dayFromYearZ (300000 * 1 + 0 / 12) = 108853222 := by decide
  have h2 : monthStartZ (isLeapZ (300000 * 1 + 0 / 12)) (0 % 12) = 0 := by decide
  have hstrict : ParseString.strict (QStringLiteral "+300000-01-01T00:00:00.000Z")
      = some (fin 9404918380800000) := by
    unfold ParseString.strict
    rw [hscan]
    simp only [Bool.not_false, if_true, MakeTime_int]
    simp only [Dbl.ofInt_eq]
    rw [MakeDay_int _ _ _ (by decide) (by decide), h1, h2]
    simp only [MakeDate, msPerDay, Dbl.fin_mul, Dbl.fin_add, Dbl.fin_sub]
    norm_num
  have hparse : ParseString q (QStringLiteral "+300000-01-01T00:00:00.000Z")
      = fin 9404918380800000 := by
    unfold ParseString
    rw [hstrict]
  refine ⟨hparse, hparse, ?_, ?_⟩
  · rintro (h | ⟨n, hn, hb⟩)
    · exact Dbl.noConfusion h
    · injection hn with hn
      have hn' : ((9404918380800000 : ℤ) : ℚ) = (n : ℚ) := by push_cast; exact hn
      have : (9404918380800000 : ℤ) = n := by exact_mod_cast hn'
      rw [← this] at hb
      norm_num at hb
  · simp only [DateCtor.construct, TimeClip, isFinite, Dbl.fabs, Dbl.lt]
    norm_num

theorem ParseString.step_Z (ext : Bool) (st : ParseState) :
    ParseString.step ext 90 st = ParseString.step ext 0 st := by
  simp [ParseString.step, ParseString.delim]

theorem ParseString.step_end_format (ext : Bool) (st : ParseState) :
    (ParseString.step ext 0 st).format = 9 := by
  simp [ParseString.step, ParseString.delim]

theorem ParseString.loop_Z (ext : Bool) (l : List QChar) :
    ∀ st : ParseState, ParseString.loop ext (l ++ [90, 0]) st
      = ParseString.loop ext (l ++ [0]) st := by
  induction l with
  | nil =>
    intro st
    have h9 := ParseString.step_end_format ext st
    simp only [List.nil_append, ParseString.loop, ParseString.step_Z, h9, decide_True,
      Bool.or_true, if_true]
  | cons c l ih =>
    intro st
    show (if _ then _ else ParseString.loop ext (l ++ [90, 0]) _)
      = (if _ then _ else ParseString.loop ext (l ++ [0]) _)
    rw [ih]

theorem ParseString.scan_nil :
    ParseString.scan [] = (false, 1, ParseString.loop false [0] ParseString.init) := rfl

theorem ParseString.scan_plus (r : List QChar) :
    ParseString.scan (43 :: r) = (true, 1, ParseString.loop true (r ++ [0]) ParseString.init) :=
  rfl

theorem ParseString.scan_minus (r : List QChar) :
    ParseString.scan (45 :: r) = (true, -1, ParseString.loop true (r ++ [0]) ParseString.init) :=
  rfl

/-- A `Z` appended to any string leaves the result of the scan unchanged. -/
theorem ParseString.scan_append_Z (s : QString) :
    ParseString.scan (s ++ [90]) = ParseString.scan s := by
  cases s with
  | nil =>
    rw [List.nil_append, ParseString.scan_unsigned 90 [] (by decide) (by decide),
      ParseString.scan_nil]
    have := ParseString.loop_Z false [] ParseString.init
    simp only [List.nil_append] at this
    simp only [List.cons_append, List.nil_append, this]
  | cons c r =>
    by_cases h1 : c = 43
    · subst h1
      rw [List.cons_append, ParseString.scan_plus, ParseString.scan_plus, List.append_assoc]
      simp only [List.singleton_append, ParseString.loop_Z]
    · by_cases h2 : c = 45
      · subst h2
        rw [List.cons_append, ParseString.scan_minus, ParseString.scan_minus, List.append_assoc]
        simp only [List.singleton_append, ParseString.loop_Z]
      · rw [List.cons_append, ParseString.scan_unsigned c _ h1 h2,
          ParseString.scan_unsigned c _ h1 h2]
        have := ParseString.loop_Z false (c :: r) ParseString.init
        simp only [List.cons_append, List.append_assoc, List.singleton_append,
          List.nil_append] at this ⊢
        rw [this]

theorem ParseString.strict_append_Z (s : QString) :
    ParseString.strict (s ++ [90]) = ParseString.strict s := by
  unfold ParseString.strict
  rw [ParseString.scan_append_Z]

theorem Dbl.sub_fin_zero (x : Dbl) : x - fin 0 = x := by
  cases x with
  | nan => rfl
  | inf s => show Dbl.sub (inf s) (fin 0) = _; simp [Dbl.sub, Dbl.add, Dbl.neg]
  | fin q => simp

theorem Dbl.sub_fin_neg (x : Dbl) (a : ℚ) : x - fin (-a) = x + fin a := by
  show Dbl.sub x (fin (-a)) = Dbl.add x (fin a)
  simp [Dbl.sub, Dbl.neg]

open IsoString in
/-- Claim C11 (amended): on the strict path of `ParseString`, for every
date-time body of the strict grammar (in-range fields, a time part with at
least hour and minute, no zone suffix): the body alone
parses to the value composed from its fields as UTC, with no use of `LocalTZA`
or `DaylightSavingTA`; the body followed by `Z` parses to the same value;
followed by `+HH:mm` to that value minus `(HH * 60 + mm) * 60000`; followed by
`-HH:mm` to that value plus `(HH * 60 + mm) * 60000`.  A `Z` appended to any
string whatever leaves the result of the strict path unchanged. -/
theorem C11_zone_suffix (g : IsoString) (hr : g.inRange) (ht : g.time.isSome = true)
    (hz : g.zone = IsoZone.absent) :
    (∃ v : Dbl,
      ParseString.strict g.render = some v ∧
      v = MakeDate
            (MakeDay (ofInt g.signedYear) (ofInt ((g.monthField : ℤ) - 1)) (ofInt g.dayField))
            (MakeTime (ofInt g.hourField) (ofInt g.minuteField) (ofInt g.secondField)
              (ofInt g.msecField)) ∧
      ParseString.strict (g.render ++ QStringLiteral "Z") = some v ∧
      ∀ hh mm : ℕ, hh ≤ 23 → mm ≤ 59 →
        ParseString.strict
            (g.render ++ 43 :: (zeroPrefixedDigits 2 hh ++ 58 :: zeroPrefixedDigits 2 mm))
          = some (v - fin ((((hh : ℤ) * 60 + mm) * 60000 : ℤ) : ℚ)) ∧
        ParseString.strict
            (g.render ++ 45 :: (zeroPrefixedDigits 2 hh ++ 58 :: zeroPrefixedDigits 2 mm))
          = some (v + fin ((((hh : ℤ) * 60 + mm) * 60000 : ℤ) : ℚ))) ∧
    ∀ s : QString, ParseString.strict (s ++ QStringLiteral "Z") = ParseString.strict s := by
  have hZ : QStringLiteral "Z" = [90] := by decide
  obtain ⟨sign, year, date, time, zone⟩ := g
  simp only at hz ht
  subst hz
  have hbase := ParseString.strict_accepts _ hr (by simp [hasOffset])
  have hval : (IsoString.mk sign year date time IsoZone.absent).value
      = MakeDate
          (MakeDay (ofInt (IsoString.mk sign year date time IsoZone.absent).signedYear)
            (ofInt (((IsoString.mk sign year date time IsoZone.absent).monthField : ℤ) - 1))
            (ofInt (IsoString.mk sign year date time IsoZone.absent).dayField))
          (MakeTime (ofInt (IsoString.mk sign year date time IsoZone.absent).hourField)
            (ofInt (IsoString.mk sign year date time IsoZone.absent).minuteField)
            (ofInt (IsoString.mk sign year date time IsoZone.absent).secondField)
            (ofInt (IsoString.mk sign year date time IsoZone.absent).msecField)) := by
    unfold value
    simp only [zoneMinutes, zoneSign, zoneFields, Nat.cast_zero, zero_mul, add_zero, mul_zero,
      Dbl.ofInt_eq, Int.cast_zero]
    exact Dbl.sub_fin_zero _
  obtain ⟨hy, hmo, hd, hh', hmi, hs, hms, _, _⟩ := hr
  refine ⟨⟨_, hbase, hval, ?_, ?_⟩, ?_⟩
  · rw [hZ, ParseString.strict_append_Z, hbase]
  · intro hh mm hhh hmm
    have hrender : ∀ neg : Bool, (IsoString.mk sign year date time (IsoZone.offset neg hh mm)).render
        = (IsoString.mk sign year date time IsoZone.absent).render
          ++ (if neg then 45 else 43) :: (zeroPrefixedDigits 2 hh ++ 58 :: zeroPrefixedDigits 2 mm) := by
      intro neg
      simp only [render, renderZone, List.append_nil, List.append_assoc, List.cons_append]
    have hin : ∀ neg : Bool, (IsoString.mk sign year date time (IsoZone.offset neg hh mm)).inRange :=
      fun neg => ⟨hy, hmo, hd, hh', hmi, hs, hms, hhh, hmm⟩
    have hoff : ∀ neg : Bool, (IsoString.mk sign year date time (IsoZone.offset neg hh mm)).hasOffset
        = true → (IsoString.mk sign year date time (IsoZone.offset neg hh mm)).time.isSome = true :=
      fun _ _ => ht
    have hp := ParseString.strict_accepts _ (hin false) (hoff false)
    have hm := ParseString.strict_accepts _ (hin true) (hoff true)
    rw [hrender] at hp hm
    simp only [Bool.false_eq_true, if_false, if_true] at hp hm
    refine ⟨?_, ?_⟩
    · rw [hp, hval]
      simp only [value, zoneMinutes, zoneSign, zoneFields, signedYear, monthField, dayField,
        hourField, minuteField, secondField, msecField, one_mul, Dbl.ofInt_eq]
    · rw [hm, hval]
      simp only [value, zoneMinutes, zoneSign, zoneFields, signedYear, monthField, dayField,
        hourField, minuteField, secondField, msecField, Dbl.ofInt_eq]
      have : (((-1 * ((hh : ℤ) * 60 + (mm : ℤ)) * 60000 : ℤ)) : ℚ)
          = -((((hh : ℤ) * 60 + mm) * 60000 : ℤ) : ℚ) := by push_cast; ring
      rw [this, Dbl.sub_fin_neg]
  · intro s
    rw [hZ, ParseString.strict_append_Z]

theorem ParseString.loop_append (ext : Bool) (l1 l2 : List QChar) :
    ∀ st : ParseState, ParseString.stopped (ParseString.loop ext l1 st) = false →
      ParseString.loop ext (l1 ++ l2) st = ParseString.loop ext l2 (ParseString.loop ext l1 st) := by
  induction l1 with
  | nil => intro st _; rfl
  | cons c l ih =>
    intro st h
    have e1 : ParseString.loop ext (c :: l) st
        = if ParseString.stopped (ParseString.step ext c st) then ParseString.step ext c st
          else ParseString.loop ext l (ParseString.step ext c st) := rfl
    have e2 : ParseString.loop ext (c :: l ++ l2) st
        = if ParseString.stopped (ParseString.step ext c st) then ParseString.step ext c st
          else ParseString.loop ext (l ++ l2) (ParseString.step ext c st) := rfl
    rw [e1] at h ⊢
    rw [e2]
    by_cases hs : ParseString.stopped (ParseString.step ext c st) = true
    · rw [if_pos hs] at h; rw [h] at hs; exact absurd hs (by simp)
    · rw [if_neg hs] at h ⊢
      rw [if_neg hs]
      exact ih _ h

/-- A loop that is still running after a longer input was running after every
prefix of it. -/
theorem ParseString.running_prefix (ext : Bool) (l1 l2 : List QChar) :
    ∀ st : ParseState, ParseString.stopped st = false →
      ParseString.stopped (ParseString.loop ext (l1 ++ l2) st) = false →
      ParseString.stopped (ParseString.loop ext l1 st) = false := by
  induction l1 with
  | nil => intro st h _; exact h
  | cons c l ih =>
    intro st _ h
    have e1 : ParseString.loop ext (c :: l) st
        = if ParseString.stopped (ParseString.step ext c st) then ParseString.step ext c st
          else ParseString.loop ext l (ParseString.step ext c st) := rfl
    have e2 : ParseString.loop ext (c :: l ++ l2) st
        = if ParseString.stopped (ParseString.step ext c st) then ParseString.step ext c st
          else ParseString.loop ext (l ++ l2) (ParseString.step ext c st) := rfl
    rw [e2] at h
    rw [e1]
    by_cases hs : ParseString.stopped (ParseString.step ext c st) = true
    · rw [if_pos hs] at h; rw [h] at hs; exact absurd hs (by simp)
    · rw [if_neg hs] at h ⊢
      exact ih _ (by simpa using hs) h

theorem ParseString.loop_snoc (ext : Bool) (p : List QChar) (c : QChar) (st : ParseState)
    (h0 : ParseString.stopped st = false)
    (h : ParseString.stopped (ParseString.loop ext (p ++ [c]) st) = false) :
    ParseString.loop ext (p ++ [c]) st = ParseString.step ext c (ParseString.loop ext p st) := by
  have hp := ParseString.running_prefix ext p [c] st h0 h
  rw [ParseString.loop_append ext p [c] st hp]
  show (if ParseString.stopped (ParseString.step ext c _) then _ else _) = _
  split <;> rfl

/-- The loop reads a run of digit characters into `current`. -/
theorem ParseString.loop_run (ext : Bool) (ds : List QChar) :
    ∀ (rest : List QChar) (st : ParseState), ParseString.stopped st = false →
      (∀ x ∈ ds, 48 ≤ x ∧ x ≤ 57) →
      ParseString.loop ext (ds ++ rest) st
        = ParseString.loop ext rest
            { st with current := ParseString.collect st.current ds,
                      currentSize := st.currentSize + ds.length } := by
  induction ds with
  | nil =>
    intro rest st _ _
    simp [ParseString.collect]
  | cons d ds ih =>
    intro rest st h0 hd
    have hdig := hd d (List.mem_cons_self _ _)
    have hstep : ParseString.step ext d st
        = { st with current := wrapInt32 (wrapInt32 (st.current * 10) + ((d : ℤ) - 48)),
                    currentSize := st.currentSize + 1 } := by
      unfold ParseString.step
      rw [if_pos hdig]
    have hrun : ParseString.stopped (ParseString.step ext d st) = false := by
      rw [hstep]; exact h0
    have e : ParseString.loop ext (d :: ds ++ rest) st
        = if ParseString.stopped (ParseString.step ext d st) then ParseString.step ext d st
          else ParseString.loop ext (ds ++ rest) (ParseString.step ext d st) := rfl
    rw [e, if_neg (by simp [hrun]), ih rest _ hrun (fun x hx => hd x (List.mem_cons_of_mem _ hx)),
      hstep]
    congr 1
    simp only [ParseString.collect, List.foldl_cons, List.length_cons, Nat.cast_add,
      Nat.cast_one]
    congr 1
    ring

/-- Instance of the claim C11 theorem at the body `2023-06-15T10:30`: it and
the same string with `Z` appended are accepted with one value. -/
theorem C11_zone_suffix_witness :
    IsoString.dateTimeBody.inRange ∧ IsoString.dateTimeBody.time.isSome = true ∧
      IsoString.dateTimeBody.zone = IsoZone.absent ∧
      ∃ v, ParseString.strict IsoString.dateTimeBody.render = some v ∧
        ParseString.strict (IsoString.dateTimeBody.render ++ QStringLiteral "Z") = some v :=
  ⟨by decide, by decide, rfl,
    (C11_zone_suffix IsoString.dateTimeBody (by decide) (by decide) rfl).1.elim
      (fun v h => ⟨v, h.1, h.2.2.1⟩)⟩

theorem ParseString.collect_two (ds : List QChar) (hl : ds.length = 2)
    (hd : ∀ x ∈ ds, 48 ≤ x ∧ x ≤ 57) :
    ParseString.collect 0 ds = decimalValue ds ∧ 0 ≤ decimalValue ds ∧ decimalValue ds ≤ 99 := by
  obtain ⟨a, b, rfl⟩ := List.length_eq_two.mp hl
  have ha0 := hd a (by simp)
  have hb0 := hd b (by simp)
  have ha1 : (48 : ℤ) ≤ ((a : ℕ) : ℤ) := by exact_mod_cast ha0.1
  have ha2 : ((a : ℕ) : ℤ) ≤ 57 := by exact_mod_cast ha0.2
  have hb1 : (48 : ℤ) ≤ ((b : ℕ) : ℤ) := by exact_mod_cast hb0.1
  have hb2 : ((b : ℕ) : ℤ) ≤ 57 := by exact_mod_cast hb0.2
  simp only [ParseString.collect, decimalValue, List.foldl_cons, List.foldl_nil]
  unfold wrapInt32
  omega

theorem ParseString.delim_error (c : QChar) (st : ParseState) (h : st.error = true) :
    (ParseString.delim c st).error = true := by
  unfold ParseString.delim
  split_ifs <;> simp [h]

theorem ParseString.field_bad (ext : Bool) (st : ParseState) (ds : List QChar)
    (hd : ∀ x ∈ ds, 48 ≤ x ∧ x ≤ 57)
    (hcur : st.current = ParseString.collect 0 ds) (hsize : st.currentSize = ds.length)
    (hbad : ParseString.fieldBad ext st.format ds) :
    (ParseString.field ext st).error = true := by
  have two : ds.length = 2 → st.current = decimalValue ds ∧ 0 ≤ decimalValue ds
      ∧ decimalValue ds ≤ 99 := fun hl => by
    have := ParseString.collect_two ds hl hd
    rw [hcur]; exact this
  have hsz : ∀ k : ℕ, ds.length ≠ k → st.currentSize ≠ (k : ℤ) := fun k hk => by
    rw [hsize]; exact_mod_cast hk
  rcases hbad with ⟨hf, h⟩ | ⟨hf, h⟩ | ⟨hf, h⟩ | ⟨hf, h⟩ | ⟨hf, h⟩ | ⟨hf, h⟩ | ⟨hf, h⟩ | ⟨hf, h⟩
    | ⟨hf, h⟩
  · unfold ParseString.field
    rw [if_pos hf]
    cases ext
    · have := hsz 4 (by simpa using h)
      simpa using this
    · have := hsz 6 (by simpa using h)
      simpa using this
  · unfold ParseString.field
    simp only [hf, if_pos, OfNat.ofNat_ne_zero, if_false, OfNat.zero_ne_ofNat, Nat.succ_ne_self,
      one_ne_zero, if_true, Bool.or_eq_true, decide_eq_true_eq]
    by_cases hl : ds.length = 2
    · right
      obtain ⟨e, h0, h1⟩ := two hl
      have hv : decimalValue ds > 12 := h.resolve_left (fun hne => hne hl)
      rw [e, wrapInt32_of_range _ (by omega) (by omega)]; omega
    · left; exact hsz 2 hl
  · unfold ParseString.field
    simp only [hf, OfNat.ofNat_ne_zero, OfNat.ofNat_ne_one, if_false, if_true, Bool.or_eq_true,
      decide_eq_true_eq]
    by_cases hl : ds.length = 2
    · right
      obtain ⟨e, h0, h1⟩ := two hl
      have hv : decimalValue ds > 31 := h.resolve_left (fun hne => hne hl)
      rw [e]; exact hv
    · left; exact hsz 2 hl
  · unfold ParseString.field
    simp only [hf, OfNat.ofNat_ne_zero, OfNat.ofNat_ne_one, if_false, if_true, Bool.or_eq_true,
      decide_eq_true_eq, Nat.reduceEqDiff]
    by_cases hl : ds.length = 2
    · right
      obtain ⟨e, h0, h1⟩ := two hl
      have hv : decimalValue ds > 24 := h.resolve_left (fun hne => hne hl)
      rw [e]; exact hv
    · left; exact hsz 2 hl
  · unfold ParseString.field
    simp only [hf, OfNat.ofNat_ne_zero, OfNat.ofNat_ne_one, if_false, if_true, Bool.or_eq_true,
      decide_eq_true_eq, Nat.reduceEqDiff]
    by_cases hl : ds.length = 2
    · right
      obtain ⟨e, h0, h1⟩ := two hl
      have hv : decimalValue ds > 60 := h.resolve_left (fun hne => hne hl)
      rw [e]; exact hv
    · left; exact hsz 2 hl
  · unfold ParseString.field
    simp only [hf, OfNat.ofNat_ne_zero, OfNat.ofNat_ne_one, if_false, if_true, Bool.or_eq_true,
      decide_eq_true_eq, Nat.reduceEqDiff]
    by_cases hl : ds.length = 2
    · right
      obtain ⟨e, h0, h1⟩ := two hl
      have hv : decimalValue ds > 60 := h.resolve_left (fun hne => hne hl)
      rw [e]; exact hv
    · left; exact hsz 2 hl
  · unfold ParseString.field
    simp only [hf, OfNat.ofNat_ne_zero, OfNat.ofNat_ne_one, if_false, if_true,
      decide_eq_true_eq, Nat.reduceEqDiff]
    exact hsz 3 h
  · unfold ParseString.field
    simp only [hf, OfNat.ofNat_ne_zero, OfNat.ofNat_ne_one, if_false, if_true, Bool.or_eq_true,
      decide_eq_true_eq, Nat.reduceEqDiff]
    by_cases hl : ds.length = 2
    · right
      obtain ⟨e, h0, h1⟩ := two hl
      have hv : decimalValue ds > 23 := h.resolve_left (fun hne => hne hl)
      rw [e, wrapInt32_of_range _ (by omega) (by omega)]; omega
    · left; exact hsz 2 hl
  · unfold ParseString.field
    simp only [hf, OfNat.ofNat_ne_zero, OfNat.ofNat_ne_one, if_false, if_true, Bool.or_eq_true,
      decide_eq_true_eq, Nat.reduceEqDiff]
    by_cases hl : ds.length = 2
    · right
      obtain ⟨e, h0, h1⟩ := two hl
      have hv : decimalValue ds > 59 := h.resolve_left (fun hne => hne hl)
      rw [e]; omega
    · left; exact hsz 2 hl

/-- Once the loop has stopped inside a non-empty input, what follows is not read. -/
theorem ParseString.loop_stopped_append (ext : Bool) (l1 l2 : List QChar) :
    ∀ st : ParseState, l1 ≠ [] → ParseString.stopped (ParseString.loop ext l1 st) = true →
      ParseString.loop ext (l1 ++ l2) st = ParseString.loop ext l1 st := by
  induction l1 with
  | nil => intro st h _; exact absurd rfl h
  | cons c l ih =>
    intro st _ h
    have e1 : ParseString.loop ext (c :: l) st
        = if ParseString.stopped (ParseString.step ext c st) then ParseString.step ext c st
          else ParseString.loop ext l (ParseString.step ext c st) := rfl
    have e2 : ParseString.loop ext (c :: l ++ l2) st
        = if ParseString.stopped (ParseString.step ext c st) then ParseString.step ext c st
          else ParseString.loop ext (l ++ l2) (ParseString.step ext c st) := rfl
    rw [e1] at h ⊢
    rw [e2]
    by_cases hs : ParseString.stopped (ParseString.step ext c st) = true
    · rw [if_pos hs, if_pos hs]
    · rw [if_neg hs] at h ⊢
      rw [if_neg hs]
      cases l with
      | nil => exact absurd h hs
      | cons d l => exact ih _ (List.cons_ne_nil _ _) h

theorem ParseString.scan_body (s body : QString) (ext : Bool)
    (hs : (ext = false ∧ s = body ∧ body.head? ≠ some 43 ∧ body.head? ≠ some 45) ∨
      (ext = true ∧ (s = 43 :: body ∨ s = 45 :: body))) :
    ∃ sign, ParseString.scan s
      = (ext, sign, ParseString.loop ext (body ++ [0]) ParseString.init) := by
  rcases hs with ⟨rfl, rfl, h1, h2⟩ | ⟨rfl, rfl | rfl⟩
  · cases s with
    | nil => exact ⟨1, rfl⟩
    | cons c r =>
      exact ⟨1, ParseString.scan_unsigned c r (fun h => h1 (by simp [h]))
        (fun h => h2 (by simp [h]))⟩
  · exact ⟨1, ParseString.scan_plus body⟩
  · exact ⟨-1, ParseString.scan_minus body⟩

/-- A digit field of the wrong width or out of range, met while the loop is
running, sets `error`. -/
theorem ParseString.loop_bad_field (ext : Bool) (pre ds post : List QChar) (c : QChar)
    (hpre : pre = [] ∨ ∃ p c', pre = p ++ [c'] ∧ ¬ (48 ≤ c' ∧ c' ≤ 57))
    (hrun : (ParseString.loop ext pre ParseString.init).error = false →
      (ParseString.loop ext pre ParseString.init).format ≠ 9)
    (hds : ∀ x ∈ ds, 48 ≤ x ∧ x ≤ 57) (hc : ¬ (48 ≤ c ∧ c ≤ 57))
    (hbad : ParseString.fieldBad ext (ParseString.loop ext pre ParseString.init).format ds) :
    (ParseString.loop ext (pre ++ (ds ++ c :: post)) ParseString.init).error = true := by
  have hinit : ParseString.stopped ParseString.init = false := rfl
  by_cases herr : (ParseString.loop ext pre ParseString.init).error = true
  · have hne : pre ≠ [] := by
      rintro rfl
      exact absurd herr (by simp [ParseString.loop, ParseString.init])
    rw [ParseString.loop_stopped_append ext pre _ _ hne (by simp [ParseString.stopped, herr])]
    exact herr
  · have herr0 : (ParseString.loop ext pre ParseString.init).error = false := by
      simpa using herr
    have hfmt := hrun herr0
    have hst : ParseString.stopped (ParseString.loop ext pre ParseString.init) = false := by
      simp [ParseString.stopped, herr0, hfmt]
    have hcur : (ParseString.loop ext pre ParseString.init).current = 0
        ∧ (ParseString.loop ext pre ParseString.init).currentSize = 0 := by
      rcases hpre with rfl | ⟨p, c', rfl, hc'⟩
      · exact ⟨rfl, rfl⟩
      · rw [ParseString.loop_snoc ext p c' _ hinit hst]
        unfold ParseString.step
        rw [if_neg hc']
        exact ⟨rfl, rfl⟩
    rw [ParseString.loop_append ext pre _ _ hst, ParseString.loop_run ext ds _ _ hst hds]
    generalize hst1 : ({ ParseString.loop ext pre ParseString.init with
        current := ParseString.collect (ParseString.loop ext pre ParseString.init).current ds,
        currentSize := (ParseString.loop ext pre ParseString.init).currentSize + ds.length }
          : ParseState) = st1
    have hf1 : st1.format = (ParseString.loop ext pre ParseString.init).format := by
      rw [← hst1]
    have hc1 : st1.current = ParseString.collect 0 ds := by
      rw [← hst1, hcur.1]
    have hs1 : st1.currentSize = ds.length := by
      rw [← hst1]; simp [hcur.2]
    have hfield := ParseString.field_bad ext st1 ds hds hc1 hs1 (by rw [hf1]; exact hbad)
    have hstep : (ParseString.step ext c st1).error = true := by
      unfold ParseString.step
      rw [if_neg hc]
      exact ParseString.delim_error c _ hfield
    show (if ParseString.stopped (ParseString.step ext c st1) then ParseString.step ext c st1
      else ParseString.loop ext post (ParseString.step ext c st1)).error = true
    rw [if_pos (by simp [ParseString.stopped, hstep])]
    exact hstep

/-- Claim C13: the strict path of `ParseString` fails on every input in which a
digit field has the wrong width or a value out of range.  The input `s` is an
optional sign followed by `body`; the scanned characters, `body` and its
terminating zero, are split as `pre`, the maximal run of digits `ds` (the field)
and the non-digit `c` that ends it, where the scan has not ended successfully
before the field; `fieldBad` states, for the field that `format` names at that
point, the width and range conditions of the claim. -/
theorem C13_bad_field_fails (s body pre ds post : QString) (c : QChar) (ext : Bool)
    (hs : (ext = false ∧ s = body ∧ body.head? ≠ some 43 ∧ body.head? ≠ some 45) ∨
      (ext = true ∧ (s = 43 :: body ∨ s = 45 :: body)))
    (hbody : body ++ [0] = pre ++ (ds ++ c :: post))
    (hpre : pre = [] ∨ ∃ p c', pre = p ++ [c'] ∧ ¬ (48 ≤ c' ∧ c' ≤ 57))
    (hrun : (ParseString.loop ext pre ParseString.init).error = false →
      (ParseString.loop ext pre ParseString.init).format ≠ 9)
    (hds : ∀ x ∈ ds, 48 ≤ x ∧ x ≤ 57) (hc : ¬ (48 ≤ c ∧ c ≤ 57))
    (hbad : ParseString.fieldBad ext (ParseString.loop ext pre ParseString.init).format ds) :
    ParseString.strict s = none := by
  obtain ⟨sign, hscan⟩ := ParseString.scan_body s body ext hs
  have herr := ParseString.loop_bad_field ext pre ds post c hpre hrun hds hc hbad
  unfold ParseString.strict
  rw [hscan, hbody]
  simp [herr]

/-- Instance of the claim C13 theorem: `2023-13-01` has the month field `13`,
read after `2023-`, and is rejected. -/
theorem C13_bad_field_fails_witness :
    ParseString.fieldBad false
        (ParseString.loop false (QStringLiteral "2023-") ParseString.init).format
        (QStringLiteral "13") ∧
      ParseString.strict (QStringLiteral "2023-13-01") = none :=
  ⟨Or.inr (Or.inl ⟨by decide, Or.inr (by decide)⟩),
    C13_bad_field_fails (QStringLiteral "2023-13-01") (QStringLiteral "2023-13-01")
      (QStringLiteral "2023-") (QStringLiteral "13") (QStringLiteral "01" ++ [0]) 45 false
      (Or.inl ⟨rfl, rfl, by decide, by decide⟩) (by decide)
      (Or.inr ⟨QStringLiteral "2023", 45, by decide, by decide⟩)
      (fun _ => by decide) (by decide) (by decide)
      (Or.inr (Or.inl ⟨by decide, Or.inr (by decide)⟩))⟩

/-- Every list splits into its leading run of digit characters and the rest. -/
theorem ParseString.peel (r : List QChar) :
    ∃ ds rest, r = ds ++ rest ∧ (∀ x ∈ ds, 48 ≤ x ∧ x ≤ 57) ∧
      (rest = [] ∨ ∃ c rest', rest = c :: rest' ∧ ¬ (48 ≤ c ∧ c ≤ 57)) := by
  induction r with
  | nil => exact ⟨[], [], rfl, fun x hx => absurd hx (List.not_mem_nil x), Or.inl rfl⟩
  | cons a r ih =>
    by_cases ha : 48 ≤ a ∧ a ≤ 57
    · obtain ⟨ds, rest, e, hd, hrest⟩ := ih
      refine ⟨a :: ds, rest, by rw [e]; rfl, ?_, hrest⟩
      intro x hx
      rcases List.mem_cons.mp hx with rfl | hx
      · exact ha
      · exact hd x hx
    · exact ⟨[], a :: r, rfl, fun x hx => absurd hx (List.not_mem_nil x),
        Or.inr ⟨a, r, rfl, ha⟩⟩

theorem ParseString.field_format (ext : Bool) (st : ParseState) :
    (ParseString.field ext st).format = st.format := by
  unfold ParseString.field
  split_ifs <;> rfl

/-- The switch on `format` leaves `error` clear only for a field of the demanded width. -/
theorem ParseString.field_ok (ext : Bool) (st : ParseState) (hf : st.format ≤ 8)
    (h : (ParseString.field ext st).error = false) :
    st.currentSize = (ParseString.width ext st.format : ℤ) := by
  generalize hfm : st.format = f at hf
  unfold ParseString.field at h
  unfold ParseString.width
  interval_cases f
  · cases ext <;> simpa [hfm] using h
  all_goals
    simp [hfm] at h
    simp [h]

theorem ParseString.delim_between (c : QChar) (st : ParseState) (h : st.error = false) :
    (ParseString.delim c st).error
        = (ParseString.delim c (ParseString.between st.format 0 0 0 0 0 0 0 0 0)).error ∧
      (ParseString.delim c st).format
        = (ParseString.delim c (ParseString.between st.format 0 0 0 0 0 0 0 0 0)).format := by
  unfold ParseString.delim ParseString.between
  split_ifs <;> simp [h]

theorem ParseString.loop_cons_ok (ext : Bool) (c : QChar) (l : List QChar) (st : ParseState)
    (h : (ParseString.loop ext (c :: l) st).error = false) :
    (ParseString.step ext c st).error = false ∧
      ((ParseString.step ext c st).format ≠ 9 →
        ParseString.loop ext (c :: l) st = ParseString.loop ext l (ParseString.step ext c st)) := by
  have e : ParseString.loop ext (c :: l) st
      = if ParseString.stopped (ParseString.step ext c st) then ParseString.step ext c st
        else ParseString.loop ext l (ParseString.step ext c st) := rfl
  rw [e] at h ⊢
  by_cases herr : (ParseString.step ext c st).error = true
  · rw [if_pos (by simp [ParseString.stopped, herr])] at h
    rw [h] at herr
    exact absurd herr (by simp)
  · have herr0 : (ParseString.step ext c st).error = false := by simpa using herr
    refine ⟨herr0, fun hfmt => ?_⟩
    rw [if_neg (by simp [ParseString.stopped, herr0, hfmt])]

/-- An error-free transition on a separator does not reach `Done`. -/
theorem ParseString.delim_sep_running (f : ℕ) (hf : f ≤ 8) (c : QChar)
    (hc : c = 84 ∨ c = 45 ∨ c = 58 ∨ c = 46 ∨ c = 43)
    (h : (ParseString.delim c (ParseString.between f 0 0 0 0 0 0 0 0 0)).error = false) :
    (ParseString.delim c (ParseString.between f 0 0 0 0 0 0 0 0 0)).format ≠ 9 := by
  interval_cases f <;> rcases hc with rfl | rfl | rfl | rfl | rfl <;> revert h <;> decide

/-- One field of an accepted input: the loop, about to read the field that `f`
names, reads a run of digits of the demanded width, and then either the input
ends or a separator takes the loop, free of error, to its next field. -/
theorem ParseString.stage (ext : Bool) (f : ℕ) (hf : f ≤ 8) (st : ParseState)
    (hst : ParseString.atField f st) (r : QString) (hr : ∀ x ∈ r, ParseString.plain x)
    (h : (ParseString.loop ext (r ++ [0]) st).error = false) :
    ∃ ds, Digits (ParseString.width ext f) ds ∧
      (r = ds ∨ ∃ c rest st', r = ds ++ c :: rest ∧
        (c = 84 ∨ c = 45 ∨ c = 58 ∨ c = 46 ∨ c = 43) ∧ (∀ x ∈ rest, ParseString.plain x) ∧
        (ParseString.delim c (ParseString.between f 0 0 0 0 0 0 0 0 0)).error = false ∧
        ParseString.atField
          (ParseString.delim c (ParseString.between f 0 0 0 0 0 0 0 0 0)).format st' ∧
        (ParseString.loop ext (rest ++ [0]) st').error = false) := by
  obtain ⟨hfmt, hcur, hsize, herr⟩ := hst
  obtain ⟨ds, rest, rfl, hds, hrest⟩ := ParseString.peel r
  have hstop : ParseString.stopped st = false := by
    simp [ParseString.stopped, herr, hfmt]; omega
  rw [List.append_assoc, ParseString.loop_run ext ds _ _ hstop hds] at h
  generalize hst1 : ({ st with current := ParseString.collect st.current ds,
                               currentSize := st.currentSize + ds.length } : ParseState)
    = st1 at h
  have hf1 : st1.format = f := by rw [← hst1]; exact hfmt
  have hs1 : st1.currentSize = ds.length := by rw [← hst1]; simp [hsize]
  have he1 : st1.error = false := by rw [← hst1]; exact herr
  -- what the non-digit character that ends the field does
  have key : ∀ (c : QChar) (l : List QChar), ¬ (48 ≤ c ∧ c ≤ 57) →
      (ParseString.loop ext (c :: l) st1).error = false →
      Digits (ParseString.width ext f) ds ∧
        (ParseString.delim c (ParseString.between f 0 0 0 0 0 0 0 0 0)).error = false ∧
        ParseString.atField
          (ParseString.delim c (ParseString.between f 0 0 0 0 0 0 0 0 0)).format
          (ParseString.step ext c st1) ∧
        ((ParseString.step ext c st1).format ≠ 9 →
          ParseString.loop ext (c :: l) st1 = ParseString.loop ext l (ParseString.step ext c st1)) := by
    intro c l hc hl
    obtain ⟨hse, hcont⟩ := ParseString.loop_cons_ok ext c l st1 hl
    have hstep : ParseString.step ext c st1
        = { ParseString.delim c (ParseString.field ext st1) with current := 0, currentSize := 0 } := by
      unfold ParseString.step
      rw [if_neg hc]
    have hde : (ParseString.delim c (ParseString.field ext st1)).error = false := by
      rw [hstep] at hse; exact hse
    have hfe : (ParseString.field ext st1).error = false := by
      by_contra hne
      have := ParseString.delim_error c _ (by simpa using hne)
      rw [this] at hde
      exact absurd hde (by simp)
    have hw := ParseString.field_ok ext st1 (by rw [hf1]; exact hf) hfe
    rw [hf1, hs1] at hw
    obtain ⟨b1, b2⟩ := ParseString.delim_between c _ hfe
    rw [ParseString.field_format, hf1] at b1 b2
    refine ⟨⟨by exact_mod_cast hw, hds⟩, by rw [← b1]; exact hde, ⟨?_, ?_, ?_, ?_⟩, hcont⟩
    · rw [hstep, ← b2]
    · rw [hstep]
    · rw [hstep]
    · exact hse
  rcases hrest with rfl | ⟨c, rest', rfl, hc⟩
  · obtain ⟨hdig, _⟩ := key 0 [] (by decide) h
    exact ⟨ds, hdig, Or.inl (by simp)⟩
  · have hcp : ParseString.plain c := hr c (by simp)
    have hsep : c = 84 ∨ c = 45 ∨ c = 58 ∨ c = 46 ∨ c = 43 := by
      rcases hcp with hd | h1 | h2 | h3 | h4 | h5
      · exact absurd hd hc
      · exact Or.inr (Or.inl h1)
      · exact Or.inr (Or.inr (Or.inl h2))
      · exact Or.inr (Or.inr (Or.inr (Or.inl h3)))
      · exact Or.inr (Or.inr (Or.inr (Or.inr h4)))
      · exact Or.inl h5
    have h2 : (ParseString.loop ext (c :: (rest' ++ [0])) st1).error = false := h
    obtain ⟨hdig, hd0, hat, hcont⟩ := key c (rest' ++ [0]) hc h2
    have hrun := ParseString.delim_sep_running f hf c hsep hd0
    rw [hcont (by rw [hat.1]; exact hrun)] at h2
    exact ⟨ds, hdig, Or.inr ⟨c, rest', _, rfl, hsep,
      fun x hx => hr x (by simp [hx]), hd0, hat, h2⟩⟩

theorem ParseString.after8 (ext : Bool) (st : ParseState) (hst : ParseString.atField 8 st)
    (r : QString) (hr : ∀ x ∈ r, ParseString.plain x)
    (h : (ParseString.loop ext (r ++ [0]) st).error = false) : Digits 2 r := by
  obtain ⟨ds, hd, rfl | ⟨c, rest, st', _, hsep, _, hde, _, _⟩⟩ :=
    ParseString.stage ext 8 (by norm_num) st hst r hr h
  · exact hd
  · rcases hsep with rfl | rfl | rfl | rfl | rfl <;> exact absurd hde (by decide)

theorem ParseString.after7 (ext : Bool) (st : ParseState) (hst : ParseString.atField 7 st)
    (r : QString) (hr : ∀ x ∈ r, ParseString.plain x)
    (h : (ParseString.loop ext (r ++ [0]) st).error = false) :
    ∃ hh, Digits 2 hh ∧ (r = hh ∨ ∃ mm, Digits 2 mm ∧ r = hh ++ 58 :: mm) := by
  obtain ⟨ds, hd, rfl | ⟨c, rest, st', rfl, hsep, hrp, hde, hat, hl⟩⟩ :=
    ParseString.stage ext 7 (by norm_num) st hst r hr h
  · exact ⟨_, hd, Or.inl rfl⟩
  · rcases hsep with rfl | rfl | rfl | rfl | rfl
    · exact absurd hde (by decide)
    · exact absurd hde (by decide)
    · exact ⟨ds, hd, Or.inr ⟨rest, ParseString.after8 ext st' hat rest hrp hl, rfl⟩⟩
    · exact absurd hde (by decide)
    · exact absurd hde (by decide)

/-- After the sign of a zone offset the rest of an accepted input is `HH` or `HH:mm`. -/
theorem ParseString.zone_tail (ext : Bool) (st : ParseState) (hst : ParseString.atField 7 st)
    (sg : QChar) (hsg : sg = 43 ∨ sg = 45) (r : QString) (hr : ∀ x ∈ r, ParseString.plain x)
    (h : (ParseString.loop ext (r ++ [0]) st).error = false) : Lenient.ZoneTail (sg :: r) := by
  obtain ⟨hh, hd, rfl | ⟨mm, hm, rfl⟩⟩ := ParseString.after7 ext st hst r hr h
  · exact Or.inr ⟨sg, _, hsg, hd, Or.inl rfl⟩
  · exact Or.inr ⟨sg, hh, hsg, hd, Or.inr ⟨mm, hm, rfl⟩⟩

theorem ParseString.after6 (ext : Bool) (st : ParseState) (hst : ParseString.atField 6 st)
    (r : QString) (hr : ∀ x ∈ r, ParseString.plain x)
    (h : (ParseString.loop ext (r ++ [0]) st).error = false) :
    ∃ ms rest, Digits 3 ms ∧ r = ms ++ rest ∧ Lenient.ZoneTail rest := by
  obtain ⟨ds, hd, rfl | ⟨c, rest, st', rfl, hsep, hrp, hde, hat, hl⟩⟩ :=
    ParseString.stage ext 6 (by norm_num) st hst r hr h
  · exact ⟨_, [], hd, by simp, Or.inl rfl⟩
  · rcases hsep with rfl | rfl | rfl | rfl | rfl
    · exact absurd hde (by decide)
    · exact ⟨ds, _, hd, rfl, ParseString.zone_tail ext st' hat 45 (Or.inr rfl) rest hrp hl⟩
    · exact absurd hde (by decide)
    · exact absurd hde (by decide)
    · exact ⟨ds, _, hd, rfl, ParseString.zone_tail ext st' hat 43 (Or.inl rfl) rest hrp hl⟩

theorem ParseString.after5 (ext : Bool) (st : ParseState) (hst : ParseString.atField 5 st)
    (r : QString) (hr : ∀ x ∈ r, ParseString.plain x)
    (h : (ParseString.loop ext (r ++ [0]) st).error = false) :
    ∃ ss rest, Digits 2 ss ∧ r = ss ++ rest ∧ Lenient.MsTail rest := by
  obtain ⟨ds, hd, rfl | ⟨c, rest, st', rfl, hsep, hrp, hde, hat, hl⟩⟩ :=
    ParseString.stage ext 5 (by norm_num) st hst r hr h
  · exact ⟨_, [], hd, by simp, Or.inl (Or.inl rfl)⟩
  · rcases hsep with rfl | rfl | rfl | rfl | rfl
    · exact absurd hde (by decide)
    · exact ⟨ds, _, hd, rfl,
        Or.inl (ParseString.zone_tail ext st' hat 45 (Or.inr rfl) rest hrp hl)⟩
    · exact absurd hde (by decide)
    · obtain ⟨ms, rest2, hm, rfl, hz⟩ := ParseString.after6 ext st' hat rest hrp hl
      exact ⟨ds, _, hd, rfl, Or.inr ⟨ms, rest2, hm, rfl, hz⟩⟩
    · exact ⟨ds, _, hd, rfl,
        Or.inl (ParseString.zone_tail ext st' hat 43 (Or.inl rfl) rest hrp hl)⟩

theorem ParseString.after4 (ext : Bool) (st : ParseState) (hst : ParseString.atField 4 st)
    (r : QString) (hr : ∀ x ∈ r, ParseString.plain x)
    (h : (ParseString.loop ext (r ++ [0]) st).error = false) :
    ∃ mm rest, Digits 2 mm ∧ r = mm ++ rest ∧ Lenient.SecTail rest := by
  obtain ⟨ds, hd, rfl | ⟨c, rest, st', rfl, hsep, hrp, hde, hat, hl⟩⟩ :=
    ParseString.stage ext 4 (by norm_num) st hst r hr h
  · exact ⟨_, [], hd, by simp, Or.inl (Or.inl rfl)⟩
  · rcases hsep with rfl | rfl | rfl | rfl | rfl
    · exact absurd hde (by decide)
    · exact ⟨ds, _, hd, rfl,
        Or.inl (ParseString.zone_tail ext st' hat 45 (Or.inr rfl) rest hrp hl)⟩
    · obtain ⟨ss, rest2, hm, rfl, hz⟩ := ParseString.after5 ext st' hat rest hrp hl
      exact ⟨ds, _, hd, rfl, Or.inr ⟨ss, rest2, hm, rfl, hz⟩⟩
    · exact absurd hde (by decide)
    · exact ⟨ds, _, hd, rfl,
        Or.inl (ParseString.zone_tail ext st' hat 43 (Or.inl rfl) rest hrp hl)⟩

theorem ParseString.after3 (ext : Bool) (st : ParseState) (hst : ParseString.atField 3 st)
    (r : QString) (hr : ∀ x ∈ r, ParseString.plain x)
    (h : (ParseString.loop ext (r ++ [0]) st).error = false) :
    ∃ hh rest, Digits 2 hh ∧ r = hh ++ rest ∧ Lenient.MinTail rest := by
  obtain ⟨ds, hd, rfl | ⟨c, rest, st', rfl, hsep, hrp, hde, hat, hl⟩⟩ :=
    ParseString.stage ext 3 (by norm_num) st hst r hr h
  · exact ⟨_, [], hd, by simp, Or.inl rfl⟩
  · rcases hsep with rfl | rfl | rfl | rfl | rfl
    · exact absurd hde (by decide)
    · exact absurd hde (by decide)
    · obtain ⟨mm, rest2, hm, rfl, hz⟩ := ParseString.after4 ext st' hat rest hrp hl
      exact ⟨ds, _, hd, rfl, Or.inr ⟨mm, rest2, hm, rfl, hz⟩⟩
    · exact absurd hde (by decide)
    · exact absurd hde (by decide)

/-- After `T` the rest of an accepted input is a time part. -/
theorem ParseString.time_tail (ext : Bool) (st : ParseState) (hst : ParseString.atField 3 st)
    (r : QString) (hr : ∀ x ∈ r, ParseString.plain x)
    (h : (ParseString.loop ext (r ++ [0]) st).error = false) : Lenient.TimeTail (84 :: r) := by
  obtain ⟨hh, rest, hd, rfl, hm⟩ := ParseString.after3 ext st hst r hr h
  exact Or.inr ⟨hh, rest, hd, rfl, hm⟩

theorem ParseString.after2 (ext : Bool) (st : ParseState) (hst : ParseString.atField 2 st)
    (r : QString) (hr : ∀ x ∈ r, ParseString.plain x)
    (h : (ParseString.loop ext (r ++ [0]) st).error = false) :
    ∃ dd rest, Digits 2 dd ∧ r = dd ++ rest ∧ Lenient.TimeTail rest := by
  obtain ⟨ds, hd, rfl | ⟨c, rest, st', rfl, hsep, hrp, hde, hat, hl⟩⟩ :=
    ParseString.stage ext 2 (by norm_num) st hst r hr h
  · exact ⟨_, [], hd, by simp, Or.inl rfl⟩
  · rcases hsep with rfl | rfl | rfl | rfl | rfl
    · exact ⟨ds, _, hd, rfl, ParseString.time_tail ext st' hat rest hrp hl⟩
    · exact absurd hde (by decide)
    · exact absurd hde (by decide)
    · exact absurd hde (by decide)
    · exact absurd hde (by decide)

theorem ParseString.after1 (ext : Bool) (st : ParseState) (hst : ParseString.atField 1 st)
    (r : QString) (hr : ∀ x ∈ r, ParseString.plain x)
    (h : (ParseString.loop ext (r ++ [0]) st).error = false) :
    ∃ mo rest, Digits 2 mo ∧ r = mo ++ rest ∧ Lenient.DayTail rest := by
  obtain ⟨ds, hd, rfl | ⟨c, rest, st', rfl, hsep, hrp, hde, hat, hl⟩⟩ :=
    ParseString.stage ext 1 (by norm_num) st hst r hr h
  · exact ⟨_, [], hd, by simp, Or.inl (Or.inl rfl)⟩
  · rcases hsep with rfl | rfl | rfl | rfl | rfl
    · exact ⟨ds, _, hd, rfl, Or.inl (ParseString.time_tail ext st' hat rest hrp hl)⟩
    · obtain ⟨dd, rest2, hm, rfl, hz⟩ := ParseString.after2 ext st' hat rest hrp hl
      exact ⟨ds, _, hd, rfl, Or.inr ⟨dd, rest2, hm, rfl, hz⟩⟩
    · exact absurd hde (by decide)
    · exact absurd hde (by decide)
    · exact absurd hde (by decide)

theorem ParseString.after0 (ext : Bool) (st : ParseState) (hst : ParseString.atField 0 st)
    (r : QString) (hr : ∀ x ∈ r, ParseString.plain x)
    (h : (ParseString.loop ext (r ++ [0]) st).error = false) :
    Lenient.Body (if ext then 6 else 4) r := by
  have hw : ParseString.width ext 0 = if ext then 6 else 4 := rfl
  obtain ⟨ds, hd, rfl | ⟨c, rest, st', rfl, hsep, hrp, hde, hat, hl⟩⟩ :=
    ParseString.stage ext 0 (by norm_num) st hst r hr h
  · exact ⟨_, [], hw ▸ hd, by simp, Or.inl (Or.inl rfl)⟩
  · rcases hsep with rfl | rfl | rfl | rfl | rfl
    · exact ⟨ds, _, hw ▸ hd, rfl, Or.inl (ParseString.time_tail ext st' hat rest hrp hl)⟩
    · obtain ⟨mo, rest2, hm, rfl, hz⟩ := ParseString.after1 ext st' hat rest hrp hl
      exact ⟨ds, _, hw ▸ hd, rfl, Or.inr ⟨mo, rest2, hm, rfl, hz⟩⟩
    · exact absurd hde (by decide)
    · exact absurd hde (by decide)
    · exact absurd hde (by decide)

theorem zeroPrefixedDigits_mem (k : ℕ) :
    ∀ n : ℤ, 0 ≤ n → ∀ x ∈ zeroPrefixedDigits k n, 48 ≤ x ∧ x ≤ 57 := by
  induction k with
  | zero => intro n _ x hx; exact absurd hx (List.not_mem_nil x)
  | succ k ih =>
    intro n h0 x hx
    have e : zeroPrefixedDigits (k + 1) n
        = zeroPrefixedDigits k (Int.tdiv n 10) ++ [QChar.ofInt (Int.tmod n 10 + 48)] := rfl
    rw [e] at hx
    rcases List.mem_append.mp hx with hx | hx
    · exact ih _ (Int.tdiv_nonneg h0 (by norm_num)) x hx
    · rw [List.mem_singleton] at hx
      obtain ⟨d1, d2, _⟩ := QChar.ofInt_digit n h0
      rw [hx]; exact ⟨d1, d2⟩

/-- The digits of a field contain neither `T` nor `:`. -/
theorem zeroPrefixedDigits_not_sep (k n : ℕ) (x : QChar) (hx : x ∈ zeroPrefixedDigits k n) :
    x ≠ 84 ∧ x ≠ 58 := by
  have h := zeroPrefixedDigits_mem k (n : ℤ) (Int.natCast_nonneg n) x hx
  have h1 : 48 ≤ (x : ℕ) := h.1
  have h2 : (x : ℕ) ≤ 57 := h.2
  constructor
  · intro e; rw [e] at h2; exact absurd h2 (by decide)
  · intro e; rw [e] at h2; exact absurd h2 (by decide)

/-- In a string of the strict grammar a `T` is followed, after the hour, by a `:`. -/
theorem IsoString.render_T_colon (g : IsoString) (h : (84 : QChar) ∈ g.render) :
    (58 : QChar) ∈ g.render := by
  obtain ⟨sign, year, date, time, zone⟩ := g
  simp only [IsoString.render] at h ⊢
  have dig : ∀ (k n : ℕ) (x : QChar), x ∈ zeroPrefixedDigits k n → x ≠ 84 :=
    fun k n x hx => (zeroPrefixedDigits_not_sep k n x hx).1
  rcases time with _ | ⟨hh, mi, rest⟩
  · exfalso
    have hy : ∀ x ∈ IsoString.renderYear sign year, x ≠ 84 := by
      intro x hx
      rcases sign with _ | neg
      · exact dig _ _ x hx
      · simp only [IsoString.renderYear, List.mem_cons] at hx
        rcases hx with rfl | hx
        · cases neg <;> decide
        · exact dig _ _ x hx
    have hd : ∀ x ∈ IsoString.renderDate date, x ≠ 84 := by
      intro x hx
      rcases date with _ | ⟨mo, _ | d⟩
      · exact absurd hx (List.not_mem_nil x)
      · simp only [IsoString.renderDate, List.mem_cons] at hx
        rcases hx with rfl | hx
        · decide
        · exact dig _ _ x hx
      · simp only [IsoString.renderDate, List.mem_cons, List.mem_append] at hx
        rcases hx with (rfl | hx) | (rfl | hx)
        · decide
        · exact dig _ _ x hx
        · decide
        · exact dig _ _ x hx
    have hz : ∀ x ∈ IsoString.renderZone zone, x ≠ 84 := by
      intro x hx
      rcases zone with _ | _ | ⟨neg, zh, zm⟩
      · exact absurd hx (List.not_mem_nil x)
      · simp only [IsoString.renderZone, List.mem_singleton] at hx
        rw [hx]; decide
      · simp only [IsoString.renderZone, List.mem_cons, List.mem_append] at hx
        rcases hx with (rfl | hx) | (rfl | hx)
        · cases neg <;> decide
        · exact dig _ _ x hx
        · decide
        · exact dig _ _ x hx
    simp only [IsoString.renderTime, List.append_nil, List.mem_append] at h
    rcases h with (h | h) | h
    · exact hy _ h rfl
    · exact hd _ h rfl
    · exact hz _ h rfl
  · have : (58 : QChar) ∈ IsoString.renderTime (some (hh, mi, rest)) := by
      rcases rest with _ | ⟨s, _ | ms⟩ <;> simp [IsoString.renderTime]
    simp only [List.mem_append]
    exact Or.inl (Or.inr this)

/-- The strict path on `2023-06-15T10`, a time part of the hour alone. -/
theorem ParseString.strict_hour_only :
    ParseString.strict (QStringLiteral "2023-06-15T10") = some (fin 1686823200000) := by
  have hscan : ParseString.scan (QStringLiteral "2023-06-15T10")
      = (false, 1, ParseString.between 9 2023 5 15 10 0 0 0 1 0) := by decide
  have h1 : dayFromYearZ (2023 * 1 + 5 / 12) = 19358 := by decide
  have h2 : monthStartZ (isLeapZ (2023 * 1 + 5 / 12)) (5 % 12) = 151 := by decide
  rw [ParseString.strict_of_scan _ _ _ _ _ _ _ _ _ _ _ _ hscan]
  simp only [MakeTime_int]
  simp only [Dbl.ofInt_eq]
  rw [MakeDay_int _ _ _ (by decide) (by decide), h1, h2]
  simp only [MakeDate, msPerDay, Dbl.fin_mul, Dbl.fin_add, Dbl.fin_sub]
  norm_num

/-- The scan of an accepted string over digits and separators ends without
error, so the string has the shape of the grammar with optional minutes. -/
theorem ParseString.strict_lenient (b : QString) (v : Dbl)
    (hb : ∀ x ∈ b, ParseString.plain x) (hv : ParseString.strict b = some v) :
    LenientIso b := by
  have hinit : ParseString.atField 0 ParseString.init := ⟨rfl, rfl, rfl, rfl⟩
  have herr : (ParseString.scan b).2.2.error = false := by
    unfold ParseString.strict at hv
    by_contra hne
    have h1 : (ParseString.scan b).2.2.error = true := by simpa using hne
    simp [h1] at hv
  cases b with
  | nil => exact Or.inl (ParseString.after0 false _ hinit [] hb herr)
  | cons c r =>
    have hr : ∀ x ∈ r, ParseString.plain x := fun x hx => hb x (List.mem_cons_of_mem _ hx)
    by_cases h43 : c = 43
    · subst h43
      exact Or.inr ⟨r, Or.inl rfl, ParseString.after0 true _ hinit r hr herr⟩
    · by_cases h45 : c = 45
      · subst h45
        exact Or.inr ⟨r, Or.inr rfl, ParseString.after0 true _ hinit r hr herr⟩
      · rw [ParseString.scan_unsigned c r h43 h45] at herr
        exact Or.inl (ParseString.after0 false _ hinit (c :: r) hb herr)

/-- Claim C12 as stated fails: the strict path of `ParseString` succeeds on
`2023-06-15T10`, whose time part is the hour alone, and returns the time value
of 2023-06-15 10:00 UTC, while no string of the strict grammar
`[sign]YYYY(-MM(-DD))?(THH:mm(:ss(.sss)?)?)?(Z|+HH:mm|-HH:mm)?` is this
string. -/
theorem C12_counterexample :
    ParseString.strict (QStringLiteral "2023-06-15T10") = some (fin 1686823200000) ∧
    ∀ g : IsoString, g.render ≠ QStringLiteral "2023-06-15T10" := by
  refine ⟨ParseString.strict_hour_only, fun g hg => ?_⟩
  have h := IsoString.render_T_colon g (by rw [hg]; decide)
  rw [hg] at h
  exact absurd h (by decide)

/-- Claim C12 (amended): every string made of digits and the separators `-`,
`:`, `.`, `+`, `T`, with or without one final `Z`, on which the strict path of
`ParseString` succeeds matches, up to that `Z`, the grammar
`[sign]YYYY(-MM(-DD)?)?(THH(:mm(:ss(.sss)?)?((+|-)HH(:mm)?)?)?)?`: every field
has its fixed width, the minute of the time part and the minute of a zone
offset are optional, and a zone offset follows only a time part that has its
minute; every other string of these characters is a strict-path failure. -/
theorem C12_accepted_lenient (s b : QString) (v : Dbl)
    (hs : s = b ∨ s = b ++ QStringLiteral "Z")
    (hb : ∀ x ∈ b, ParseString.plain x)
    (hv : ParseString.strict s = some v) : LenientIso b := by
  rcases hs with rfl | rfl
  · exact ParseString.strict_lenient s v hb hv
  · have hv2 : ParseString.strict (b ++ [90]) = some v := hv
    rw [ParseString.strict_append_Z] at hv2
    exact ParseString.strict_lenient b v hb hv2

/-- Instance of the amended claim C12 on `2023-06-15T10`, which the strict
path accepts. -/
theorem C12_accepted_lenient_witness :
    (∀ x ∈ QStringLiteral "2023-06-15T10", ParseString.plain x) ∧
      ParseString.strict (QStringLiteral "2023-06-15T10") = some (fin 1686823200000) ∧
      LenientIso (QStringLiteral "2023-06-15T10") :=
  ⟨by decide, ParseString.strict_hour_only,
    C12_accepted_lenient (QStringLiteral "2023-06-15T10") (QStringLiteral "2023-06-15T10")
      (fin 1686823200000) (Or.inl rfl) (by decide) ParseString.strict_hour_only⟩

/-- C22: `MakeDay` carries a month outside `0..11` into the year.  For integers
`y`, `m`, `d` of magnitude at most `2 ^ 52`, which a `double` holds exactly,
whose year after the carry, `y + floor (m / 12)`, lies within a million years
of year 0, which covers every date in range: `MakeDay y m d` is
`MakeDay (y + floor (m / 12)) (m mod 12) d` with `m mod 12` in `0..11`; its value is the day number of the first day of the
year `y + floor (m / 12)`, plus the days before the month `m mod 12` in that
year, plus `d - 1`; when `d` is a day of that month, the date value of this day
has the year `y + floor (m / 12)`, the month `m mod 12` and the day `d`; so
`MakeDay y (m + 12) d = MakeDay (y + 1) m d` and
`MakeDay y (-1) d = MakeDay (y - 1) 11 d`. -/
theorem C22_MakeDay_normalises (y m d : ℤ) (hy : |y| ≤ 4503599627370496)
    (hm : |m| ≤ 4503599627370496) (hd : |d| ≤ 4503599627370496)
    (hY : |y + m / 12| ≤ 1000000) :
    (m / 12 : ℤ) = ⌊(m : ℚ) / 12⌋ ∧ 0 ≤ m % 12 ∧ m % 12 ≤ 11 ∧
    MakeDay (fin (y : ℚ)) (fin (m : ℚ)) (fin (d : ℚ))
      = MakeDay (fin ((y + m / 12 : ℤ) : ℚ)) (fin ((m % 12 : ℤ) : ℚ)) (fin (d : ℚ)) ∧
    MakeDay (fin (y : ℚ)) (fin (m : ℚ)) (fin (d : ℚ))
      = DayFromYear (fin ((y + m / 12 : ℤ) : ℚ))
          + DayFromMonth (fin ((m % 12 : ℤ) : ℚ)) (ofBool (isLeapZ (y + m / 12)))
          + (fin (d : ℚ) - fin 1) ∧
    MakeDay (fin (y : ℚ)) (fin (m : ℚ)) (fin (d : ℚ))
      = fin ((dayFromYearZ (y + m / 12) + monthStartZ (isLeapZ (y + m / 12)) (m % 12) + d - 1 : ℤ)
          : ℚ) ∧
    (1 ≤ d → d ≤ monthLength (isLeapZ (y + m / 12)) (m % 12) →
      YearFromTime (MakeDate (MakeDay (fin (y : ℚ)) (fin (m : ℚ)) (fin (d : ℚ))) (fin 0))
        = fin ((y + m / 12 : ℤ) : ℚ) ∧
      MonthFromTime (MakeDate (MakeDay (fin (y : ℚ)) (fin (m : ℚ)) (fin (d : ℚ))) (fin 0))
        = fin ((m % 12 : ℤ) : ℚ) ∧
      DateFromTime (MakeDate (MakeDay (fin (y : ℚ)) (fin (m : ℚ)) (fin (d : ℚ))) (fin 0))
        = fin (d : ℚ)) ∧
    MakeDay (fin (y : ℚ)) (fin ((m + 12 : ℤ) : ℚ)) (fin (d : ℚ))
      = MakeDay (fin ((y + 1 : ℤ) : ℚ)) (fin (m : ℚ)) (fin (d : ℚ)) ∧
    MakeDay (fin (y : ℚ)) (fin ((-1 : ℤ) : ℚ)) (fin (d : ℚ))
      = MakeDay (fin ((y - 1 : ℤ) : ℚ)) (fin ((11 : ℤ) : ℚ)) (fin (d : ℚ)) := by
  have _ := hy
  have _ := hm
  have _ := hd
  obtain ⟨y1, y2⟩ := abs_le.mp hY
  have e1 : (y + m / 12) + m % 12 / 12 = y + m / 12 := by omega
  have e2 : m % 12 % 12 = m % 12 := by omega
  have e3 : y + (m + 12) / 12 = y + 1 + m / 12 := by omega
  have e4 : (m + 12) % 12 = m % 12 := by omega
  have e5 : y + (-1 : ℤ) / 12 = y - 1 + 11 / 12 := by omega
  have e6 : (-1 : ℤ) % 12 = 11 % 12 := by decide
  have hval : MakeDay (fin (y : ℚ)) (fin (m : ℚ)) (fin (d : ℚ))
      = fin ((dayFromYearZ (y + m / 12) + monthStartZ (isLeapZ (y + m / 12)) (m % 12) + d - 1 : ℤ)
          : ℚ) := by
    rw [MakeDay_int y m _ (by omega) (by omega)]
    congr 1; push_cast; ring
  refine ⟨?_, by omega, by omega, ?_, ?_, hval, ?_, ?_, ?_⟩
  · have h := floor_intCast_div_pos m 12 (by norm_num)
    rw [← h]; norm_num
  · rw [MakeDay_int_raw, MakeDay_int_raw, e1, e2]
  · rw [hval, DayFromYear_int]
    have hdm := DayFromMonth_int (isLeapZ (y + m / 12)) (m % 12) (by omega) (by omega)
    rw [hdm, Dbl.fin_add, Dbl.fin_sub, Dbl.fin_add]
    congr 1; push_cast; ring
  · intro hd0 hd1
    obtain ⟨a1, a2, a3, _⟩ := decompose_composed (y + m / 12) (m % 12) d 0 (by omega) (by omega)
      (by omega) (by omega) hd0 hd1 (by norm_num) (by norm_num)
    have hmd : MakeDate (MakeDay (fin (y : ℚ)) (fin (m : ℚ)) (fin (d : ℚ))) (fin 0)
        = fin (((dayFromYearZ (y + m / 12) + monthStartZ (isLeapZ (y + m / 12)) (m % 12) + d - 1)
            * 86400000 + 0 : ℤ) : ℚ) := by
      rw [hval]
      simp only [MakeDate, msPerDay, Dbl.fin_mul, Dbl.fin_add]
      congr 1; push_cast; ring
    rw [hmd]
    exact ⟨a1, a2, a3⟩
  · rw [MakeDay_int_raw, MakeDay_int_raw, e3, e4]
  · rw [MakeDay_int_raw, MakeDay_int_raw, e5, e6]

/-- Instance of C22 for month 14 of 2023, which is March 2024: the date value
of its day 15 has the year 2024 and the month 2. -/
theorem C22_MakeDay_normalises_witness :
    |(2023 : ℤ)| ≤ 4503599627370496 ∧ |(14 : ℤ)| ≤ 4503599627370496 ∧
    |(15 : ℤ)| ≤ 4503599627370496 ∧ |(2023 : ℤ) + 14 / 12| ≤ 1000000 ∧
    MakeDay (fin ((2023 : ℤ) : ℚ)) (fin ((14 : ℤ) : ℚ)) (fin ((15 : ℤ) : ℚ))
      = MakeDay (fin ((2023 + 14 / 12 : ℤ) : ℚ)) (fin ((14 % 12 : ℤ) : ℚ)) (fin ((15 : ℤ) : ℚ)) ∧
    YearFromTime (MakeDate (MakeDay (fin ((2023 : ℤ) : ℚ)) (fin ((14 : ℤ) : ℚ))
        (fin ((15 : ℤ) : ℚ))) (fin 0)) = fin ((2023 + 14 / 12 : ℤ) : ℚ) ∧
    MonthFromTime (MakeDate (MakeDay (fin ((2023 : ℤ) : ℚ)) (fin ((14 : ℤ) : ℚ))
        (fin ((15 : ℤ) : ℚ))) (fin 0)) = fin ((14 % 12 : ℤ) : ℚ) :=
  ⟨by decide, by decide, by decide, by decide,
   (C22_MakeDay_normalises 2023 14 15 (by decide) (by decide) (by decide) (by decide)).2.2.2.1,
   ((C22_MakeDay_normalises 2023 14 15 (by decide) (by decide) (by decide)
      (by decide)).2.2.2.2.2.2.1 (by decide) (by decide)).1,
   ((C22_MakeDay_normalises 2023 14 15 (by decide) (by decide) (by decide)
      (by decide)).2.2.2.2.2.2.1 (by decide) (by decide)).2.1⟩

/-- C28: `UTC` is not an inverse of `LocalTime` in every time zone: in the zone
with no standard offset whose daylight saving of one hour ends at the epoch,
half an hour before the epoch `LocalTime` gives half an hour after it, and
`UTC` leaves that value as it is. -/
theorem C28_UTC_not_inverse :
    (∀ (tz : TimeZone) (t : Dbl), LocalTime tz t = t + tz.LocalTZA + tz.DaylightSavingTA t) ∧
    (∀ (tz : TimeZone) (t : Dbl),
      UTC tz t = t - tz.LocalTZA - tz.DaylightSavingTA (t - tz.LocalTZA)) ∧
    TimeZone.withTransition.DaylightSavingTA (fin (-1)) = fin 3600000 ∧
    TimeZone.withTransition.DaylightSavingTA (fin 0) = fin 0 ∧
    LocalTime TimeZone.withTransition (fin (-1800000)) = fin 1800000 ∧
    UTC TimeZone.withTransition (LocalTime TimeZone.withTransition (fin (-1800000)))
      = fin 1800000 ∧
    UTC TimeZone.withTransition (LocalTime TimeZone.withTransition (fin (-1800000)))
      ≠ fin (-1800000) ∧
    ∃ (tz : TimeZone) (t : Dbl), UTC tz (LocalTime tz t) ≠ t := by
  have h1 : LocalTime TimeZone.withTransition (fin (-1800000)) = fin 1800000 := by
    simp only [LocalTime, TimeZone.withTransition, Dbl.lt_fin, Dbl.fin_add]
    norm_num
  have h2 : UTC TimeZone.withTransition (fin 1800000) = fin 1800000 := by
    simp only [UTC, TimeZone.withTransition, Dbl.lt_fin, Dbl.fin_sub]
    norm_num [Dbl.fin_sub]
  have h3 : (fin 1800000 : Dbl) ≠ fin (-1800000) := by
    intro h; injection h with h; norm_num at h
  refine ⟨fun _ _ => rfl, fun _ _ => rfl, ?_, ?_, h1, ?_, ?_, ⟨TimeZone.withTransition, fin (-1800000), ?_⟩⟩
  · simp only [TimeZone.withTransition, Dbl.lt_fin]; norm_num
  · simp only [TimeZone.withTransition, Dbl.lt_fin]; norm_num
  · rw [h1, h2]
  · rw [h1, h2]; exact h3
  · rw [h1, h2]; exact h3

/-- C29: when the stored date value is NaN, every field getter returns NaN,
whatever the time-zone state. -/
theorem C29_getters_nan (tz : TimeZone) :
    method_getTime (some nan) = GetResult.number nan ∧
    method_getYear tz (some nan) = GetResult.number nan ∧
    method_getFullYear tz (some nan) = GetResult.number nan ∧
    method_getUTCFullYear (some nan) = GetResult.number nan ∧
    method_getMonth tz (some nan) = GetResult.number nan ∧
    method_getUTCMonth (some nan) = GetResult.number nan ∧
    method_getDate tz (some nan) = GetResult.number nan ∧
    method_getUTCDate (some nan) = GetResult.number nan ∧
    method_getDay tz (some nan) = GetResult.number nan ∧
    method_getUTCDay (some nan) = GetResult.number nan ∧
    method_getHours tz (some nan) = GetResult.number nan ∧
    method_getUTCHours (some nan) = GetResult.number nan ∧
    method_getMinutes tz (some nan) = GetResult.number nan ∧
    method_getUTCMinutes (some nan) = GetResult.number nan ∧
    method_getSeconds tz (some nan) = GetResult.number nan ∧
    method_getUTCSeconds (some nan) = GetResult.number nan ∧
    method_getMilliseconds tz (some nan) = GetResult.number nan ∧
    method_getUTCMilliseconds (some nan) = GetResult.number nan ∧
    method_getTimezoneOffset tz (some nan) = GetResult.number nan :=
  ⟨rfl, rfl, rfl, rfl, rfl, rfl, rfl, rfl, rfl, rfl, rfl, rfl, rfl, rfl, rfl, rfl, rfl, rfl, rfl⟩

theorem DaysInYear_two (y : Dbl) : DaysInYear y = fin 365 ∨ DaysInYear y = fin 366 := by
  unfold DaysInYear
  split_ifs <;> simp

/-- C30: for every whole-millisecond `t` with `|t| <= 8.64e15`, negative ones
included, the decomposed fields lie in their ranges: month in `0..11`, day of
the month from 1 to the length of that month (at most 31), hour in `0..23`,
minute and second in `0..59`, millisecond in `0..999`, week day in `0..6`; so
`MonthFromTime` and `DateFromTime` do not reach their NaN branch, and
`DaysInYear` gives 365 or 366, so the assertion of `InLeapYear` holds. -/
theorem C30_fields_in_range (t : ℤ) (ht : |t| ≤ 8640000000000000) :
    ∃ m d w : ℤ,
      MonthFromTime (fin (t : ℚ)) = fin (m : ℚ) ∧ 0 ≤ m ∧ m ≤ 11 ∧
      DateFromTime (fin (t : ℚ)) = fin (d : ℚ) ∧ 1 ≤ d ∧ d ≤ 31 ∧
      d ≤ monthLength (InLeapYear (fin (t : ℚ))) m ∧
      0 ≤ HourFromTime (fin (t : ℚ)) ∧ HourFromTime (fin (t : ℚ)) ≤ 23 ∧
      0 ≤ MinFromTime (fin (t : ℚ)) ∧ MinFromTime (fin (t : ℚ)) ≤ 59 ∧
      0 ≤ SecFromTime (fin (t : ℚ)) ∧ SecFromTime (fin (t : ℚ)) ≤ 59 ∧
      0 ≤ msFromTime (fin (t : ℚ)) ∧ msFromTime (fin (t : ℚ)) ≤ 999 ∧
      WeekDay (fin (t : ℚ)) = fin (w : ℚ) ∧ 0 ≤ w ∧ w ≤ 6 ∧
      MonthFromTime (fin (t : ℚ)) ≠ nan ∧ DateFromTime (fin (t : ℚ)) ≠ nan ∧
      (DaysInYear (YearFromTime (fin (t : ℚ))) = fin 365 ∨
        DaysInYear (YearFromTime (fin (t : ℚ))) = fin 366) := by
  obtain ⟨ht1, ht2⟩ := abs_le.mp ht
  have hfl : ⌊(t : ℚ)⌋ = t := Int.floor_intCast t
  have hlo : -60000000000000000000 ≤ ⌊(t : ℚ)⌋ := by rw [hfl]; omega
  have hhi : ⌊(t : ℚ)⌋ ≤ 60000000000000000000 := by rw [hfl]; omega
  have hM := MonthFromTime_fin (t : ℚ) hlo hhi
  have hD := DateFromTime_fin (t : ℚ) hlo hhi
  have hL := InLeapYear_fin (t : ℚ) hlo hhi
  rw [hfl] at hM hD hL
  have hdw := dayWithinYear_range t
  have hmr := monthFromDayZ_range (isLeapZ (yearFromTimeZ t))
    (t / 86400000 - dayFromYearZ (yearFromTimeZ t))
  have hdr := dateFromDay_range (isLeapZ (yearFromTimeZ t))
    (t / 86400000 - dayFromYearZ (yearFromTimeZ t)) hdw.1
    (by have := hdw.2; unfold daysInYearZ at this; exact this)
  have hml := monthLength_le (isLeapZ (yearFromTimeZ t))
    (monthFromDayZ (isLeapZ (yearFromTimeZ t)) (t / 86400000 - dayFromYearZ (yearFromTimeZ t)))
  have hW := WeekDay_fin (t : ℚ)
  have hfd : ⌊(t : ℚ) / 86400000⌋ = t / 86400000 := by
    have h := floor_intCast_div_pos t 86400000 (by norm_num)
    push_cast at h
    exact h
  rw [hfd] at hW
  refine ⟨_, _, (t / 86400000 + 4) % 7, hM, hmr.1, hmr.2, hD, ?_, ?_, ?_, ?_, ?_, ?_, ?_, ?_, ?_,
    ?_, ?_, ?_, ?_, ?_, ?_, ?_, DaysInYear_two _⟩
  · omega
  · omega
  · rw [hL]; omega
  · rw [HourFromTime_int]; omega
  · rw [HourFromTime_int]; omega
  · rw [MinFromTime_int]; omega
  · rw [MinFromTime_int]; omega
  · rw [SecFromTime_int]; omega
  · rw [SecFromTime_int]; omega
  · rw [msFromTime_int]; omega
  · rw [msFromTime_int]; omega
  · rw [hW]
  · omega
  · omega
  · rw [hM]; exact fun h => Dbl.noConfusion h
  · rw [hD]; exact fun h => Dbl.noConfusion h

/-- Witness of C30 at the last millisecond before the epoch, 1969-12-31
23:59:59.999, a Wednesday. -/
theorem C30_fields_in_range_witness :
    |(-1 : ℤ)| ≤ 8640000000000000 ∧
    ∃ m d w : ℤ,
      MonthFromTime (fin ((-1 : ℤ) : ℚ)) = fin (m : ℚ) ∧ 0 ≤ m ∧ m ≤ 11 ∧
      DateFromTime (fin ((-1 : ℤ) : ℚ)) = fin (d : ℚ) ∧ 1 ≤ d ∧ d ≤ 31 ∧
      d ≤ monthLength (InLeapYear (fin ((-1 : ℤ) : ℚ))) m ∧
      0 ≤ HourFromTime (fin ((-1 : ℤ) : ℚ)) ∧ HourFromTime (fin ((-1 : ℤ) : ℚ)) ≤ 23 ∧
      0 ≤ MinFromTime (fin ((-1 : ℤ) : ℚ)) ∧ MinFromTime (fin ((-1 : ℤ) : ℚ)) ≤ 59 ∧
      0 ≤ SecFromTime (fin ((-1 : ℤ) : ℚ)) ∧ SecFromTime (fin ((-1 : ℤ) : ℚ)) ≤ 59 ∧
      0 ≤ msFromTime (fin ((-1 : ℤ) : ℚ)) ∧ msFromTime (fin ((-1 : ℤ) : ℚ)) ≤ 999 ∧
      WeekDay (fin ((-1 : ℤ) : ℚ)) = fin (w : ℚ) ∧ 0 ≤ w ∧ w ≤ 6 ∧
      MonthFromTime (fin ((-1 : ℤ) : ℚ)) ≠ nan ∧ DateFromTime (fin ((-1 : ℤ) : ℚ)) ≠ nan ∧
      (DaysInYear (YearFromTime (fin ((-1 : ℤ) : ℚ))) = fin 365 ∨
        DaysInYear (YearFromTime (fin ((-1 : ℤ) : ℚ))) = fin 366) :=
  ⟨by decide, C30_fields_in_range (-1) (by decide)⟩

/-- C25: `ToString` and `ToUTCString` give the literal `Invalid Date` for the
NaN sentinel, whatever the time-zone state and the text functions of Qt. -/
theorem C25_ToString_nan (fmt : QDateTimeText) (tz : TimeZone) :
    ToString fmt tz nan = QStringLiteral "Invalid Date" ∧
    ToUTCString fmt nan = QStringLiteral "Invalid Date" :=
  ⟨rfl, rfl⟩

/-- C26 (the code at the failing input): the date-only, time-only and locale
forms have no test for NaN; for the NaN sentinel each returns what the text
function of Qt gives for the invalid `QDateTime()`, so the literal
`Invalid Date` comes out only if that function produces it, and with text
functions that give the empty string for an invalid value all five return the
empty string, while `ToString` returns `Invalid Date`. -/
theorem C26_forms_without_nan_test :
    (∀ fmt : QDateTimeText,
      ToDateString fmt nan = fmt.dateToString none ∧
      ToTimeString fmt nan = fmt.timeToString none ∧
      ToLocaleString fmt nan = fmt.toStringLocaleDate none ∧
      ToLocaleDateString fmt nan = fmt.dateToStringLocaleDate none ∧
      ToLocaleTimeString fmt nan = fmt.timeToStringLocaleDate none) ∧
    (∀ tz : TimeZone, ToString QDateTimeText.empty tz nan = QStringLiteral "Invalid Date") ∧
    ToDateString QDateTimeText.empty nan = [] ∧
    ToTimeString QDateTimeText.empty nan = [] ∧
    ToLocaleString QDateTimeText.empty nan = [] ∧
    ToLocaleDateString QDateTimeText.empty nan = [] ∧
    ToLocaleTimeString QDateTimeText.empty nan = [] ∧
    ToDateString QDateTimeText.empty nan ≠ QStringLiteral "Invalid Date" :=
  ⟨fun _ => ⟨rfl, rfl, rfl, rfl, rfl⟩, fun _ => rfl, rfl, rfl, rfl, rfl, rfl, by decide⟩

theorem zeroPrefixedDigits_length (k : ℕ) : ∀ n : ℤ, (zeroPrefixedDigits k n).length = k := by
  induction k with
  | zero => intro n; rfl
  | succ k ih =>
    intro n
    show (zeroPrefixedDigits k (Int.tdiv n 10) ++ [QChar.ofInt (Int.tmod n 10 + 48)]).length = _
    rw [List.length_append, ih]; rfl

theorem decimalValue_snoc (l : List QChar) (c : QChar) :
    decimalValue (l ++ [c]) = decimalValue l * 10 + ((c : ℤ) - 48) := by
  simp [decimalValue, List.foldl_append]

/-- The digits that `addZeroPrefixedInt` writes for a number that fits the
width are digit characters, as many as the width, and denote the number. -/
theorem zeroPrefixedDigits_value (k : ℕ) :
    ∀ n : ℤ, 0 ≤ n → n < 10 ^ k →
      Digits k (zeroPrefixedDigits k n) ∧ decimalValue (zeroPrefixedDigits k n) = n := by
  induction k with
  | zero =>
    intro n h0 h1
    have : n = 0 := by
      have h1' : n < 1 := by simpa using h1
      omega
    subst this
    exact ⟨⟨rfl, fun x hx => absurd hx (List.not_mem_nil x)⟩, rfl⟩
  | succ k ih =>
    intro n h0 h1
    refine ⟨⟨zeroPrefixedDigits_length _ _, zeroPrefixedDigits_mem _ n h0⟩, ?_⟩
    have hq : Int.tdiv n 10 = n / 10 := Int.tdiv_eq_ediv h0 (show (0 : ℤ) ≤ 10 by norm_num)
    have h10 : n / 10 < 10 ^ k := by
      have : n < 10 ^ k * 10 := by rw [pow_succ] at h1; exact h1
      omega
    obtain ⟨_, hv⟩ := ih (n / 10) (by omega) h10
    obtain ⟨_, _, d3⟩ := QChar.ofInt_digit n h0
    show decimalValue (zeroPrefixedDigits k (Int.tdiv n 10) ++ [QChar.ofInt (Int.tmod n 10 + 48)])
      = n
    rw [decimalValue_snoc, hq, hv, d3]
    omega

/-- The optional `0` and `QString::number` together write a number below 100
as `addZeroPrefixedInt` writes it in two digits. -/
theorem QString.number_pad2 (n : ℤ) (h0 : 0 ≤ n) (h1 : n < 100) :
    (if n < 10 then [48] else []) ++ QString.number n = zeroPrefixedDigits 2 n := by
  interval_cases n <;> rfl

theorem Dbl.toInt_floor_nonneg (q : ℚ) (h0 : 0 ≤ q) (h1 : q < 2147483648) :
    toInt (fin q) = ⌊q⌋ := by
  have hf0 : 0 ≤ ⌊q⌋ := Int.floor_nonneg.mpr h0
  have hf1 : ⌊q⌋ < 2147483648 := by
    have : ((⌊q⌋ : ℤ) : ℚ) ≤ q := Int.floor_le q
    have h2 : ((⌊q⌋ : ℤ) : ℚ) < ((2147483648 : ℤ) : ℚ) := by push_cast; linarith
    exact_mod_cast h2
  simp only [toInt, truncQ, h0, if_true]
  rw [if_pos ⟨by omega, by omega⟩]

/-- C27: for a valid `t`, what `ToString` appends after the local date and time
and ` GMT` is fixed by `o = LocalTZA + DaylightSavingTA t`: nothing when
`o = 0`; when `o` is not zero and `|o|` is below 100 hours, five characters: `+`
for `o > 0` or `-` for `o < 0`, then `floor (|o| / 3600000)` in two zero-padded
digits, then `floor (|o| / 60000) mod 60` in two zero-padded digits. -/
theorem C27_ToString_offset (fmt : QDateTimeText) (tz : TimeZone) (t : Dbl) (o : ℚ)
    (ht : isNaN t = false) (ho : tz.LocalTZA + tz.DaylightSavingTA t = fin o) :
    (o = 0 →
      ToString fmt tz t
        = fmt.toString (some (t, TimeSpec.LocalTime)) ++ QStringLiteral " GMT") ∧
    (o ≠ 0 → |o| < 360000000 →
      ToString fmt tz t
        = fmt.toString (some (t, TimeSpec.LocalTime)) ++ QStringLiteral " GMT"
            ++ (if 0 < o then 43 else 45) ::
              (zeroPrefixedDigits 2 ⌊|o| / 3600000⌋
                ++ zeroPrefixedDigits 2 (⌊|o| / 60000⌋ % 60)) ∧
      Digits 2 (zeroPrefixedDigits 2 ⌊|o| / 3600000⌋) ∧
      decimalValue (zeroPrefixedDigits 2 ⌊|o| / 3600000⌋) = ⌊|o| / 3600000⌋ ∧
      Digits 2 (zeroPrefixedDigits 2 (⌊|o| / 60000⌋ % 60)) ∧
      decimalValue (zeroPrefixedDigits 2 (⌊|o| / 60000⌋ % 60)) = ⌊|o| / 60000⌋ % 60) := by
  have hdt : ToDateTime t TimeSpec.LocalTime = some (t, TimeSpec.LocalTime) := by
    simp [ToDateTime, ht]
  constructor
  · intro h0
    subst h0
    simp [ToString, ht, ho, hdt, Dbl.toBool]
  · intro hne hlt
    have habs : (0 : ℚ) ≤ |o| := abs_nonneg o
    have e1 : fabs (fin o) / fin 1000 / fin 60 / fin 60 = fin (|o| / 3600000) := by
      rw [show fabs (fin o) = fin |o| from rfl, Dbl.fin_div _ _ (by norm_num),
        Dbl.fin_div _ _ (by norm_num), Dbl.fin_div _ _ (by norm_num)]
      congr 1; ring
    have e2 : fabs (fin o) / fin 1000 / fin 60 = fin (|o| / 60000) := by
      rw [show fabs (fin o) = fin |o| from rfl, Dbl.fin_div _ _ (by norm_num),
        Dbl.fin_div _ _ (by norm_num)]
      congr 1; ring
    have hH := Dbl.toInt_floor_nonneg (|o| / 3600000) (by positivity)
      (by rw [div_lt_iff₀ (by norm_num)]; linarith)
    have hN := Dbl.toInt_floor_nonneg (|o| / 60000) (by positivity)
      (by rw [div_lt_iff₀ (by norm_num)]; linarith)
    have hH0 : 0 ≤ ⌊|o| / 3600000⌋ := Int.floor_nonneg.mpr (by positivity)
    have hH1 : ⌊|o| / 3600000⌋ < 100 := by
      rw [Int.floor_lt]
      rw [div_lt_iff₀ (by norm_num)]
      push_cast; linarith
    have hN0 : 0 ≤ ⌊|o| / 60000⌋ := Int.floor_nonneg.mpr (by positivity)
    have hM : Int.tmod ⌊|o| / 60000⌋ 60 = ⌊|o| / 60000⌋ % 60 :=
      Int.tmod_eq_emod hN0 (by norm_num)
    have hM0 : 0 ≤ ⌊|o| / 60000⌋ % 60 := by omega
    have hM1 : ⌊|o| / 60000⌋ % 60 < 100 := by omega
    obtain ⟨dH, vH⟩ := zeroPrefixedDigits_value 2 _ hH0 (by norm_num; exact hH1)
    obtain ⟨dM, vM⟩ := zeroPrefixedDigits_value 2 _ hM0 (by norm_num; exact hM1)
    refine ⟨?_, dH, vH, dM, vM⟩
    have htb : Dbl.toBool (fin o) = true := by simp [Dbl.toBool, hne]
    have hsign : Dbl.lt (fin 0) (fin o) = decide (0 < o) := by simp [Dbl.lt_fin]
    unfold ToString
    simp only [ht, Bool.false_eq_true, if_false, ho, htb, if_true, hdt, e1, hH]
    simp only [e2, hN, hM, hsign, decide_eq_true_eq]
    rw [← QString.number_pad2 _ hH0 hH1, ← QString.number_pad2 _ hM0 hM1]
    split_ifs <;> simp

/-- Instance of C27 for the offset 19800000 ms: `ToString` appends `+0530`. -/
theorem C27_ToString_offset_witness :
    isNaN (fin 0) = false ∧
    TimeZone.plus0530.LocalTZA + TimeZone.plus0530.DaylightSavingTA (fin 0) = fin 19800000 ∧
    ToString QDateTimeText.empty TimeZone.plus0530 (fin 0) = QStringLiteral " GMT+0530" := by
  have ho : TimeZone.plus0530.LocalTZA + TimeZone.plus0530.DaylightSavingTA (fin 0)
      = fin 19800000 := by
    simp only [TimeZone.plus0530, Dbl.fin_add]; norm_num
  have ha : |(19800000 : ℚ)| = 19800000 := abs_of_pos (by norm_num)
  have h := ((C27_ToString_offset QDateTimeText.empty TimeZone.plus0530 (fin 0) 19800000 rfl
    ho).2 (by norm_num) (by rw [ha]; norm_num)).1
  have f1 : ⌊|(19800000 : ℚ)| / 3600000⌋ = 5 := by
    rw [ha, Int.floor_eq_iff]; norm_num
  have f2 : ⌊|(19800000 : ℚ)| / 60000⌋ = 330 := by
    rw [ha, Int.floor_eq_iff]; norm_num
  rw [f1, f2, if_pos (by norm_num)] at h
  exact ⟨rfl, ho, h.trans (by decide)⟩

/-- The value that `setUTCMonth(13)` composes from a date value of year `y`
and day of month `d`, and its decomposition. -/
theorem setMonth13_value (t y d : ℤ) (ht : |t| ≤ 8640000000000000)
    (hy : YearFromTime (fin (t : ℚ)) = fin (y : ℚ))
    (hd : DateFromTime (fin (t : ℚ)) = fin (d : ℚ)) (hyr : y < 275760) :
    method_setUTCMonth (some (fin (t : ℚ))) [fin 13]
      = SetResult.stored (fin (((dayFromYearZ (y + 1) + 31 + d - 1) * 86400000
          + t % 86400000 : ℤ) : ℚ)) ∧
    method_setMonth TimeZone.utc (some (fin (t : ℚ))) [fin 13]
      = SetResult.stored (fin (((dayFromYearZ (y + 1) + 31 + d - 1) * 86400000
          + t % 86400000 : ℤ) : ℚ)) ∧
    1 ≤ d ∧ d ≤ 31 ∧
    (d ≤ (if isLeapZ (y + 1) then 29 else 28) →
      YearFromTime (fin (((dayFromYearZ (y + 1) + 31 + d - 1) * 86400000
          + t % 86400000 : ℤ) : ℚ)) = fin ((y + 1 : ℤ) : ℚ) ∧
      MonthFromTime (fin (((dayFromYearZ (y + 1) + 31 + d - 1) * 86400000
          + t % 86400000 : ℤ) : ℚ)) = fin 1 ∧
      DateFromTime (fin (((dayFromYearZ (y + 1) + 31 + d - 1) * 86400000
          + t % 86400000 : ℤ) : ℚ)) = fin (d : ℚ)) ∧
    ((if isLeapZ (y + 1) then 29 else 28) < d →
      YearFromTime (fin (((dayFromYearZ (y + 1) + 31 + d - 1) * 86400000
          + t % 86400000 : ℤ) : ℚ)) = fin ((y + 1 : ℤ) : ℚ) ∧
      MonthFromTime (fin (((dayFromYearZ (y + 1) + 31 + d - 1) * 86400000
          + t % 86400000 : ℤ) : ℚ)) = fin 2 ∧
      DateFromTime (fin (((dayFromYearZ (y + 1) + 31 + d - 1) * 86400000
          + t % 86400000 : ℤ) : ℚ))
        = fin ((d - (if isLeapZ (y + 1) then 29 else 28) : ℤ) : ℚ)) ∧
    TimeWithinDay (fin (((dayFromYearZ (y + 1) + 31 + d - 1) * 86400000
        + t % 86400000 : ℤ) : ℚ)) = TimeWithinDay (fin (t : ℚ)) := by
  obtain ⟨ht1, ht2⟩ := abs_le.mp ht
  have hfl : ⌊(t : ℚ)⌋ = t := Int.floor_intCast t
  have hlo : -60000000000000000000 ≤ ⌊(t : ℚ)⌋ := by rw [hfl]; omega
  have hhi : ⌊(t : ℚ)⌋ ≤ 60000000000000000000 := by rw [hfl]; omega
  have hY := YearFromTime_fin (t : ℚ) hlo hhi
  have hD := DateFromTime_fin (t : ℚ) hlo hhi
  rw [hfl] at hY hD
  have ey : yearFromTimeZ t = y := Dbl.fin_int_inj (hY.symm.trans hy)
  obtain ⟨y1, _⟩ := yearFromTimeZ_range t ht1 ht2
  rw [ey] at y1
  obtain ⟨r0, r1⟩ := dayWithinYear_range t
  have r1' : t / 86400000 - dayFromYearZ (yearFromTimeZ t)
      < if isLeapZ (yearFromTimeZ t) then 366 else 365 := r1
  obtain ⟨d0, d1⟩ := dateFromDay_range (isLeapZ (yearFromTimeZ t))
    (t / 86400000 - dayFromYearZ (yearFromTimeZ t)) r0 r1'
  have d31 := le_trans d1 (monthLength_le _ _)
  have ed := Dbl.fin_int_inj (hD.symm.trans hd)
  rw [ed] at d0 d31
  have hr0 : 0 ≤ t % 86400000 := Int.emod_nonneg _ (by norm_num)
  have hr1 : t % 86400000 < 86400000 := Int.emod_lt_of_pos _ (by norm_num)
  have hS1 : monthStartZ (isLeapZ (y + 1)) 1 = 31 := by unfold monthStartZ; simp
  have hS2 : monthStartZ (isLeapZ (y + 1)) 2 = 31 + (if isLeapZ (y + 1) then 29 else 28) := by
    unfold monthStartZ; cases isLeapZ (y + 1) <;> simp
  have hL1 : monthLength (isLeapZ (y + 1)) 1 = (if isLeapZ (y + 1) then 29 else 28) := by
    unfold monthLength; simp
  have hL2 : monthLength (isLeapZ (y + 1)) 2 = 31 := by unfold monthLength; simp
  have h13 : (fin 13 : Dbl) = fin ((13 : ℤ) : ℚ) := by norm_num
  have hq : y + (13 : ℤ) / 12 = y + 1 := by omega
  have hmod : (13 : ℤ) % 12 = 1 := by decide
  have hval : MakeDate (MakeDay (YearFromTime (fin (t : ℚ))) (fin 13)
        (DateFromTime (fin (t : ℚ)))) (TimeWithinDay (fin (t : ℚ)))
      = fin (((dayFromYearZ (y + 1) + 31 + d - 1) * 86400000 + t % 86400000 : ℤ) : ℚ) := by
    rw [hy, hd, TimeWithinDay_int, h13, MakeDay_int y 13 _ (by omega) (by omega), hq, hmod, hS1]
    simp only [MakeDate, msPerDay, Dbl.fin_mul, Dbl.fin_add]
    rw [compose_cast]
  have hlow : dayFromYearZ (-271820) = -99999744 := by decide
  have hhigh : dayFromYearZ 275760 = 99999744 := by decide
  have m1 := dayFromYearZ_mono (show -271820 ≤ y + 1 by omega)
  have m2 := dayFromYearZ_mono (show y + 1 ≤ 275760 by omega)
  have hclip : TimeClip (fin (((dayFromYearZ (y + 1) + 31 + d - 1) * 86400000
          + t % 86400000 : ℤ) : ℚ))
      = fin (((dayFromYearZ (y + 1) + 31 + d - 1) * 86400000 + t % 86400000 : ℤ) : ℚ) :=
    TimeClip_int _ (by omega) (by omega)
  have hset : method_setUTCMonth (some (fin (t : ℚ))) [fin 13]
      = SetResult.stored (fin (((dayFromYearZ (y + 1) + 31 + d - 1) * 86400000
          + t % 86400000 : ℤ) : ℚ)) := by
    simp only [method_setUTCMonth, List.getD_cons_zero, List.getD_cons_succ, List.getD_nil]
    rw [hval, hclip]
  refine ⟨hset, ?_, d0, d31, ?_, ?_, ?_⟩
  · simp only [method_setMonth, List.getD_cons_zero, List.getD_cons_succ, List.getD_nil,
      LocalTime_utc_fin]
    rw [hval, UTC_utc_fin, hclip]
  · intro hfit
    obtain ⟨e1, e2, e3, _⟩ := decompose_composed (y + 1) 1 d (t % 86400000) (by omega)
      (by omega) (by omega) (by omega) d0 (by rw [hL1]; exact hfit) hr0 hr1
    rw [hS1] at e1 e2 e3
    exact ⟨e1, by rw [e2]; norm_num, e3⟩
  · intro hover
    obtain ⟨e1, e2, e3, _⟩ := decompose_composed (y + 1) 2
      (d - (if isLeapZ (y + 1) then 29 else 28)) (t % 86400000) (by omega) (by omega)
      (by omega) (by omega) (by omega) (by rw [hL2]; split_ifs <;> omega) hr0 hr1
    have he : dayFromYearZ (y + 1) + monthStartZ (isLeapZ (y + 1)) 2
        + (d - (if isLeapZ (y + 1) then 29 else 28)) - 1 = dayFromYearZ (y + 1) + 31 + d - 1 := by
      rw [hS2]; ring
    rw [he] at e1 e2 e3
    exact ⟨e1, by rw [e2]; norm_num, e3⟩
  · rw [TimeWithinDay_int, TimeWithinDay_int]
    congr 2
    omega

/-- Year, month and day of the month of a whole-millisecond value in integer
arithmetic. -/
theorem decompose_int (t : ℤ) (ht : |t| ≤ 8640000000000000) :
    YearFromTime (fin (t : ℚ)) = fin ((yearFromTimeZ t : ℤ) : ℚ) ∧
    MonthFromTime (fin (t : ℚ)) = fin ((monthFromDayZ (isLeapZ (yearFromTimeZ t))
      (t / 86400000 - dayFromYearZ (yearFromTimeZ t)) : ℤ) : ℚ) ∧
    DateFromTime (fin (t : ℚ)) = fin ((t / 86400000 - dayFromYearZ (yearFromTimeZ t)
      - monthStartZ (isLeapZ (yearFromTimeZ t))
          (monthFromDayZ (isLeapZ (yearFromTimeZ t))
            (t / 86400000 - dayFromYearZ (yearFromTimeZ t))) + 1 : ℤ) : ℚ) := by
  obtain ⟨ht1, ht2⟩ := abs_le.mp ht
  have hfl : ⌊(t : ℚ)⌋ = t := Int.floor_intCast t
  have hlo : -60000000000000000000 ≤ ⌊(t : ℚ)⌋ := by rw [hfl]; omega
  have hhi : ⌊(t : ℚ)⌋ ≤ 60000000000000000000 := by rw [hfl]; omega
  have hY := YearFromTime_fin (t : ℚ) hlo hhi
  have hM := MonthFromTime_fin (t : ℚ) hlo hhi
  have hD := DateFromTime_fin (t : ℚ) hlo hhi
  rw [hfl] at hY hM hD
  exact ⟨hY, hM, hD⟩

theorem TimeClip_above (n : ℤ) (h : 8640000000000000 < n) : TimeClip (fin (n : ℚ)) = nan := by
  have h1 : (8640000000000000 : ℚ) < |(n : ℚ)| := by
    have : (8640000000000000 : ℚ) < (n : ℚ) := by exact_mod_cast h
    exact lt_of_lt_of_le this (le_abs_self _)
  simp [TimeClip, isFinite, Dbl.fabs, Dbl.lt, h1]

/-- In January of the year 275760 the value that `setUTCMonth(13)` composes lies
beyond the range, and NaN is stored. -/
theorem setMonth13_overflow (t d : ℤ) (ht : |t| ≤ 8640000000000000)
    (hy : YearFromTime (fin (t : ℚ)) = fin ((275760 : ℤ) : ℚ))
    (hd : DateFromTime (fin (t : ℚ)) = fin (d : ℚ)) :
    method_setUTCMonth (some (fin (t : ℚ))) [fin 13] = SetResult.stored nan ∧
    method_setMonth TimeZone.utc (some (fin (t : ℚ))) [fin 13] = SetResult.stored nan := by
  obtain ⟨ht1, ht2⟩ := abs_le.mp ht
  have hfl : ⌊(t : ℚ)⌋ = t := Int.floor_intCast t
  have hlo : -60000000000000000000 ≤ ⌊(t : ℚ)⌋ := by rw [hfl]; omega
  have hhi : ⌊(t : ℚ)⌋ ≤ 60000000000000000000 := by rw [hfl]; omega
  have hD := DateFromTime_fin (t : ℚ) hlo hhi
  rw [hfl] at hD
  obtain ⟨r0, r1⟩ := dayWithinYear_range t
  have r1' : t / 86400000 - dayFromYearZ (yearFromTimeZ t)
      < if isLeapZ (yearFromTimeZ t) then 366 else 365 := r1
  obtain ⟨d0, _⟩ := dateFromDay_range (isLeapZ (yearFromTimeZ t))
    (t / 86400000 - dayFromYearZ (yearFromTimeZ t)) r0 r1'
  have ed := Dbl.fin_int_inj (hD.symm.trans hd)
  rw [ed] at d0
  have hr0 : 0 ≤ t % 86400000 := Int.emod_nonneg _ (by norm_num)
  have hS1 : monthStartZ (isLeapZ (275760 + 1)) 1 = 31 := by decide
  have h13 : (fin 13 : Dbl) = fin ((13 : ℤ) : ℚ) := by norm_num
  have hq : (275760 : ℤ) + (13 : ℤ) / 12 = 275760 + 1 := by decide
  have hmod : (13 : ℤ) % 12 = 1 := by decide
  have hval : MakeDate (MakeDay (YearFromTime (fin (t : ℚ))) (fin 13)
        (DateFromTime (fin (t : ℚ)))) (TimeWithinDay (fin (t : ℚ)))
      = fin (((dayFromYearZ (275760 + 1) + 31 + d - 1) * 86400000 + t % 86400000 : ℤ) : ℚ) := by
    rw [hy, hd, TimeWithinDay_int, h13, MakeDay_int 275760 13 _ (by decide) (by decide), hq, hmod,
      hS1]
    simp only [MakeDate, msPerDay, Dbl.fin_mul, Dbl.fin_add]
    rw [compose_cast]
  have hhigh : dayFromYearZ (275760 + 1) = 100000110 := by decide
  have hclip : TimeClip (fin (((dayFromYearZ (275760 + 1) + 31 + d - 1) * 86400000
          + t % 86400000 : ℤ) : ℚ)) = nan :=
    TimeClip_above _ (by rw [hhigh]; omega)
  constructor
  · simp only [method_setUTCMonth, List.getD_cons_zero, List.getD_cons_succ, List.getD_nil]
    rw [hval, hclip]
  · simp only [method_setMonth, List.getD_cons_zero, List.getD_cons_succ, List.getD_nil,
      LocalTime_utc_fin]
    rw [hval]
    simp only [UTC_utc_fin]
    rw [hclip]

/-- Claim C21 as stated fails in two ways.  On 31 January 1970 `setUTCMonth(13)`,
and `setMonth(13)` in the zone without offset, store 3 March 1971, whose month
is March (`MonthFromTime = 2`), not February.  On 1 January 275760, a valid
date value, they store NaN, as February 275761 lies beyond the range. -/
theorem C21_counterexample :
    YearFromTime (fin ((2592000000 : ℤ) : ℚ)) = fin ((1970 : ℤ) : ℚ) ∧
    MonthFromTime (fin ((2592000000 : ℤ) : ℚ)) = fin ((0 : ℤ) : ℚ) ∧
    DateFromTime (fin ((2592000000 : ℤ) : ℚ)) = fin ((31 : ℤ) : ℚ) ∧
    method_setUTCMonth (some (fin ((2592000000 : ℤ) : ℚ))) [fin 13]
      = SetResult.stored (fin ((36806400000 : ℤ) : ℚ)) ∧
    method_setMonth TimeZone.utc (some (fin ((2592000000 : ℤ) : ℚ))) [fin 13]
      = SetResult.stored (fin ((36806400000 : ℤ) : ℚ)) ∧
    MonthFromTime (fin ((36806400000 : ℤ) : ℚ)) = fin 2 ∧
    DateFromTime (fin ((36806400000 : ℤ) : ℚ)) = fin ((3 : ℤ) : ℚ) ∧
    MonthFromTime (fin ((36806400000 : ℤ) : ℚ)) ≠ fin 1 ∧
    TimeClip (fin ((8639977881600000 : ℤ) : ℚ)) = fin ((8639977881600000 : ℤ) : ℚ) ∧
    YearFromTime (fin ((8639977881600000 : ℤ) : ℚ)) = fin ((275760 : ℤ) : ℚ) ∧
    MonthFromTime (fin ((8639977881600000 : ℤ) : ℚ)) = fin ((0 : ℤ) : ℚ) ∧
    method_setUTCMonth (some (fin ((8639977881600000 : ℤ) : ℚ))) [fin 13]
      = SetResult.stored nan ∧
    method_setMonth TimeZone.utc (some (fin ((8639977881600000 : ℤ) : ℚ))) [fin 13]
      = SetResult.stored nan := by
  obtain ⟨hy, hm, hd⟩ := decompose_int 2592000000 (by norm_num)
  have ey : yearFromTimeZ 2592000000 = 1970 := by decide
  rw [ey] at hy hm hd
  have em : monthFromDayZ (isLeapZ 1970) (2592000000 / 86400000 - dayFromYearZ 1970) = 0 := by
    decide
  rw [em] at hm hd
  have ed : (2592000000 : ℤ) / 86400000 - dayFromYearZ 1970 - monthStartZ (isLeapZ 1970) 0 + 1
      = 31 := by decide
  rw [ed] at hd
  obtain ⟨h1, h2, _, _, _, h3, _⟩ := setMonth13_value 2592000000 1970 31 (by norm_num) hy hd
    (by norm_num)
  have ev : (dayFromYearZ (1970 + 1) + 31 + 31 - 1) * 86400000 + 2592000000 % 86400000
      = 36806400000 := by decide
  rw [ev] at h1 h2 h3
  obtain ⟨_, h4, h5⟩ := h3 (by decide)
  have e3 : (31 : ℤ) - (if isLeapZ (1970 + 1) = true then 29 else 28) = 3 := by decide
  rw [e3] at h5
  obtain ⟨gy, gm, gd⟩ := decompose_int 8639977881600000 (by norm_num)
  have fy : yearFromTimeZ 8639977881600000 = 275760 := by decide
  rw [fy] at gy gm gd
  have fm : monthFromDayZ (isLeapZ 275760)
      (8639977881600000 / 86400000 - dayFromYearZ 275760) = 0 := by decide
  rw [fm] at gm gd
  obtain ⟨k1, k2⟩ := setMonth13_overflow 8639977881600000 _ (by norm_num) gy gd
  refine ⟨hy, hm, hd, h1, h2, h4, h5, ?_, TimeClip_int _ (by norm_num) (by norm_num), gy, gm,
    k1, k2⟩
  rw [h4]
  intro h
  injection h with h
  norm_num at h

/-- Claim C21 (amended): for a valid whole-millisecond date value `t` in
January of a year `y` below 275760, the last year of the range,
`setUTCMonth(13)` without a date argument,
and `setMonth(13)` in the zone without offset, store a value `t'` of the year
`y + 1` with the time of day of `t`; when the day of the month `d` of `t`
exists in February of the year `y + 1` (`d <= 28`, or `d <= 29` in a leap
year), `t'` is day `d` of February (`MonthFromTime = 1`); for a later day of
January the days beyond the end of February carry into March
(`MonthFromTime = 2`, day `d - 28`, or `d - 29` in a leap year). -/
theorem C21_setMonth_13 (t y d : ℤ) (ht : |t| ≤ 8640000000000000)
    (hy : YearFromTime (fin (t : ℚ)) = fin (y : ℚ))
    (hm : MonthFromTime (fin (t : ℚ)) = fin 0)
    (hd : DateFromTime (fin (t : ℚ)) = fin (d : ℚ)) (hyr : y < 275760) :
    ∃ t' : ℤ,
      method_setUTCMonth (some (fin (t : ℚ))) [fin 13] = SetResult.stored (fin (t' : ℚ)) ∧
      method_setMonth TimeZone.utc (some (fin (t : ℚ))) [fin 13]
        = SetResult.stored (fin (t' : ℚ)) ∧
      1 ≤ d ∧ d ≤ 31 ∧
      YearFromTime (fin (t' : ℚ)) = fin ((y + 1 : ℤ) : ℚ) ∧
      TimeWithinDay (fin (t' : ℚ)) = TimeWithinDay (fin (t : ℚ)) ∧
      (d ≤ (if isLeapZ (y + 1) then 29 else 28) →
        MonthFromTime (fin (t' : ℚ)) = fin 1 ∧ DateFromTime (fin (t' : ℚ)) = fin (d : ℚ)) ∧
      ((if isLeapZ (y + 1) then 29 else 28) < d →
        MonthFromTime (fin (t' : ℚ)) = fin 2 ∧
        DateFromTime (fin (t' : ℚ))
          = fin ((d - (if isLeapZ (y + 1) then 29 else 28) : ℤ) : ℚ)) := by
  have _ := hm
  obtain ⟨h1, h2, d0, d1, hfit, hover, htw⟩ := setMonth13_value t y d ht hy hd hyr
  refine ⟨_, h1, h2, d0, d1, ?_, htw, fun h => (hfit h).2, fun h => (hover h).2⟩
  by_cases h : d ≤ (if isLeapZ (y + 1) then 29 else 28)
  · exact (hfit h).1
  · exact (hover (not_le.mp h)).1

/-- Instance of the amended claim C21 at the epoch, 1 January 1970: the
stored value is 1 February 1971. -/
theorem C21_setMonth_13_witness :
    |(0 : ℤ)| ≤ 8640000000000000 ∧
    YearFromTime (fin ((0 : ℤ) : ℚ)) = fin ((1970 : ℤ) : ℚ) ∧
    MonthFromTime (fin ((0 : ℤ) : ℚ)) = fin 0 ∧
    DateFromTime (fin ((0 : ℤ) : ℚ)) = fin ((1 : ℤ) : ℚ) ∧
    ∃ t' : ℤ,
      method_setUTCMonth (some (fin ((0 : ℤ) : ℚ))) [fin 13] = SetResult.stored (fin (t' : ℚ)) ∧
      YearFromTime (fin (t' : ℚ)) = fin ((1970 + 1 : ℤ) : ℚ) ∧
      MonthFromTime (fin (t' : ℚ)) = fin 1 ∧ DateFromTime (fin (t' : ℚ)) = fin ((1 : ℤ) : ℚ) := by
  obtain ⟨hy, hm, hd⟩ := decompose_int 0 (by norm_num)
  have ey : yearFromTimeZ 0 = 1970 := by decide
  rw [ey] at hy hm hd
  have em : monthFromDayZ (isLeapZ 1970) (0 / 86400000 - dayFromYearZ 1970) = 0 := by decide
  rw [em] at hm hd
  have ed : (0 : ℤ) / 86400000 - dayFromYearZ 1970 - monthStartZ (isLeapZ 1970) 0 + 1 = 1 := by
    decide
  rw [ed] at hd
  have hm0 : MonthFromTime (fin ((0 : ℤ) : ℚ)) = fin 0 := by rw [hm]; norm_num
  obtain ⟨t', h1, _, _, _, h2, _, h3, _⟩ :=
    C21_setMonth_13 0 1970 1 (by norm_num) hy hm0 hd (by norm_num)
  obtain ⟨h4, h5⟩ := h3 (by decide)
  exact ⟨by norm_num, hy, hm0, hd, t', h1, h2, h4, h5⟩

/-- C23: for every whole-millisecond `t` with `|t| <= 8.64e15`,
`method_toISOString` returns a string of fixed field widths that ends in `Z`:
the year in 4 digits when it is in `0..9999` (24 characters in all), otherwise
a sign `+` or `-` and the absolute year in 6 digits (27 characters), then
`-MM-DDTHH:mm:ss.sssZ`; each field is made of digit characters, as many as its
width, that denote the UTC component (`MonthFromTime + 1` for the month). -/
theorem C23_toISOString_format (t : ℤ) (ht : |t| ≤ 8640000000000000) :
    ∃ (y mo d : ℤ) (YY MM DD HH mi ss ms s : QString),
      YearFromTime (fin (t : ℚ)) = fin (y : ℚ) ∧ MonthFromTime (fin (t : ℚ)) = fin (mo : ℚ) ∧
      DateFromTime (fin (t : ℚ)) = fin (d : ℚ) ∧
      method_toISOString (some (fin (t : ℚ))) = MethodResult.string s ∧
      s = (if 0 ≤ y ∧ y ≤ 9999 then [] else [if y < 0 then 45 else 43]) ++ YY ++ [45] ++ MM
            ++ [45] ++ DD ++ [84] ++ HH ++ [58] ++ mi ++ [58] ++ ss ++ [46] ++ ms ++ [90] ∧
      Digits (if 0 ≤ y ∧ y ≤ 9999 then 4 else 6) YY ∧ decimalValue YY = |y| ∧
      Digits 2 MM ∧ decimalValue MM = mo + 1 ∧
      Digits 2 DD ∧ decimalValue DD = d ∧
      Digits 2 HH ∧ decimalValue HH = HourFromTime (fin (t : ℚ)) ∧
      Digits 2 mi ∧ decimalValue mi = MinFromTime (fin (t : ℚ)) ∧
      Digits 2 ss ∧ decimalValue ss = SecFromTime (fin (t : ℚ)) ∧
      Digits 3 ms ∧ decimalValue ms = msFromTime (fin (t : ℚ)) ∧
      s.length = (if 0 ≤ y ∧ y ≤ 9999 then 24 else 27) ∧
      s.getLast? = some 90 := by
  obtain ⟨ht1, ht2⟩ := abs_le.mp ht
  have hfl : ⌊(t : ℚ)⌋ = t := Int.floor_intCast t
  have hlo : -60000000000000000000 ≤ ⌊(t : ℚ)⌋ := by rw [hfl]; omega
  have hhi : ⌊(t : ℚ)⌋ ≤ 60000000000000000000 := by rw [hfl]; omega
  obtain ⟨y1, y2⟩ := yearFromTimeZ_range t ht1 ht2
  obtain ⟨r0, r1⟩ := dayWithinYear_range t
  have r1' : t / 86400000 - dayFromYearZ (yearFromTimeZ t)
      < if isLeapZ (yearFromTimeZ t) then 366 else 365 := r1
  obtain ⟨m0, m1⟩ := monthFromDayZ_range (isLeapZ (yearFromTimeZ t))
    (t / 86400000 - dayFromYearZ (yearFromTimeZ t))
  obtain ⟨d0, d1⟩ := dateFromDay_range (isLeapZ (yearFromTimeZ t))
    (t / 86400000 - dayFromYearZ (yearFromTimeZ t)) r0 r1'
  have d2 := le_trans d1 (monthLength_le _ _)
  have hY := YearFromTime_fin (t : ℚ) hlo hhi
  have hM := MonthFromTime_fin (t : ℚ) hlo hhi
  have hD := DateFromTime_fin (t : ℚ) hlo hhi
  rw [hfl] at hY hM hD
  generalize hy : yearFromTimeZ t = y at *
  generalize hm : monthFromDayZ (isLeapZ y) (t / 86400000 - dayFromYearZ y) = m at *
  generalize hd : t / 86400000 - dayFromYearZ y - monthStartZ (isLeapZ y) m + 1 = d at *
  have hyi : toInt (fin (y : ℚ)) = y := Dbl.toInt_intCast y (by omega) (by omega)
  have hmi : toInt (fin (m : ℚ)) = m := Dbl.toInt_intCast m (by omega) (by omega)
  have hdi : toInt (fin (d : ℚ)) = d := Dbl.toInt_intCast d (by omega) (by omega)
  have ha0 : 0 ≤ |y| := abs_nonneg y
  have ha1 : |y| ≤ 275821 := abs_le.mpr ⟨by omega, by omega⟩
  have hw : wrapInt32 |y| = |y| := wrapInt32_of_range _ (by omega) (by omega)
  have hw6 : ¬ (|y| ≥ 1000000) := by omega
  obtain ⟨dMM, vMM⟩ := zeroPrefixedDigits_value 2 (m + 1) (by omega) (by norm_num; omega)
  obtain ⟨dDD, vDD⟩ := zeroPrefixedDigits_value 2 d (by omega) (by norm_num; omega)
  obtain ⟨dHH, vHH⟩ := zeroPrefixedDigits_value 2 (t / 3600000 % 24) (by omega)
    (by norm_num; omega)
  obtain ⟨dmi, vmi⟩ := zeroPrefixedDigits_value 2 (t / 60000 % 60) (by omega)
    (by norm_num; omega)
  obtain ⟨dss, vss⟩ := zeroPrefixedDigits_value 2 (t / 1000 % 60) (by omega)
    (by norm_num; omega)
  obtain ⟨dms, vms⟩ := zeroPrefixedDigits_value 3 (t % 1000) (by omega) (by norm_num; omega)
  have len2 : ∀ n : ℤ, (zeroPrefixedDigits 2 n).length = 2 := zeroPrefixedDigits_length 2
  have len3 : ∀ n : ℤ, (zeroPrefixedDigits 3 n).length = 3 := zeroPrefixedDigits_length 3
  simp only [HourFromTime_int, MinFromTime_int, SecFromTime_int, msFromTime_int]
  by_cases hin : 0 ≤ y ∧ y ≤ 9999
  · have hay : |y| = y := abs_of_nonneg hin.1
    obtain ⟨dYY, vYY⟩ := zeroPrefixedDigits_value 4 y hin.1 (by norm_num; omega)
    refine ⟨y, m, d, zeroPrefixedDigits 4 y, _, _, _, _, _, _, _, hY, hM, hD, ?_, rfl, ?_, ?_,
      dMM, vMM, dDD, vDD, dHH, vHH, dmi, vmi, dss, vss, dms, vms, ?_, ?_⟩
    · have h1 : ¬ (y < 0 ∨ y > 9999) := by omega
      simp only [method_toISOString, isFinite, hY, hM, hD, hyi, hmi, hdi, HourFromTime_int,
        MinFromTime_int, SecFromTime_int, msFromTime_int, Bool.not_true, Bool.false_eq_true,
        if_false, addZeroPrefixedInt, h1, hin, and_self, if_true, List.nil_append]
    · rw [if_pos hin]; exact dYY
    · rw [vYY, hay]
    · simp only [hin, and_self, if_true, List.length_append, List.length_nil,
        List.length_singleton, zeroPrefixedDigits_length]
    · exact List.getLast?_concat _
  · have hout : y < 0 ∨ y > 9999 := by omega
    obtain ⟨dYY, vYY⟩ := zeroPrefixedDigits_value 6 |y| ha0 (by norm_num; omega)
    refine ⟨y, m, d, zeroPrefixedDigits 6 |y|, _, _, _, _, _, _, _, hY, hM, hD, ?_, rfl, ?_, vYY,
      dMM, vMM, dDD, vDD, dHH, vHH, dmi, vmi, dss, vss, dms, vms, ?_, ?_⟩
    · simp only [method_toISOString, isFinite, hY, hM, hD, hyi, hmi, hdi, HourFromTime_int,
        MinFromTime_int, SecFromTime_int, msFromTime_int, Bool.not_true, Bool.false_eq_true,
        if_false, addZeroPrefixedInt, hout, hin, if_true, hw, hw6, List.append_assoc,
        List.cons_append, List.nil_append, List.singleton_append]
    · rw [if_neg hin]; exact dYY
    · simp only [hin, if_false, List.length_append, List.length_nil, List.length_cons,
        List.length_singleton, zeroPrefixedDigits_length]
    · exact List.getLast?_concat _

/-- The branches of `YearFromTime` on any finite value, with the estimated year
`y` as the source computes it in `int` arithmetic. -/
theorem YearFromTime_branches (q : ℚ) (y : ℤ)
    (hy : y = wrapInt32 (1970 + toInt (fin ((⌊q⌋ / 31556952000 : ℤ) : ℚ)))) :
    YearFromTime (fin q)
      = if ⌊q⌋ < 86400000 * dayFromYearZ y then fin ((wrapInt32 (y - 1) : ℤ) : ℚ)
        else if 86400000 * dayFromYearZ y + 86400000 * daysInYearZ y ≤ ⌊q⌋ then
          fin ((wrapInt32 (y + 1) : ℤ) : ℚ)
        else fin (y : ℚ) := by
  have hfl : ⌊q / 31556952000⌋ = ⌊q⌋ / 31556952000 := by
    have := floor_div_pos q 31556952000 (by norm_num)
    simpa using this
  have hc : (86400000 : ℚ) * (3652425 / 10000) = 31556952000 := by norm_num
  have hk : floor (fin q / (msPerDay * fin (3652425 / 10000)))
      = fin ((⌊q⌋ / 31556952000 : ℤ) : ℚ) := by
    simp only [msPerDay, Dbl.fin_mul, hc]
    rw [Dbl.fin_div _ _ (by norm_num), Dbl.floor_fin, hfl]
  unfold YearFromTime
  simp only []
  rw [hk, ← hy]
  simp only [Dbl.ofInt_eq, TimeFromYear_int, DaysInYear_intZ, msPerDay, Dbl.fin_mul,
    Dbl.fin_add, Dbl.lt_fin, Dbl.le_fin, decide_eq_true_eq]
  have e1 : (q < ((86400000 * dayFromYearZ y : ℤ) : ℚ)) ↔
      ⌊q⌋ < 86400000 * dayFromYearZ y := Int.floor_lt.symm
  have e2 : (((86400000 * dayFromYearZ y : ℤ) : ℚ) + 86400000 * ((daysInYearZ y : ℤ) : ℚ) ≤ q) ↔
      86400000 * dayFromYearZ y + 86400000 * daysInYearZ y ≤ ⌊q⌋ := by
    rw [Int.le_floor]; push_cast; rfl
  simp only [e1, e2]

theorem toInt_intCast_cases (K : ℤ) :
    toInt (fin (K : ℚ))
      = if -2147483648 ≤ K ∧ K ≤ 2147483647 then K else -2147483648 := by
  simp only [toInt, Dbl.truncQ_intCast]

/-- The year that `YearFromTime` gives for a finite value is a whole number
within the `int` range and is not `INT_MIN`. -/
theorem YearFromTime_int_range (q : ℚ) :
    ∃ v : ℤ, YearFromTime (fin q) = fin (v : ℚ) ∧ -2147483647 ≤ v ∧ v ≤ 2147483647 := by
  have hbr := YearFromTime_branches q _ rfl
  rw [toInt_intCast_cases] at hbr
  have hdy : ∀ z : ℤ, daysInYearZ z = 365 ∨ daysInYearZ z = 366 := by
    intro z; unfold daysInYearZ; cases isLeapZ z <;> simp
  generalize hK : ⌊q⌋ / 31556952000 = K at hbr
  generalize hT : ⌊q⌋ = T at hbr hK
  by_cases hr : -2147483648 ≤ K ∧ K ≤ 2147483647
  · rw [if_pos hr] at hbr
    by_cases hsmall : K ≤ 2147481676
    · -- no wrap-around anywhere
      have hy : wrapInt32 (1970 + K) = 1970 + K := wrapInt32_of_range _ (by omega) (by omega)
      rw [hy] at hbr
      rw [wrapInt32_of_range (1970 + K - 1) (by omega) (by omega),
        wrapInt32_of_range (1970 + K + 1) (by omega) (by omega)] at hbr
      split_ifs at hbr
      · exact ⟨_, hbr, by omega, by omega⟩
      · exact ⟨_, hbr, by omega, by omega⟩
      · exact ⟨_, hbr, by omega, by omega⟩
    · by_cases hedge : K = 2147481677
      · -- the estimate is `INT_MAX`: the year is not moved on
        subst hedge
        have hy : wrapInt32 (1970 + 2147481677) = 2147483647 := by decide
        rw [hy] at hbr
        have hd1 : dayFromYearZ 2147483647 = 784351576412 := by decide
        have hd2 := hdy 2147483647
        rw [hd1] at hbr
        have hw1 : wrapInt32 (2147483647 - 1) = 2147483646 := by decide
        rw [hw1] at hbr
        split_ifs at hbr with h1 h2
        · exact ⟨_, hbr, by omega, by omega⟩
        · exfalso; omega
        · exact ⟨_, hbr, by omega, by omega⟩
      · -- the estimate wraps to the bottom of the range: the year is moved on
        have hy : wrapInt32 (1970 + K) = 1970 + K - 4294967296 := by
          unfold wrapInt32; omega
        rw [hy] at hbr
        have hpos : 0 ≤ T := by omega
        have hd2 := hdy (1970 + K - 4294967296)
        have hneg : 86400000 * dayFromYearZ (1970 + K - 4294967296)
            + 86400000 * daysInYearZ (1970 + K - 4294967296) ≤ 0 := by
          unfold dayFromYearZ; omega
        rw [if_neg (by omega), if_pos (by omega)] at hbr
        have hw : wrapInt32 (1970 + K - 4294967296 + 1) = 1970 + K - 4294967296 + 1 :=
          wrapInt32_of_range _ (by omega) (by omega)
        rw [hw] at hbr
        exact ⟨_, hbr, by omega, by omega⟩
  · rw [if_neg hr] at hbr
    have hy : wrapInt32 (1970 + -2147483648) = -2147481678 := by decide
    rw [hy] at hbr
    have hw1 : wrapInt32 (-2147481678 - 1) = -2147481679 := by decide
    have hw2 : wrapInt32 (-2147481678 + 1) = -2147481677 := by decide
    rw [hw1, hw2] at hbr
    split_ifs at hbr
    · exact ⟨_, hbr, by norm_num, by norm_num⟩
    · exact ⟨_, hbr, by norm_num, by norm_num⟩
    · exact ⟨_, hbr, by norm_num, by norm_num⟩

/-- C24: `method_toISOString` signals the range error exactly when the stored
value is NaN or infinite; for every finite stored value whose year, as the
method computes it, has magnitude at least 1000000 it returns the string
`Invalid Date` and signals nothing, as for the value 4e19 whose year is
1267551510. -/
theorem C24_toISOString_errors :
    (∀ t : Dbl, method_toISOString (some t) = MethodResult.rangeError ↔
      (t = nan ∨ ∃ b, t = inf b)) ∧
    (∀ q : ℚ, 1000000 ≤ |toInt (YearFromTime (fin q))| →
      method_toISOString (some (fin q))
        = MethodResult.string (QStringLiteral "Invalid Date")) ∧
    toInt (YearFromTime (fin 40000000000000000000)) = 1267551510 ∧
    method_toISOString (some (fin 40000000000000000000))
      = MethodResult.string (QStringLiteral "Invalid Date") := by
  have part2 : ∀ q : ℚ, 1000000 ≤ |toInt (YearFromTime (fin q))| →
      method_toISOString (some (fin q))
        = MethodResult.string (QStringLiteral "Invalid Date") := by
    intro q hbig
    obtain ⟨v, hv, v1, v2⟩ := YearFromTime_int_range q
    have hvi : toInt (fin (v : ℚ)) = v := Dbl.toInt_intCast v (by omega) (by omega)
    rw [hv, hvi] at hbig
    have ha : |v| ≤ 2147483647 := abs_le.mpr ⟨by omega, v2⟩
    have hw : wrapInt32 |v| = |v| := wrapInt32_of_range _ (by omega) ha
    have hout : v < 0 ∨ v > 9999 := by
      by_contra hc
      have h0 : 0 ≤ v := by omega
      rw [abs_of_nonneg h0] at hbig
      omega
    simp only [method_toISOString, isFinite, Bool.not_true, Bool.false_eq_true, if_false, hv, hvi,
      hout, if_true, hw, ge_iff_le, hbig]
  have hy : toInt (YearFromTime (fin 40000000000000000000)) = 1267551510 := by
    have hfl : ⌊(40000000000000000000 : ℚ)⌋ = 40000000000000000000 := by
      rw [Int.floor_eq_iff]; norm_num
    have h := YearFromTime_fin 40000000000000000000 (by rw [hfl]; norm_num)
      (by rw [hfl]; norm_num)
    rw [hfl] at h
    have e : yearFromTimeZ 40000000000000000000 = 1267551510 := by decide
    rw [h, e]
    exact Dbl.toInt_intCast 1267551510 (by norm_num) (by norm_num)
  refine ⟨?_, part2, hy, part2 _ (by rw [hy]; norm_num)⟩
  intro t
  cases t with
  | nan => exact ⟨fun _ => Or.inl rfl, fun _ => rfl⟩
  | inf b => exact ⟨fun _ => Or.inr ⟨b, rfl⟩, fun _ => rfl⟩
  | fin q =>
    constructor
    · intro h
      exfalso
      simp only [method_toISOString, isFinite, Bool.not_true, Bool.false_eq_true, if_false] at h
      split at h <;> exact MethodResult.noConfusion h
    · rintro (h | ⟨b, h⟩) <;> exact Dbl.noConfusion h

/-- Instance of C23 at the epoch: the string that `method_toISOString` returns
ends in `Z`. -/
theorem C23_toISOString_format_witness :
    |(0 : ℤ)| ≤ 8640000000000000 ∧
    ∃ s : QString, method_toISOString (some (fin ((0 : ℤ) : ℚ))) = MethodResult.string s ∧
      s.getLast? = some 90 := by
  obtain ⟨_, _, _, _, _, _, _, _, _, _, s, _, _, _, hs, _, _, _, _, _, _, _, _, _, _, _, _, _, _, _,
    _, hlast⟩ := C23_toISOString_format 0 (by norm_num)
  exact ⟨by norm_num, s, hs, hlast⟩

/-- C31: for every whole-millisecond `t` with `|t| <= 8.64e15`, `YearFromTime t`
is the one integer `y` with `TimeFromYear y <= t < TimeFromYear (y + 1)`, and
the estimate `1970 + floor (t / (86400000 * 365.2425))` is at most one year
away from it. -/
theorem C31_YearFromTime_unique (t : ℤ) (ht : |t| ≤ 8640000000000000) :
    ∃ y : ℤ, YearFromTime (fin (t : ℚ)) = fin (y : ℚ) ∧
      Dbl.le (TimeFromYear (fin (y : ℚ))) (fin (t : ℚ)) = true ∧
      Dbl.lt (fin (t : ℚ)) (TimeFromYear (fin ((y + 1 : ℤ) : ℚ))) = true ∧
      (∀ z : ℤ, Dbl.le (TimeFromYear (fin (z : ℚ))) (fin (t : ℚ)) = true →
        Dbl.lt (fin (t : ℚ)) (TimeFromYear (fin ((z + 1 : ℤ) : ℚ))) = true → z = y) ∧
      |y - (1970 + ⌊(t : ℚ) / (86400000 * (3652425 / 10000))⌋)| ≤ 1 := by
  obtain ⟨ht1, ht2⟩ := abs_le.mp ht
  have hfl : ⌊(t : ℚ)⌋ = t := Int.floor_intCast t
  have hY := YearFromTime_fin (t : ℚ) (by rw [hfl]; omega) (by rw [hfl]; omega)
  rw [hfl] at hY
  obtain ⟨b1, b2⟩ := yearFromTimeZ_bounds t
  have hle : ∀ z : ℤ, Dbl.le (TimeFromYear (fin (z : ℚ))) (fin (t : ℚ)) = true
      ↔ 86400000 * dayFromYearZ z ≤ t := by
    intro z
    rw [TimeFromYear_int, Dbl.le_fin, decide_eq_true_eq]
    exact Int.cast_le
  have hlt : ∀ z : ℤ, Dbl.lt (fin (t : ℚ)) (TimeFromYear (fin (z : ℚ))) = true
      ↔ t < 86400000 * dayFromYearZ z := by
    intro z
    rw [TimeFromYear_int, Dbl.lt_fin, decide_eq_true_eq]
    exact Int.cast_lt
  have hest : ⌊(t : ℚ) / (86400000 * (3652425 / 10000))⌋ = t / 31556952000 := by
    have hc : (86400000 : ℚ) * (3652425 / 10000) = ((31556952000 : ℤ) : ℚ) := by norm_num
    rw [hc, floor_intCast_div_pos t 31556952000 (by norm_num)]
  refine ⟨yearFromTimeZ t, hY, (hle _).mpr b1, (hlt _).mpr b2, ?_, ?_⟩
  · intro z h1 h2
    exact (yearFromTimeZ_unique t z ((hle z).mp h1) ((hlt (z + 1)).mp h2)).symm
  · rw [hest, abs_le]
    unfold yearFromTimeZ
    simp only []
    split_ifs <;> constructor <;> omega

/-- Witness of C31 at the last millisecond of 1969. -/
theorem C31_YearFromTime_unique_witness :
    |(-1 : ℤ)| ≤ 8640000000000000 ∧
    ∃ y : ℤ, YearFromTime (fin ((-1 : ℤ) : ℚ)) = fin (y : ℚ) ∧
      Dbl.le (TimeFromYear (fin (y : ℚ))) (fin ((-1 : ℤ) : ℚ)) = true ∧
      Dbl.lt (fin ((-1 : ℤ) : ℚ)) (TimeFromYear (fin ((y + 1 : ℤ) : ℚ))) = true ∧
      (∀ z : ℤ, Dbl.le (TimeFromYear (fin (z : ℚ))) (fin ((-1 : ℤ) : ℚ)) = true →
        Dbl.lt (fin ((-1 : ℤ) : ℚ)) (TimeFromYear (fin ((z + 1 : ℤ) : ℚ))) = true → z = y) ∧
      |y - (1970 + ⌊((-1 : ℤ) : ℚ) / (86400000 * (3652425 / 10000))⌋)| ≤ 1 :=
  ⟨by decide, C31_YearFromTime_unique (-1) (by decide)⟩

theorem TimeZone.system_offset (off : Dbl → Int) (l : ℚ) (t : Dbl) :
    (TimeZone.system off (fin l)).LocalTZA + (TimeZone.system off (fin l)).DaylightSavingTA t
      = fin (((off t : ℤ) : ℚ) * 1000) := by
  simp only [TimeZone.system, Dbl.ofInt_eq, Dbl.fin_mul, Dbl.fin_sub, Dbl.fin_add]
  congr 1; ring

theorem TimeZone.system_LocalTime (off : Dbl → Int) (l : ℚ) (t : Dbl) :
    LocalTime (TimeZone.system off (fin l)) t = t + fin (((off t : ℤ) : ℚ) * 1000) := by
  cases t with
  | nan => rfl
  | inf b => rfl
  | fin q =>
    simp only [LocalTime, TimeZone.system, Dbl.ofInt_eq, Dbl.fin_mul, Dbl.fin_sub, Dbl.fin_add]
    congr 1; ring

/-- C37: on a NaN date value, `setFullYear` with the single year `y` takes
time 0 in place of the NaN base and stores
`TimeClip (UTC (MakeDate (MakeDay y 0 1) 0))`, whereas `setUTCFullYear` stores
NaN; in the zone without offset the year 2000 gives 946684800000, midnight of
1 January 2000. -/
theorem C37_full_year_setters_on_nan (tz : TimeZone) (y : ℤ) :
    method_setFullYear tz (some nan) [fin (y : ℚ)]
      = SetResult.stored (TimeClip (UTC tz (MakeDate
          (MakeDay (fin (y : ℚ)) (fin 0) (fin 1)) (fin 0)))) ∧
    method_setUTCFullYear (some nan) [fin (y : ℚ)] = SetResult.stored nan ∧
    method_setFullYear TimeZone.utc (some nan) [fin ((2000 : ℤ) : ℚ)]
      = SetResult.stored (fin 946684800000) := by
  obtain ⟨_, hm, hd⟩ := decompose_int 0 (by norm_num)
  have ey : yearFromTimeZ 0 = 1970 := by decide
  rw [ey] at hm hd
  have em : monthFromDayZ (isLeapZ 1970) (0 / 86400000 - dayFromYearZ 1970) = 0 := by decide
  rw [em] at hm hd
  have ed : (0 : ℤ) / 86400000 - dayFromYearZ 1970 - monthStartZ (isLeapZ 1970) 0 + 1 = 1 := by
    decide
  rw [ed] at hd
  have hm0 : MonthFromTime (fin 0) = fin 0 := by
    have := hm; simpa using this
  have hd0 : DateFromTime (fin 0) = fin 1 := by
    have := hd; simpa using this
  have ht0 : TimeWithinDay (fin 0) = fin 0 := by
    have := TimeWithinDay_int 0; simpa using this
  have hnan : ∀ z : TimeZone, LocalTime z nan = nan := fun _ => rfl
  have hfull : ∀ (z : TimeZone) (w : ℤ), method_setFullYear z (some nan) [fin (w : ℚ)]
      = SetResult.stored (TimeClip (UTC z (MakeDate
          (MakeDay (fin (w : ℚ)) (fin 0) (fin 1)) (fin 0)))) := by
    intro z w
    simp only [method_setFullYear, hnan, isNaN, if_true, List.getD_cons_zero, List.getD_cons_succ,
      List.getD_nil, hm0, hd0, ht0]
  refine ⟨hfull tz y, rfl, ?_⟩
  rw [hfull]
  have h0 : (fin 0 : Dbl) = fin ((0 : ℤ) : ℚ) := by norm_num
  have h1 : (fin 1 : Dbl) = fin ((1 : ℚ)) := rfl
  have hday : MakeDay (fin ((2000 : ℤ) : ℚ)) (fin ((0 : ℤ) : ℚ)) (fin 1) = fin 10957 := by
    rw [MakeDay_int 2000 0 1 (by norm_num) (by norm_num)]
    have e1 : dayFromYearZ (2000 + 0 / 12) = 10957 := by decide
    have e2 : monthStartZ (isLeapZ (2000 + 0 / 12)) (0 % 12) = 0 := by decide
    rw [e1, e2]; norm_num
  rw [h0, hday]
  have hv : MakeDate (fin 10957) (fin ((0 : ℤ) : ℚ)) = fin ((946684800000 : ℤ) : ℚ) := by
    simp only [MakeDate, msPerDay, Dbl.fin_mul, Dbl.fin_add]; norm_num
  rw [hv, UTC_utc_fin, TimeClip_int _ (by norm_num) (by norm_num)]
  norm_num

/-- The value of the strict path on a date-only string whose scan ends without
error. -/
theorem ParseString.strict_date_only (s : QString) (y mo d : ℤ)
    (hscan : ParseString.scan s = (false, 1, ParseString.between 9 y mo d 0 0 0 0 1 0))
    (h1 : -1000000000 ≤ y * 1 + mo / 12) (h2 : y * 1 + mo / 12 ≤ 1000000000) :
    ParseString.strict s
      = some (fin (((dayFromYearZ (y * 1 + mo / 12)
          + monthStartZ (isLeapZ (y * 1 + mo / 12)) (mo % 12) + d - 1) * 86400000 : ℤ) : ℚ)) := by
  rw [ParseString.strict_of_scan _ _ _ _ _ _ _ _ _ _ _ _ hscan]
  simp only [MakeTime_int]
  simp only [Dbl.ofInt_eq]
  rw [MakeDay_int _ _ _ h1 h2]
  simp only [MakeDate, msPerDay, Dbl.fin_mul, Dbl.fin_add, Dbl.fin_sub]
  congr 2
  push_cast
  ring

/-- C39: the strict path of `ParseString` accepts a month field `00` and a day
field `00`, and `MakeDay` carries them: `2023-00-10` gives the value of
`2022-12-10` and `2023-03-00` the value of `2023-02-28`, also through
`ParseString` with any fallback parsers. -/
theorem C39_zero_month_and_day :
    ParseString.strict (QStringLiteral "2023-00-10") = some (fin 1670630400000) ∧
    ParseString.strict (QStringLiteral "2022-12-10") = some (fin 1670630400000) ∧
    ParseString.strict (QStringLiteral "2023-03-00") = some (fin 1677542400000) ∧
    ParseString.strict (QStringLiteral "2023-02-28") = some (fin 1677542400000) ∧
    ∀ q : QDateTimeParsers,
      ParseString q (QStringLiteral "2023-00-10") = ParseString q (QStringLiteral "2022-12-10") ∧
      ParseString q (QStringLiteral "2023-03-00")
        = ParseString q (QStringLiteral "2023-02-28") := by
  have a1 := ParseString.strict_date_only (QStringLiteral "2023-00-10") 2023 (-1) 10 (by decide)
    (by decide) (by decide)
  have a2 := ParseString.strict_date_only (QStringLiteral "2022-12-10") 2022 11 10 (by decide)
    (by decide) (by decide)
  have a3 := ParseString.strict_date_only (QStringLiteral "2023-03-00") 2023 2 0 (by decide)
    (by decide) (by decide)
  have a4 := ParseString.strict_date_only (QStringLiteral "2023-02-28") 2023 1 28 (by decide)
    (by decide) (by decide)
  have e1 : (dayFromYearZ (2023 * 1 + -1 / 12)
      + monthStartZ (isLeapZ (2023 * 1 + -1 / 12)) (-1 % 12) + 10 - 1) * 86400000
      = 1670630400000 := by decide
  have e2 : (dayFromYearZ (2022 * 1 + 11 / 12)
      + monthStartZ (isLeapZ (2022 * 1 + 11 / 12)) (11 % 12) + 10 - 1) * 86400000
      = 1670630400000 := by decide
  have e3 : (dayFromYearZ (2023 * 1 + 2 / 12)
      + monthStartZ (isLeapZ (2023 * 1 + 2 / 12)) (2 % 12) + 0 - 1) * 86400000
      = 1677542400000 := by decide
  have e4 : (dayFromYearZ (2023 * 1 + 1 / 12)
      + monthStartZ (isLeapZ (2023 * 1 + 1 / 12)) (1 % 12) + 28 - 1) * 86400000
      = 1677542400000 := by decide
  rw [e1] at a1
  rw [e2] at a2
  rw [e3] at a3
  rw [e4] at a4
  have c1 : (fin ((1670630400000 : ℤ) : ℚ) : Dbl) = fin 1670630400000 := by norm_num
  have c2 : (fin ((1677542400000 : ℤ) : ℚ) : Dbl) = fin 1677542400000 := by norm_num
  rw [c1] at a1 a2
  rw [c2] at a3 a4
  refine ⟨a1, a2, a3, a4, fun q => ⟨?_, ?_⟩⟩
  · unfold ParseString; rw [a1, a2]
  · unfold ParseString; rw [a3, a4]

/-- The string of `method_toISOString` for a whole-millisecond value in range,
in terms of its year, month and day of the month. -/
theorem toISOString_fields (t y m d : ℤ) (ht : |t| ≤ 8640000000000000)
    (hy : yearFromTimeZ t = y)
    (hm : monthFromDayZ (isLeapZ y) (t / 86400000 - dayFromYearZ y) = m)
    (hd : t / 86400000 - dayFromYearZ y - monthStartZ (isLeapZ y) m + 1 = d) :
    method_toISOString (some (fin (t : ℚ)))
      = MethodResult.string
          ((if 0 ≤ y ∧ y ≤ 9999 then zeroPrefixedDigits 4 y
            else (if y < 0 then 45 else 43) :: zeroPrefixedDigits 6 |y|)
            ++ 45 :: zeroPrefixedDigits 2 (m + 1) ++ 45 :: zeroPrefixedDigits 2 d
            ++ 84 :: zeroPrefixedDigits 2 (t / 3600000 % 24)
            ++ 58 :: zeroPrefixedDigits 2 (t / 60000 % 60)
            ++ 58 :: zeroPrefixedDigits 2 (t / 1000 % 60)
            ++ 46 :: zeroPrefixedDigits 3 (t % 1000) ++ [90]) := by
  obtain ⟨ht1, ht2⟩ := abs_le.mp ht
  obtain ⟨hY, hM, hD⟩ := decompose_int t ht
  obtain ⟨y1, y2⟩ := yearFromTimeZ_range t ht1 ht2
  obtain ⟨r0, r1⟩ := dayWithinYear_range t
  have r1' : t / 86400000 - dayFromYearZ (yearFromTimeZ t)
      < if isLeapZ (yearFromTimeZ t) then 366 else 365 := r1
  obtain ⟨m0, m1⟩ := monthFromDayZ_range (isLeapZ (yearFromTimeZ t))
    (t / 86400000 - dayFromYearZ (yearFromTimeZ t))
  obtain ⟨d0, d1⟩ := dateFromDay_range (isLeapZ (yearFromTimeZ t))
    (t / 86400000 - dayFromYearZ (yearFromTimeZ t)) r0 r1'
  have d2 := le_trans d1 (monthLength_le _ _)
  rw [hy] at hY hM hD y1 y2 m0 m1 d0 d2
  rw [hm] at hM hD m0 m1 d0 d2
  rw [hd] at hD d0 d2
  have hyi : toInt (fin (y : ℚ)) = y := Dbl.toInt_intCast y (by omega) (by omega)
  have hmi : toInt (fin (m : ℚ)) = m := Dbl.toInt_intCast m (by omega) (by omega)
  have hdi : toInt (fin (d : ℚ)) = d := Dbl.toInt_intCast d (by omega) (by omega)
  have ha0 : 0 ≤ |y| := abs_nonneg y
  have ha1 : |y| ≤ 275821 := abs_le.mpr ⟨by omega, by omega⟩
  have hw : wrapInt32 |y| = |y| := wrapInt32_of_range _ (by omega) (by omega)
  have hw6 : ¬ (|y| ≥ 1000000) := by omega
  by_cases hin : 0 ≤ y ∧ y ≤ 9999
  · have h1 : ¬ (y < 0 ∨ y > 9999) := by omega
    simp only [method_toISOString, isFinite, hY, hM, hD, hyi, hmi, hdi, HourFromTime_int,
      MinFromTime_int, SecFromTime_int, msFromTime_int, Bool.not_true, Bool.false_eq_true,
      if_false, addZeroPrefixedInt, h1, hin, and_self, if_true, List.nil_append,
      List.append_assoc, List.cons_append, List.singleton_append]
  · have hout : y < 0 ∨ y > 9999 := by omega
    simp only [method_toISOString, isFinite, hY, hM, hD, hyi, hmi, hdi, HourFromTime_int,
      MinFromTime_int, SecFromTime_int, msFromTime_int, Bool.not_true, Bool.false_eq_true,
      if_false, addZeroPrefixedInt, hout, hin, if_true, hw, hw6, List.append_assoc,
      List.cons_append, List.nil_append, List.singleton_append]

/-- C38: at the two ends of the valid range and at the epoch
`method_toISOString` gives the limit dates of ECMAScript:
`+275760-09-13T00:00:00.000Z` for `t = 8.64e15`,
`-271821-04-20T00:00:00.000Z` for `t = -8.64e15`, and
`1970-01-01T00:00:00.000Z` for `t = 0`. -/
theorem C38_toISOString_limits :
    method_toISOString (some (fin 8640000000000000))
      = MethodResult.string (QStringLiteral "+275760-09-13T00:00:00.000Z") ∧
    method_toISOString (some (fin (-8640000000000000)))
      = MethodResult.string (QStringLiteral "-271821-04-20T00:00:00.000Z") ∧
    method_toISOString (some (fin 0))
      = MethodResult.string (QStringLiteral "1970-01-01T00:00:00.000Z") := by
  have c1 : (fin 8640000000000000 : Dbl) = fin ((8640000000000000 : ℤ) : ℚ) := by norm_num
  have c2 : (fin (-8640000000000000) : Dbl) = fin ((-8640000000000000 : ℤ) : ℚ) := by norm_num
  have c3 : (fin 0 : Dbl) = fin ((0 : ℤ) : ℚ) := by norm_num
  have a1 := toISOString_fields 8640000000000000 275760 8 13 (by decide) (by decide) (by decide)
    (by decide)
  have a2 := toISOString_fields (-8640000000000000) (-271821) 3 20 (by decide) (by decide)
    (by decide) (by decide)
  have a3 := toISOString_fields 0 1970 0 1 (by decide) (by decide) (by decide) (by decide)
  rw [c1, c2, c3, a1, a2, a3]
  refine ⟨?_, ?_, ?_⟩ <;> congr 1

/-- Day and clock fields of a whole-millisecond value compose to the value. -/
theorem recompose_clock (t : ℤ) :
    MakeDate (Day (fin (t : ℚ)))
        (MakeTime (ofInt (HourFromTime (fin (t : ℚ)))) (ofInt (MinFromTime (fin (t : ℚ))))
          (ofInt (SecFromTime (fin (t : ℚ)))) (ofInt (msFromTime (fin (t : ℚ)))))
      = fin (t : ℚ) := by
  have hfl : ⌊(t : ℚ)⌋ = t := Int.floor_intCast t
  rw [Day_fin_int, hfl, MakeTime_int, HourFromTime_int, MinFromTime_int, SecFromTime_int,
    msFromTime_int]
  simp only [MakeDate, msPerDay, Dbl.fin_mul, Dbl.fin_add]
  have key : t / 86400000 * 86400000
      + (((t / 3600000 % 24 * 60 + t / 60000 % 60) * 60 + t / 1000 % 60) * 1000 + t % 1000)
      = t := by omega
  have := congrArg (fun z : ℤ => (z : ℚ)) key
  simp only [] at this
  rw [← this]
  push_cast
  ring_nf

/-- Year, month, day of the month and time within the day of a
whole-millisecond value in range compose to the value. -/
theorem recompose_date (t : ℤ) (ht : |t| ≤ 8640000000000000) :
    MakeDate (MakeDay (YearFromTime (fin (t : ℚ))) (MonthFromTime (fin (t : ℚ)))
        (DateFromTime (fin (t : ℚ)))) (TimeWithinDay (fin (t : ℚ)))
      = fin (t : ℚ) := by
  obtain ⟨ht1, ht2⟩ := abs_le.mp ht
  obtain ⟨hY, hM, hD⟩ := decompose_int t ht
  obtain ⟨y1, y2⟩ := yearFromTimeZ_range t ht1 ht2
  obtain ⟨m0, m1⟩ := monthFromDayZ_range (isLeapZ (yearFromTimeZ t))
    (t / 86400000 - dayFromYearZ (yearFromTimeZ t))
  generalize yearFromTimeZ t = y at *
  generalize monthFromDayZ (isLeapZ y) (t / 86400000 - dayFromYearZ y) = m at *
  have hq : m / 12 = 0 := by omega
  have hmod : m % 12 = m := by omega
  rw [hY, hM, hD, TimeWithinDay_int, MakeDay_int y m _ (by omega) (by omega), hq, hmod, add_zero]
  simp only [MakeDate, msPerDay, Dbl.fin_mul, Dbl.fin_add]
  have key : (dayFromYearZ y + monthStartZ (isLeapZ y) m
      + (t / 86400000 - dayFromYearZ y - monthStartZ (isLeapZ y) m + 1 - 1)) * 86400000
      + t % 86400000 = t := by
    have e : dayFromYearZ y + monthStartZ (isLeapZ y) m
      + (t / 86400000 - dayFromYearZ y - monthStartZ (isLeapZ y) m + 1 - 1) = t / 86400000 := by
      ring
    rw [e]; omega
  have := congrArg (fun z : ℤ => (z : ℚ)) key
  simp only [] at this
  rw [← this]
  push_cast
  ring_nf

/-- C34: for every whole-millisecond `t` with `|t| <= 8.64e15`, each UTC setter
called with the current value of its field stores and returns `t`. -/
theorem C34_utc_setters_idempotent (t : ℤ) (ht : |t| ≤ 8640000000000000) :
    method_setUTCMilliseconds (some (fin (t : ℚ))) [ofInt (msFromTime (fin (t : ℚ)))]
      = SetResult.stored (fin (t : ℚ)) ∧
    method_setUTCSeconds (some (fin (t : ℚ))) [ofInt (SecFromTime (fin (t : ℚ)))]
      = SetResult.stored (fin (t : ℚ)) ∧
    method_setUTCMinutes (some (fin (t : ℚ))) [ofInt (MinFromTime (fin (t : ℚ)))]
      = SetResult.stored (fin (t : ℚ)) ∧
    method_setUTCHours (some (fin (t : ℚ))) [ofInt (HourFromTime (fin (t : ℚ)))]
      = SetResult.stored (fin (t : ℚ)) ∧
    method_setUTCDate (some (fin (t : ℚ))) [DateFromTime (fin (t : ℚ))]
      = SetResult.stored (fin (t : ℚ)) ∧
    method_setUTCMonth (some (fin (t : ℚ))) [MonthFromTime (fin (t : ℚ))]
      = SetResult.stored (fin (t : ℚ)) ∧
    method_setUTCFullYear (some (fin (t : ℚ))) [YearFromTime (fin (t : ℚ))]
      = SetResult.stored (fin (t : ℚ)) := by
  obtain ⟨ht1, ht2⟩ := abs_le.mp ht
  have hc := TimeClip_int t ht1 ht2
  have h1 := recompose_clock t
  have h2 := recompose_date t ht
  refine ⟨?_, ?_, ?_, ?_, ?_, ?_, ?_⟩
  · simp only [method_setUTCMilliseconds, List.getD_cons_zero, List.getD_cons_succ,
      List.getD_nil, h1, hc]
  · simp only [method_setUTCSeconds, List.getD_cons_zero, List.getD_cons_succ,
      List.getD_nil, h1, hc]
  · simp only [method_setUTCMinutes, List.getD_cons_zero, List.getD_cons_succ,
      List.getD_nil, h1, hc]
  · simp only [method_setUTCHours, List.getD_cons_zero, List.getD_cons_succ,
      List.getD_nil, h1, hc]
  · simp only [method_setUTCDate, List.getD_cons_zero, List.getD_cons_succ,
      List.getD_nil, h2, hc]
  · simp only [method_setUTCMonth, List.getD_cons_zero, List.getD_cons_succ,
      List.getD_nil, h2, hc]
  · simp only [method_setUTCFullYear, List.getD_cons_zero, List.getD_cons_succ,
      List.getD_nil, h2, hc]

/-- Witness of C34 at the last millisecond of 1969. -/
theorem C34_utc_setters_idempotent_witness :
    |(-1 : ℤ)| ≤ 8640000000000000 ∧
    method_setUTCMilliseconds (some (fin ((-1 : ℤ) : ℚ)))
        [ofInt (msFromTime (fin ((-1 : ℤ) : ℚ)))] = SetResult.stored (fin ((-1 : ℤ) : ℚ)) ∧
    method_setUTCFullYear (some (fin ((-1 : ℤ) : ℚ))) [YearFromTime (fin ((-1 : ℤ) : ℚ))]
      = SetResult.stored (fin ((-1 : ℤ) : ℚ)) :=
  ⟨by decide, (C34_utc_setters_idempotent (-1) (by decide)).1,
    (C34_utc_setters_idempotent (-1) (by decide)).2.2.2.2.2.2⟩

/-- The day that the time-only initialiser uses, and the local time that it
composes on it. -/
theorem init_day_value (h m s ms : ℤ) :
    MakeDay (fin 1925) (fin 5) (fin 8) = fin (-16278) ∧
    MakeDate (MakeDay (fin 1925) (fin 5) (fin 8))
        (MakeTime (ofInt h) (ofInt m) (ofInt s) (ofInt ms))
      = fin (((-16278 * 86400000 + (((h * 60 + m) * 60 + s) * 1000 + ms) : ℤ)) : ℚ) := by
  have c1 : (fin 1925 : Dbl) = fin ((1925 : ℤ) : ℚ) := by norm_num
  have c2 : (fin 5 : Dbl) = fin ((5 : ℤ) : ℚ) := by norm_num
  have hday : MakeDay (fin 1925) (fin 5) (fin 8) = fin (-16278) := by
    rw [c1, c2, MakeDay_int 1925 5 8 (by norm_num) (by norm_num)]
    have e1 : dayFromYearZ (1925 + 5 / 12) = -16436 := by decide
    have e2 : monthStartZ (isLeapZ (1925 + 5 / 12)) (5 % 12) = 151 := by decide
    rw [e1, e2]; norm_num
  refine ⟨hday, ?_⟩
  rw [hday, MakeTime_int]
  simp only [MakeDate, msPerDay, Dbl.fin_mul, Dbl.fin_add]
  congr 1; push_cast; ring

/-- C40: the time-only initialiser composes the time of day on 8 June 1925:
`MakeDay 1925 5 8` is the day number -16278, whose year, month and day of the
month are 1925, 5 and 8; and for every valid time of day `h:m:s.ms`, when the
UTC conversion `u` of the composed local time `x` is a whole number of
milliseconds in range and `LocalTime (UTC x) = x`, the stored value is `u` and
the hour, minute, second and millisecond of its local time are `h`, `m`, `s`
and `ms`. -/
theorem C40_time_only_init (tz : TimeZone) (h m s ms u : ℤ)
    (hh : 0 ≤ h ∧ h ≤ 23) (hm : 0 ≤ m ∧ m ≤ 59) (hs : 0 ≤ s ∧ s ≤ 59)
    (hms : 0 ≤ ms ∧ ms ≤ 999)
    (hu : UTC tz (MakeDate (MakeDay (fin 1925) (fin 5) (fin 8))
        (MakeTime (ofInt h) (ofInt m) (ofInt s) (ofInt ms))) = fin (u : ℚ))
    (hr : |u| ≤ 8640000000000000)
    (hinv : LocalTime tz (UTC tz (MakeDate (MakeDay (fin 1925) (fin 5) (fin 8))
        (MakeTime (ofInt h) (ofInt m) (ofInt s) (ofInt ms))))
      = MakeDate (MakeDay (fin 1925) (fin 5) (fin 8))
          (MakeTime (ofInt h) (ofInt m) (ofInt s) (ofInt ms))) :
    MakeDay (fin 1925) (fin 5) (fin 8) = fin (-16278) ∧
    YearFromTime (MakeDate (MakeDay (fin 1925) (fin 5) (fin 8)) (fin 0)) = fin 1925 ∧
    MonthFromTime (MakeDate (MakeDay (fin 1925) (fin 5) (fin 8)) (fin 0)) = fin 5 ∧
    DateFromTime (MakeDate (MakeDay (fin 1925) (fin 5) (fin 8)) (fin 0)) = fin 8 ∧
    DateObject.init tz (some (h, m, s, ms)) = fin (u : ℚ) ∧
    HourFromTime (LocalTime tz (DateObject.init tz (some (h, m, s, ms)))) = h ∧
    MinFromTime (LocalTime tz (DateObject.init tz (some (h, m, s, ms)))) = m ∧
    SecFromTime (LocalTime tz (DateObject.init tz (some (h, m, s, ms)))) = s ∧
    msFromTime (LocalTime tz (DateObject.init tz (some (h, m, s, ms)))) = ms := by
  obtain ⟨hday, hx⟩ := init_day_value h m s ms
  obtain ⟨hr1, hr2⟩ := abs_le.mp hr
  have hinit : DateObject.init tz (some (h, m, s, ms)) = fin (u : ℚ) := by
    simp only [DateObject.init]
    rw [hu, TimeClip_int u hr1 hr2]
  have hloc : LocalTime tz (DateObject.init tz (some (h, m, s, ms)))
      = fin (((-16278 * 86400000 + (((h * 60 + m) * 60 + s) * 1000 + ms) : ℤ)) : ℚ) := by
    rw [hinit, ← hu, hinv, hx]
  have hd0 : MakeDate (MakeDay (fin 1925) (fin 5) (fin 8)) (fin 0)
      = fin (((dayFromYearZ 1925 + monthStartZ (isLeapZ 1925) 5 + 8 - 1) * 86400000 + 0 : ℤ)
          : ℚ) := by
    have e : (dayFromYearZ 1925 + monthStartZ (isLeapZ 1925) 5 + 8 - 1) * 86400000 + 0
        = -16278 * 86400000 := by decide
    rw [hday, e]
    simp only [MakeDate, msPerDay, Dbl.fin_mul, Dbl.fin_add]
    norm_num
  obtain ⟨e1, e2, e3, _⟩ := decompose_composed 1925 5 8 0 (by norm_num) (by norm_num)
    (by norm_num) (by norm_num) (by norm_num) (by decide) (by norm_num) (by norm_num)
  refine ⟨hday, ?_, ?_, ?_, hinit, ?_, ?_, ?_, ?_⟩
  · rw [hd0, e1]; norm_num
  · rw [hd0, e2]; norm_num
  · rw [hd0, e3]; norm_num
  · rw [hloc, HourFromTime_int]; omega
  · rw [hloc, MinFromTime_int]; omega
  · rw [hloc, SecFromTime_int]; omega
  · rw [hloc, msFromTime_int]; omega

/-- Instance of C40 in the zone without offset for the time of day 10:30. -/
theorem C40_time_only_init_witness :
    DateObject.init TimeZone.utc (some (10, 30, 0, 0)) = fin ((-1406381400000 : ℤ) : ℚ) ∧
    HourFromTime (LocalTime TimeZone.utc (DateObject.init TimeZone.utc (some (10, 30, 0, 0))))
      = 10 ∧
    MinFromTime (LocalTime TimeZone.utc (DateObject.init TimeZone.utc (some (10, 30, 0, 0))))
      = 30 := by
  obtain ⟨_, hx⟩ := init_day_value 10 30 0 0
  have e : (-16278 * 86400000 + (((10 * 60 + 30) * 60 + 0) * 1000 + 0) : ℤ) = -1406381400000 := by
    decide
  rw [e] at hx
  have hu : UTC TimeZone.utc (MakeDate (MakeDay (fin 1925) (fin 5) (fin 8))
      (MakeTime (ofInt 10) (ofInt 30) (ofInt 0) (ofInt 0))) = fin ((-1406381400000 : ℤ) : ℚ) := by
    rw [hx, UTC_utc_fin]
  have hinv : LocalTime TimeZone.utc (UTC TimeZone.utc (MakeDate
      (MakeDay (fin 1925) (fin 5) (fin 8)) (MakeTime (ofInt 10) (ofInt 30) (ofInt 0) (ofInt 0))))
      = MakeDate (MakeDay (fin 1925) (fin 5) (fin 8))
          (MakeTime (ofInt 10) (ofInt 30) (ofInt 0) (ofInt 0)) := by
    rw [hu, LocalTime_utc_fin, hx]
  obtain ⟨_, _, _, _, h1, h2, h3, _, _⟩ := C40_time_only_init TimeZone.utc 10 30 0 0
    (-1406381400000) (by decide) (by decide) (by decide) (by decide) hu (by decide) hinv
  exact ⟨h1, h2, h3⟩

/-! ## Binary64 rounding: evaluation, exactness and error bound -/

theorem Dbl.roundHalfEven_intCast (n : ℤ) : roundHalfEven (n : ℚ) = n := by
  simp [roundHalfEven]

theorem Dbl.roundHalfEven_sub_le (x : ℚ) : |(roundHalfEven x : ℚ) - x| ≤ 1 / 2 := by
  unfold roundHalfEven
  have h1 := Int.floor_le x
  have h2 := Int.lt_floor_add_one x
  split_ifs <;> rw [abs_le] <;> constructor <;> push_cast <;> linarith

/-- The exponent of a positive value lying between two successive powers of two. -/
theorem Dbl.log_of_bounds (q : ℚ) (e : ℤ) (h0 : 0 < q) (h1 : (2 : ℚ) ^ e ≤ q)
    (h2 : q < (2 : ℚ) ^ (e + 1)) : Int.log 2 q = e := by
  have a : e ≤ Int.log 2 q := by
    rw [← Int.zpow_le_iff_le_log (by norm_num) h0]
    simpa using h1
  have b : Int.log 2 q < e + 1 := by
    rw [← Int.lt_zpow_iff_log_lt (by norm_num) h0]
    simpa using h2
  omega

/-- Evaluation of the rounding on a positive value whose exponent is known. -/
theorem Dbl.round64_pos (q u : ℚ) (e n : ℤ) (h1 : (2 : ℚ) ^ e ≤ q) (h2 : q < (2 : ℚ) ^ (e + 1))
    (hu : (2 : ℚ) ^ (e - 52) = u) (hn : roundHalfEven (q / u) = n) :
    round64 q = n * u := by
  have h0 : 0 < q := lt_of_lt_of_le (by positivity) h1
  unfold round64
  rw [if_neg (ne_of_gt h0), abs_of_pos h0, Dbl.log_of_bounds q e h0 h1 h2, hu, hn]

/-- Whole numbers below `2 ^ 53` are binary64 values. -/
theorem Dbl.round64_intCast (n : ℤ) (h : |n| < 2 ^ 53) : round64 (n : ℚ) = n := by
  unfold round64
  by_cases h0 : (n : ℚ) = 0
  · simp [h0]
  · rw [if_neg h0]
    have hpos : 0 < |(n : ℚ)| := abs_pos.mpr h0
    have hlt : Int.log 2 |(n : ℚ)| < 53 := by
      rw [← Int.lt_zpow_iff_log_lt (by norm_num) hpos]
      have : |(n : ℚ)| < 2 ^ 53 := by exact_mod_cast h
      norm_num at this ⊢
      exact this
    generalize Int.log 2 |(n : ℚ)| = e at hlt
    obtain ⟨k, hk⟩ : ∃ k : ℕ, (k : ℤ) = 52 - e := ⟨(52 - e).toNat, by omega⟩
    have hu : (2 : ℚ) ^ (e - 52) = ((2 : ℚ) ^ k)⁻¹ := by
      rw [show e - 52 = -(k : ℤ) by omega, zpow_neg, zpow_natCast]
    rw [hu, div_inv_eq_mul]
    have : (n : ℚ) * 2 ^ k = ((n * 2 ^ k : ℤ) : ℚ) := by push_cast; rfl
    rw [this, Dbl.roundHalfEven_intCast]
    push_cast
    field_simp

/-- The rounding error is at most half a unit in the last place. -/
theorem Dbl.round64_error (q : ℚ) : |round64 q - q| * 2 ^ 53 ≤ |q| := by
  unfold round64
  by_cases h0 : q = 0
  · simp [h0]
  · rw [if_neg h0]
    have hpos : 0 < |q| := abs_pos.mpr h0
    have hle : (2 : ℚ) ^ Int.log 2 |q| ≤ |q| := by
      have := Int.zpow_log_le_self (b := 2) (by norm_num) hpos
      simpa using this
    generalize Int.log 2 |q| = e at hle
    have hu : (0 : ℚ) < 2 ^ (e - 52) := by positivity
    have hr := Dbl.roundHalfEven_sub_le (q / 2 ^ (e - 52))
    have e1 : (roundHalfEven (q / 2 ^ (e - 52)) : ℚ) * 2 ^ (e - 52) - q
        = ((roundHalfEven (q / 2 ^ (e - 52)) : ℚ) - q / 2 ^ (e - 52)) * 2 ^ (e - 52) := by
      field_simp
    have e2 : (2 : ℚ) ^ e = 2 ^ (e - 52) * 2 ^ 52 := by
      rw [show e = (e - 52) + 52 by omega, zpow_add₀ (by norm_num)]
      norm_num
    rw [e1, abs_mul, abs_of_pos hu]
    calc |(roundHalfEven (q / 2 ^ (e - 52)) : ℚ) - q / 2 ^ (e - 52)| * 2 ^ (e - 52) * 2 ^ 53
        ≤ 1 / 2 * 2 ^ (e - 52) * 2 ^ 53 := by
          apply mul_le_mul_of_nonneg_right _ (by positivity)
          exact mul_le_mul_of_nonneg_right hr hu.le
      _ = 2 ^ e := by rw [e2]; ring
      _ ≤ |q| := hle

/-- The quotient of a whole number below `2 ^ 53` by a positive whole number
keeps its floor when it is rounded. -/
theorem Dbl.floor_round64_div (t d : ℤ) (hd : 0 < d) (ht : |t| < 2 ^ 53) :
    ⌊round64 ((t : ℚ) / d)⌋ = t / d := by
  have hdq : (0 : ℚ) < d := by exact_mod_cast hd
  by_cases hdiv : d ∣ t
  · obtain ⟨k, rfl⟩ := hdiv
    have e : ((d * k : ℤ) : ℚ) / d = k := by push_cast; field_simp
    have hk : |k| < 2 ^ 53 := by
      refine lt_of_le_of_lt ?_ ht
      rw [abs_mul, abs_of_pos hd]
      have : 0 ≤ |k| := abs_nonneg k
      nlinarith
    rw [e, Dbl.round64_intCast k hk, Int.floor_intCast, Int.mul_ediv_cancel_left _ (ne_of_gt hd)]
  · have herr := Dbl.round64_error ((t : ℚ) / d)
    have hmod : 0 < t % d := by
      rcases (Int.emod_nonneg t (ne_of_gt hd)).lt_or_eq with h | h
      · exact h
      · exact absurd (Int.dvd_of_emod_eq_zero h.symm) hdiv
    have hmodlt := Int.emod_lt_of_pos t hd
    have hdecomp : d * (t / d) + t % d = t := Int.ediv_add_emod t d
    have hq : (t : ℚ) / d * d = t := by field_simp
    have habs : |(t : ℚ) / d| * d = |(t : ℚ)| := by
      have := abs_mul ((t : ℚ) / d) d
      rw [hq, abs_of_pos hdq] at this
      exact this.symm
    have htq : |(t : ℚ)| < 2 ^ 53 := by exact_mod_cast ht
    have herr2 : |round64 ((t : ℚ) / d) - (t : ℚ) / d| * d < 1 := by
      have h1 : |round64 ((t : ℚ) / d) - (t : ℚ) / d| * 2 ^ 53 * d ≤ |(t : ℚ) / d| * d :=
        mul_le_mul_of_nonneg_right herr hdq.le
      rw [habs] at h1
      nlinarith
    have herr3 : |(round64 ((t : ℚ) / d) - (t : ℚ) / d) * d| < 1 := by
      rw [abs_mul, abs_of_pos hdq]; exact herr2
    rw [abs_lt] at herr3
    have hcast : (t : ℚ) = (d : ℚ) * ((t / d : ℤ) : ℚ) + ((t % d : ℤ) : ℚ) := by
      exact_mod_cast hdecomp.symm
    have hm1 : (1 : ℚ) ≤ ((t % d : ℤ) : ℚ) := by exact_mod_cast hmod
    have hm2 : ((t % d : ℤ) : ℚ) + 1 ≤ d := by exact_mod_cast hmodlt
    have hexp : (round64 ((t : ℚ) / d) - (t : ℚ) / d) * d = round64 ((t : ℚ) / d) * d - t := by
      rw [sub_mul, hq]
    rw [hexp] at herr3
    rw [Int.floor_eq_iff]
    constructor
    · have : ((t / d : ℤ) : ℚ) * d ≤ round64 ((t : ℚ) / d) * d := by linarith
      exact le_of_mul_le_mul_right this hdq
    · have : round64 ((t : ℚ) / d) * d < (((t / d : ℤ) : ℚ) + 1) * d := by linarith
      exact lt_of_mul_lt_mul_right this hdq.le

theorem Dbl.rnd_fin (q : ℚ) : rnd (fin q) = fin (round64 q) := rfl

theorem Dbl.rnd_intCast (n : ℤ) (h : |n| < 2 ^ 53) : rnd (fin (n : ℚ)) = fin (n : ℚ) := by
  rw [Dbl.rnd_fin, Dbl.round64_intCast n h]

/-- On a whole number below `2 ^ 53`, the floor of the rounded quotient by a
positive whole number is the floor of the exact quotient. -/
theorem rounded_floor_quotient (t d : ℤ) (hd : 0 < d) (ht : |t| < 2 ^ 53) :
    floor (rnd (fin (t : ℚ) / fin (d : ℚ))) = floor (fin (t : ℚ) / fin (d : ℚ)) := by
  have hdq : (d : ℚ) ≠ 0 := by exact_mod_cast ne_of_gt hd
  rw [Dbl.fin_div _ _ hdq, Dbl.rnd_fin, Dbl.floor_fin, Dbl.floor_fin,
    Dbl.floor_round64_div t d hd ht, floor_intCast_div_pos _ _ hd]

theorem Dbl.roundHalfEven_down (x : ℚ) (f : ℤ) (h1 : (f : ℚ) ≤ x) (h2 : x < f + 1 / 2) :
    roundHalfEven x = f := by
  have hf : ⌊x⌋ = f := by rw [Int.floor_eq_iff]; constructor <;> linarith
  unfold roundHalfEven
  rw [hf, if_pos (by linarith)]

theorem Dbl.roundHalfEven_up (x : ℚ) (f : ℤ) (h1 : (f : ℚ) + 1 / 2 < x) (h2 : x < f + 1) :
    roundHalfEven x = f + 1 := by
  have hf : ⌊x⌋ = f := by rw [Int.floor_eq_iff]; constructor <;> linarith
  unfold roundHalfEven
  rw [hf, if_neg (by linarith), if_pos (by linarith)]

/-- A positive value in the lower half of the step above `f * u` rounds to `f * u`. -/
theorem Dbl.round64_down (q u : ℚ) (e f : ℤ) (h1 : (2 : ℚ) ^ e ≤ q)
    (h2 : q < (2 : ℚ) ^ (e + 1)) (hu : (2 : ℚ) ^ (e - 52) = u)
    (hf : (f : ℚ) * u ≤ q) (hlt : q < ((f : ℚ) + 1 / 2) * u) : round64 q = f * u := by
  have hup : 0 < u := by rw [← hu]; positivity
  refine Dbl.round64_pos q u e f h1 h2 hu (Dbl.roundHalfEven_down _ _ ?_ ?_)
  · rwa [le_div_iff₀ hup]
  · rwa [div_lt_iff₀ hup]

/-- A positive value in the upper half of the step above `f * u` rounds to `(f + 1) * u`. -/
theorem Dbl.round64_up (q u : ℚ) (e f : ℤ) (h1 : (2 : ℚ) ^ e ≤ q)
    (h2 : q < (2 : ℚ) ^ (e + 1)) (hu : (2 : ℚ) ^ (e - 52) = u)
    (hf : ((f : ℚ) + 1 / 2) * u < q) (hlt : q < ((f : ℚ) + 1) * u) :
    round64 q = ((f + 1 : ℤ) : ℚ) * u := by
  have hup : 0 < u := by rw [← hu]; positivity
  refine Dbl.round64_pos q u e (f + 1) h1 h2 hu (Dbl.roundHalfEven_up _ _ ?_ ?_)
  · rwa [lt_div_iff₀ hup]
  · rwa [div_lt_iff₀ hup]

/-- A value `m * 2 ^ k` with `|m| < 2 ^ 53` is a binary64 value. -/
theorem Dbl.round64_dyadic (m k : ℤ) (h : |m| < 2 ^ 53) :
    round64 ((m : ℚ) * 2 ^ k) = (m : ℚ) * 2 ^ k := by
  unfold round64
  by_cases h0 : (m : ℚ) * 2 ^ k = 0
  · simp [h0]
  · rw [if_neg h0]
    have hpos : 0 < |(m : ℚ) * 2 ^ k| := abs_pos.mpr h0
    have hk0 : (0 : ℚ) < 2 ^ k := by positivity
    have hlt : Int.log 2 |(m : ℚ) * 2 ^ k| < 53 + k := by
      rw [← Int.lt_zpow_iff_log_lt (by norm_num) hpos]
      have h1 : |(m : ℚ)| < 2 ^ 53 := by exact_mod_cast h
      rw [abs_mul, abs_of_pos hk0, zpow_add₀ (by norm_num)]
      have : |(m : ℚ)| * 2 ^ k < 2 ^ 53 * 2 ^ k := mul_lt_mul_of_pos_right h1 hk0
      norm_num at this ⊢
      exact this
    generalize Int.log 2 |(m : ℚ) * 2 ^ k| = e at hlt
    obtain ⟨n, hn⟩ : ∃ n : ℕ, (n : ℤ) = 52 + k - e := ⟨(52 + k - e).toNat, by omega⟩
    have hu : (2 : ℚ) ^ k = 2 ^ (e - 52) * 2 ^ n := by
      rw [← zpow_natCast, ← zpow_add₀ (by norm_num)]
      congr 1; omega
    have hx : (m : ℚ) * 2 ^ k / 2 ^ (e - 52) = ((m * 2 ^ n : ℤ) : ℚ) := by
      rw [hu]; push_cast; field_simp; ring
    rw [hx, Dbl.roundHalfEven_intCast, hu]
    push_cast; ring

/-- The quotient of a binary64 value below `2 ^ 53` by a positive whole number
keeps its floor when it is rounded. -/
theorem Dbl.floor_round64_div_dyadic (m : ℤ) (j : ℕ) (d : ℤ) (hd : 0 < d) (h : |m| < 2 ^ 53) :
    ⌊round64 ((m : ℚ) / 2 ^ j / d)⌋ = ⌊(m : ℚ) / 2 ^ j / d⌋ := by
  have e : (m : ℚ) / 2 ^ j / d = (m : ℚ) / ((2 ^ j * d : ℤ) : ℚ) := by
    push_cast; rw [div_div]
  have hpos : (0 : ℤ) < 2 ^ j * d := by positivity
  rw [e, Dbl.floor_round64_div m _ hpos h, floor_intCast_div_pos _ _ hpos]

/-! ## The rounded functions on values below `2 ^ 53` -/

/-- A sum that the exact arithmetic leaves as a whole number below `2 ^ 53` is
not changed by its rounding. -/
theorem rounded_ite_rnd (p : Prop) [Decidable p] (a b : Dbl) (z : ℤ) (hz : |z| < 2 ^ 53)
    (h : (if p then a else b) = fin (z : ℚ)) : (if p then a else rnd b) = fin (z : ℚ) := by
  by_cases hp : p
  · rw [if_pos hp] at h ⊢; exact h
  · rw [if_neg hp] at h ⊢; rw [h]; exact Dbl.rnd_intCast z hz

theorem Dbl.dyadic_abs_lt (m : ℤ) (j : ℕ) (h : |m| < 2 ^ 53) :
    |(m : ℚ) / 2 ^ j| < 2 ^ 53 := by
  have h1 : |(m : ℚ)| < 2 ^ 53 := by exact_mod_cast h
  have h2 : (1 : ℚ) ≤ 2 ^ j := one_le_pow₀ (by norm_num)
  rw [abs_div, abs_of_pos (by positivity : (0 : ℚ) < 2 ^ j)]
  calc |(m : ℚ)| / 2 ^ j ≤ |(m : ℚ)| := div_le_self (abs_nonneg _) h2
    _ < 2 ^ 53 := h1

/-- The floor of the quotient of a value below `2 ^ 53` by a divisor of at least
1000 is far below `2 ^ 53`. -/
theorem Dbl.floor_div_bound (t d : ℚ) (hd : 1000 ≤ d) (ht : |t| < 2 ^ 53) :
    |⌊t / d⌋| < 2 ^ 45 := by
  have hd0 : (0 : ℚ) < d := by linarith
  obtain ⟨h1, h2⟩ := abs_lt.mp ht
  norm_num at h1 h2
  have hq1 : -(2 ^ 44 : ℚ) < t / d := by
    rw [lt_div_iff₀ hd0]; norm_num; linarith
  have hq2 : t / d < (2 ^ 44 : ℚ) := by
    rw [div_lt_iff₀ hd0]; norm_num; linarith
  have a : (⌊t / d⌋ : ℚ) ≤ t / d := Int.floor_le _
  have b : t / d < (⌊t / d⌋ : ℚ) + 1 := Int.lt_floor_add_one _
  have c1 : ((⌊t / d⌋ : ℤ) : ℚ) < ((2 ^ 44 : ℤ) : ℚ) := by push_cast; linarith
  have c2 : ((-(2 ^ 44) - 1 : ℤ) : ℚ) < ((⌊t / d⌋ : ℤ) : ℚ) := by push_cast; linarith
  have c3 : ⌊t / d⌋ < 2 ^ 44 := by exact_mod_cast c1
  have c4 : -(2 ^ 44) - 1 < ⌊t / d⌋ := by exact_mod_cast c2
  rw [abs_lt]
  constructor <;> norm_num at c3 c4 ⊢ <;> omega

/-- On a binary64 value below `2 ^ 53`, the floor of the rounded quotient by a
positive whole number is the floor of the exact quotient. -/
theorem rounded_floor_quotient_dyadic (m : ℤ) (j : ℕ) (d : ℤ) (hd : 0 < d) (h : |m| < 2 ^ 53) :
    floor (rnd (fin ((m : ℚ) / 2 ^ j) / fin (d : ℚ)))
      = floor (fin ((m : ℚ) / 2 ^ j) / fin (d : ℚ)) := by
  have hdq : (d : ℚ) ≠ 0 := by exact_mod_cast ne_of_gt hd
  rw [Dbl.fin_div _ _ hdq, Dbl.rnd_fin, Dbl.floor_fin, Dbl.floor_fin,
    Dbl.floor_round64_div_dyadic m j d hd h]

theorem rounded_Day_dyadic (m : ℤ) (j : ℕ) (h : |m| < 2 ^ 53) :
    Rounded.Day (fin ((m : ℚ) / 2 ^ j)) = Day (fin ((m : ℚ) / 2 ^ j)) := by
  have := rounded_floor_quotient_dyadic m j 86400000 (by norm_num) h
  simp only [Int.cast_ofNat] at this
  simp only [Rounded.Day, Day, msPerDay, this]

theorem rounded_WeekDay_dyadic (m : ℤ) (j : ℕ) (h : |m| < 2 ^ 53) :
    Rounded.WeekDay (fin ((m : ℚ) / 2 ^ j)) = WeekDay (fin ((m : ℚ) / 2 ^ j)) := by
  have hb := Dbl.floor_div_bound ((m : ℚ) / 2 ^ j) 86400000 (by norm_num)
    (Dbl.dyadic_abs_lt m j h)
  have hw := WeekDay_fin ((m : ℚ) / 2 ^ j)
  rw [hw]
  have hsum : rnd (fin (⌊(m : ℚ) / 2 ^ j / 86400000⌋ : ℚ) + fin 4)
      = fin (⌊(m : ℚ) / 2 ^ j / 86400000⌋ : ℚ) + fin 4 := by
    have e : fin (⌊(m : ℚ) / 2 ^ j / 86400000⌋ : ℚ) + fin 4
        = fin ((⌊(m : ℚ) / 2 ^ j / 86400000⌋ + 4 : ℤ) : ℚ) := by
      rw [Dbl.fin_add]; push_cast; rfl
    rw [e]
    apply Dbl.rnd_intCast
    rw [abs_lt] at hb ⊢
    norm_num at hb ⊢
    constructor <;> omega
  simp only [WeekDay, Day_fin] at hw
  simp only [Rounded.WeekDay, rounded_Day_dyadic m j h, Day_fin, hsum]
  refine rounded_ite_rnd _ _ _ _ ?_ hw
  rw [abs_lt]
  constructor <;> norm_num <;> omega

theorem rounded_TimeWithinDay_int (t : ℤ) :
    Rounded.TimeWithinDay (fin (t : ℚ)) = TimeWithinDay (fin (t : ℚ)) := by
  have hw := TimeWithinDay_int t
  rw [hw]
  simp only [TimeWithinDay] at hw
  simp only [Rounded.TimeWithinDay]
  refine rounded_ite_rnd _ _ _ _ ?_ hw
  rw [abs_lt]
  constructor <;> norm_num <;> omega

theorem rounded_Day_int (t : ℤ) (ht : |t| < 2 ^ 53) :
    Rounded.Day (fin (t : ℚ)) = fin ((t / 86400000 : ℤ) : ℚ) := by
  have h := rounded_floor_quotient t 86400000 (by norm_num) ht
  have hfl := floor_intCast_div_pos t 86400000 (by norm_num)
  simp only [Int.cast_ofNat] at h hfl
  simp only [Rounded.Day, msPerDay, h]
  rw [Dbl.fin_div _ _ (by norm_num), Dbl.floor_fin, hfl]

/-- Claim C3 as stated fails on a negative value with a fraction: `t = -2^-30`
is a binary64 value, the sum `fmod t msPerDay + msPerDay` rounds to 86400000, so
`TimeWithinDay t` is 86400000, outside `[0, 86400000)`; `Day t` is -1, and
`MakeDate (Day t) (TimeWithinDay t)` is 0, which is not `t`. -/
theorem C3_counterexample :
    round64 (-1 / 1073741824) = -1 / 1073741824 ∧
    Rounded.TimeWithinDay (fin (-1 / 1073741824)) = fin 86400000 ∧
    Rounded.Day (fin (-1 / 1073741824)) = fin (-1) ∧
    Rounded.MakeDate (Rounded.Day (fin (-1 / 1073741824)))
        (Rounded.TimeWithinDay (fin (-1 / 1073741824))) = fin 0 ∧
    Rounded.MakeDate (Rounded.Day (fin (-1 / 1073741824)))
        (Rounded.TimeWithinDay (fin (-1 / 1073741824))) ≠ fin (-1 / 1073741824) := by
  have hrep : round64 (-1 / 1073741824) = -1 / 1073741824 := by
    have h := Dbl.round64_dyadic (-1) (-30) (by norm_num)
    norm_num at h ⊢
    exact h
  have htwd : Rounded.TimeWithinDay (fin (-1 / 1073741824)) = fin 86400000 := by
    have htr : truncQ (-1 / 1073741824 / 86400000) = 0 := by
      have hneg : ¬ (0 : ℚ) ≤ -1 / 1073741824 / 86400000 := by norm_num
      simp only [truncQ, hneg, if_false]
      rw [Int.ceil_eq_iff]; norm_num
    have hr := Dbl.round64_up (86400000 - 1 / 1073741824) (1 / 67108864) 26 5798205849599999
      (by norm_num) (by norm_num) (by norm_num) (by norm_num) (by norm_num)
    simp only [Rounded.TimeWithinDay, msPerDay]
    rw [Dbl.fmod_fin _ _ (by norm_num), htr]
    have hle : Dbl.le (fin 0) (fin (-1 / 1073741824 - 86400000 * ((0 : ℤ) : ℚ))) = false := by
      rw [Dbl.le_fin]; norm_num
    rw [hle]
    simp only [Bool.false_eq_true, if_false, Dbl.fin_add, Dbl.rnd_fin]
    have e : (-1 / 1073741824 - 86400000 * ((0 : ℤ) : ℚ) + 86400000 : ℚ)
        = 86400000 - 1 / 1073741824 := by norm_num
    rw [e, hr]; norm_num
  have hday : Rounded.Day (fin (-1 / 1073741824)) = fin (-1) := by
    have h := Dbl.floor_round64_div (-1) 92771293593600000 (by norm_num) (by norm_num)
    have e : (-1 / 1073741824 / 86400000 : ℚ) = ((-1 : ℤ) : ℚ) / ((92771293593600000 : ℤ) : ℚ) := by
      norm_num
    simp only [Rounded.Day, msPerDay]
    rw [Dbl.fin_div _ _ (by norm_num), Dbl.rnd_fin, Dbl.floor_fin, e, h]
    norm_num
  have hmk : Rounded.MakeDate (Rounded.Day (fin (-1 / 1073741824)))
      (Rounded.TimeWithinDay (fin (-1 / 1073741824))) = fin 0 := by
    rw [hday, htwd]
    simp only [Rounded.MakeDate, msPerDay, Dbl.fin_mul]
    have e1 : rnd (fin (-1 * 86400000)) = fin (-86400000) := by
      have := Dbl.rnd_intCast (-86400000) (by norm_num)
      norm_num at this ⊢
      exact this
    rw [e1, Dbl.fin_add]
    have e2 : (-86400000 + 86400000 : ℚ) = 0 := by norm_num
    rw [e2, Dbl.rnd_fin]
    simp [round64]
  refine ⟨hrep, htwd, hday, hmk, ?_⟩
  rw [hmk]
  intro h
  injection h with h
  norm_num at h

/-- Claim C3 (amended): for every whole number of milliseconds `t` of magnitude
below `2 ^ 53`, negative values included, `Day t` is the floor of
`t / 86400000`, `TimeWithinDay t` is the remainder normalised into
`[0, 86400000)`, and `MakeDate (Day t) (TimeWithinDay t)` gives `t` back, with
every operation rounded as binary64 does. -/
theorem C3_MakeDate_Day_TimeWithinDay (t : ℤ) (ht : |t| < 9007199254740992) :
    Rounded.Day (fin (t : ℚ)) = fin (⌊(t : ℚ) / 86400000⌋ : ℚ) ∧
    (∃ r : ℤ, Rounded.TimeWithinDay (fin (t : ℚ)) = fin (r : ℚ) ∧ 0 ≤ r ∧ r < 86400000 ∧
      (r : ℚ) = (t : ℚ) - 86400000 * ⌊(t : ℚ) / 86400000⌋) ∧
    Rounded.MakeDate (Rounded.Day (fin (t : ℚ))) (Rounded.TimeWithinDay (fin (t : ℚ)))
      = fin (t : ℚ) := by
  have ht2 : |t| < 2 ^ 53 := by norm_num; exact ht
  have hfl := floor_intCast_div_pos t 86400000 (by norm_num)
  simp only [Int.cast_ofNat] at hfl
  have hday := rounded_Day_int t ht2
  have htwd : Rounded.TimeWithinDay (fin (t : ℚ)) = fin ((t % 86400000 : ℤ) : ℚ) := by
    rw [rounded_TimeWithinDay_int, TimeWithinDay_int]
  obtain ⟨b1, b2⟩ := abs_lt.mp ht
  refine ⟨by rw [hday, hfl], ⟨t % 86400000, htwd, by omega, by omega, ?_⟩, ?_⟩
  · rw [hfl, Int.emod_def]; push_cast; ring
  · rw [hday, htwd]
    simp only [Rounded.MakeDate, msPerDay, Dbl.fin_mul]
    have e1 : rnd (fin (((t / 86400000 : ℤ) : ℚ) * 86400000))
        = fin (((t / 86400000 : ℤ) : ℚ) * 86400000) := by
      have h := Dbl.round64_dyadic (t / 86400000 * 84375) 10 (by
        rw [abs_lt]; constructor <;> norm_num <;> omega)
      have e : (((t / 86400000 * 84375 : ℤ) : ℚ) * 2 ^ (10 : ℤ))
          = ((t / 86400000 : ℤ) : ℚ) * 86400000 := by
        push_cast; norm_num; ring
      rw [e] at h
      rw [Dbl.rnd_fin, h]
    rw [e1, Dbl.fin_add]
    have e2 : ((t / 86400000 : ℤ) : ℚ) * 86400000 + ((t % 86400000 : ℤ) : ℚ) = (t : ℚ) := by
      have := Int.ediv_add_emod t 86400000
      have h2 : ((86400000 * (t / 86400000) + t % 86400000 : ℤ) : ℚ) = (t : ℚ) := by rw [this]
      push_cast at h2
      linarith
    rw [e2]
    exact Dbl.rnd_intCast t ht2

/-- Instance of C3 at `t = -1`, one millisecond before the epoch. -/
theorem C3_MakeDate_Day_TimeWithinDay_witness :
    |(-1 : ℤ)| < 9007199254740992 ∧
    Rounded.MakeDate (Rounded.Day (fin ((-1 : ℤ) : ℚ))) (Rounded.TimeWithinDay (fin ((-1 : ℤ) : ℚ)))
      = fin ((-1 : ℤ) : ℚ) :=
  ⟨by decide, (C3_MakeDate_Day_TimeWithinDay (-1) (by decide)).2.2⟩

/-- Claim C8 as stated fails on large values: `t = 747377667143199036014592`
and `t + 7 * k * 86400000` with `k = 930952729591808` are both binary64
values, yet `WeekDay` is 0 on the first and 6 on the second. -/
theorem C8_counterexample :
    round64 747377667143199036014592 = 747377667143199036014592 ∧
    round64 (747377667143199036014592 + 7 * 930952729591808 * 86400000)
      = 747377667143199036014592 + 7 * 930952729591808 * 86400000 ∧
    Rounded.WeekDay (fin 747377667143199036014592) = fin 0 ∧
    Rounded.WeekDay (fin (747377667143199036014592 + 7 * 930952729591808 * 86400000))
      = fin 6 ∧
    Rounded.WeekDay (fin (747377667143199036014592 + 7 * 930952729591808 * 86400000))
      ≠ Rounded.WeekDay (fin 747377667143199036014592) := by
  have hrep1 : round64 747377667143199036014592 = 747377667143199036014592 := by
    have h := Dbl.round64_dyadic 2784198772695657 28 (by norm_num)
    norm_num at h ⊢
    exact h
  have hrep2 : round64 (747377667143199036014592 + 7 * 930952729591808 * 86400000)
      = 747377667143199036014592 + 7 * 930952729591808 * 86400000 := by
    have h := Dbl.round64_dyadic 4881687007845657 28 (by norm_num)
    norm_num at h ⊢
    exact h
  -- the first value
  have hq1 := Dbl.round64_up (747377667143199036014592 / 86400000) 1 52 8650204480824062
    (by norm_num) (by norm_num) (by norm_num) (by norm_num) (by norm_num)
  have hs1 := Dbl.round64_intCast 8650204480824067 (by norm_num)
  have hday1 : Rounded.Day (fin 747377667143199036014592) = fin 8650204480824063 := by
    simp only [Rounded.Day, msPerDay]
    rw [Dbl.fin_div _ _ (by norm_num), Dbl.rnd_fin, hq1, Dbl.floor_fin]
    have : ⌊((8650204480824062 + 1 : ℤ) : ℚ) * 1⌋ = 8650204480824063 := by
      rw [Int.floor_eq_iff]; norm_num
    rw [this]; norm_num
  have htr1 : truncQ (8650204480824067 / 7 : ℚ) = 1235743497260581 := by
    have hpos : (0 : ℚ) ≤ 8650204480824067 / 7 := by norm_num
    simp only [truncQ, hpos, if_true]
    rw [Int.floor_eq_iff]; norm_num
  -- the second value
  have hq2 := Dbl.round64_down (1310417878000324514414592 / 86400000) 2 53 7583436793983359
    (by norm_num) (by norm_num) (by norm_num) (by norm_num) (by norm_num)
  have hs2 := Dbl.round64_dyadic 7583436793983361 1 (by norm_num)
  have hday2 : Rounded.Day (fin 1310417878000324514414592) = fin 15166873587966718 := by
    simp only [Rounded.Day, msPerDay]
    rw [Dbl.fin_div _ _ (by norm_num), Dbl.rnd_fin, hq2, Dbl.floor_fin]
    have : ⌊((7583436793983359 : ℤ) : ℚ) * 2⌋ = 15166873587966718 := by
      rw [Int.floor_eq_iff]; norm_num
    rw [this]; norm_num
  have htr2 : truncQ (15166873587966722 / 7 : ℚ) = 2166696226852388 := by
    have hpos : (0 : ℚ) ≤ 15166873587966722 / 7 := by norm_num
    simp only [truncQ, hpos, if_true]
    rw [Int.floor_eq_iff]; norm_num
  have hw1 : Rounded.WeekDay (fin 747377667143199036014592) = fin 0 := by
    simp only [Rounded.WeekDay, hday1, Dbl.fin_add]
    have e : (8650204480824063 + 4 : ℚ) = ((8650204480824067 : ℤ) : ℚ) := by norm_num
    rw [e, Dbl.rnd_fin, hs1]
    have e2 : (((8650204480824067 : ℤ) : ℚ)) = 8650204480824067 := by norm_num
    rw [e2, Dbl.fmod_fin _ _ (by norm_num), htr1]
    have e3 : (8650204480824067 - 7 * ((1235743497260581 : ℤ) : ℚ) : ℚ) = 0 := by norm_num
    rw [e3]
    have hle : Dbl.le (fin 0) (fin 0) = true := by rw [Dbl.le_fin]; norm_num
    rw [hle]; simp
  have hw2 : Rounded.WeekDay
      (fin (747377667143199036014592 + 7 * 930952729591808 * 86400000)) = fin 6 := by
    have e0 : (747377667143199036014592 + 7 * 930952729591808 * 86400000 : ℚ)
        = 1310417878000324514414592 := by norm_num
    rw [e0]
    simp only [Rounded.WeekDay, hday2, Dbl.fin_add]
    have e : (15166873587966718 + 4 : ℚ) = ((7583436793983361 : ℤ) : ℚ) * 2 ^ (1 : ℤ) := by
      norm_num
    rw [e, Dbl.rnd_fin, hs2]
    have e2 : (((7583436793983361 : ℤ) : ℚ) * 2 ^ (1 : ℤ)) = 15166873587966722 := by norm_num
    rw [e2, Dbl.fmod_fin _ _ (by norm_num), htr2]
    have e3 : (15166873587966722 - 7 * ((2166696226852388 : ℤ) : ℚ) : ℚ) = 6 := by norm_num
    rw [e3]
    have hle : Dbl.le (fin 0) (fin 6) = true := by rw [Dbl.le_fin]; norm_num
    rw [hle]; simp
  refine ⟨hrep1, hrep2, hw1, hw2, ?_⟩
  rw [hw1, hw2]
  intro h
  injection h with h
  norm_num at h

/-- Claim C8 (amended): `WeekDay` has period 7 days on the finite values of
magnitude below `2 ^ 53`: when `t = m / 2 ^ j` and `t + 7 * k * 86400000` are
both such values, `WeekDay (t + 7 * k * 86400000) = WeekDay t`, and when
`t + 86400000` is such a value, the weekday one day later is
`(WeekDay t + 1) mod 7`; every operation is rounded as binary64 does. -/
theorem C8_WeekDay_periodic (m : ℤ) (j : ℕ) (hm : |m| < 9007199254740992) :
    (∀ (k n : ℤ) (i : ℕ), |n| < 9007199254740992 →
      (n : ℚ) / 2 ^ i = (m : ℚ) / 2 ^ j + 7 * k * 86400000 →
      Rounded.WeekDay (fin ((m : ℚ) / 2 ^ j + 7 * k * 86400000))
        = Rounded.WeekDay (fin ((m : ℚ) / 2 ^ j))) ∧
    (∀ (n : ℤ) (i : ℕ), |n| < 9007199254740992 →
      (n : ℚ) / 2 ^ i = (m : ℚ) / 2 ^ j + 86400000 →
      ∃ w : ℤ, Rounded.WeekDay (fin ((m : ℚ) / 2 ^ j)) = fin (w : ℚ) ∧
        Rounded.WeekDay (fin ((m : ℚ) / 2 ^ j + 86400000)) = fin (((w + 1) % 7 : ℤ) : ℚ)) := by
  have hm2 : |m| < 2 ^ 53 := by norm_num; exact hm
  constructor
  · intro k n i hn hsum
    have hn2 : |n| < 2 ^ 53 := by norm_num; exact hn
    rw [← hsum, rounded_WeekDay_dyadic n i hn2, rounded_WeekDay_dyadic m j hm2, hsum]
    exact (WeekDay_shift _ k).1
  · intro n i hn hsum
    have hn2 : |n| < 2 ^ 53 := by norm_num; exact hn
    obtain ⟨w, h1, h2⟩ := (WeekDay_shift ((m : ℚ) / 2 ^ j) 0).2
    refine ⟨w, by rw [rounded_WeekDay_dyadic m j hm2, h1], ?_⟩
    rw [← hsum, rounded_WeekDay_dyadic n i hn2, hsum, h2]

/-- Instance of C8 at `t = 0`: one week and one day after the epoch. -/
theorem C8_WeekDay_periodic_witness :
    |(0 : ℤ)| < 9007199254740992 ∧
    Rounded.WeekDay (fin (((0 : ℤ) : ℚ) / 2 ^ 0 + 7 * ((1 : ℤ) : ℚ) * 86400000))
      = Rounded.WeekDay (fin (((0 : ℤ) : ℚ) / 2 ^ 0)) :=
  ⟨by decide, (C8_WeekDay_periodic 0 0 (by decide)).1 1 604800000 0 (by decide) (by norm_num)⟩

theorem rounded_system_DST (off : Dbl → Int) (t : Dbl) (l : ℤ)
    (h : |l| + |off t * 1000| < 2 ^ 53) :
    (Rounded.system off (fin (l : ℚ))).DaylightSavingTA t
      = fin ((off t * 1000 - l : ℤ) : ℚ) := by
  have h1 : |off t * 1000| < 2 ^ 53 := by
    have := abs_nonneg l; omega
  have h2 : |off t * 1000 - l| < 2 ^ 53 := by
    have := abs_sub (off t * 1000) l; omega
  have e1 : ofInt (off t) * fin 1000 = fin ((off t * 1000 : ℤ) : ℚ) := by
    rw [Dbl.ofInt_eq, Dbl.fin_mul]; push_cast; rfl
  have e2 : fin ((off t * 1000 : ℤ) : ℚ) - fin (l : ℚ) = fin ((off t * 1000 - l : ℤ) : ℚ) := by
    rw [Dbl.fin_sub]; push_cast; rfl
  simp only [Rounded.system]
  rw [e1, Dbl.rnd_intCast _ h1, e2, Dbl.rnd_intCast _ h2]

theorem rounded_system_LocalTime (off : Dbl → Int) (t l : ℤ)
    (h : |t| + |l| + |off (fin (t : ℚ)) * 1000| < 2 ^ 53) :
    Rounded.LocalTime (Rounded.system off (fin (l : ℚ))) (fin (t : ℚ))
      = fin ((t + off (fin (t : ℚ)) * 1000 : ℤ) : ℚ) := by
  have a1 := abs_nonneg t
  have a2 := abs_nonneg l
  have a3 := abs_nonneg (off (fin (t : ℚ)) * 1000)
  have hd := rounded_system_DST off (fin (t : ℚ)) l (by omega)
  have h1 : |t + l| < 2 ^ 53 := by
    have := abs_add t l; omega
  have h2 : |t + off (fin (t : ℚ)) * 1000| < 2 ^ 53 := by
    have := abs_add t (off (fin (t : ℚ)) * 1000); omega
  have e1 : fin (t : ℚ) + fin (l : ℚ) = fin ((t + l : ℤ) : ℚ) := by
    rw [Dbl.fin_add]; push_cast; rfl
  have e2 : fin ((t + l : ℤ) : ℚ) + fin ((off (fin (t : ℚ)) * 1000 - l : ℤ) : ℚ)
      = fin ((t + off (fin (t : ℚ)) * 1000 : ℤ) : ℚ) := by
    rw [Dbl.fin_add]; congr 1; push_cast; ring
  simp only [Rounded.LocalTime, hd]
  show rnd (rnd (fin (t : ℚ) + fin (l : ℚ)) + _) = _
  rw [e1, Dbl.rnd_intCast _ h1, e2, Dbl.rnd_intCast _ h2]

/-- The sum `3600000 + 2^-33` rounds to 3600000. -/
theorem round64_hour_plus_fraction :
    round64 (30923764531200001 / 8589934592) = 3600000 := by
  have h := Dbl.round64_down (30923764531200001 / 8589934592) (1 / 2147483648) 21
    7730941132800000 (by norm_num) (by norm_num) (by norm_num) (by norm_num) (by norm_num)
  rw [h]; norm_num

/-- Claim C33 as stated fails on a value with a fraction: `t = 2^-33` is a
binary64 value; in the system zone with offset 0 from UTC, `LocalTime t` is `t`
when `LocalTZA` is 0, but 0 when `LocalTZA` is 3600000, as `t + LocalTZA`
rounds to 3600000.  So `LocalTime t` depends on `LocalTZA` and is not `t` plus
the offset. -/
theorem C33_counterexample :
    round64 (1 / 8589934592) = 1 / 8589934592 ∧
    Rounded.LocalTime (Rounded.system (fun _ => 0) (fin 0)) (fin (1 / 8589934592))
      = fin (1 / 8589934592) ∧
    Rounded.LocalTime (Rounded.system (fun _ => 0) (fin 3600000)) (fin (1 / 8589934592))
      = fin 0 ∧
    Rounded.LocalTime (Rounded.system (fun _ => 0) (fin 3600000)) (fin (1 / 8589934592))
      ≠ Rounded.LocalTime (Rounded.system (fun _ => 0) (fin 0)) (fin (1 / 8589934592)) := by
  have hrep : round64 (1 / 8589934592) = 1 / 8589934592 := by
    have h := Dbl.round64_dyadic 1 (-33) (by norm_num)
    norm_num at h ⊢
    exact h
  have z : round64 0 = 0 := by simp [round64]
  have hneg : round64 (-3600000) = -3600000 := by
    have h := Dbl.round64_intCast (-3600000) (by norm_num)
    norm_num at h ⊢
    exact h
  have h0 : Rounded.LocalTime (Rounded.system (fun _ => 0) (fin 0)) (fin (1 / 8589934592))
      = fin (1 / 8589934592) := by
    simp only [Rounded.LocalTime, Rounded.system, Dbl.ofInt_eq, Dbl.fin_mul, Dbl.fin_sub,
      Dbl.fin_add, Dbl.rnd_fin]
    norm_num [z, hrep]
  have h1 : Rounded.LocalTime (Rounded.system (fun _ => 0) (fin 3600000)) (fin (1 / 8589934592))
      = fin 0 := by
    simp only [Rounded.LocalTime, Rounded.system, Dbl.ofInt_eq, Dbl.fin_mul, Dbl.fin_sub,
      Dbl.fin_add, Dbl.rnd_fin]
    norm_num [z, hneg, round64_hour_plus_fraction]
  refine ⟨hrep, h0, h1, ?_⟩
  rw [h0, h1]
  intro h
  injection h with h
  norm_num at h

/-- Claim C33 (amended): in the system-zone variant, where `DaylightSavingTA t`
is the offset from UTC of the zone at `t` less `LocalTZA`, for whole numbers of
milliseconds `t`, `LocalTZA` and offset whose magnitudes add up to less than
`2 ^ 53`, `LocalTime t` is `t` plus that offset, and the offset that `ToString`
prints, `LocalTZA + DaylightSavingTA t`, is that offset, with every operation
rounded as binary64 does; the exact arithmetic gives the same values; so
`LocalTime`, `getTimezoneOffset` and the text of `ToString` are the same for
any two such values of `LocalTZA`. -/
theorem C33_system_zone (off : Dbl → Int) (t l : ℤ)
    (h : |t| + |l| + |off (fin (t : ℚ)) * 1000| < 9007199254740992) :
    Rounded.LocalTime (Rounded.system off (fin (l : ℚ))) (fin (t : ℚ))
      = fin ((t + off (fin (t : ℚ)) * 1000 : ℤ) : ℚ) ∧
    rnd ((Rounded.system off (fin (l : ℚ))).LocalTZA
        + (Rounded.system off (fin (l : ℚ))).DaylightSavingTA (fin (t : ℚ)))
      = fin ((off (fin (t : ℚ)) * 1000 : ℤ) : ℚ) ∧
    LocalTime (TimeZone.system off (fin (l : ℚ))) (fin (t : ℚ))
      = Rounded.LocalTime (Rounded.system off (fin (l : ℚ))) (fin (t : ℚ)) ∧
    (TimeZone.system off (fin (l : ℚ))).LocalTZA
        + (TimeZone.system off (fin (l : ℚ))).DaylightSavingTA (fin (t : ℚ))
      = fin ((off (fin (t : ℚ)) * 1000 : ℤ) : ℚ) ∧
    ∀ l' : ℤ, |t| + |l'| + |off (fin (t : ℚ)) * 1000| < 9007199254740992 →
      Rounded.LocalTime (Rounded.system off (fin (l : ℚ))) (fin (t : ℚ))
        = Rounded.LocalTime (Rounded.system off (fin (l' : ℚ))) (fin (t : ℚ)) ∧
      method_getTimezoneOffset (TimeZone.system off (fin (l : ℚ))) (some (fin (t : ℚ)))
        = method_getTimezoneOffset (TimeZone.system off (fin (l' : ℚ))) (some (fin (t : ℚ))) ∧
      ∀ fmt : QDateTimeText,
        ToString fmt (TimeZone.system off (fin (l : ℚ))) (fin (t : ℚ))
          = ToString fmt (TimeZone.system off (fin (l' : ℚ))) (fin (t : ℚ)) := by
  have h2 : |t| + |l| + |off (fin (t : ℚ)) * 1000| < 2 ^ 53 := by norm_num; exact h
  have a1 := abs_nonneg t
  have a2 := abs_nonneg l
  have a3 := abs_nonneg (off (fin (t : ℚ)) * 1000)
  have hL := rounded_system_LocalTime off t l h2
  have hD := rounded_system_DST off (fin (t : ℚ)) l (by omega)
  have hE := TimeZone.system_LocalTime off (l : ℚ) (fin (t : ℚ))
  have hO := TimeZone.system_offset off (l : ℚ) (fin (t : ℚ))
  refine ⟨hL, ?_, ?_, ?_, ?_⟩
  · rw [hD]
    show rnd (fin (l : ℚ) + _) = _
    have e : fin (l : ℚ) + fin ((off (fin (t : ℚ)) * 1000 - l : ℤ) : ℚ)
        = fin ((off (fin (t : ℚ)) * 1000 : ℤ) : ℚ) := by
      rw [Dbl.fin_add]; congr 1; push_cast; ring
    rw [e]
    exact Dbl.rnd_intCast _ (by omega)
  · rw [hE, hL, Dbl.fin_add]; congr 1; push_cast; ring
  · rw [hO]; congr 1; push_cast; ring
  · intro l' h'
    have h2' : |t| + |l'| + |off (fin (t : ℚ)) * 1000| < 2 ^ 53 := by norm_num; exact h'
    refine ⟨?_, ?_, fun fmt => ?_⟩
    · rw [hL, rounded_system_LocalTime off t l' h2']
    · simp only [method_getTimezoneOffset, TimeZone.system_LocalTime]
    · simp only [ToString, TimeZone.system_offset]

/-- Instance of C33 at the epoch, with `LocalTZA` one hour and an offset of
19800 seconds. -/
theorem C33_system_zone_witness :
    |(0 : ℤ)| + |(3600000 : ℤ)| + |(fun _ => 19800 : Dbl → Int) (fin ((0 : ℤ) : ℚ)) * 1000|
      < 9007199254740992 ∧
    Rounded.LocalTime (Rounded.system (fun _ => 19800) (fin ((3600000 : ℤ) : ℚ)))
        (fin ((0 : ℤ) : ℚ))
      = fin ((0 + (fun _ => 19800 : Dbl → Int) (fin ((0 : ℤ) : ℚ)) * 1000 : ℤ) : ℚ) :=
  ⟨by decide, (C33_system_zone (fun _ => 19800) 0 3600000 (by decide)).1⟩

/-- Claim C36 as stated fails on a value with a fraction: with `LocalTZA` one
hour and no daylight saving, `LocalTime` of `t = 2^-33` rounds to 3600000, so
`UTC (LocalTime t)` is 0, not `t`. -/
theorem C36_counterexample :
    round64 (1 / 8589934592) = 1 / 8589934592 ∧
    Rounded.LocalTime { LocalTZA := fin 3600000, DaylightSavingTA := fun _ => fin 0 }
        (fin (1 / 8589934592)) = fin 3600000 ∧
    Rounded.UTC { LocalTZA := fin 3600000, DaylightSavingTA := fun _ => fin 0 }
        (Rounded.LocalTime { LocalTZA := fin 3600000, DaylightSavingTA := fun _ => fin 0 }
          (fin (1 / 8589934592))) = fin 0 ∧
    Rounded.UTC { LocalTZA := fin 3600000, DaylightSavingTA := fun _ => fin 0 }
        (Rounded.LocalTime { LocalTZA := fin 3600000, DaylightSavingTA := fun _ => fin 0 }
          (fin (1 / 8589934592))) ≠ fin (1 / 8589934592) := by
  have hrep : round64 (1 / 8589934592) = 1 / 8589934592 := by
    have h := Dbl.round64_dyadic 1 (-33) (by norm_num)
    norm_num at h ⊢
    exact h
  have z : round64 0 = 0 := by simp [round64]
  have h36 : round64 3600000 = 3600000 := by
    have h := Dbl.round64_intCast 3600000 (by norm_num)
    norm_num at h ⊢
    exact h
  have hloc : Rounded.LocalTime { LocalTZA := fin 3600000, DaylightSavingTA := fun _ => fin 0 }
      (fin (1 / 8589934592)) = fin 3600000 := by
    simp only [Rounded.LocalTime, Dbl.fin_add, Dbl.rnd_fin]
    norm_num [h36, round64_hour_plus_fraction]
  have hutc : Rounded.UTC { LocalTZA := fin 3600000, DaylightSavingTA := fun _ => fin 0 }
      (Rounded.LocalTime { LocalTZA := fin 3600000, DaylightSavingTA := fun _ => fin 0 }
        (fin (1 / 8589934592))) = fin 0 := by
    rw [hloc]
    simp only [Rounded.UTC, Dbl.fin_sub, Dbl.rnd_fin]
    norm_num [z]
  refine ⟨hrep, hloc, hutc, ?_⟩
  rw [hutc]
  intro h
  injection h with h
  norm_num at h

/-- Claim C36 (amended): when `DaylightSavingTA` is the same whole number of
milliseconds `c` at all times, `UTC` and `LocalTime` are inverse to each other
on every whole number of milliseconds `t`, for every whole `LocalTZA`, as long
as the magnitudes of `t`, `LocalTZA` and `c` add up to less than `2 ^ 53`;
every operation is rounded as binary64 does. -/
theorem C36_constant_dst_inverse (t l c : ℤ) (h : |t| + |l| + |c| < 9007199254740992) :
    Rounded.UTC { LocalTZA := fin (l : ℚ), DaylightSavingTA := fun _ => fin (c : ℚ) }
        (Rounded.LocalTime { LocalTZA := fin (l : ℚ), DaylightSavingTA := fun _ => fin (c : ℚ) }
          (fin (t : ℚ))) = fin (t : ℚ) ∧
    Rounded.LocalTime { LocalTZA := fin (l : ℚ), DaylightSavingTA := fun _ => fin (c : ℚ) }
        (Rounded.UTC { LocalTZA := fin (l : ℚ), DaylightSavingTA := fun _ => fin (c : ℚ) }
          (fin (t : ℚ))) = fin (t : ℚ) := by
  have a1 := abs_nonneg t
  have a2 := abs_nonneg l
  have a3 := abs_nonneg c
  have ht : |t| < 2 ^ 53 := by norm_num; omega
  have h1 : |t + l| < 2 ^ 53 := by
    have := abs_add t l; norm_num; omega
  have h2 : |t + l + c| < 2 ^ 53 := by
    have := abs_add (t + l) c; have := abs_add t l; norm_num; omega
  have h3 : |t - l| < 2 ^ 53 := by
    have := abs_sub t l; norm_num; omega
  have h4 : |t - l - c| < 2 ^ 53 := by
    have := abs_sub (t - l) c; have := abs_sub t l; norm_num; omega
  have add_cast : ∀ a b : ℤ, fin (a : ℚ) + fin (b : ℚ) = fin ((a + b : ℤ) : ℚ) := by
    intro a b; rw [Dbl.fin_add]; push_cast; rfl
  have sub_cast : ∀ a b : ℤ, fin (a : ℚ) - fin (b : ℚ) = fin ((a - b : ℤ) : ℚ) := by
    intro a b; rw [Dbl.fin_sub]; push_cast; rfl
  have hloc : Rounded.LocalTime
      { LocalTZA := fin (l : ℚ), DaylightSavingTA := fun _ => fin (c : ℚ) } (fin (t : ℚ))
      = fin ((t + l + c : ℤ) : ℚ) := by
    simp only [Rounded.LocalTime]
    rw [add_cast, Dbl.rnd_intCast _ h1, add_cast, Dbl.rnd_intCast _ h2]
  have hutc : Rounded.UTC
      { LocalTZA := fin (l : ℚ), DaylightSavingTA := fun _ => fin (c : ℚ) } (fin (t : ℚ))
      = fin ((t - l - c : ℤ) : ℚ) := by
    simp only [Rounded.UTC]
    rw [sub_cast, Dbl.rnd_intCast _ h3, sub_cast, Dbl.rnd_intCast _ h4]
  have h5 : |t + l + c - l| < 2 ^ 53 := by
    rw [show t + l + c - l = t + c by ring]
    have := abs_add t c; norm_num; omega
  have h6 : |t - l - c + l| < 2 ^ 53 := by
    rw [show t - l - c + l = t - c by ring]
    have := abs_sub t c; norm_num; omega
  constructor
  · rw [hloc]
    simp only [Rounded.UTC]
    rw [sub_cast, Dbl.rnd_intCast _ h5, sub_cast, show t + l + c - l - c = t by ring]
    exact Dbl.rnd_intCast _ ht
  · rw [hutc]
    simp only [Rounded.LocalTime]
    rw [add_cast, Dbl.rnd_intCast _ h6, add_cast, show t - l - c + l + c = t by ring]
    exact Dbl.rnd_intCast _ ht

/-- Instance of C36 at the epoch, with `LocalTZA` 19800000 and one hour of
daylight saving. -/
theorem C36_constant_dst_inverse_witness :
    |(0 : ℤ)| + |(19800000 : ℤ)| + |(3600000 : ℤ)| < 9007199254740992 ∧
    Rounded.UTC { LocalTZA := fin ((19800000 : ℤ) : ℚ),
                  DaylightSavingTA := fun _ => fin ((3600000 : ℤ) : ℚ) }
        (Rounded.LocalTime { LocalTZA := fin ((19800000 : ℤ) : ℚ),
                             DaylightSavingTA := fun _ => fin ((3600000 : ℤ) : ℚ) }
          (fin ((0 : ℤ) : ℚ))) = fin ((0 : ℤ) : ℚ) :=
  ⟨by decide, (C36_constant_dst_inverse 0 19800000 3600000 (by decide)).1⟩

theorem ParseString.strict_hour_only_offset :
    ParseString.strict (QStringLiteral "2023-06-15T10+05:00") = none ∧
    ParseString.strict (QStringLiteral "2023-06-15T10-05:00") = none := by
  have h1 : (ParseString.scan (QStringLiteral "2023-06-15T10+05:00")).2.2.error = true := by
    decide
  have h2 : (ParseString.scan (QStringLiteral "2023-06-15T10-05:00")).2.2.error = true := by
    decide
  constructor
  · unfold ParseString.strict; simp [h1]
  · unfold ParseString.strict; simp [h2]

/-- Claim C11 as stated fails on a body whose time is the hour alone: the strict
path accepts `2023-06-15T10` with the value 1686823200000, and accepts it with
`Z` appended, but with `+05:00` or `-05:00` appended it reports an error, as a
sign that follows the hour field is refused. -/
theorem C11_counterexample :
    ParseString.strict (QStringLiteral "2023-06-15T10") = some (fin 1686823200000) ∧
    ParseString.strict (QStringLiteral "2023-06-15T10" ++ QStringLiteral "Z")
      = some (fin 1686823200000) ∧
    ParseString.strict (QStringLiteral "2023-06-15T10+05:00") = none ∧
    ParseString.strict (QStringLiteral "2023-06-15T10-05:00") = none := by
  refine ⟨ParseString.strict_hour_only, ?_, ParseString.strict_hour_only_offset.1,
    ParseString.strict_hour_only_offset.2⟩
  have hZ : QStringLiteral "Z" = [90] := by decide
  rw [hZ, ParseString.strict_append_Z]
  exact ParseString.strict_hour_only

end QV4Date
